import Mathlib

/-! # Tag memory of the gobennu field device

A shallow embedding of `src/gobennu/devices/modules/memory/memory.go`.

* A Go `map[string]V` is an association list `GoMap V`.  Lookup returns the
  first binding of a key, assignment replaces every binding of the key, and
  `delete` removes every binding.  The order of the list stands for the
  iteration order that Go leaves unspecified: a statement proved for every
  list is proved for every iteration order.
* A Go `float64` is its IEEE-754 binary64 bit pattern `Float64`; the Go
  operator `==` on it is `Float64.eq`.
* A Go `error` is an `Option String`, `none` being `nil`.
* The methods are run one at a time: the two mutexes of the struct are not
  part of the state.
-/

/-- A Go `map[string]V`, as the list of its bindings. -/
abbrev GoMap (V : Type) := List (String × V)

namespace GoMap

variable {V : Type}

/-- Go `v, ok := m[k]`: the binding of `k`, if any. -/
def get : GoMap V → String → Option V
  | [], _ => none
  | (k', v) :: m, k => if k' = k then some v else get m k

/-- Go `_, ok := m[k]`. -/
def has (m : GoMap V) (k : String) : Bool := (m.get k).isSome

/-- Go `delete(m, k)`. -/
def erase (m : GoMap V) (k : String) : GoMap V := m.filter (fun e => decide (e.1 ≠ k))

/-- Go `m[k] = v`. -/
def set (m : GoMap V) (k : String) (v : V) : GoMap V := (k, v) :: m.erase k

/-- The keys of the map, in iteration order. -/
def keys (m : GoMap V) : List String := m.map Prod.fst

/-- Go `for k, v := range src { dst[k] = v }`. -/
def merge (dst src : GoMap V) : GoMap V := src.foldl (fun acc e => acc.set e.1 e.2) dst

end GoMap

/-- An IEEE-754 binary64 value, by its sign bit, its 11 exponent bits and its
52 fraction bits. -/
structure Float64 where
  sign : Bool
  exponent : Fin 2048
  fraction : Fin 4503599627370496
deriving DecidableEq, Repr

namespace Float64

/-- Positive zero, the zero value of a Go `float64`. -/
def zero : Float64 := ⟨false, 0, 0⟩

/-- The value 1.0. -/
def one : Float64 := ⟨false, 1023, 0⟩

/-- The value 2.0. -/
def two : Float64 := ⟨false, 1024, 0⟩

/-- A quiet not-a-number. -/
def nan : Float64 := ⟨false, 2047, 2251799813685248⟩

/-- A not-a-number has all exponent bits set and a non-zero fraction. -/
def isNaN (x : Float64) : Bool := x.exponent.val == 2047 && x.fraction.val != 0

/-- Positive or negative zero. -/
def isZero (x : Float64) : Bool := x.exponent.val == 0 && x.fraction.val == 0

/-- The Go operator `==` on `float64`: a NaN equals nothing, the two zeros are
equal, and any other two values are equal when their bits are. -/
def eq (x y : Float64) : Bool :=
  !x.isNaN && !y.isNaN && (decide (x = y) || (x.isZero && y.isZero))

end Float64

/-- The struct `Memory`, without its two mutexes. -/
structure Memory where
  binaryTags : GoMap String
  analogTags : GoMap String
  binaryModules : GoMap String
  analogModules : GoMap String
  updatedBinaryTags : GoMap Bool
  updatedAnalogTags : GoMap Float64
  internalBinaryTags : GoMap Bool
  internalAnalogTags : GoMap Float64
  internalStringTags : GoMap String
  binaryDeviceStatuses : GoMap Bool
  analogDeviceValues : GoMap Float64
  frozen : Bool
  frozenUpdatedBinaryTags : GoMap Bool
  frozenUpdatedAnalogTags : GoMap Float64
  frozenInternalBinaryTags : GoMap Bool
  frozenInternalAnalogTags : GoMap Float64
  frozenInternalStringTags : GoMap String
deriving DecidableEq, Repr

/-- The constructor `NewMemory`: every map empty, not frozen (the five shadow
maps are nil, which reads as empty). -/
def NewMemory : Memory :=
  { binaryTags := [], analogTags := [], binaryModules := [], analogModules := [],
    updatedBinaryTags := [], updatedAnalogTags := [],
    internalBinaryTags := [], internalAnalogTags := [], internalStringTags := [],
    binaryDeviceStatuses := [], analogDeviceValues := [],
    frozen := false,
    frozenUpdatedBinaryTags := [], frozenUpdatedAnalogTags := [],
    frozenInternalBinaryTags := [], frozenInternalAnalogTags := [],
    frozenInternalStringTags := [] }

namespace Memory

/-- The method `isBinaryDevice`. -/
def isBinaryDevice (m : Memory) (device : String) : Bool := m.binaryDeviceStatuses.has device

/-- The method `isAnalogDevice`. -/
def isAnalogDevice (m : Memory) (device : String) : Bool := m.analogDeviceValues.has device

/-- The method `getBinaryDeviceStatus`: the status and the `ok` flag. -/
def getBinaryDeviceStatus (m : Memory) (device : String) : Bool × Bool :=
  match m.binaryDeviceStatuses.get device with
  | some status => (status, true)
  | none => (false, false)

/-- The method `getAnalogDeviceValue`: the value and the `ok` flag. -/
def getAnalogDeviceValue (m : Memory) (device : String) : Float64 × Bool :=
  match m.analogDeviceValues.get device with
  | some value => (value, true)
  | none => (Float64.zero, false)

/-- The method `getBinaryStatusForTag`: the status and the error. -/
def getBinaryStatusForTag (m : Memory) (tag : String) : Bool × Option String :=
  match m.binaryTags.get tag with
  | some module =>
    match m.binaryModules.get module with
    | none => (false, some ("unknown IO module for tag " ++ tag))
    | some device =>
      match m.getBinaryDeviceStatus device with
      | (_, false) => (false, some ("unable to get status from IO module for tag " ++ tag))
      | (status, true) => (status, none)
  | none =>
    match m.internalBinaryTags.get tag with
    | none => (false, some ("unknown tag " ++ tag))
    | some status => (status, none)

/-- The method `GetBinaryStatusForTag`. -/
def GetBinaryStatusForTag (m : Memory) (tag : String) : Bool × Option String :=
  m.getBinaryStatusForTag tag

/-- The method `getAnalogValueForTag`: the value and the error. -/
def getAnalogValueForTag (m : Memory) (tag : String) : Float64 × Option String :=
  match m.analogTags.get tag with
  | some module =>
    match m.analogModules.get module with
    | none => (Float64.zero, some ("unknown IO module for tag " ++ tag))
    | some device =>
      match m.getAnalogDeviceValue device with
      | (_, false) => (Float64.zero, some ("unable to get value from IO module for tag " ++ tag))
      | (value, true) => (value, none)
  | none =>
    match m.internalAnalogTags.get tag with
    | none => (Float64.zero, some ("unknown tag " ++ tag))
    | some value => (value, none)

/-- The method `GetAnalogValueForTag`. -/
def GetAnalogValueForTag (m : Memory) (tag : String) : Float64 × Option String :=
  m.getAnalogValueForTag tag

/-- The method `GetStringValueForTag`. -/
def GetStringValueForTag (m : Memory) (tag : String) : String × Option String :=
  match m.internalStringTags.get tag with
  | none => ("", some ("unknown tag " ++ tag))
  | some value => (value, none)

/-- The method `UpdateBinaryTag`: the memory afterwards and the error. -/
def UpdateBinaryTag (m : Memory) (tag : String) (status : Bool) : Memory × Option String :=
  if m.binaryTags.has tag then
    if m.frozen then
      ({ m with frozenUpdatedBinaryTags := m.frozenUpdatedBinaryTags.set tag status }, none)
    else
      ({ m with updatedBinaryTags := m.updatedBinaryTags.set tag status }, none)
  else if m.internalBinaryTags.has tag then
    if m.frozen then
      ({ m with frozenInternalBinaryTags := m.frozenInternalBinaryTags.set tag status }, none)
    else
      ({ m with internalBinaryTags := m.internalBinaryTags.set tag status }, none)
  else
    (m, some ("binary tag " ++ tag ++ " does not exist"))

/-- The method `UpdateAnalogTag`: the memory afterwards and the error. -/
def UpdateAnalogTag (m : Memory) (tag : String) (value : Float64) : Memory × Option String :=
  if m.analogTags.has tag then
    if m.frozen then
      ({ m with frozenUpdatedAnalogTags := m.frozenUpdatedAnalogTags.set tag value }, none)
    else
      ({ m with updatedAnalogTags := m.updatedAnalogTags.set tag value }, none)
  else if m.internalAnalogTags.has tag then
    if m.frozen then
      ({ m with frozenInternalAnalogTags := m.frozenInternalAnalogTags.set tag value }, none)
    else
      ({ m with internalAnalogTags := m.internalAnalogTags.set tag value }, none)
  else
    (m, some ("analog tag " ++ tag ++ " does not exist"))

/-- The method `UpdateStringTag`: the memory afterwards and the error. -/
def UpdateStringTag (m : Memory) (tag : String) (value : String) : Memory × Option String :=
  if m.internalStringTags.has tag then
    if m.frozen then
      ({ m with frozenInternalStringTags := m.frozenInternalStringTags.set tag value }, none)
    else
      ({ m with internalStringTags := m.internalStringTags.set tag value }, none)
  else
    (m, some ("string tag " ++ tag ++ " does not exist"))

/-- The method `Freeze`: sets `frozen` and allocates five empty shadow maps. -/
def Freeze (m : Memory) : Memory × Option String :=
  ({ m with
      frozen := true,
      frozenUpdatedBinaryTags := [],
      frozenUpdatedAnalogTags := [],
      frozenInternalBinaryTags := [],
      frozenInternalAnalogTags := [],
      frozenInternalStringTags := [] }, none)

/-- The method `Unfreeze`: copies every shadow map into its primary map and
clears `frozen`; the shadow maps themselves are left as they are. -/
def Unfreeze (m : Memory) : Memory × Option String :=
  ({ m with
      updatedBinaryTags := m.updatedBinaryTags.merge m.frozenUpdatedBinaryTags,
      updatedAnalogTags := m.updatedAnalogTags.merge m.frozenUpdatedAnalogTags,
      internalBinaryTags := m.internalBinaryTags.merge m.frozenInternalBinaryTags,
      internalAnalogTags := m.internalAnalogTags.merge m.frozenInternalAnalogTags,
      internalStringTags := m.internalStringTags.merge m.frozenInternalStringTags,
      frozen := false }, none)

/-- The method `AddBinaryDevice`. -/
def AddBinaryDevice (m : Memory) (device : String) : Memory :=
  { m with binaryDeviceStatuses := m.binaryDeviceStatuses.set device false }

/-- The method `AddAnalogDevice`. -/
def AddAnalogDevice (m : Memory) (device : String) : Memory :=
  { m with analogDeviceValues := m.analogDeviceValues.set device Float64.zero }

/-- The method `setBinaryDeviceStatus`: the memory afterwards and the error. -/
def setBinaryDeviceStatus (m : Memory) (device : String) (status : Bool) :
    Memory × Option String :=
  if !m.isBinaryDevice device then
    (m, some "binary device does not exist")
  else
    ({ m with binaryDeviceStatuses := m.binaryDeviceStatuses.set device status }, none)

/-- The method `SetBinaryDeviceStatus`. -/
def SetBinaryDeviceStatus (m : Memory) (device : String) (status : Bool) :
    Memory × Option String :=
  m.setBinaryDeviceStatus device status

/-- The method `setAnalogDeviceValue`: the memory afterwards and the error. -/
def setAnalogDeviceValue (m : Memory) (device : String) (value : Float64) :
    Memory × Option String :=
  if !m.isAnalogDevice device then
    (m, some "analog device does not exist")
  else
    ({ m with analogDeviceValues := m.analogDeviceValues.set device value }, none)

/-- The method `SetAnalogDeviceValue`. -/
def SetAnalogDeviceValue (m : Memory) (device : String) (value : Float64) :
    Memory × Option String :=
  m.setAnalogDeviceValue device value

/-- The device a binary tag resolves to through `binaryTags` and then
`binaryModules`, as the first two lookups of the drain loop find it. -/
def binaryDeviceOf (m : Memory) (tag : String) : Option String :=
  match m.binaryTags.get tag with
  | some module => m.binaryModules.get module
  | none => none

/-- The device an analog tag resolves to through `analogTags` and then
`analogModules`, as the first two lookups of the drain loop find it. -/
def analogDeviceOf (m : Memory) (tag : String) : Option String :=
  match m.analogTags.get tag with
  | some module => m.analogModules.get module
  | none => none

/-- One call of the `yield` argument of a drain, as the loop made it: the
pending tag being visited, the two arguments of the call, and what the call
returned. -/
structure YieldCall (V : Type) where
  tag : String
  device : String
  value : V
  err : Option String
deriving DecidableEq, Repr

/-- The variables of one run of `UpdateBinaryDevices` or `UpdateAnalogDevices`:
the memory, the state captured by the `yield` closure, the local `updateErr`,
and the calls of `yield` made so far, oldest first. -/
structure Drain (σ V : Type) where
  mem : Memory
  env : σ
  updateErr : Option String
  calls : List (YieldCall V)

/-- The body of the `for` loop of `UpdateBinaryDevices` at the pending entry
`e = (tag, status)`.  The closure `yield` may carry state of its own, `σ`. -/
def binaryDrainStep {σ : Type} (yield : σ → String → Bool → σ × Option String)
    (s : Drain σ Bool) (e : String × Bool) : Drain σ Bool :=
  match s.mem.binaryTags.get e.1 with
  | none => s
  | some module =>
    match s.mem.binaryModules.get module with
    | none => s
    | some device =>
      match s.mem.getBinaryStatusForTag e.1 with
      | (_, some _) => s
      | (current, none) =>
        if e.2 == current then
          { s with mem :=
              { s.mem with updatedBinaryTags := s.mem.updatedBinaryTags.erase e.1 } }
        else
          match yield s.env device e.2 with
          | (env, some err) =>
            { s with
                env := env,
                updateErr := some err,
                calls := s.calls ++ [⟨e.1, device, e.2, some err⟩] }
          | (env, none) =>
            let mem := (s.mem.setBinaryDeviceStatus device e.2).1
            { mem := { mem with updatedBinaryTags := mem.updatedBinaryTags.erase e.1 },
              env := env,
              updateErr := s.updateErr,
              calls := s.calls ++ [⟨e.1, device, e.2, none⟩] }

/-- The method `UpdateBinaryDevices`.  The loop ranges over the pending map
and deletes no key but the one it is visiting, so it visits every binding the
map had on entry once, in the order of the list. -/
def UpdateBinaryDevices {σ : Type} (m : Memory)
    (yield : σ → String → Bool → σ × Option String) (env : σ) : Drain σ Bool :=
  m.updatedBinaryTags.foldl (binaryDrainStep yield) ⟨m, env, none, []⟩

/-- The body of the `for` loop of `UpdateAnalogDevices` at the pending entry
`e = (tag, value)`. -/
def analogDrainStep {σ : Type} (yield : σ → String → Float64 → σ × Option String)
    (s : Drain σ Float64) (e : String × Float64) : Drain σ Float64 :=
  match s.mem.analogTags.get e.1 with
  | none => s
  | some module =>
    match s.mem.analogModules.get module with
    | none => s
    | some device =>
      match s.mem.getAnalogValueForTag e.1 with
      | (_, some _) => s
      | (current, none) =>
        if Float64.eq e.2 current then
          { s with mem :=
              { s.mem with updatedAnalogTags := s.mem.updatedAnalogTags.erase e.1 } }
        else
          match yield s.env device e.2 with
          | (env, some err) =>
            { s with
                env := env,
                updateErr := some err,
                calls := s.calls ++ [⟨e.1, device, e.2, some err⟩] }
          | (env, none) =>
            let mem := (s.mem.setAnalogDeviceValue device e.2).1
            { mem := { mem with updatedAnalogTags := mem.updatedAnalogTags.erase e.1 },
              env := env,
              updateErr := s.updateErr,
              calls := s.calls ++ [⟨e.1, device, e.2, none⟩] }

/-- The method `UpdateAnalogDevices`. -/
def UpdateAnalogDevices {σ : Type} (m : Memory)
    (yield : σ → String → Float64 → σ × Option String) (env : σ) : Drain σ Float64 :=
  m.updatedAnalogTags.foldl (analogDrainStep yield) ⟨m, env, none, []⟩

/-- The invariant of the loop of `UpdateAnalogDevices` run on the memory `m`:
`s` holds the variables of the loop after it has visited the entries `done`
and before it visits the entries `rem`. -/
structure AnalogDrainInv {σ : Type} (m : Memory)
    (yield : σ → String → Float64 → σ × Option String) (s : Drain σ Float64)
    (done rem : List (String × Float64)) : Prop where
  frame : { s.mem with updatedAnalogTags := [], analogDeviceValues := [] }
    = { m with updatedAnalogTags := [], analogDeviceValues := [] }
  pending : ∀ e ∈ rem, s.mem.updatedAnalogTags.get e.1 = some e.2
  untouched : ∀ d, (∀ e ∈ done, m.analogDeviceOf e.1 ≠ some d) →
    s.mem.analogDeviceValues.get d = m.analogDeviceValues.get d
  called : ∀ c ∈ s.calls, (c.tag, c.value) ∈ done ∧ m.analogDeviceOf c.tag = some c.device ∧
    ∃ env, c.err = (yield env c.device c.value).2
  failed : s.updateErr ≠ none ↔ ∃ c ∈ s.calls, c.err ≠ none
  retained : ∀ c ∈ s.calls, c.err ≠ none → s.mem.updatedAnalogTags.get c.tag = some c.value
  settled : ∀ e ∈ done, ∀ d, m.analogDeviceOf e.1 = some d →
    (∀ t ∈ m.updatedAnalogTags.keys, m.analogDeviceOf t = some d → t = e.1) →
    (m.analogDeviceValues.get d = none →
      s.calls.filter (fun c => decide (c.device = d)) = []) ∧
    (∀ cur, m.analogDeviceValues.get d = some cur →
      (Float64.eq e.2 cur = true →
        s.calls.filter (fun c => decide (c.device = d)) = [] ∧
        s.mem.updatedAnalogTags.get e.1 = none ∧
        s.mem.analogDeviceValues.get d = some cur) ∧
      (Float64.eq e.2 cur = false → ∃ err,
        s.calls.filter (fun c => decide (c.device = d)) = [⟨e.1, d, e.2, err⟩] ∧
        (err = none →
          s.mem.updatedAnalogTags.get e.1 = none ∧
          s.mem.analogDeviceValues.get d = some e.2) ∧
        (err ≠ none →
          s.mem.updatedAnalogTags.get e.1 = some e.2 ∧
          s.mem.analogDeviceValues.get d = some cur)))

/-- The invariant of the loop of `UpdateBinaryDevices` run on the memory `m`:
`s` holds the variables of the loop after it has visited the entries `done`
and before it visits the entries `rem`. -/
structure BinaryDrainInv {σ : Type} (m : Memory)
    (yield : σ → String → Bool → σ × Option String) (s : Drain σ Bool)
    (done rem : List (String × Bool)) : Prop where
  frame : { s.mem with updatedBinaryTags := [], binaryDeviceStatuses := [] }
    = { m with updatedBinaryTags := [], binaryDeviceStatuses := [] }
  pending : ∀ e ∈ rem, s.mem.updatedBinaryTags.get e.1 = some e.2
  untouched : ∀ d, (∀ e ∈ done, m.binaryDeviceOf e.1 ≠ some d) →
    s.mem.binaryDeviceStatuses.get d = m.binaryDeviceStatuses.get d
  called : ∀ c ∈ s.calls, (c.tag, c.value) ∈ done ∧ m.binaryDeviceOf c.tag = some c.device ∧
    ∃ env, c.err = (yield env c.device c.value).2
  failed : s.updateErr ≠ none ↔ ∃ c ∈ s.calls, c.err ≠ none
  retained : ∀ c ∈ s.calls, c.err ≠ none → s.mem.updatedBinaryTags.get c.tag = some c.value
  settled : ∀ e ∈ done, ∀ d, m.binaryDeviceOf e.1 = some d →
    (∀ t ∈ m.updatedBinaryTags.keys, m.binaryDeviceOf t = some d → t = e.1) →
    (m.binaryDeviceStatuses.get d = none →
      s.calls.filter (fun c => decide (c.device = d)) = []) ∧
    (∀ cur, m.binaryDeviceStatuses.get d = some cur →
      ((e.2 == cur) = true →
        s.calls.filter (fun c => decide (c.device = d)) = [] ∧
        s.mem.updatedBinaryTags.get e.1 = none ∧
        s.mem.binaryDeviceStatuses.get d = some cur) ∧
      ((e.2 == cur) = false → ∃ err,
        s.calls.filter (fun c => decide (c.device = d)) = [⟨e.1, d, e.2, err⟩] ∧
        (err = none →
          s.mem.updatedBinaryTags.get e.1 = none ∧
          s.mem.binaryDeviceStatuses.get d = some e.2) ∧
        (err ≠ none →
          s.mem.updatedBinaryTags.get e.1 = some e.2 ∧
          s.mem.binaryDeviceStatuses.get d = some cur)))

end Memory

/-- One call of `UpdateBinaryTag`, `UpdateAnalogTag` or `UpdateStringTag`. -/
inductive Write where
  | binary (tag : String) (status : Bool)
  | analog (tag : String) (value : Float64)
  | string (tag : String) (value : String)
deriving DecidableEq, Repr

namespace Write

/-- Makes the call on the memory. -/
def apply (m : Memory) : Write → Memory × Option String
  | binary tag status => m.UpdateBinaryTag tag status
  | analog tag value => m.UpdateAnalogTag tag value
  | string tag value => m.UpdateStringTag tag value

/-- Makes the calls one after the other; returns the memory afterwards and
the calls that returned `nil`, oldest first. -/
def run : Memory → List Write → Memory × List Write
  | m, [] => (m, [])
  | m, w :: ws =>
    match apply m w with
    | (m', none) => ((run m' ws).1, w :: (run m' ws).2)
    | (m', some _) => run m' ws

/-- The status of the last binary write to `tag` in a list of calls. -/
def lastBinary (tag : String) : List Write → Option Bool
  | [] => none
  | binary t status :: ws =>
    match lastBinary tag ws with
    | some later => some later
    | none => if t = tag then some status else none
  | _ :: ws => lastBinary tag ws

/-- The value of the last analog write to `tag` in a list of calls. -/
def lastAnalog (tag : String) : List Write → Option Float64
  | [] => none
  | analog t value :: ws =>
    match lastAnalog tag ws with
    | some later => some later
    | none => if t = tag then some value else none
  | _ :: ws => lastAnalog tag ws

/-- The value of the last string write to `tag` in a list of calls. -/
def lastString (tag : String) : List Write → Option String
  | [] => none
  | string t value :: ws =>
    match lastString tag ws with
    | some later => some later
    | none => if t = tag then some value else none
  | _ :: ws => lastString tag ws

end Write

/-- A small configured memory: an internal analog tag `x` = 1.0, an internal
binary tag `flag`, a string tag `s`, an external analog tag `t` bound through
module `io` to the device `d` (reading 1.0), and an external binary tag `bt`
bound through module `bio` to the device `bd` (reading false). -/
def sampleMemory : Memory :=
  { NewMemory with
    internalAnalogTags := [("x", Float64.one)],
    internalBinaryTags := [("flag", false)],
    internalStringTags := [("s", "a")],
    analogTags := [("t", "io")],
    analogModules := [("io", "d")],
    analogDeviceValues := [("d", Float64.one)],
    binaryTags := [("bt", "bio")],
    binaryModules := [("bio", "bd")],
    binaryDeviceStatuses := [("bd", false)] }

/-- The memory `sampleMemory` with two outputs pending: 1.0 for the tag `t`,
which is what its device `d` already holds, and true for the tag `bt`, whose
device `bd` holds false. -/
def samplePending : Memory :=
  { sampleMemory with
    updatedAnalogTags := [("t", Float64.one)],
    updatedBinaryTags := [("bt", true)] }

/-- The memory `sampleMemory` with 2.0 pending for the tag `t`, whose device
`d` holds 1.0. -/
def sampleChanged : Memory :=
  { sampleMemory with updatedAnalogTags := [("t", Float64.two)] }

/-- A memory in which the two external analog tags `t1` and `t2` are bound to
the same module `io`, hence to the same device `d` (reading 0.0); 1.0 is
pending for `t1` and 2.0 for `t2`. -/
def sharedDevice : Memory :=
  { NewMemory with
    analogTags := [("t1", "io"), ("t2", "io")],
    analogModules := [("io", "d")],
    analogDeviceValues := [("d", Float64.zero)],
    updatedAnalogTags := [("t1", Float64.one), ("t2", Float64.two)] }

/-- A `yield` without state that accepts every update. -/
def acceptAll {V : Type} : Unit → String → V → Unit × Option String :=
  fun _ _ _ => ((), none)

/-- A `yield` without state that rejects the value 1.0 and accepts every
other value. -/
def rejectOne : Unit → String → Float64 → Unit × Option String :=
  fun _ _ v => ((), if v = Float64.one then some "rejected" else none)

/-- A run of writes for `sampleMemory`: `x` is written once, the external tag
`t` twice, a binary write to the analog tag `x` fails, and `s` is written
once. -/
def sampleWrites : List Write :=
  [Write.analog "x" Float64.two, Write.analog "t" Float64.one, Write.analog "t" Float64.two,
    Write.binary "x" true, Write.string "s" "b"]

/-! ## Configuration of the tag memory and snapshots -/

/-- A value of the Go type `interface{}`, as far as the code stores one; a
function, such as `math.Sin`, is known by its name. -/
inductive Any where
  | nil
  | bool (b : Bool)
  | float64 (f : Float64)
  | string (s : String)
  | func (name : String)
deriving DecidableEq, Repr

/-- An `etree.Element`: its tag, its text and its child elements. -/
inductive Element where
  | node (tag : String) (text : String) (children : List Element)

namespace Element

/-- The field `Tag`. -/
def Tag : Element → String
  | node tag _ _ => tag

/-- The method `Text`. -/
def Text : Element → String
  | node _ text _ => text

/-- The method `ChildElements`. -/
def ChildElements : Element → List Element
  | node _ _ children => children

end Element

namespace Memory

/-- The method `AddBinaryModule`. -/
def AddBinaryModule (m : Memory) (id device : String) : Memory :=
  { m with binaryModules := m.binaryModules.set id device }

/-- The method `AddAnalogModule`. -/
def AddAnalogModule (m : Memory) (id device : String) : Memory :=
  { m with analogModules := m.analogModules.set id device }

/-- The method `HasTag`. -/
def HasTag (m : Memory) (tag : String) : Bool :=
  if m.binaryTags.has tag then true
  else if m.analogTags.has tag then true
  else if m.internalBinaryTags.has tag then true
  else if m.internalAnalogTags.has tag then true
  else if m.internalStringTags.has tag then true
  else false

/-- The loop of `handleExternalTag` over the child elements: the variables
`name`, `io` and `ttype` after it. -/
def externalTagFields : List Element → String × String × String → String × String × String
  | [], vars => vars
  | child :: rest, (name, io, ttype) =>
    if child.Tag = "name" then externalTagFields rest (child.Text, io, ttype)
    else if child.Tag = "io" then externalTagFields rest (name, child.Text, ttype)
    else if child.Tag = "type" then externalTagFields rest (name, io, child.Text)
    else externalTagFields rest (name, io, ttype)

/-- The method `handleExternalTag`: the memory afterwards and the error. -/
def handleExternalTag (m : Memory) (e : Element) : Memory × Option String :=
  match externalTagFields e.ChildElements ("", "", "") with
  | (name, io, ttype) =>
    if ttype = "binary" then ({ m with binaryTags := m.binaryTags.set name io }, none)
    else if ttype = "analog" then ({ m with analogTags := m.analogTags.set name io }, none)
    else (m, none)

/-- The loop of `handleInternalTag` over the child elements: the error of
`strconv.ParseFloat` when it stops the loop, and otherwise the variables
`name`, `ttype` and `value` after it.  `ParseFloat` stands for
`strconv.ParseFloat(·, 64)`. -/
def internalTagFields (ParseFloat : String → Float64 × Option String) :
    List Element → String × String × Any → Except String (String × String × Any)
  | [], vars => Except.ok vars
  | child :: rest, (name, ttype, value) =>
    if child.Tag = "name" then internalTagFields ParseFloat rest (child.Text, ttype, value)
    else if child.Tag = "status" then
      if child.Text = "true" then internalTagFields ParseFloat rest (name, "binary", Any.bool true)
      else internalTagFields ParseFloat rest (name, "binary", Any.bool false)
    else if child.Tag = "value" then
      match ParseFloat child.Text with
      | (_, some err) => Except.error err
      | (f, none) => internalTagFields ParseFloat rest (name, "analog", Any.float64 f)
    else if child.Tag = "string" then
      internalTagFields ParseFloat rest (name, "string", Any.string child.Text)
    else internalTagFields ParseFloat rest (name, ttype, value)

/-- The method `handleInternalTag`: the memory afterwards and the error.  A
type assertion `value.(T)` on a value of another type panics in Go; here it
returns an error and leaves the memory alone.  The loop assigns `ttype` and
`value` together, so those branches are never taken. -/
def handleInternalTag (ParseFloat : String → Float64 × Option String) (m : Memory)
    (e : Element) : Memory × Option String :=
  match internalTagFields ParseFloat e.ChildElements ("", "", Any.nil) with
  | Except.error err => (m, some err)
  | Except.ok (name, ttype, value) =>
    if ttype = "binary" then
      match value with
      | Any.bool b => ({ m with internalBinaryTags := m.internalBinaryTags.set name b }, none)
      | _ => (m, some "panic: interface conversion")
    else if ttype = "analog" then
      match value with
      | Any.float64 f => ({ m with internalAnalogTags := m.internalAnalogTags.set name f }, none)
      | _ => (m, some "panic: interface conversion")
    else if ttype = "string" then
      match value with
      | Any.string s => ({ m with internalStringTags := m.internalStringTags.set name s }, none)
      | _ => (m, some "panic: interface conversion")
    else (m, none)

/-- The loop of `HandleTreeData` over the child elements, which stops at the
first error. -/
def handleTreeChildren (ParseFloat : String → Float64 × Option String) :
    Memory → List Element → Memory × Option String
  | m, [] => (m, none)
  | m, child :: rest =>
    if child.Tag = "external-tag" then
      match m.handleExternalTag child with
      | (m', some err) => (m', some err)
      | (m', none) => handleTreeChildren ParseFloat m' rest
    else if child.Tag = "internal-tag" then
      match m.handleInternalTag ParseFloat child with
      | (m', some err) => (m', some err)
      | (m', none) => handleTreeChildren ParseFloat m' rest
    else handleTreeChildren ParseFloat m rest

/-- The method `HandleTreeData` of the memory. -/
def HandleTreeData (ParseFloat : String → Float64 × Option String) (m : Memory)
    (e : Element) : Memory × Option String :=
  handleTreeChildren ParseFloat m e.ChildElements

/-- In how many of the five tag namespaces a name is a key. -/
def namespaceCount (m : Memory) (name : String) : Nat :=
  (if m.binaryTags.has name then 1 else 0) + (if m.analogTags.has name then 1 else 0) +
  (if m.internalBinaryTags.has name then 1 else 0) +
  (if m.internalAnalogTags.has name then 1 else 0) +
  (if m.internalStringTags.has name then 1 else 0)

/-- The first loop of `getBinaryPoints`, over the external binary tags: the
map `points` and the slice `errors` after it. -/
def binaryPointsLoop (m : Memory) :
    List (String × String) → GoMap Bool × List String → GoMap Bool × List String
  | [], acc => acc
  | (tag, _) :: rest, (points, errors) =>
    match m.GetBinaryStatusForTag tag with
    | (_, some _) => binaryPointsLoop m rest (points, errors ++ ["getting status for " ++ tag])
    | (status, none) => binaryPointsLoop m rest (points.set tag status, errors)

/-- The method `getBinaryPoints`: the map and the error.  `Errorf` stands for
`fmt.Errorf` applied to a format alone. -/
def getBinaryPoints (Errorf : String → String) (m : Memory) : GoMap Bool × Option String :=
  match binaryPointsLoop m m.binaryTags ([], []) with
  | (points, errors) =>
    if errors ≠ [] then
      (points.merge m.internalBinaryTags, some (Errorf (String.intercalate ", " errors)))
    else (points.merge m.internalBinaryTags, none)

/-- The method `GetBinaryPoints`. -/
def GetBinaryPoints (Errorf : String → String) (m : Memory) : GoMap Bool × Option String :=
  m.getBinaryPoints Errorf

/-- The first loop of `getAnalogPoints`, over the external analog tags: the
map `points` and the slice `errors` after it. -/
def analogPointsLoop (m : Memory) :
    List (String × String) → GoMap Float64 × List String → GoMap Float64 × List String
  | [], acc => acc
  | (tag, _) :: rest, (points, errors) =>
    match m.GetAnalogValueForTag tag with
    | (_, some _) => analogPointsLoop m rest (points, errors ++ ["getting value for " ++ tag])
    | (value, none) => analogPointsLoop m rest (points.set tag value, errors)

/-- The method `getAnalogPoints`: the map and the error. -/
def getAnalogPoints (Errorf : String → String) (m : Memory) : GoMap Float64 × Option String :=
  match analogPointsLoop m m.analogTags ([], []) with
  | (points, errors) =>
    if errors ≠ [] then
      (points.merge m.internalAnalogTags, some (Errorf (String.intercalate ", " errors)))
    else (points.merge m.internalAnalogTags, none)

/-- The method `GetAnalogPoints`. -/
def GetAnalogPoints (Errorf : String → String) (m : Memory) : GoMap Float64 × Option String :=
  m.getAnalogPoints Errorf

/-- The method `GetDevicePoints`. -/
def GetDevicePoints (m : Memory) : List String :=
  m.binaryDeviceStatuses.keys ++ m.analogDeviceValues.keys

end Memory

/-- One declaration of the configuration: an `external-tag` element given to
`handleExternalTag` or an `internal-tag` element given to
`handleInternalTag`. -/
inductive Declaration where
  | external (e : Element)
  | internal (e : Element)

namespace Declaration

/-- Makes the declaration on the memory. -/
def apply (ParseFloat : String → Float64 × Option String) (m : Memory) :
    Declaration → Memory × Option String
  | external e => m.handleExternalTag e
  | internal e => m.handleInternalTag ParseFloat e

/-- The name a declaration declares: the text of its last `name` child, and
the empty string when it has none or when the loop of `handleInternalTag`
stops at a value that does not parse. -/
def name (ParseFloat : String → Float64 × Option String) : Declaration → String
  | external e => (Memory.externalTagFields e.ChildElements ("", "", "")).1
  | internal e =>
    match Memory.internalTagFields ParseFloat e.ChildElements ("", "", Any.nil) with
    | Except.ok vars => vars.1
    | Except.error _ => ""

/-- Makes the declarations one after the other, whether they fail or not. -/
def run (ParseFloat : String → Float64 × Option String) (m : Memory)
    (ds : List Declaration) : Memory :=
  ds.foldl (fun acc d => (apply ParseFloat acc d).1) m

end Declaration

/-- A `strconv.ParseFloat` stand-in that accepts nothing. -/
def parseNothing : String → Float64 × Option String :=
  fun _ => (Float64.zero, some "invalid syntax")

/-- An external binary tag `x` and an internal binary tag of the same name. -/
def sameNameTwice : List Declaration :=
  [Declaration.external (Element.node "external-tag" ""
      [Element.node "name" "x" [], Element.node "io" "io" [], Element.node "type" "binary" []]),
    Declaration.internal (Element.node "internal-tag" ""
      [Element.node "name" "x" [], Element.node "status" "true" []])]

/-- Three declarations of three names: an external analog tag `t`, an
internal binary tag `flag` and an external binary tag `bt`. -/
def distinctDeclarations : List Declaration :=
  [Declaration.external (Element.node "external-tag" ""
      [Element.node "name" "t" [], Element.node "io" "io" [], Element.node "type" "analog" []]),
    Declaration.internal (Element.node "internal-tag" ""
      [Element.node "name" "flag" [], Element.node "status" "true" []]),
    Declaration.external (Element.node "external-tag" ""
      [Element.node "name" "bt" [], Element.node "io" "bio" [],
        Element.node "type" "binary" []])]

/-- A memory in which `x` is both an external analog tag, bound through `io`
to the device `d` (reading 1.0), and an internal analog tag holding 2.0. -/
def twoOrigins : Memory :=
  { NewMemory with
    analogTags := [("x", "io")],
    analogModules := [("io", "d")],
    analogDeviceValues := [("d", Float64.one)],
    internalAnalogTags := [("x", Float64.two)] }

/-- A memory without tags in which `d` is a device name, `io` a module id and
`t` a key of the pending buffer. -/
def noTags : Memory :=
  { NewMemory with
    analogModules := [("io", "d")],
    analogDeviceValues := [("d", Float64.one)],
    updatedAnalogTags := [("t", Float64.one)] }

/-- A memory in which `p` is registered both as a binary and as an analog
device. -/
def twoKinds : Memory := (NewMemory.AddBinaryDevice "p").AddAnalogDevice "p"

/-! ## Arithmetic of `float64`

A finite `float64` is `±significand · 2^scale`.  Multiplication and the
conversions from and to the integer types are those of IEEE 754 and of the Go
specification, rounding to nearest, ties to even.  What Go leaves to the
implementation, and `math.Pow`, which is library code, are fields of
`Runtime`. -/

namespace Float64

/-- The value with the given bit fields, each reduced to its width. -/
def ofBits (sign : Bool) (exponent fraction : Nat) : Float64 :=
  ⟨sign, ⟨exponent % 2048, Nat.mod_lt _ (by decide)⟩,
    ⟨fraction % 4503599627370496, Nat.mod_lt _ (by decide)⟩⟩

/-- Positive or negative infinity. -/
def inf (sign : Bool) : Float64 := ⟨sign, 2047, 0⟩

/-- The value 10.0. -/
def ten : Float64 := ⟨false, 1026, 1125899906842624⟩

/-- Unary minus. -/
def neg (x : Float64) : Float64 := { x with sign := !x.sign }

/-- The integer `m` with `|x| = m · 2^scale` for a finite `x`. -/
def significand (x : Float64) : Nat :=
  if x.exponent.val = 0 then x.fraction.val else 4503599627370496 + x.fraction.val

/-- The exponent `e` with `|x| = significand · 2^e` for a finite `x`. -/
def scale (x : Float64) : Int :=
  if x.exponent.val = 0 then -1074 else (x.exponent.val : Int) - 1075

/-- The number of binary digits of `n`, counted in at most `fuel` steps. -/
def bitLenAux : Nat → Nat → Nat
  | 0, _ => 0
  | fuel + 1, n => if n = 0 then 0 else bitLenAux fuel (n / 2) + 1

/-- The number of binary digits of `n`, for `n < 2^128`. -/
def bitLen (n : Nat) : Nat := bitLenAux 128 n

/-- The integer nearest to `M / 2^k`, ties to even. -/
def roundShift (M k : Nat) : Nat :=
  if 2 ^ k < 2 * (M % 2 ^ k) ∨ (2 * (M % 2 ^ k) = 2 ^ k ∧ (M / 2 ^ k) % 2 = 1)
  then M / 2 ^ k + 1 else M / 2 ^ k

/-- The scale of the value nearest to `M · 2^E` in the binary format of
precision `p` whose smallest scale is `emin`. -/
def roundScale (p : Nat) (emin : Int) (M : Nat) (E : Int) : Int :=
  max (E + bitLen M - p) emin

/-- The significand of the value nearest to `M · 2^E`, ties to even, at the
scale `roundScale p emin M E`; it is at most `2^p`. -/
def roundSignificand (p : Nat) (emin : Int) (M : Nat) (E : Int) : Nat :=
  if roundScale p emin M E ≤ E then M * 2 ^ (E - roundScale p emin M E).toNat
  else roundShift M (roundScale p emin M E - E).toNat

/-- The exponent field and the fraction field of the value nearest to
`M · 2^E`, ties to even, in the binary format of precision `p` whose smallest
scale is `emin` and whose exponent field of all ones is `top`.  An overflow
gives the fields of infinity. -/
def roundFields (p : Nat) (emin : Int) (top : Nat) (M : Nat) (E : Int) : Nat × Nat :=
  if M = 0 then (0, 0)
  else if roundSignificand p emin M E < 2 ^ (p - 1) then (0, roundSignificand p emin M E)
  else if roundSignificand p emin M E = 2 ^ p then
    (if (top : Int) ≤ roundScale p emin M E - emin + 2 then (top, 0)
      else ((roundScale p emin M E - emin + 2).toNat, 0))
  else if (top : Int) ≤ roundScale p emin M E - emin + 1 then (top, 0)
  else ((roundScale p emin M E - emin + 1).toNat, roundSignificand p emin M E - 2 ^ (p - 1))

/-- The `float64` nearest to `±M · 2^E`, ties to even. -/
def round (sign : Bool) (M : Nat) (E : Int) : Float64 :=
  ofBits sign (roundFields 53 (-1074) 2047 M E).1 (roundFields 53 (-1074) 2047 M E).2

/-- The Go operator `*` on `float64`.  Which NaN an invalid product is, Go
leaves to the processor; here it is `nan`. -/
def mul (x y : Float64) : Float64 :=
  if x.isNaN || y.isNaN then nan
  else if x.exponent.val = 2047 ∨ y.exponent.val = 2047 then
    if x.isZero || y.isZero then nan else inf (xor x.sign y.sign)
  else round (xor x.sign y.sign) (x.significand * y.significand) (x.scale + y.scale)

/-- The Go conversion `float64(n)` of an unsigned integer. -/
def ofNat (n : Nat) : Float64 := round false n 0

/-- The Go conversion `float64(k)` of a signed integer. -/
def ofInt (k : Int) : Float64 := round (decide (k < 0)) k.natAbs 0

/-- The integer part of `x`, the fraction discarded; nothing for a NaN and
for the infinities. -/
def truncate (x : Float64) : Option Int :=
  if x.exponent.val = 2047 then none
  else if x.sign then
    some (-((if 0 ≤ x.scale then x.significand * 2 ^ x.scale.toNat
      else x.significand / 2 ^ (-x.scale).toNat : Nat) : Int))
  else
    some ((if 0 ≤ x.scale then x.significand * 2 ^ x.scale.toNat
      else x.significand / 2 ^ (-x.scale).toNat : Nat) : Int)

/-- The bits of the `float32` nearest to `x`, the Go conversion `float32(x)`.
A NaN keeps its sign and the upper bits of its fraction and is made quiet. -/
def toFloat32Bits (x : Float64) : Nat :=
  (if x.sign then 2147483648 else 0) +
  (if x.isNaN then 2139095040 + (4194304 + x.fraction.val / 536870912 % 4194304)
   else if x.exponent.val = 2047 then 2139095040
   else (roundFields 24 (-149) 255 x.significand x.scale).1 * 8388608 +
     (roundFields 24 (-149) 255 x.significand x.scale).2)

/-- The `float64` equal to the `float32` of the given bits, the Go conversion
`float64(x)` of a `float32`. -/
def ofFloat32Bits (b : Nat) : Float64 :=
  if b / 8388608 % 256 = 255 then
    (if b % 8388608 = 0 then inf (decide (b / 2147483648 % 2 = 1))
     else ofBits (decide (b / 2147483648 % 2 = 1)) 2047
       (2251799813685248 + b % 4194304 * 536870912))
  else if b / 8388608 % 256 = 0 then
    round (decide (b / 2147483648 % 2 = 1)) (b % 8388608) (-149)
  else
    round (decide (b / 2147483648 % 2 = 1)) (8388608 + b % 8388608)
      ((b / 8388608 % 256 : Nat) - 150)

end Float64

/-- What the model takes from outside the repository.  `Pow` is `math.Pow`.
`overflow signed bits x` is the integer an implementation gives for the
conversion of `x` to the integer type of that signedness and width when the
integer part of `x` does not fit the type, a case the Go specification leaves
to the implementation. -/
structure Runtime where
  Pow : Float64 → Float64 → Float64
  overflow : Bool → Nat → Float64 → Int

namespace Runtime

/-- The Go conversion of a `float64` to the unsigned integer type of `bits`
bits. -/
def toUint (rt : Runtime) (bits : Nat) (x : Float64) : Nat :=
  match x.truncate with
  | some k => if 0 ≤ k ∧ k < 2 ^ bits then k.toNat else (rt.overflow false bits x % 2 ^ bits).toNat
  | none => (rt.overflow false bits x % 2 ^ bits).toNat

/-- The Go conversion of a `float64` to the signed integer type of `bits`
bits, as the unsigned integer with the same bits (two's complement). -/
def toIntBits (rt : Runtime) (bits : Nat) (x : Float64) : Nat :=
  match x.truncate with
  | some k =>
    if -(2 ^ (bits - 1) : Int) ≤ k ∧ k < 2 ^ (bits - 1) then (k % 2 ^ bits).toNat
    else (rt.overflow true bits x % 2 ^ bits).toNat
  | none => (rt.overflow true bits x % 2 ^ bits).toNat

/-- The special case `Pow(x, ±0) = 1 for any x` from the documentation of
`math.Pow`. -/
def PowZero (rt : Runtime) : Prop :=
  ∀ x y : Float64, y.isZero = true → rt.Pow x y = Float64.one

end Runtime

/-- A stand-in for `math.Pow` that follows its first three special cases,
`Pow(x, ±0) = 1`, `Pow(1, y) = 1` and `Pow(x, 1) = x`, and is NaN elsewhere. -/
def powSpecialCases (x y : Float64) : Float64 :=
  if y.isZero || Float64.eq x Float64.one then Float64.one
  else if Float64.eq y Float64.one then x
  else Float64.nan

/-- A runtime for examples: `powSpecialCases`, and conversions that give zero
for what does not fit. -/
def sampleRuntime : Runtime := ⟨powSpecialCases, fun _ _ _ => 0⟩

/-! ## SunSpec registers and Modbus handlers

An embedding of `src/gobennu/devices/modules/comms/sunspec/register.go` and
`handlers.go`.  A byte is a natural number below 256 and a slice of bytes a
list of them; a slice has no capacity beyond its length. -/

/-- The bytes `binary.Write` produces in big-endian order for an unsigned
integer of `width` bytes. -/
def bigEndian : Nat → Nat → List Nat
  | 0, _ => []
  | width + 1, n => bigEndian width (n / 256) ++ [n % 256]

/-- The unsigned integer `binary.Read` finds in big-endian bytes. -/
def fromBigEndian (bs : List Nat) : Nat := bs.foldl (fun acc b => acc * 256 + b) 0

/-- The signed integer with the bits of the unsigned integer `n` of `bits`
bits (two's complement). -/
def toSigned (bits : Nat) (n : Nat) : Int :=
  if n < 2 ^ (bits - 1) then (n : Int) else (n : Int) - 2 ^ bits

/-- The bytes of a Go string. -/
def stringBytes (s : String) : List Nat := s.toUTF8.data.toList.map UInt8.toNat

/-- A byte array of `size` zero bytes after `copy(value[:], s)`. -/
def copyString (size : Nat) (s : String) : List Nat :=
  (stringBytes s).take size ++ List.replicate (size - (stringBytes s).length) 0

/-- The error of `binary.Read` for a value of `size` bytes on a reader over
`d`, `nil` when `d` holds enough bytes. -/
def readError (size : Nat) (d : List Nat) : Option String :=
  if d.length = 0 then some "EOF"
  else if d.length < size then some "unexpected EOF"
  else none

/-- The struct `Register`. -/
structure Register where
  regType : String
deriving DecidableEq, Repr

/-- The constructor `NewRegister`. -/
def NewRegister (t : String) : Register := ⟨t⟩

namespace Register

/-- The method `Length`. -/
def Length (this : Register) : Nat :=
  if this.regType = "acc16" then 1
  else if this.regType = "acc32" then 2
  else if this.regType = "acc64" then 4
  else if this.regType = "bitfield16" then 1
  else if this.regType = "bitfield32" then 2
  else if this.regType = "enum16" then 1
  else if this.regType = "enum32" then 2
  else if this.regType = "float32" then 2
  else if this.regType = "int16" then 1
  else if this.regType = "int32" then 2
  else if this.regType = "string8" then 8
  else if this.regType = "string16" then 16
  else if this.regType = "sunssf" then 1
  else if this.regType = "uint16" then 1
  else if this.regType = "uint32" then 2
  else 0

/-- The product `v.(float64) * math.Pow(10, -float64(s))` of `Bytes`. -/
def scaleDown (rt : Runtime) (f : Float64) (s : Int) : Float64 :=
  Float64.mul f (rt.Pow Float64.ten (Float64.neg (Float64.ofInt s)))

/-- The product `float64(value) * math.Pow(10, float64(s))` of `Value`. -/
def scaleUp (rt : Runtime) (f : Float64) (s : Int) : Float64 :=
  Float64.mul f (rt.Pow Float64.ten (Float64.ofInt s))

/-- The method `Bytes`.  The result is `none` when the method panics: on a
type assertion `v.(float64)` or `v.(string)` that fails, and for a type
outside the switch, where `value` stays a nil interface and `binary.Write`
panics on it. -/
def Bytes (rt : Runtime) (this : Register) (v : Any) (s : Int) : Option (List Nat) :=
  if this.regType = "acc16" ∨ this.regType = "uint16" then
    match v with
    | Any.float64 f => some (bigEndian 2 (rt.toUint 16 (scaleDown rt f s)))
    | _ => none
  else if this.regType = "acc32" ∨ this.regType = "uint32" then
    match v with
    | Any.float64 f => some (bigEndian 4 (rt.toUint 32 (scaleDown rt f s)))
    | _ => none
  else if this.regType = "acc64" then
    match v with
    | Any.float64 f => some (bigEndian 8 (rt.toUint 64 (scaleDown rt f s)))
    | _ => none
  else if this.regType = "bitfield16" ∨ this.regType = "enum16" then
    match v with
    | Any.float64 f => some (bigEndian 2 (rt.toUint 16 f))
    | _ => none
  else if this.regType = "bitfield32" ∨ this.regType = "enum32" then
    match v with
    | Any.float64 f => some (bigEndian 4 (rt.toUint 32 f))
    | _ => none
  else if this.regType = "float32" then
    match v with
    | Any.float64 f => some (bigEndian 4 f.toFloat32Bits)
    | _ => none
  else if this.regType = "int16" then
    match v with
    | Any.float64 f => some (bigEndian 2 (rt.toIntBits 16 (scaleDown rt f s)))
    | _ => none
  else if this.regType = "int32" then
    match v with
    | Any.float64 f => some (bigEndian 4 (rt.toIntBits 32 (scaleDown rt f s)))
    | _ => none
  else if this.regType = "string8" then
    match v with
    | Any.string str => some (copyString 16 str)
    | _ => none
  else if this.regType = "string16" then
    match v with
    | Any.string str => some (copyString 32 str)
    | _ => none
  else if this.regType = "sunssf" then
    match v with
    | Any.float64 f => some (bigEndian 2 (rt.toIntBits 16 f))
    | _ => none
  else none

/-- The method `Value`: the value and the error. -/
def Value (rt : Runtime) (this : Register) (d : List Nat) (s : Int) : Float64 × Option String :=
  if this.regType = "acc16" ∨ this.regType = "uint16" then
    match readError 2 d with
    | some err => (Float64.zero, some err)
    | none => (scaleUp rt (Float64.ofNat (fromBigEndian (d.take 2))) s, none)
  else if this.regType = "acc32" ∨ this.regType = "uint32" then
    match readError 4 d with
    | some err => (Float64.zero, some err)
    | none => (scaleUp rt (Float64.ofNat (fromBigEndian (d.take 4))) s, none)
  else if this.regType = "acc64" then
    match readError 8 d with
    | some err => (Float64.zero, some err)
    | none => (scaleUp rt (Float64.ofNat (fromBigEndian (d.take 8))) s, none)
  else if this.regType = "bitfield16" ∨ this.regType = "enum16" then
    match readError 2 d with
    | some err => (Float64.zero, some err)
    | none => (Float64.ofNat (fromBigEndian (d.take 2)), none)
  else if this.regType = "bitfield32" ∨ this.regType = "enum32" then
    match readError 4 d with
    | some err => (Float64.zero, some err)
    | none => (Float64.ofNat (fromBigEndian (d.take 4)), none)
  else if this.regType = "float32" then
    match readError 4 d with
    | some err => (Float64.zero, some err)
    | none => (Float64.ofFloat32Bits (fromBigEndian (d.take 4)), none)
  else if this.regType = "int16" then
    match readError 2 d with
    | some err => (Float64.zero, some err)
    | none => (scaleUp rt (Float64.ofInt (toSigned 16 (fromBigEndian (d.take 2)))) s, none)
  else if this.regType = "int32" then
    match readError 4 d with
    | some err => (Float64.zero, some err)
    | none => (scaleUp rt (Float64.ofInt (toSigned 32 (fromBigEndian (d.take 4)))) s, none)
  else (Float64.zero, some ("unexpected data type " ++ this.regType))

end Register

/-- The exceptions of `mbserver` the handlers return. -/
inductive Exception where
  | Success
  | IllegalFunction
  | IllegalDataAddress
  | SlaveDeviceFailure
deriving DecidableEq, Repr

/-- How a call of a handler ends: it returns bytes and an exception, it
panics on a slice expression out of range, on a failed type assertion or in
`binary.Write` on a nil value, or the model runs out of fuel before the loop
of the handler ends. -/
inductive Reply where
  | returned (out : List Nat) (exception : Exception)
  | crashed
  | unfinished
deriving DecidableEq, Repr

/-- A Go `map[int]V`, as the list of its bindings. -/
abbrev IntMap (V : Type) := List (Int × V)

/-- Go `v, ok := m[k]` on a `map[int]V`. -/
def IntMap.get {V : Type} : IntMap V → Int → Option V
  | [], _ => none
  | (k', v) :: m, k => if k' = k then some v else IntMap.get m k

/-- The struct `SunSpecRTU`, without the address it listens on and without
its pointer to the memory, which the handlers take as an argument. -/
structure SunSpecRTU where
  scalings : IntMap Int
  registers : IntMap String
  types : GoMap String

namespace SunSpecRTU

/-- Go `this.types[tag]`: the empty string for a tag without type. -/
def typeOf (this : SunSpecRTU) (tag : String) : String :=
  match this.types.get tag with
  | some t => t
  | none => ""

/-- Go `this.scalings[i]`: zero for a register without scaling. -/
def scalingOf (this : SunSpecRTU) (i : Nat) : Int :=
  match this.scalings.get i with
  | some s => s
  | none => 0

/-- The `switch` of `readHandler` that fetches the value of a tag: the value
and the error. -/
def readValue (this : SunSpecRTU) (m : Memory) (tag : String) : Any × Option String :=
  if this.typeOf tag = "string8" ∨ this.typeOf tag = "string16" then
    match m.GetStringValueForTag tag with
    | (value, err) => (Any.string value, err)
  else
    match m.GetAnalogValueForTag tag with
    | (value, none) => (Any.float64 value, none)
    | (value, some err) =>
      match m.GetBinaryStatusForTag tag with
      | (status, none) =>
        if status then (Any.float64 Float64.one, none) else (Any.float64 Float64.zero, none)
      | (_, some _) => (Any.float64 value, some err)

/-- The loop of `readHandler` from the register `i` on, with the variables
`size` and `data`; `stop` is `start + count`. -/
def readLoop (rt : Runtime) (this : SunSpecRTU) (m : Memory) (stop : Nat) :
    Nat → Nat → Nat → List Nat → Reply
  | 0, _, _, _ => Reply.unfinished
  | fuel + 1, i, size, data =>
    if i < stop then
      match this.registers.get i with
      | none => Reply.returned [] Exception.IllegalDataAddress
      | some tag =>
        match this.readValue m tag with
        | (_, some _) => Reply.returned [] Exception.SlaveDeviceFailure
        | (value, none) =>
          match (NewRegister (this.typeOf tag)).Bytes rt value (this.scalingOf i) with
          | none => Reply.crashed
          | some bytes =>
            readLoop rt this m stop fuel (i + (NewRegister (this.typeOf tag)).Length)
              (size + (NewRegister (this.typeOf tag)).Length * 2) (data ++ bytes)
    else Reply.returned ((size % 256) :: data) Exception.Success

/-- The variable `start` of the handlers:
`int(binary.BigEndian.Uint16(data[0:2]))`. -/
def requestStart (data : List Nat) : Nat := fromBigEndian (data.take 2)

/-- The variable `count` of the handlers:
`int(binary.BigEndian.Uint16(data[2:4]))`. -/
def requestCount (data : List Nat) : Nat := fromBigEndian ((data.drop 2).take 2)

/-- The handler `readHandler` on the data of a frame; `fuel` bounds the
number of times the condition of its loop is tested. -/
def readHandler (rt : Runtime) (this : SunSpecRTU) (m : Memory) (fuel : Nat)
    (data : List Nat) : Reply :=
  if data.length < 4 then Reply.crashed
  else
    readLoop rt this m (requestStart data + requestCount data) fuel (requestStart data) 0 []

/-- The update of a tag in `writeHandler`: the analog tag first and, when that
fails, the binary tag with `value != 0`; the memory afterwards and the last
error. -/
def writeTag (m : Memory) (tag : String) (value : Float64) : Memory × Option String :=
  match m.UpdateAnalogTag tag value with
  | (m1, none) => (m1, none)
  | (m1, some _) => m1.UpdateBinaryTag tag (!Float64.eq value Float64.zero)

/-- The loop of `writeHandler` from the register `i` on, with the offset `b`
into the data of the frame; `stop` is `start + count`. -/
def writeLoop (rt : Runtime) (this : SunSpecRTU) (data : List Nat) (stop : Nat) :
    Nat → Memory → Nat → Nat → Memory × Reply
  | 0, m, _, _ => (m, Reply.unfinished)
  | fuel + 1, m, i, b =>
    if i < stop then
      match this.registers.get i with
      | none => (m, Reply.returned [] Exception.IllegalDataAddress)
      | some tag =>
        if data.length < b + (NewRegister (this.typeOf tag)).Length * 2 then (m, Reply.crashed)
        else
          match (NewRegister (this.typeOf tag)).Value rt
              ((data.drop b).take ((NewRegister (this.typeOf tag)).Length * 2))
              (this.scalingOf i) with
          | (_, some _) => (m, Reply.returned [] Exception.SlaveDeviceFailure)
          | (value, none) =>
            match writeTag m tag value with
            | (m1, some _) => (m1, Reply.returned [] Exception.SlaveDeviceFailure)
            | (m1, none) =>
              writeLoop rt this data stop fuel m1 (i + (NewRegister (this.typeOf tag)).Length)
                (b + (NewRegister (this.typeOf tag)).Length * 2)
    else (m, Reply.returned (data.take 4) Exception.Success)

/-- The handler `writeHandler` on the data of a frame: the memory afterwards
and the reply. -/
def writeHandler (rt : Runtime) (this : SunSpecRTU) (m : Memory) (fuel : Nat)
    (data : List Nat) : Memory × Reply :=
  if data.length < 4 then (m, Reply.crashed)
  else
    writeLoop rt this data (requestStart data + requestCount data) fuel m (requestStart data) 5

end SunSpecRTU

/-- The handler `notImplementedHandler`. -/
def notImplementedHandler (_data : List Nat) : Reply :=
  Reply.returned [] Exception.IllegalFunction

/-- The memory of the handler tests: the internal analog tags `var_I0` = 5
and `var_I1` = 10. -/
def testMemory : Memory :=
  { NewMemory with
    internalAnalogTags := [("var_I0", Float64.ofNat 5), ("var_I1", Float64.ofNat 10)] }

/-- The outstation of `TestModbusReadHandler`: the registers 40000 and 40001
mapped to `var_I0` and `var_I1`, both of type `uint16`. -/
def testRTU : SunSpecRTU :=
  { scalings := [],
    registers := [(40000, "var_I0"), (40001, "var_I1")],
    types := [("var_I0", "uint16"), ("var_I1", "uint16")] }

/-- The bytes of the registers `0, …, count - 1` one after another, `bytes k`
being the bytes of the register `k`. -/
def concatBytes (bytes : Nat → List Nat) : Nat → List Nat
  | 0 => []
  | k + 1 => concatBytes bytes k ++ bytes k

/-- The tags of the two registers of `testRTU`, counted from 40000. -/
def testTag (k : Nat) : String := if k = 0 then "var_I0" else "var_I1"

/-- The values of the two registers of `testRTU` in `testMemory`. -/
def testValue (k : Nat) : Nat := if k = 0 then 5 else 10

namespace SunSpecRTU

/-- The registers a walk from `start` comes to when it advances from each
register of the table by the `Length` of the type of its tag. -/
inductive Visits (this : SunSpecRTU) (start : Nat) : Nat → Prop where
  | first : Visits this start start
  | next (i : Nat) (tag : String) : Visits this start i →
      this.registers.get (i : Int) = some tag →
      Visits this start (i + (NewRegister (this.typeOf tag)).Length)

/-- The states of the loop of `readHandler`: after `n` turns that each found
the register in the table, a value for its tag and bytes for the value, the
loop is at the register `i` with the variables `size` and `data`. -/
inductive ReadReaches (rt : Runtime) (this : SunSpecRTU) (m : Memory) (start stop : Nat) :
    Nat → Nat → Nat → List Nat → Prop where
  | first : ReadReaches rt this m start stop 0 start 0 []
  | next (n i size : Nat) (data : List Nat) (tag : String) (value : Any) (bytes : List Nat) :
      ReadReaches rt this m start stop n i size data → i < stop →
      this.registers.get (i : Int) = some tag →
      this.readValue m tag = (value, none) →
      (NewRegister (this.typeOf tag)).Bytes rt value (this.scalingOf i) = some bytes →
      ReadReaches rt this m start stop (n + 1) (i + (NewRegister (this.typeOf tag)).Length)
        (size + (NewRegister (this.typeOf tag)).Length * 2) (data ++ bytes)

/-- The states of the loop of `writeHandler` on the request `data` from the
memory `m0`: after `n` turns that each found the register in the table, its
bytes in the request, a value for the bytes and a tag to update, the loop is
at the register `i` with the offset `b` and the memory is `m`. -/
inductive WriteReaches (rt : Runtime) (this : SunSpecRTU) (data : List Nat) (m0 : Memory)
    (start stop : Nat) : Nat → Memory → Nat → Nat → Prop where
  | first : WriteReaches rt this data m0 start stop 0 m0 start 5
  | next (n : Nat) (m m1 : Memory) (i b : Nat) (tag : String) (value : Float64) :
      WriteReaches rt this data m0 start stop n m i b → i < stop →
      this.registers.get (i : Int) = some tag →
      b + (NewRegister (this.typeOf tag)).Length * 2 ≤ data.length →
      (NewRegister (this.typeOf tag)).Value rt
        ((data.drop b).take ((NewRegister (this.typeOf tag)).Length * 2)) (this.scalingOf i)
        = (value, none) →
      writeTag m tag value = (m1, none) →
      WriteReaches rt this data m0 start stop (n + 1) m1
        (i + (NewRegister (this.typeOf tag)).Length)
        (b + (NewRegister (this.typeOf tag)).Length * 2)

end SunSpecRTU

/-- The outstation of `TestReadOutOfBoundsRegister` and
`TestWriteOutOfBoundsRegister`: the register 40001 alone. -/
def outOfBoundsRTU : SunSpecRTU :=
  { scalings := [], registers := [(40001, "foobar")], types := [] }

/-- An outstation with the register 1 alone, of type `uint16`, for a tag `a`
that a memory may lack. -/
def lonelyRTU : SunSpecRTU :=
  { scalings := [], registers := [(1, "a")], types := [("a", "uint16")] }

/-- A memory whose only tag is the internal binary tag `a`, off. -/
def binaryMemory : Memory := { NewMemory with internalBinaryTags := [("a", false)] }

namespace Register

/-- The types and scalings whose encoding is exact: the integer types of 16
and 32 bits, which `Bytes` and `Value` both know; those that are scaled have
the scaling 0. -/
def exactCodec (ty : String) (s : Int) : Prop :=
  (ty = "bitfield16" ∨ ty = "enum16" ∨ ty = "bitfield32" ∨ ty = "enum32") ∨
  ((ty = "uint16" ∨ ty = "acc16" ∨ ty = "int16" ∨ ty = "uint32" ∨ ty = "acc32" ∨ ty = "int32")
    ∧ s = 0)

end Register

namespace Register

/-- What makes the encoding of a type exact at a scaling, for values of
`width` bytes: every `float64` has bytes, all bytes decode to a value that
has these bytes again and is `== 0` exactly when the bytes are zero, and 1.0
and 0.0 have the bytes of 1 and 0. -/
structure Exact (rt : Runtime) (ty : String) (s : Int) (width : Nat) : Prop where
  notString : ty ≠ "string8" ∧ ty ≠ "string16"
  encode : ∀ f, ∃ n, Bytes rt (NewRegister ty) (Any.float64 f) s = some (bigEndian width n)
  decode : ∀ n, ∃ x, Value rt (NewRegister ty) (bigEndian width n) s = (x, none) ∧
    Bytes rt (NewRegister ty) (Any.float64 x) s = some (bigEndian width n) ∧
    Float64.eq x Float64.zero = decide (n % 256 ^ width = 0)
  one : Bytes rt (NewRegister ty) (Any.float64 Float64.one) s = some (bigEndian width 1)
  zero : Bytes rt (NewRegister ty) (Any.float64 Float64.zero) s = some (bigEndian width 0)

end Register

namespace SunSpecRTU

/-- The memory `m1`, not frozen, reads like the memory `m` for the handlers
on the registers of `[start, stop)`: the same tags exist, and the tag of
every register of the range that has a value in `m` has one in `m1` with the
same bytes at this register. -/
structure SameReadings (rt : Runtime) (this : SunSpecRTU) (start stop : Nat) (m1 m : Memory) :
    Prop where
  frozen : m1.frozen = false
  analogTags : m1.analogTags = m.analogTags
  binaryTags : m1.binaryTags = m.binaryTags
  analogHas : ∀ t, m1.internalAnalogTags.has t = m.internalAnalogTags.has t
  binaryHas : ∀ t, m1.internalBinaryTags.has t = m.internalBinaryTags.has t
  reading : ∀ (j : Nat) (t : String), start ≤ j → j < stop →
    this.registers.get (j : Int) = some t → (this.readValue m t).2 = none →
    (this.readValue m1 t).2 = none ∧
    (NewRegister (this.typeOf t)).Bytes rt (this.readValue m1 t).1 (this.scalingOf j)
      = (NewRegister (this.typeOf t)).Bytes rt (this.readValue m t).1 (this.scalingOf j)

/-- The register `i`, which holds the tag `t`, loses nothing of the value that
`readHandler` reads for `t` in the memory `m`: `Value` decodes the bytes of
the value with no error and, when `t` is an internal tag, what `writeHandler`
then stores for it has, at every register of `[start, stop)` that holds `t`,
the bytes the value read had.  For an internal analog tag this is the decoded
value, and for an internal binary tag it is read back as 1.0 or 0.0, as the
decoded value is `!= 0` or not. -/
def Lossless (rt : Runtime) (this : SunSpecRTU) (m : Memory) (start stop i : Nat)
    (t : String) : Prop :=
  ∀ d, (this.readValue m t).2 = none →
    (NewRegister (this.typeOf t)).Bytes rt (this.readValue m t).1 (this.scalingOf i) = some d →
    ∃ x, (NewRegister (this.typeOf t)).Value rt d (this.scalingOf i) = (x, none) ∧
      (m.analogTags.has t = false → m.internalAnalogTags.has t = true →
        ∀ j : Nat, start ≤ j → j < stop → this.registers.get (j : Int) = some t →
          (NewRegister (this.typeOf t)).Bytes rt (Any.float64 x) (this.scalingOf j)
            = (NewRegister (this.typeOf t)).Bytes rt (this.readValue m t).1
                (this.scalingOf j)) ∧
      (m.analogTags.has t = false → m.internalAnalogTags.has t = false →
        m.binaryTags.has t = false →
        ∀ j : Nat, start ≤ j → j < stop → this.registers.get (j : Int) = some t →
          (NewRegister (this.typeOf t)).Bytes rt
              (Any.float64 (if !Float64.eq x Float64.zero then Float64.one else Float64.zero))
              (this.scalingOf j)
            = (NewRegister (this.typeOf t)).Bytes rt (this.readValue m t).1
                (this.scalingOf j))

end SunSpecRTU

/-- An outstation with the register 1 alone, a scale factor of type
`sunssf`. -/
def scaleFactorRTU : SunSpecRTU :=
  { scalings := [], registers := [(1, "sf")], types := [("sf", "sunssf")] }

/-- A memory whose only tag is the internal analog tag `sf`, zero. -/
def scaleFactorMemory : Memory :=
  { NewMemory with internalAnalogTags := [("sf", Float64.zero)] }

/-! ## Powers of ten, the function codes and a register without type -/

namespace Float64

/-- The `float64` 100. -/
def hundred : Float64 := Float64.ofNat 100

/-- The `float64` nearest to 1/100, `0x3F847AE147AE147B`. -/
def hundredth : Float64 := ⟨false, 1016, 0x47AE147AE147B⟩

end Float64

/-- A stand-in for `math.Pow` that returns what `math.Pow` returns for the base
10 and the exponents 2 and -2, which are 100 and the `float64` nearest to
1/100, and follows `powSpecialCases` elsewhere. -/
def powOfTen (x y : Float64) : Float64 :=
  if y.isZero then Float64.one
  else if Float64.eq x Float64.ten && Float64.eq y Float64.two then Float64.hundred
  else if Float64.eq x Float64.ten && Float64.eq y (Float64.neg Float64.two) then
    Float64.hundredth
  else powSpecialCases x y

/-- A runtime for examples with a scaling of two decimal places: `powOfTen`,
and conversions that give zero for what does not fit. -/
def decimalRuntime : Runtime := ⟨powOfTen, fun _ _ _ => 0⟩

/-- An outstation with the register 1 alone, of type `uint16` with the
scaling -2, for the tag `p`. -/
def scaledRTU : SunSpecRTU :=
  { scalings := [(1, -2)], registers := [(1, "p")], types := [("p", "uint16")] }

/-- A memory whose only tag is the internal analog tag `p` with the value
0.295, `0x3FD2E147AE147AE1`. -/
def scaledMemory : Memory :=
  { NewMemory with internalAnalogTags := [("p", ⟨false, 1021, 0x2E147AE147AE1⟩)] }

/-- An outstation with the register 1 alone, of type `float32`, which takes
the registers 1 and 2, for the tag `q`. -/
def floatRTU : SunSpecRTU :=
  { scalings := [], registers := [(1, "q")], types := [("q", "float32")] }

/-- A memory whose only tag is the internal analog tag `q` with the value
1.5. -/
def floatMemory : Memory :=
  { NewMemory with internalAnalogTags := [("q", ⟨false, 1023, 0x8000000000000⟩)] }

/-- A memory whose only tag is the internal analog tag `p` with the value
0.28, `0x3FD1EB851EB851EC`. -/
def steadyMemory : Memory :=
  { NewMemory with internalAnalogTags := [("p", ⟨false, 1021, 0x1EB851EB851EC⟩)] }

/-- The handlers a server can hold for a function code: one that
`mbserver.NewServer` installed, or one of the three of `handlers.go`. -/
inductive FunctionHandler where
  | library (code : Nat)
  | notImplemented
  | read
  | write
deriving DecidableEq, Repr

/-- The call `server.RegisterFunctionHandler(funcCode, function)`: the table of
the server with the entry of `funcCode` replaced. -/
def RegisterFunctionHandler (server : Nat → FunctionHandler) (funcCode : Nat)
    (function : FunctionHandler) : Nat → FunctionHandler :=
  fun code => if code = funcCode then function else server code

namespace SunSpecRTU

/-- The registrations of the method `Start`, in its order, on the table of the
server that `mbserver.NewServer()` returned. -/
def Start (server : Nat → FunctionHandler) : Nat → FunctionHandler :=
  let s1 := RegisterFunctionHandler server 1 FunctionHandler.notImplemented
  let s2 := RegisterFunctionHandler s1 2 FunctionHandler.notImplemented
  let s3 := RegisterFunctionHandler s2 4 FunctionHandler.notImplemented
  let s4 := RegisterFunctionHandler s3 5 FunctionHandler.notImplemented
  let s5 := RegisterFunctionHandler s4 6 FunctionHandler.notImplemented
  let s6 := RegisterFunctionHandler s5 15 FunctionHandler.notImplemented
  let s7 := RegisterFunctionHandler s6 3 FunctionHandler.read
  RegisterFunctionHandler s7 16 FunctionHandler.write

/-- What a handler of `handlers.go` answers to the data of a frame: the memory
afterwards and the reply; nothing is said of a handler of the library. -/
def call (rt : Runtime) (this : SunSpecRTU) (m : Memory) (fuel : Nat) (data : List Nat) :
    FunctionHandler → Option (Memory × Reply)
  | FunctionHandler.library _ => none
  | FunctionHandler.notImplemented => some (m, notImplementedHandler data)
  | FunctionHandler.read => some (m, this.readHandler rt m fuel data)
  | FunctionHandler.write => some (this.writeHandler rt m fuel data)

end SunSpecRTU

/-- An outstation with the register 1 alone, for a tag `a` that has no type. -/
def untypedRTU : SunSpecRTU :=
  { scalings := [], registers := [(1, "a")], types := [] }

/-! ## Points on the subscribe wire and the input module

An embedding of `src/gobennu/distributed/point.go` and of the loop of
`InputModule.Start` in `src/gobennu/devices/modules/io/input-module.go`. -/

/-- The parts `strings.Split` cuts a string into at a separator of one
character, on the characters of the string. -/
def splitChar (sep : Char) : List Char → List (List Char)
  | [] => [[]]
  | c :: cs =>
    if c = sep then [] :: splitChar sep cs
    else
      match splitChar sep cs with
      | [] => [[c]]
      | part :: parts => (c :: part) :: parts

/-- The call `strings.Split(s, sep)` for a separator of one character. -/
def Split (s : String) (sep : Char) : List String := (splitChar sep s.data).map String.mk

/-- The function `strconv.ParseBool`: the value and the error.  It accepts 1,
t, T, TRUE, true, True, 0, f, F, FALSE, false, False; any other text is an
error. -/
def ParseBool (str : String) : Bool × Option String :=
  if str = "1" ∨ str = "t" ∨ str = "T" ∨ str = "TRUE" ∨ str = "true" ∨ str = "True" then
    (true, none)
  else if str = "0" ∨ str = "f" ∨ str = "F" ∨ str = "FALSE" ∨ str = "false" ∨ str = "False" then
    (false, none)
  else (false, some ("strconv.ParseBool: parsing " ++ str ++ ": invalid syntax"))

/-- The struct `PointData`. -/
structure PointData where
  Name : String
  Status : Bool
  Value : Float64
deriving DecidableEq, Repr

/-- The function `NewPointDataFromPoint`: the point and the error.
`ParseFloat` stands for `strconv.ParseFloat` with the bit size 64. -/
def NewPointDataFromPoint (ParseFloat : String → Float64 × Option String) (point : String) :
    PointData × Option String :=
  match Split point ':' with
  | [name, text] =>
    match ParseBool text with
    | (status, none) => ({ Name := name, Status := status, Value := Float64.zero }, none)
    | (_, some _) =>
      match ParseFloat text with
      | (value, none) => ({ Name := name, Status := false, Value := value }, none)
      | (_, some _) =>
        ({ Name := "", Status := false, Value := Float64.zero }, some "invalid point value")
  | _ => ({ Name := "", Status := false, Value := Float64.zero }, some "invalid point string")

namespace Memory

/-- The method `IsBinaryDevice`. -/
def IsBinaryDevice (m : Memory) (device : String) : Bool := m.isBinaryDevice device

/-- The method `IsAnalogDevice`. -/
def IsAnalogDevice (m : Memory) (device : String) : Bool := m.isAnalogDevice device

end Memory

/-- What the loop of `InputModule.Start` does with a point it receives from
its handler channel: the memory afterwards. -/
def handlePoint (m : Memory) (point : PointData) : Memory :=
  if m.IsBinaryDevice point.Name then (m.SetBinaryDeviceStatus point.Name point.Status).1
  else if m.IsAnalogDevice point.Name then (m.SetAnalogDeviceValue point.Name point.Value).1
  else m

/-! ## The logic module

An embedding of `src/gobennu/devices/modules/logic/logic.go`.  The compiler and
the virtual machine of the library `expr` are parameters: `Compile` stands
for `expr.Compile` and `Run` for `expr.Run`, on programs of a type `P`. -/

/-- The function `unicode.IsSpace`. -/
def isSpace (c : Char) : Bool :=
  c.toNat = 9 || c.toNat = 10 || c.toNat = 11 || c.toNat = 12 || c.toNat = 13 ||
  c.toNat = 32 || c.toNat = 133 || c.toNat = 160 || c.toNat = 5760 ||
  (8192 ≤ c.toNat && c.toNat ≤ 8202) || c.toNat = 8232 || c.toNat = 8233 ||
  c.toNat = 8239 || c.toNat = 8287 || c.toNat = 12288

/-- The function `strings.TrimSpace`. -/
def TrimSpace (s : String) : String :=
  String.mk (((s.data.dropWhile isSpace).reverse.dropWhile isSpace).reverse)

/-- The text before and the text after the first place where `sep` stands in
a text, when it stands in it. -/
def cut (sep : List Char) : List Char → Option (List Char × List Char)
  | [] => if sep.isPrefixOf [] then some ([], []) else none
  | c :: cs =>
    if sep.isPrefixOf (c :: cs) then some ([], (c :: cs).drop sep.length)
    else
      match cut sep cs with
      | none => none
      | some (before, after) => some (c :: before, after)

/-- The call `strings.SplitN(s, sep, 2)`: the text before and after the
first `sep`, or `s` alone. -/
def SplitN2 (s sep : String) : List String :=
  match cut sep.data s.data with
  | some (before, after) => [String.mk before, String.mk after]
  | none => [s]

/-- The function `strings.HasPrefix`. -/
def HasPrefix (s pre : String) : Bool := pre.data.isPrefixOf s.data

/-- The struct `LogicModule`, without its pointer to the memory, which
`Execute` takes as an argument; `P` is the type `*vm.Program`. -/
structure LogicModule (P : Type) where
  logic : GoMap P
  order : List String
deriving DecidableEq

/-- The constructor `NewLogicModule`. -/
def NewLogicModule {P : Type} : LogicModule P := { logic := [], order := [] }

namespace LogicModule

variable {P : Type}

/-- The body of the loop of `HandleTreeData` on one line of the text: the
module afterwards, and the error when the method returns one. -/
def handleLine (Compile : String → Except String P) (this : LogicModule P) (line : String) :
    LogicModule P × Option String :=
  if TrimSpace line = "" then (this, none)
  else
    match SplitN2 (TrimSpace line) " = " with
    | [side] =>
      if HasPrefix (TrimSpace side) "sprintf" then
        match Compile (TrimSpace side) with
        | Except.error err =>
          (this, some ("compiling logic '" ++ TrimSpace side ++ "': " ++ err))
        | Except.ok p =>
          ({ logic := this.logic.set ("sprintf" ++ toString this.order.length) p,
             order := this.order ++ ["sprintf" ++ toString this.order.length] }, none)
      else (this, none)
    | [sideLeft, sideRight] =>
      match Compile (TrimSpace sideRight) with
      | Except.error err =>
        (this, some ("compiling logic '" ++ TrimSpace sideRight ++ "': " ++ err))
      | Except.ok p =>
        ({ logic := this.logic.set (TrimSpace sideLeft) p,
           order := this.order ++ [TrimSpace sideLeft] }, none)
    | _ => (this, none)

/-- The loop of `HandleTreeData` over the lines. -/
def handleLines (Compile : String → Except String P) :
    LogicModule P → List String → LogicModule P × Option String
  | this, [] => (this, none)
  | this, line :: rest =>
    match handleLine Compile this line with
    | (this1, none) => handleLines Compile this1 rest
    | (this1, some err) => (this1, some err)

/-- The method `HandleTreeData`: the module afterwards and the error. -/
def HandleTreeData (Compile : String → Except String P) (this : LogicModule P) (e : Element) :
    LogicModule P × Option String :=
  handleLines Compile this (Split e.Text (Char.ofNat 10))

end LogicModule

/-- One call of `expr.Run` in `Execute`: the left-hand side it is made for, the
program and the environment it is given, and what it returns. -/
structure RunCall (P : Type) where
  lhs : String
  program : Option P
  env : GoMap Any
  result : Any
  err : Option String
deriving DecidableEq

/-- How a call of `Execute` ends: it returns an error or nil, or a type
assertion panics. -/
inductive Outcome where
  | returned (err : Option String)
  | crashed
deriving DecidableEq, Repr

/-- The variables of the first loop of `Execute`: the maps `env` and
`results`, the error of the loop, and for the record the calls of `expr.Run`
and the results printed, oldest first. -/
structure Evaluation (P : Type) where
  env : GoMap Any
  results : GoMap Any
  error : Option String
  calls : List (RunCall P)
  printed : List Any

/-- What a call of `Execute` leaves: the memory, how it ended, the two
snapshots and the results it worked with, and for the record the calls of
`expr.Run`, the results printed and the calls of `UpdateBinaryTag` and
`UpdateAnalogTag`, oldest first. -/
structure Execution (P : Type) where
  memory : Memory
  outcome : Outcome
  statuses : GoMap Bool
  values : GoMap Float64
  results : GoMap Any
  calls : List (RunCall P)
  printed : List Any
  writes : List Write

namespace Write

/-- The tag a call is for. -/
def tag : Write → String
  | binary t _ => t
  | analog t _ => t
  | string t _ => t

end Write

namespace LogicModule

variable {P : Type}

/-- The loop of `Execute` over `this.order`, from the statements left. -/
def evalLoop (Run : Option P → GoMap Any → Any × Option String) (logic : GoMap P) :
    List String → Evaluation P → Evaluation P
  | [], st => st
  | v :: rest, st =>
    match Run (logic.get v) st.env with
    | (result, some err) =>
      { st with
        error := some ("running logic for tag '" ++ v ++ "': " ++ err),
        calls := st.calls ++ [⟨v, logic.get v, st.env, result, some err⟩] }
    | (result, none) =>
      if HasPrefix v "sprintf" then
        evalLoop Run logic rest
          { st with
            calls := st.calls ++ [⟨v, logic.get v, st.env, result, none⟩],
            printed := st.printed ++ [result] }
      else
        evalLoop Run logic rest
          { st with
            env := st.env.set v result,
            results := st.results.set v result,
            calls := st.calls ++ [⟨v, logic.get v, st.env, result, none⟩] }

/-- The loop of `Execute` over `results`, in the order the map is ranged
over: the memory, the calls made so far, and whether a type assertion
panicked. -/
def writeBack (statuses : GoMap Bool) (values : GoMap Float64) :
    List (String × Any) → Memory → List Write → Memory × List Write × Bool
  | [], m, writes => (m, writes, false)
  | (tag, value) :: rest, m, writes =>
    if statuses.has tag then
      match value with
      | Any.bool b =>
        writeBack statuses values rest (m.UpdateBinaryTag tag b).1 (writes ++ [Write.binary tag b])
      | _ => (m, writes, true)
    else if values.has tag then
      match value with
      | Any.float64 f =>
        writeBack statuses values rest (m.UpdateAnalogTag tag f).1 (writes ++ [Write.analog tag f])
      | _ => (m, writes, true)
    else writeBack statuses values rest m writes

/-- The map `env` of `Execute` before the loop: the two functions, then the
statuses, then the values. -/
def initialEnv (statuses : GoMap Bool) (values : GoMap Float64) : GoMap Any :=
  (GoMap.merge
    (GoMap.merge [("sin", Any.func "math.Sin"), ("sprintf", Any.func "fmt.Sprintf")]
      (statuses.map (fun e => (e.1, Any.bool e.2))))
    (values.map (fun e => (e.1, Any.float64 e.2))))

/-- The first part of `Execute`: the two snapshots are taken, `env` is filled
and the statements are run in order. -/
def evaluate (Errorf : String → String) (Run : Option P → GoMap Any → Any × Option String)
    (this : LogicModule P) (m : Memory) : Evaluation P :=
  evalLoop Run this.logic this.order
    { env := initialEnv (m.GetBinaryPoints Errorf).1 (m.GetAnalogPoints Errorf).1,
      results := [], error := none, calls := [], printed := [] }

/-- The method `Execute` on the memory `m`.  `range` is the order in which Go
ranges over the map `results`, which is any order. -/
def Execute (Errorf : String → String) (Run : Option P → GoMap Any → Any × Option String)
    (range : GoMap Any → GoMap Any) (this : LogicModule P) (m : Memory) : Execution P :=
  if this.logic.length = 0 then
    { memory := m, outcome := Outcome.returned none, statuses := [], values := [],
      results := [], calls := [], printed := [], writes := [] }
  else
    match (this.evaluate Errorf Run m).error with
    | some err =>
      { memory := m, outcome := Outcome.returned (some err),
        statuses := (m.GetBinaryPoints Errorf).1, values := (m.GetAnalogPoints Errorf).1,
        results := (this.evaluate Errorf Run m).results,
        calls := (this.evaluate Errorf Run m).calls,
        printed := (this.evaluate Errorf Run m).printed, writes := [] }
    | none =>
      match writeBack (m.GetBinaryPoints Errorf).1 (m.GetAnalogPoints Errorf).1
          (range (this.evaluate Errorf Run m).results) m [] with
      | (m1, writes, crashed) =>
        { memory := m1, outcome := if crashed then Outcome.crashed else Outcome.returned none,
          statuses := (m.GetBinaryPoints Errorf).1, values := (m.GetAnalogPoints Errorf).1,
          results := (this.evaluate Errorf Run m).results,
          calls := (this.evaluate Errorf Run m).calls,
          printed := (this.evaluate Errorf Run m).printed, writes := writes }

end LogicModule

/-- A stand-in for `expr.Compile` on expressions that are one name: the
program is the name. -/
def compileName : String → Except String String := fun source => Except.ok source

/-- A stand-in for `expr.Run` on the programs of `compileName`: the value of
the name in `env`, nil for a name that `env` lacks, and an error for the nil
program and for the program `fail`. -/
def runName : Option String → GoMap Any → Any × Option String
  | none, _ => (Any.nil, some "nil program")
  | some name, env =>
    if name = "fail" then (Any.nil, some "cannot run")
    else
      match env.get name with
      | some value => (value, none)
      | none => (Any.nil, none)

/-- A memory for the logic round trip: the internal analog tags `current`,
holding 1, and `A`, holding 0. -/
def logicMemory : Memory :=
  { NewMemory with internalAnalogTags := [("current", Float64.one), ("A", Float64.zero)] }

/-- A memory in which `L` is an internal binary tag and `R` an internal
analog tag holding 1. -/
def mixedMemory : Memory :=
  { NewMemory with
    internalBinaryTags := [("L", false)],
    internalAnalogTags := [("R", Float64.one)] }

/-- The lines `A = current`, `B = fail` and `C = A`, loaded with `compileName`:
the second cannot run. -/
def failingLogic : LogicModule String :=
  (LogicModule.HandleTreeData compileName NewLogicModule
    (Element.node "logic" "A = current\nB = fail\nC = A" [])).1

/-- The program as the spec describes it, a list of pairs: the pair of a
left-hand side and the source of an expression that a line adds, when it
adds one, `n` pairs being there already. -/
def statementOf (n : Nat) (line : String) : Option (String × String) :=
  if TrimSpace line = "" then none
  else
    match SplitN2 (TrimSpace line) " = " with
    | [side] =>
      if HasPrefix (TrimSpace side) "sprintf" then
        some ("sprintf" ++ toString n, TrimSpace side)
      else none
    | [sideLeft, sideRight] => some (TrimSpace sideLeft, TrimSpace sideRight)
    | _ => none

/-- The program as the spec describes it: the pairs of the accepted lines in
the order of the lines, `n` pairs being there already. -/
def statements : Nat → List String → List (String × String)
  | _, [] => []
  | n, line :: rest =>
    match statementOf n line with
    | none => statements n rest
    | some statement => statement :: statements (n + 1) rest

/-- The source of the last pair of a program with the left-hand side `lhs`. -/
def lastSource (lhs : String) : List (String × String) → Option String
  | [] => none
  | (left, source) :: rest =>
    match lastSource lhs rest with
    | some later => some later
    | none => if left = lhs then some source else none

/-- The lines `A = x` and `A = y`, loaded with `compileName`. -/
def twiceAssigned : LogicModule String × Option String :=
  LogicModule.HandleTreeData compileName NewLogicModule
    (Element.node "logic" "A = x\nA = y" [])

/-- A memory with the internal analog tags `x`, holding 1, `y`, holding 2, and
`A`, holding 0. -/
def xyMemory : Memory :=
  { NewMemory with
    internalAnalogTags := [("x", Float64.one), ("y", Float64.two), ("A", Float64.zero)] }

/-- The line `L = R`, loaded with `compileName`. -/
def copyLogic : LogicModule String :=
  (LogicModule.HandleTreeData compileName NewLogicModule (Element.node "logic" "L = R" [])).1

/-- The line `A = current`, loaded with `compileName`. -/
def currentLogic : LogicModule String :=
  (LogicModule.HandleTreeData compileName NewLogicModule
    (Element.node "logic" "A = current" [])).1

/-- A name without white space: it has a character and none of its characters
is a space in the sense of `unicode.IsSpace`. -/
def Plain (s : String) : Prop := s.data ≠ [] ∧ ∀ c ∈ s.data, isSpace c = false

/-- Loads the text of a `logic` element into a new module with `compileName`:
the module and the error of `HandleTreeData`. -/
def loadNames (text : String) : LogicModule String × Option String :=
  LogicModule.HandleTreeData compileName NewLogicModule (Element.node "logic" text [])

/-- A memory with the internal analog tags `current`, holding 1, and
`sprintfA`, holding 0. -/
def sprintfMemory : Memory :=
  { NewMemory with
    internalAnalogTags := [("current", Float64.one), ("sprintfA", Float64.zero)] }

/-- A memory in which `A` is an external analog tag of the module `io`, which
no input module has registered, and `current` an internal analog tag
holding 1. -/
def unboundMemory : Memory :=
  { NewMemory with
    analogTags := [("A", "io")],
    internalAnalogTags := [("current", Float64.one)] }

/-- A memory in which `A` is an internal analog tag holding 0 and also an
internal binary tag, and `current` an internal analog tag holding 1. -/
def twoNamespaces : Memory :=
  { NewMemory with
    internalBinaryTags := [("A", false)],
    internalAnalogTags := [("current", Float64.one), ("A", Float64.zero)] }

/-- A memory with the internal binary tag `B` and the internal analog tags
`current`, holding 1, and `A`, holding 0. -/
def binaryStep : Memory :=
  { NewMemory with
    internalBinaryTags := [("B", false)],
    internalAnalogTags := [("current", Float64.one), ("A", Float64.zero)] }

/-- A memory with the internal analog tags `current`, holding 1, `sprintfB`,
holding 2, and `A`, holding 0. -/
def sprintfStep : Memory :=
  { NewMemory with
    internalAnalogTags :=
      [("current", Float64.one), ("sprintfB", Float64.two), ("A", Float64.zero)] }

/-! ## The ZMQ updater

An embedding of `src/gobennu/distributed/zmq-updater.go`.  The socket is
outside the model: what `RecvMessage` returns is a parameter, and the messages
handed to `SendMessage` are recorded. -/

/-- An error built with the package `github.com/pkg/errors`. -/
inductive PkgError where
  | New (message : String)
  | WithMessage (err : PkgError) (message : String)
deriving DecidableEq, Repr

/-- How a call of `sendUpdateMessage` or of `Commit` ends: it returns an error
or nil, or the index expression `resp[0]` panics on a message without
frames. -/
inductive SendResult where
  | returned (err : Option PkgError)
  | crashed
deriving DecidableEq, Repr

/-- What a call of `sendUpdateMessage` or of `Commit` leaves: the messages
handed to `SendMessage`, oldest first, and how the call ended. -/
structure Sending where
  sent : List String
  result : SendResult
deriving DecidableEq, Repr

namespace ZMQUpdater

/-- The part of `sendUpdateMessage` after `RecvMessage` returned the frames
`resp` without error. -/
def classify (resp : List String) : SendResult :=
  match resp with
  | [] => SendResult.crashed
  | resp0 :: _ =>
    match Split resp0 '=' with
    | [datum0, datum1] =>
      if datum0 = "ACK" ∨ datum0 = "ack" then SendResult.returned none
      else if datum0 = "ERR" ∨ datum0 = "err" then
        SendResult.returned (some (PkgError.New datum1))
      else
        SendResult.returned
          (some (PkgError.WithMessage (PkgError.New "malformed provider response") resp0))
    | _ =>
      SendResult.returned
        (some (PkgError.WithMessage (PkgError.New "unexpected provider response") resp0))

/-- The method `sendUpdateMessage`; `RecvMessage` is what the call
`this.socket.RecvMessage(0)` returns. -/
def sendUpdateMessage (RecvMessage : List String × Option PkgError) (msg : String) : Sending :=
  { sent := ["WRITE=" ++ msg ++ "\x00"],
    result :=
      match RecvMessage with
      | (_, some err) =>
        SendResult.returned (some (PkgError.WithMessage err "receiving provider response"))
      | (resp, none) => classify resp }

end ZMQUpdater

/-- The struct `zmqBatchUpdater`, without its pointer to the updater. -/
structure zmqBatchUpdater where
  updates : List String
deriving DecidableEq, Repr

/-- The constructor `newZMQBatchUpdater`. -/
def newZMQBatchUpdater : zmqBatchUpdater := { updates := [] }

namespace zmqBatchUpdater

/-- The method `UpdateBinaryField` of the batch; `%v` prints a bool as `true`
or `false`. -/
def UpdateBinaryField (this : zmqBatchUpdater) (point : String) (status : Bool) :
    zmqBatchUpdater :=
  { updates := this.updates ++ [point ++ ":" ++ (if status then "true" else "false")] }

/-- The method `UpdateAnalogField` of the batch; `formatFloat` is what `%v`
prints for a `float64`. -/
def UpdateAnalogField (formatFloat : Float64 → String) (this : zmqBatchUpdater)
    (point : String) (value : Float64) : zmqBatchUpdater :=
  { updates := this.updates ++ [point ++ ":" ++ formatFloat value] }

/-- The method `Commit`. -/
def Commit (RecvMessage : List String × Option PkgError) (this : zmqBatchUpdater) : Sending :=
  if this.updates.length = 0 then { sent := [], result := SendResult.returned none }
  else ZMQUpdater.sendUpdateMessage RecvMessage (String.intercalate "," this.updates)

end zmqBatchUpdater

/-- One update queued on a batch: a call of `UpdateBinaryField` or of
`UpdateAnalogField`. -/
inductive FieldUpdate where
  | binary (point : String) (status : Bool)
  | analog (point : String) (value : Float64)
deriving DecidableEq, Repr

namespace FieldUpdate

/-- Makes the call on the batch. -/
def queue (formatFloat : Float64 → String) (batch : zmqBatchUpdater) :
    FieldUpdate → zmqBatchUpdater
  | binary point status => batch.UpdateBinaryField point status
  | analog point value => batch.UpdateAnalogField formatFloat point value

/-- The item `name:value` of the update. -/
def item (formatFloat : Float64 → String) : FieldUpdate → String
  | binary point status => point ++ ":" ++ (if status then "true" else "false")
  | analog point value => point ++ ":" ++ formatFloat value

end FieldUpdate

namespace SunSpecRTU

/-- The registers the loop of `readHandler` visits from the register `i` on
and appends bytes for, with their tags, in order; `stop` is `start + count`
and `fuel` bounds the number of turns. -/
def readVisits (rt : Runtime) (this : SunSpecRTU) (m : Memory) (stop : Nat) :
    Nat → Nat → List (Nat × String)
  | 0, _ => []
  | fuel + 1, i =>
    if i < stop then
      match this.registers.get i with
      | none => []
      | some tag =>
        match this.readValue m tag with
        | (_, some _) => []
        | (value, none) =>
          match (NewRegister (this.typeOf tag)).Bytes rt value (this.scalingOf i) with
          | none => []
          | some _ =>
            (i, tag) :: readVisits rt this m stop fuel (i + (NewRegister (this.typeOf tag)).Length)
    else []

/-- The sum of `Length` over registers with their tags. -/
def lengthSum (this : SunSpecRTU) (visits : List (Nat × String)) : Nat :=
  (visits.map (fun e => (NewRegister (this.typeOf e.2)).Length)).sum

end SunSpecRTU

/-- An outstation with the register 1 of type `bitfield16` and the register 2
of type `bitfield32`, which takes the registers 2 and 3. -/
def wideRTU : SunSpecRTU :=
  { scalings := [],
    registers := [(1, "a"), (2, "b")],
    types := [("a", "bitfield16"), ("b", "bitfield32")] }

/-- A memory with the internal analog tags `a` and `b`, both zero. -/
def wideMemory : Memory :=
  { NewMemory with internalAnalogTags := [("a", Float64.zero), ("b", Float64.zero)] }

/-- A `strconv.ParseFloat` stand-in that accepts the text `2` alone. -/
def parseTwo : String → Float64 × Option String :=
  fun s => if s = "2" then (Float64.two, none) else (Float64.zero, some "invalid syntax")

/-! ## Go floats -/

/-- Under the Go `==` a NaN is not equal to itself, while every value that is
not a NaN is. -/
theorem Float64.eq_self (x : Float64) : Float64.eq x x = !x.isNaN := by
  cases h : x.isNaN <;> simp [Float64.eq, h]

/-! ## Go maps -/

namespace GoMap

variable {V : Type}

@[simp] theorem get_nil (k : String) : get ([] : GoMap V) k = none := rfl

theorem get_cons (k' : String) (v : V) (m : GoMap V) (k : String) :
    get ((k', v) :: m) k = if k' = k then some v else get m k := rfl

theorem get_erase_self (m : GoMap V) (k : String) : (m.erase k).get k = none := by
  induction m with
  | nil => rfl
  | cons e m ih =>
    obtain ⟨k', v⟩ := e
    by_cases h : k' = k
    · simpa [erase, List.filter_cons, h] using ih
    · simpa [erase, List.filter_cons, h, get_cons] using ih

theorem get_erase_ne (m : GoMap V) {k k' : String} (h : k ≠ k') :
    (m.erase k).get k' = m.get k' := by
  induction m with
  | nil => rfl
  | cons e m ih =>
    obtain ⟨k'', v⟩ := e
    by_cases h1 : k'' = k
    · subst h1
      simpa [erase, List.filter_cons, get_cons, h] using ih
    · by_cases h2 : k'' = k'
      · subst h2
        simp [erase, List.filter_cons, h1, get_cons]
      · simpa [erase, List.filter_cons, h1, get_cons, h2] using ih

theorem get_erase (m : GoMap V) (k k' : String) :
    (m.erase k).get k' = if k = k' then none else m.get k' := by
  by_cases h : k = k'
  · subst h; simp [get_erase_self]
  · simp [h, get_erase_ne m h]

theorem get_set (m : GoMap V) (k : String) (v : V) (k' : String) :
    (m.set k v).get k' = if k = k' then some v else m.get k' := by
  by_cases h : k = k'
  · simp [set, get_cons, h]
  · simp [set, get_cons, h, get_erase_ne m h]

theorem get_set_self (m : GoMap V) (k : String) (v : V) : (m.set k v).get k = some v := by
  simp [get_set]

theorem get_set_ne (m : GoMap V) {k k' : String} (v : V) (h : k ≠ k') :
    (m.set k v).get k' = m.get k' := by
  simp [get_set, h]

theorem get_eq_none_iff (m : GoMap V) (k : String) : m.get k = none ↔ k ∉ m.keys := by
  induction m with
  | nil => simp [keys]
  | cons e m ih =>
    obtain ⟨k', v⟩ := e
    by_cases h : k' = k
    · simp [get_cons, h, keys]
    · have h' : ¬ k = k' := fun h2 => h h2.symm
      simpa [get_cons, h, h', keys] using ih

theorem has_eq_true_iff (m : GoMap V) (k : String) : m.has k = true ↔ k ∈ m.keys := by
  rw [has, ← not_iff_not, ← get_eq_none_iff]
  cases m.get k <;> simp

theorem get_of_mem (m : GoMap V) (h : m.keys.Nodup) {k : String} {v : V} (hm : (k, v) ∈ m) :
    m.get k = some v := by
  induction m with
  | nil => simp at hm
  | cons e m ih =>
    obtain ⟨k', v'⟩ := e
    simp only [keys, List.map_cons, List.nodup_cons] at h
    rcases List.mem_cons.mp hm with h1 | h1
    · cases h1; simp [get_cons]
    · have hk : k ∈ m.map Prod.fst := List.mem_map.mpr ⟨(k, v), h1, rfl⟩
      have hne : k' ≠ k := fun h2 => h.1 (h2 ▸ hk)
      simpa [get_cons, hne] using ih h.2 h1

theorem keys_erase_subset (m : GoMap V) (k : String) : ∀ x ∈ (m.erase k).keys, x ∈ m.keys := by
  intro x hx
  simp only [keys, erase, List.mem_map, List.mem_filter] at hx ⊢
  obtain ⟨e, ⟨he, _⟩, rfl⟩ := hx
  exact ⟨e, he, rfl⟩

theorem nodup_keys_erase (m : GoMap V) (k : String) (h : m.keys.Nodup) :
    (m.erase k).keys.Nodup := by
  unfold keys erase at *
  exact (List.Nodup.sublist (List.Sublist.map _ (List.filter_sublist m)) h)

theorem nodup_keys_set (m : GoMap V) (k : String) (v : V) (h : m.keys.Nodup) :
    (m.set k v).keys.Nodup := by
  have h1 := nodup_keys_erase m k h
  have h2 : k ∉ (m.erase k).keys := (get_eq_none_iff _ _).mp (get_erase_self m k)
  simpa [set, keys] using And.intro h2 h1

theorem get_merge (dst src : GoMap V) (h : src.keys.Nodup) (k : String) :
    (dst.merge src).get k = match src.get k with
      | some v => some v
      | none => dst.get k := by
  induction src generalizing dst with
  | nil => rfl
  | cons e src ih =>
    obtain ⟨k', v⟩ := e
    simp only [keys, List.map_cons, List.nodup_cons] at h
    have := ih (dst.set k' v) h.2
    simp only [merge, List.foldl_cons] at this ⊢
    rw [this]
    by_cases hk : k' = k
    · subst hk
      have : get src k' = none := (get_eq_none_iff _ _).mpr h.1
      simp [get_cons, this, get_set_self]
    · simp [get_cons, hk, get_set_ne dst v hk]

theorem get_merge_or (dst src : GoMap V) (h : src.keys.Nodup) (k : String) :
    (dst.merge src).get k = (src.get k).or (dst.get k) := by
  rw [get_merge dst src h k]
  cases src.get k <;> simp

theorem merge_set_nil (dst : GoMap V) (k : String) (v : V) :
    dst.merge (set [] k v) = dst.set k v := rfl

end GoMap

/-! ## Freeze and thaw -/

namespace Memory

/-- C1. Freeze isolation for internal tags: when `x` is an internal analog tag
holding `a`, after `Freeze()` the call `UpdateAnalogTag(x, b)` returns nil and
`GetAnalogValueForTag(x)` still returns `a`; after the following `Unfreeze()`
it returns `b`.  The same holds for internal binary tags and for string
tags. -/
theorem freeze_isolates_internal_tags (m : Memory) (x : String) :
    (∀ a b : Float64, m.analogTags.get x = none → m.internalAnalogTags.get x = some a →
      (m.Freeze.1.UpdateAnalogTag x b).2 = none ∧
      (m.Freeze.1.UpdateAnalogTag x b).1.GetAnalogValueForTag x = (a, none) ∧
      ((m.Freeze.1.UpdateAnalogTag x b).1.Unfreeze.1).GetAnalogValueForTag x = (b, none)) ∧
    (∀ a b : Bool, m.binaryTags.get x = none → m.internalBinaryTags.get x = some a →
      (m.Freeze.1.UpdateBinaryTag x b).2 = none ∧
      (m.Freeze.1.UpdateBinaryTag x b).1.GetBinaryStatusForTag x = (a, none) ∧
      ((m.Freeze.1.UpdateBinaryTag x b).1.Unfreeze.1).GetBinaryStatusForTag x = (b, none)) ∧
    (∀ a b : String, m.internalStringTags.get x = some a →
      (m.Freeze.1.UpdateStringTag x b).2 = none ∧
      (m.Freeze.1.UpdateStringTag x b).1.GetStringValueForTag x = (a, none) ∧
      ((m.Freeze.1.UpdateStringTag x b).1.Unfreeze.1).GetStringValueForTag x = (b, none)) := by
  refine ⟨?_, ?_, ?_⟩
  · intro a b h1 h2
    simp [Freeze, UpdateAnalogTag, Unfreeze, GetAnalogValueForTag, getAnalogValueForTag,
      GoMap.has, GoMap.merge_set_nil, GoMap.get_set_self, h1, h2]
  · intro a b h1 h2
    simp [Freeze, UpdateBinaryTag, Unfreeze, GetBinaryStatusForTag, getBinaryStatusForTag,
      GoMap.has, GoMap.merge_set_nil, GoMap.get_set_self, h1, h2]
  · intro a b h1
    simp [Freeze, UpdateStringTag, Unfreeze, GetStringValueForTag,
      GoMap.has, GoMap.merge_set_nil, GoMap.get_set_self, h1]

/-- Witness of C1 on `sampleMemory`: `x` is written 2.0 during a freeze. -/
theorem freeze_isolates_internal_tags_witness :
    (sampleMemory.analogTags.get "x" = none ∧
      sampleMemory.internalAnalogTags.get "x" = some Float64.one) ∧
    (sampleMemory.Freeze.1.UpdateAnalogTag "x" Float64.two).1.GetAnalogValueForTag "x"
      = (Float64.one, none) ∧
    ((sampleMemory.Freeze.1.UpdateAnalogTag "x" Float64.two).1.Unfreeze.1).GetAnalogValueForTag "x"
      = (Float64.two, none) :=
  ⟨⟨by decide, by decide⟩,
    ((freeze_isolates_internal_tags sampleMemory "x").1 Float64.one Float64.two
      (by decide) (by decide)).2⟩

/-- C3, refuted as stated: a `SetAnalogDeviceValue(d, v)` made between
`Freeze()` and `Unfreeze()` does not leave `GetAnalogValueForTag(t)` at its
pre-freeze value.  On `sampleMemory` the tag `t` reads 1.0 before the freeze
and 2.0 right after the device write, still frozen. -/
theorem subscriber_write_not_isolated :
    ¬ ∀ (m : Memory) (t module d : String) (a v : Float64),
      m.analogTags.get t = some module → m.analogModules.get module = some d →
      m.GetAnalogValueForTag t = (a, none) →
      (m.Freeze.1.SetAnalogDeviceValue d v).1.GetAnalogValueForTag t = (a, none) := by
  intro h
  have := h sampleMemory "t" "io" "d" Float64.one Float64.two (by decide) (by decide) (by decide)
  revert this
  decide

/-- C3, amended: for an external analog tag `t` bound through its module to a
registered device `d`, a `SetAnalogDeviceValue(d, v)` made between `Freeze()`
and `Unfreeze()` returns nil and writes the device store at once: no shadow
map receives anything, `GetAnalogValueForTag(t)` returns `v` while still
frozen, and it returns `v` after `Unfreeze()`.  The same holds for
`SetBinaryDeviceStatus` and binary tags. -/
theorem device_write_bypasses_freeze (m : Memory) (t module d : String) :
    (∀ cur v : Float64, m.analogTags.get t = some module →
      m.analogModules.get module = some d → m.analogDeviceValues.get d = some cur →
      (m.Freeze.1.SetAnalogDeviceValue d v).2 = none ∧
      (m.Freeze.1.SetAnalogDeviceValue d v).1 =
        { m.Freeze.1 with analogDeviceValues := m.analogDeviceValues.set d v } ∧
      (m.Freeze.1.SetAnalogDeviceValue d v).1.GetAnalogValueForTag t = (v, none) ∧
      (m.Freeze.1.SetAnalogDeviceValue d v).1.Unfreeze.1.GetAnalogValueForTag t = (v, none)) ∧
    (∀ cur v : Bool, m.binaryTags.get t = some module →
      m.binaryModules.get module = some d → m.binaryDeviceStatuses.get d = some cur →
      (m.Freeze.1.SetBinaryDeviceStatus d v).2 = none ∧
      (m.Freeze.1.SetBinaryDeviceStatus d v).1 =
        { m.Freeze.1 with binaryDeviceStatuses := m.binaryDeviceStatuses.set d v } ∧
      (m.Freeze.1.SetBinaryDeviceStatus d v).1.GetBinaryStatusForTag t = (v, none) ∧
      (m.Freeze.1.SetBinaryDeviceStatus d v).1.Unfreeze.1.GetBinaryStatusForTag t = (v, none)) := by
  refine ⟨?_, ?_⟩
  · intro cur v h1 h2 h3
    simp [Freeze, Unfreeze, SetAnalogDeviceValue, setAnalogDeviceValue, isAnalogDevice,
      GetAnalogValueForTag, getAnalogValueForTag, getAnalogDeviceValue, GoMap.has,
      GoMap.get_set_self, h1, h2, h3]
  · intro cur v h1 h2 h3
    simp [Freeze, Unfreeze, SetBinaryDeviceStatus, setBinaryDeviceStatus, isBinaryDevice,
      GetBinaryStatusForTag, getBinaryStatusForTag, getBinaryDeviceStatus, GoMap.has,
      GoMap.get_set_self, h1, h2, h3]

/-- Witness of the amended C3 on `sampleMemory`. -/
theorem device_write_bypasses_freeze_witness :
    (sampleMemory.analogTags.get "t" = some "io" ∧
      sampleMemory.analogModules.get "io" = some "d" ∧
      sampleMemory.analogDeviceValues.get "d" = some Float64.one) ∧
    (sampleMemory.Freeze.1.SetAnalogDeviceValue "d" Float64.two).1.GetAnalogValueForTag "t"
      = (Float64.two, none) :=
  ⟨⟨by decide, by decide, by decide⟩,
    ((device_write_bypasses_freeze sampleMemory "t" "io" "d").1 Float64.one Float64.two
      (by decide) (by decide) (by decide)).2.2.1⟩

/-- C4, refuted as stated: `Freeze()` on a frozen memory does not return an
error.  The memory is `NewMemory` after one `Freeze()`. -/
theorem nested_freeze_not_rejected :
    ¬ ∀ m : Memory, m.frozen = true → m.Freeze.2 ≠ none := by
  intro h
  exact h NewMemory.Freeze.1 rfl rfl

/-- C4, amended: `Freeze()` never returns an error.  On every memory, frozen
or not, it returns nil, leaves `frozen` true and every other field but the
five shadow maps as it was, and replaces the five shadow maps by empty ones;
so an `Unfreeze()` that follows it directly leaves the five primary maps as
they were before the `Freeze()`: what the shadow maps held is not applied. -/
theorem freeze_always_succeeds (m : Memory) :
    m.Freeze.2 = none ∧
    m.Freeze.1 =
      { m with
        frozen := true,
        frozenUpdatedBinaryTags := [],
        frozenUpdatedAnalogTags := [],
        frozenInternalBinaryTags := [],
        frozenInternalAnalogTags := [],
        frozenInternalStringTags := [] } ∧
    m.Freeze.1.Unfreeze.1.updatedBinaryTags = m.updatedBinaryTags ∧
    m.Freeze.1.Unfreeze.1.updatedAnalogTags = m.updatedAnalogTags ∧
    m.Freeze.1.Unfreeze.1.internalBinaryTags = m.internalBinaryTags ∧
    m.Freeze.1.Unfreeze.1.internalAnalogTags = m.internalAnalogTags ∧
    m.Freeze.1.Unfreeze.1.internalStringTags = m.internalStringTags :=
  ⟨rfl, rfl, rfl, rfl, rfl, rfl, rfl⟩

/-! ## Reads and writes of single tags -/

/-- C8. External reads resolve through module and device.  For an external
binary tag `t` (a key of `binaryTags`, bound to module `mo`):
`GetBinaryStatusForTag(t)` returns `binaryDeviceStatuses[d]` and no error when
`binaryModules[mo] = d` and `d` is a registered binary device, and an error
when `mo` is unbound or `d` is unregistered.  A tag that is not external
returns its internal value, and an error when it is not an internal binary
tag.  The same holds for analog tags. -/
theorem external_reads_resolve_through_module (m : Memory) (t : String) :
    (∀ mo, m.binaryTags.get t = some mo →
      (∀ d, m.binaryModules.get mo = some d →
        (∀ s, m.binaryDeviceStatuses.get d = some s → m.GetBinaryStatusForTag t = (s, none)) ∧
        (m.binaryDeviceStatuses.get d = none → (m.GetBinaryStatusForTag t).2 ≠ none)) ∧
      (m.binaryModules.get mo = none → (m.GetBinaryStatusForTag t).2 ≠ none)) ∧
    (m.binaryTags.get t = none →
      (∀ s, m.internalBinaryTags.get t = some s → m.GetBinaryStatusForTag t = (s, none)) ∧
      (m.internalBinaryTags.get t = none → (m.GetBinaryStatusForTag t).2 ≠ none)) ∧
    (∀ mo, m.analogTags.get t = some mo →
      (∀ d, m.analogModules.get mo = some d →
        (∀ v, m.analogDeviceValues.get d = some v → m.GetAnalogValueForTag t = (v, none)) ∧
        (m.analogDeviceValues.get d = none → (m.GetAnalogValueForTag t).2 ≠ none)) ∧
      (m.analogModules.get mo = none → (m.GetAnalogValueForTag t).2 ≠ none)) ∧
    (m.analogTags.get t = none →
      (∀ v, m.internalAnalogTags.get t = some v → m.GetAnalogValueForTag t = (v, none)) ∧
      (m.internalAnalogTags.get t = none → (m.GetAnalogValueForTag t).2 ≠ none)) := by
  refine ⟨?_, ?_, ?_, ?_⟩
  · intro mo h1
    refine ⟨fun d h2 => ⟨fun s h3 => ?_, fun h3 => ?_⟩, fun h2 => ?_⟩ <;>
      simp [GetBinaryStatusForTag, getBinaryStatusForTag, getBinaryDeviceStatus, *]
  · intro h1
    refine ⟨fun s h2 => ?_, fun h2 => ?_⟩ <;>
      simp [GetBinaryStatusForTag, getBinaryStatusForTag, *]
  · intro mo h1
    refine ⟨fun d h2 => ⟨fun s h3 => ?_, fun h3 => ?_⟩, fun h2 => ?_⟩ <;>
      simp [GetAnalogValueForTag, getAnalogValueForTag, getAnalogDeviceValue, *]
  · intro h1
    refine ⟨fun s h2 => ?_, fun h2 => ?_⟩ <;>
      simp [GetAnalogValueForTag, getAnalogValueForTag, *]

/-- Witness of C8 on `sampleMemory`: the external binary tag `bt` reads the
status of the device `bd`. -/
theorem external_reads_resolve_through_module_witness :
    (sampleMemory.binaryTags.get "bt" = some "bio" ∧
      sampleMemory.binaryModules.get "bio" = some "bd" ∧
      sampleMemory.binaryDeviceStatuses.get "bd" = some false) ∧
    sampleMemory.GetBinaryStatusForTag "bt" = (false, none) :=
  ⟨⟨by decide, by decide, by decide⟩,
    (((external_reads_resolve_through_module sampleMemory "bt").1 "bio" (by decide)).1
      "bd" (by decide)).1 false (by decide)⟩

/-- C9. Write routing when not frozen.  On an unfrozen memory
`UpdateAnalogTag(t, v)` on an external analog tag returns nil and changes only
the pending buffer, where `t` now maps to `v` and every other key is as
before, so `GetAnalogValueForTag(t)` returns what it returned before; on an
analog tag that is internal only it changes only `internalAnalogTags`, in the
same way.  The same holds for `UpdateBinaryTag`, and `UpdateStringTag` changes
only `internalStringTags`. -/
theorem unfrozen_write_routing (m : Memory) (t : String) (hf : m.frozen = false) :
    (∀ v : Float64, m.analogTags.has t = true →
      m.UpdateAnalogTag t v =
        ({ m with updatedAnalogTags := m.updatedAnalogTags.set t v }, none) ∧
      (∀ k, (m.updatedAnalogTags.set t v).get k
        = if t = k then some v else m.updatedAnalogTags.get k) ∧
      (m.UpdateAnalogTag t v).1.GetAnalogValueForTag t = m.GetAnalogValueForTag t) ∧
    (∀ v : Float64, m.analogTags.has t = false → m.internalAnalogTags.has t = true →
      m.UpdateAnalogTag t v =
        ({ m with internalAnalogTags := m.internalAnalogTags.set t v }, none) ∧
      (∀ k, (m.internalAnalogTags.set t v).get k
        = if t = k then some v else m.internalAnalogTags.get k)) ∧
    (∀ v : Bool, m.binaryTags.has t = true →
      m.UpdateBinaryTag t v =
        ({ m with updatedBinaryTags := m.updatedBinaryTags.set t v }, none) ∧
      (∀ k, (m.updatedBinaryTags.set t v).get k
        = if t = k then some v else m.updatedBinaryTags.get k) ∧
      (m.UpdateBinaryTag t v).1.GetBinaryStatusForTag t = m.GetBinaryStatusForTag t) ∧
    (∀ v : Bool, m.binaryTags.has t = false → m.internalBinaryTags.has t = true →
      m.UpdateBinaryTag t v =
        ({ m with internalBinaryTags := m.internalBinaryTags.set t v }, none) ∧
      (∀ k, (m.internalBinaryTags.set t v).get k
        = if t = k then some v else m.internalBinaryTags.get k)) ∧
    (∀ v : String, m.internalStringTags.has t = true →
      m.UpdateStringTag t v =
        ({ m with internalStringTags := m.internalStringTags.set t v }, none) ∧
      (∀ k, (m.internalStringTags.set t v).get k
        = if t = k then some v else m.internalStringTags.get k)) := by
  refine ⟨?_, ?_, ?_, ?_, ?_⟩
  · intro v h1
    have h2 : m.UpdateAnalogTag t v =
        ({ m with updatedAnalogTags := m.updatedAnalogTags.set t v }, none) := by
      simp [UpdateAnalogTag, h1, hf]
    exact ⟨h2, fun k => GoMap.get_set _ _ _ _, by rw [h2]; rfl⟩
  · intro v h1 h2
    exact ⟨by simp [UpdateAnalogTag, h1, h2, hf], fun k => GoMap.get_set _ _ _ _⟩
  · intro v h1
    have h2 : m.UpdateBinaryTag t v =
        ({ m with updatedBinaryTags := m.updatedBinaryTags.set t v }, none) := by
      simp [UpdateBinaryTag, h1, hf]
    exact ⟨h2, fun k => GoMap.get_set _ _ _ _, by rw [h2]; rfl⟩
  · intro v h1 h2
    exact ⟨by simp [UpdateBinaryTag, h1, h2, hf], fun k => GoMap.get_set _ _ _ _⟩
  · intro v h1
    exact ⟨by simp [UpdateStringTag, h1, hf], fun k => GoMap.get_set _ _ _ _⟩

/-- Witness of C9 on `sampleMemory`: a write of 2.0 to the external tag `t`
lands in the pending buffer and `t` still reads the device value 1.0. -/
theorem unfrozen_write_routing_witness :
    (sampleMemory.frozen = false ∧ sampleMemory.analogTags.has "t" = true) ∧
    (sampleMemory.UpdateAnalogTag "t" Float64.two).1.updatedAnalogTags.get "t"
      = some Float64.two ∧
    (sampleMemory.UpdateAnalogTag "t" Float64.two).1.GetAnalogValueForTag "t"
      = (Float64.one, none) :=
  ⟨⟨by decide, by decide⟩,
    by rw [((unfrozen_write_routing sampleMemory "t" (by decide)).1 Float64.two (by decide)).1]
       decide,
    by rw [((unfrozen_write_routing sampleMemory "t" (by decide)).1 Float64.two (by decide)).2.2]
       decide⟩

/-- C10. Write failure is exact and atomic.  On every memory, frozen or not,
`UpdateBinaryTag(t, _)` returns an error exactly when `t` is neither a key of
`binaryTags` nor a key of `internalBinaryTags`, `UpdateAnalogTag` and
`UpdateStringTag` likewise for their kind, and a call that returns an error
leaves the memory as it was. -/
theorem write_failure_exact_and_atomic (m : Memory) (t : String) :
    (∀ s : Bool,
      ((m.UpdateBinaryTag t s).2 ≠ none ↔
        (m.binaryTags.has t = false ∧ m.internalBinaryTags.has t = false)) ∧
      ((m.UpdateBinaryTag t s).2 ≠ none → (m.UpdateBinaryTag t s).1 = m)) ∧
    (∀ v : Float64,
      ((m.UpdateAnalogTag t v).2 ≠ none ↔
        (m.analogTags.has t = false ∧ m.internalAnalogTags.has t = false)) ∧
      ((m.UpdateAnalogTag t v).2 ≠ none → (m.UpdateAnalogTag t v).1 = m)) ∧
    (∀ v : String,
      ((m.UpdateStringTag t v).2 ≠ none ↔ m.internalStringTags.has t = false) ∧
      ((m.UpdateStringTag t v).2 ≠ none → (m.UpdateStringTag t v).1 = m)) := by
  refine ⟨fun s => ?_, fun v => ?_, fun v => ?_⟩
  · unfold UpdateBinaryTag
    cases m.binaryTags.has t <;> cases m.internalBinaryTags.has t <;> cases m.frozen <;> simp
  · unfold UpdateAnalogTag
    cases m.analogTags.has t <;> cases m.internalAnalogTags.has t <;> cases m.frozen <;> simp
  · unfold UpdateStringTag
    cases m.internalStringTags.has t <;> cases m.frozen <;> simp

/-- Witness of C10 on `sampleMemory`: a binary write to the analog tag `x`
fails and changes nothing. -/
theorem write_failure_exact_and_atomic_witness :
    (sampleMemory.UpdateBinaryTag "x" true).2 ≠ none ∧
    (sampleMemory.UpdateBinaryTag "x" true).1 = sampleMemory :=
  ⟨(((write_failure_exact_and_atomic sampleMemory "x").1 true).1).mpr ⟨by decide, by decide⟩,
    ((write_failure_exact_and_atomic sampleMemory "x").1 true).2
      ((((write_failure_exact_and_atomic sampleMemory "x").1 true).1).mpr
        ⟨by decide, by decide⟩)⟩

end Memory

/-! ## Writes made during a freeze -/

namespace Write

open Memory

/-- One write on a frozen memory leaves it frozen and changes none of the
twelve fields that are not shadow maps. -/
theorem apply_frozen_frame (m : Memory) (w : Write) (hf : m.frozen = true) :
    (apply m w).1.frozen = true ∧
    (apply m w).1.binaryTags = m.binaryTags ∧
    (apply m w).1.analogTags = m.analogTags ∧
    (apply m w).1.binaryModules = m.binaryModules ∧
    (apply m w).1.analogModules = m.analogModules ∧
    (apply m w).1.updatedBinaryTags = m.updatedBinaryTags ∧
    (apply m w).1.updatedAnalogTags = m.updatedAnalogTags ∧
    (apply m w).1.internalBinaryTags = m.internalBinaryTags ∧
    (apply m w).1.internalAnalogTags = m.internalAnalogTags ∧
    (apply m w).1.internalStringTags = m.internalStringTags ∧
    (apply m w).1.binaryDeviceStatuses = m.binaryDeviceStatuses ∧
    (apply m w).1.analogDeviceValues = m.analogDeviceValues := by
  cases w with
  | binary t v =>
    simp only [apply, UpdateBinaryTag, hf]
    cases m.binaryTags.has t <;> cases m.internalBinaryTags.has t <;> simp [hf]
  | analog t v =>
    simp only [apply, UpdateAnalogTag, hf]
    cases m.analogTags.has t <;> cases m.internalAnalogTags.has t <;> simp [hf]
  | string t v =>
    simp only [apply, UpdateStringTag, hf]
    cases m.internalStringTags.has t <;> simp [hf]

theorem run_cons (m : Memory) (w : Write) (ws : List Write) :
    run m (w :: ws) =
      ((run (apply m w).1 ws).1,
        if (apply m w).2 = none then w :: (run (apply m w).1 ws).2
        else (run (apply m w).1 ws).2) := by
  rw [run]
  rcases h : apply m w with ⟨m', _ | e⟩ <;> simp

/-- A run of writes on a frozen memory leaves it frozen and changes none of
the twelve fields that are not shadow maps. -/
theorem run_frozen_frame (ws : List Write) : ∀ (m : Memory), m.frozen = true →
    (run m ws).1.frozen = true ∧
    (run m ws).1.binaryTags = m.binaryTags ∧
    (run m ws).1.analogTags = m.analogTags ∧
    (run m ws).1.binaryModules = m.binaryModules ∧
    (run m ws).1.analogModules = m.analogModules ∧
    (run m ws).1.updatedBinaryTags = m.updatedBinaryTags ∧
    (run m ws).1.updatedAnalogTags = m.updatedAnalogTags ∧
    (run m ws).1.internalBinaryTags = m.internalBinaryTags ∧
    (run m ws).1.internalAnalogTags = m.internalAnalogTags ∧
    (run m ws).1.internalStringTags = m.internalStringTags ∧
    (run m ws).1.binaryDeviceStatuses = m.binaryDeviceStatuses ∧
    (run m ws).1.analogDeviceValues = m.analogDeviceValues := by
  induction ws with
  | nil => intro m hf; simp [run, hf]
  | cons w ws ih =>
    intro m hf
    obtain ⟨h0, h1, h2, h3, h4, h5, h6, h7, h8, h9, h10, h11⟩ := apply_frozen_frame m w hf
    have := ih (apply m w).1 h0
    rw [run_cons]
    simp only [h1, h2, h3, h4, h5, h6, h7, h8, h9, h10, h11] at this
    exact this

/-- One write keeps the keys of the five shadow maps free of repetitions. -/
theorem apply_nodup (m : Memory) (w : Write)
    (h : m.frozenUpdatedBinaryTags.keys.Nodup ∧ m.frozenUpdatedAnalogTags.keys.Nodup ∧
      m.frozenInternalBinaryTags.keys.Nodup ∧ m.frozenInternalAnalogTags.keys.Nodup ∧
      m.frozenInternalStringTags.keys.Nodup) :
    (apply m w).1.frozenUpdatedBinaryTags.keys.Nodup ∧
    (apply m w).1.frozenUpdatedAnalogTags.keys.Nodup ∧
    (apply m w).1.frozenInternalBinaryTags.keys.Nodup ∧
    (apply m w).1.frozenInternalAnalogTags.keys.Nodup ∧
    (apply m w).1.frozenInternalStringTags.keys.Nodup := by
  obtain ⟨h1, h2, h3, h4, h5⟩ := h
  cases w with
  | binary t v =>
    simp only [apply, UpdateBinaryTag]
    cases m.binaryTags.has t <;> cases m.internalBinaryTags.has t <;> cases m.frozen <;>
      simp [h1, h2, h3, h4, h5, GoMap.nodup_keys_set]
  | analog t v =>
    simp only [apply, UpdateAnalogTag]
    cases m.analogTags.has t <;> cases m.internalAnalogTags.has t <;> cases m.frozen <;>
      simp [h1, h2, h3, h4, h5, GoMap.nodup_keys_set]
  | string t v =>
    simp only [apply, UpdateStringTag]
    cases m.internalStringTags.has t <;> cases m.frozen <;>
      simp [h1, h2, h3, h4, h5, GoMap.nodup_keys_set]

/-- A run of writes keeps the keys of the five shadow maps free of
repetitions. -/
theorem run_nodup (ws : List Write) : ∀ (m : Memory),
    (m.frozenUpdatedBinaryTags.keys.Nodup ∧ m.frozenUpdatedAnalogTags.keys.Nodup ∧
      m.frozenInternalBinaryTags.keys.Nodup ∧ m.frozenInternalAnalogTags.keys.Nodup ∧
      m.frozenInternalStringTags.keys.Nodup) →
    (run m ws).1.frozenUpdatedBinaryTags.keys.Nodup ∧
    (run m ws).1.frozenUpdatedAnalogTags.keys.Nodup ∧
    (run m ws).1.frozenInternalBinaryTags.keys.Nodup ∧
    (run m ws).1.frozenInternalAnalogTags.keys.Nodup ∧
    (run m ws).1.frozenInternalStringTags.keys.Nodup := by
  induction ws with
  | nil => intro m h; simpa [run] using h
  | cons w ws ih =>
    intro m h
    rw [run_cons]
    exact ih _ (apply_nodup m w h)

theorem lastAnalog_cons (t : String) (w : Write) (l : List Write) :
    lastAnalog t (w :: l) = (lastAnalog t l).or (lastAnalog t [w]) := by
  cases w <;> cases h : lastAnalog t l <;> simp [lastAnalog, h]

theorem lastBinary_cons (t : String) (w : Write) (l : List Write) :
    lastBinary t (w :: l) = (lastBinary t l).or (lastBinary t [w]) := by
  cases w <;> cases h : lastBinary t l <;> simp [lastBinary, h]

theorem lastString_cons (t : String) (w : Write) (l : List Write) :
    lastString t (w :: l) = (lastString t l).or (lastString t [w]) := by
  cases w <;> cases h : lastString t l <;> simp [lastString, h]

theorem lastAnalog_log (t : String) (w : Write) (l : List Write) (e : Option String) :
    lastAnalog t (if e = none then w :: l else l) =
      (lastAnalog t l).or (lastAnalog t (if e = none then [w] else [])) := by
  cases e with
  | none => simpa using lastAnalog_cons t w l
  | some e => simp [lastAnalog]

theorem lastBinary_log (t : String) (w : Write) (l : List Write) (e : Option String) :
    lastBinary t (if e = none then w :: l else l) =
      (lastBinary t l).or (lastBinary t (if e = none then [w] else [])) := by
  cases e with
  | none => simpa using lastBinary_cons t w l
  | some e => simp [lastBinary]

theorem lastString_log (t : String) (w : Write) (l : List Write) (e : Option String) :
    lastString t (if e = none then w :: l else l) =
      (lastString t l).or (lastString t (if e = none then [w] else [])) := by
  cases e with
  | none => simpa using lastString_cons t w l
  | some e => simp [lastString]

/-- What one write on a frozen memory does to the two analog shadow maps. -/
theorem apply_frozen_analog (m : Memory) (w : Write) (hf : m.frozen = true) (t : String) :
    (apply m w).1.frozenUpdatedAnalogTags.get t =
      (if m.analogTags.has t then lastAnalog t (if (apply m w).2 = none then [w] else [])
        else none).or (m.frozenUpdatedAnalogTags.get t) ∧
    (apply m w).1.frozenInternalAnalogTags.get t =
      (if m.analogTags.has t then none
        else lastAnalog t (if (apply m w).2 = none then [w] else [])).or
        (m.frozenInternalAnalogTags.get t) := by
  cases w with
  | binary t' v =>
    simp only [apply, UpdateBinaryTag, hf]
    cases m.binaryTags.has t' <;> cases m.internalBinaryTags.has t' <;> simp [lastAnalog]
  | string t' v =>
    simp only [apply, UpdateStringTag, hf]
    cases m.internalStringTags.has t' <;> simp [lastAnalog]
  | analog t' v =>
    simp only [apply, UpdateAnalogTag, hf]
    by_cases ht : t' = t
    · subst ht
      cases h1 : m.analogTags.has t' <;> cases h3 : m.internalAnalogTags.has t' <;>
        simp [lastAnalog, GoMap.get_set_self]
    · cases h1 : m.analogTags.has t' <;> cases h3 : m.internalAnalogTags.has t' <;>
        cases h4 : m.analogTags.has t <;>
        simp [lastAnalog, ht, GoMap.get_set_ne]

/-- What the two analog shadow maps hold after a run of writes on a frozen
memory: the last successful analog write to each tag, in the shadow of the
pending buffer when the tag is external and in the shadow of the internal
store when it is not. -/
theorem run_frozen_analog (ws : List Write) : ∀ (m : Memory), m.frozen = true → ∀ t : String,
    (run m ws).1.frozenUpdatedAnalogTags.get t =
      (if m.analogTags.has t then lastAnalog t (run m ws).2 else none).or
        (m.frozenUpdatedAnalogTags.get t) ∧
    (run m ws).1.frozenInternalAnalogTags.get t =
      (if m.analogTags.has t then none else lastAnalog t (run m ws).2).or
        (m.frozenInternalAnalogTags.get t) := by
  induction ws with
  | nil => intro m hf t; simp [run, lastAnalog]
  | cons w ws ih =>
    intro m hf t
    obtain ⟨h0, -, h2, -⟩ := apply_frozen_frame m w hf
    have h3 := ih (apply m w).1 h0 t
    have h4 := apply_frozen_analog m w hf t
    rw [run_cons]
    simp only [h2] at h3
    dsimp only
    rw [lastAnalog_log t w (run (apply m w).1 ws).2, h3.1, h3.2, h4.1, h4.2]
    generalize lastAnalog t (if (apply m w).2 = none then [w] else []) = a
    generalize lastAnalog t (run (apply m w).1 ws).2 = b
    cases m.analogTags.has t <;> cases a <;> cases b <;> simp

/-- What one write on a frozen memory does to the two binary shadow maps. -/
theorem apply_frozen_binary (m : Memory) (w : Write) (hf : m.frozen = true) (t : String) :
    (apply m w).1.frozenUpdatedBinaryTags.get t =
      (if m.binaryTags.has t then lastBinary t (if (apply m w).2 = none then [w] else [])
        else none).or (m.frozenUpdatedBinaryTags.get t) ∧
    (apply m w).1.frozenInternalBinaryTags.get t =
      (if m.binaryTags.has t then none
        else lastBinary t (if (apply m w).2 = none then [w] else [])).or
        (m.frozenInternalBinaryTags.get t) := by
  cases w with
  | analog t' v =>
    simp only [apply, UpdateAnalogTag, hf]
    cases m.analogTags.has t' <;> cases m.internalAnalogTags.has t' <;> simp [lastBinary]
  | string t' v =>
    simp only [apply, UpdateStringTag, hf]
    cases m.internalStringTags.has t' <;> simp [lastBinary]
  | binary t' v =>
    simp only [apply, UpdateBinaryTag, hf]
    by_cases ht : t' = t
    · subst ht
      cases h1 : m.binaryTags.has t' <;> cases h3 : m.internalBinaryTags.has t' <;>
        simp [lastBinary, GoMap.get_set_self]
    · cases h1 : m.binaryTags.has t' <;> cases h3 : m.internalBinaryTags.has t' <;>
        cases h4 : m.binaryTags.has t <;>
        simp [lastBinary, ht, GoMap.get_set_ne]

/-- What the two binary shadow maps hold after a run of writes on a frozen
memory: the last successful binary write to each tag, in the shadow of the
pending buffer when the tag is external and in the shadow of the internal
store when it is not. -/
theorem run_frozen_binary (ws : List Write) : ∀ (m : Memory), m.frozen = true → ∀ t : String,
    (run m ws).1.frozenUpdatedBinaryTags.get t =
      (if m.binaryTags.has t then lastBinary t (run m ws).2 else none).or
        (m.frozenUpdatedBinaryTags.get t) ∧
    (run m ws).1.frozenInternalBinaryTags.get t =
      (if m.binaryTags.has t then none else lastBinary t (run m ws).2).or
        (m.frozenInternalBinaryTags.get t) := by
  induction ws with
  | nil => intro m hf t; simp [run, lastBinary]
  | cons w ws ih =>
    intro m hf t
    obtain ⟨h0, h2, -⟩ := apply_frozen_frame m w hf
    have h3 := ih (apply m w).1 h0 t
    have h4 := apply_frozen_binary m w hf t
    rw [run_cons]
    simp only [h2] at h3
    dsimp only
    rw [lastBinary_log t w (run (apply m w).1 ws).2, h3.1, h3.2, h4.1, h4.2]
    generalize lastBinary t (if (apply m w).2 = none then [w] else []) = a
    generalize lastBinary t (run (apply m w).1 ws).2 = b
    cases m.binaryTags.has t <;> cases a <;> cases b <;> simp

/-- What one write on a frozen memory does to the string shadow map. -/
theorem apply_frozen_string (m : Memory) (w : Write) (hf : m.frozen = true) (t : String) :
    (apply m w).1.frozenInternalStringTags.get t =
      (lastString t (if (apply m w).2 = none then [w] else [])).or
        (m.frozenInternalStringTags.get t) := by
  cases w with
  | binary t' v =>
    simp only [apply, UpdateBinaryTag, hf]
    cases m.binaryTags.has t' <;> cases m.internalBinaryTags.has t' <;> simp [lastString]
  | analog t' v =>
    simp only [apply, UpdateAnalogTag, hf]
    cases m.analogTags.has t' <;> cases m.internalAnalogTags.has t' <;> simp [lastString]
  | string t' v =>
    simp only [apply, UpdateStringTag, hf]
    by_cases ht : t' = t
    · subst ht
      cases h3 : m.internalStringTags.has t' <;> simp [lastString, GoMap.get_set_self]
    · cases h3 : m.internalStringTags.has t' <;> simp [lastString, ht, GoMap.get_set_ne]

/-- What the string shadow map holds after a run of writes on a frozen memory:
the last successful string write to each tag. -/
theorem run_frozen_string (ws : List Write) : ∀ (m : Memory), m.frozen = true → ∀ t : String,
    (run m ws).1.frozenInternalStringTags.get t =
      (lastString t (run m ws).2).or (m.frozenInternalStringTags.get t) := by
  induction ws with
  | nil => intro m hf t; simp [run, lastString]
  | cons w ws ih =>
    intro m hf t
    obtain ⟨h0, -⟩ := apply_frozen_frame m w hf
    have h3 := ih (apply m w).1 h0 t
    have h4 := apply_frozen_string m w hf t
    rw [run_cons]
    dsimp only
    rw [lastString_log t w (run (apply m w).1 ws).2, h3, h4]
    generalize lastString t (if (apply m w).2 = none then [w] else []) = a
    generalize lastString t (run (apply m w).1 ws).2 = b
    cases a <;> cases b <;> simp

end Write

namespace Memory

/-- What the five primary maps hold after `Freeze()`, a run of writes and
`Unfreeze()`: at every tag the last successful write of the run when there is
one for that map, and the entry from before the freeze when there is none. -/
theorem thaw_stores (m : Memory) (ws : List Write) (t : String) :
    (Write.run m.Freeze.1 ws).1.Unfreeze.1.updatedBinaryTags.get t =
      (if m.binaryTags.has t then Write.lastBinary t (Write.run m.Freeze.1 ws).2 else none).or
        (m.updatedBinaryTags.get t) ∧
    (Write.run m.Freeze.1 ws).1.Unfreeze.1.internalBinaryTags.get t =
      (if m.binaryTags.has t then none else Write.lastBinary t (Write.run m.Freeze.1 ws).2).or
        (m.internalBinaryTags.get t) ∧
    (Write.run m.Freeze.1 ws).1.Unfreeze.1.updatedAnalogTags.get t =
      (if m.analogTags.has t then Write.lastAnalog t (Write.run m.Freeze.1 ws).2 else none).or
        (m.updatedAnalogTags.get t) ∧
    (Write.run m.Freeze.1 ws).1.Unfreeze.1.internalAnalogTags.get t =
      (if m.analogTags.has t then none else Write.lastAnalog t (Write.run m.Freeze.1 ws).2).or
        (m.internalAnalogTags.get t) ∧
    (Write.run m.Freeze.1 ws).1.Unfreeze.1.internalStringTags.get t =
      (Write.lastString t (Write.run m.Freeze.1 ws).2).or (m.internalStringTags.get t) := by
  have hf : m.Freeze.1.frozen = true := rfl
  obtain ⟨-, -, -, -, -, f5, f6, f7, f8, f9, -, -⟩ := Write.run_frozen_frame ws m.Freeze.1 hf
  obtain ⟨n1, n2, n3, n4, n5⟩ := Write.run_nodup ws m.Freeze.1 (by simp [Freeze, GoMap.keys])
  have hb := Write.run_frozen_binary ws m.Freeze.1 hf t
  have ha := Write.run_frozen_analog ws m.Freeze.1 hf t
  have hs := Write.run_frozen_string ws m.Freeze.1 hf t
  simp only [Unfreeze]
  rw [GoMap.get_merge_or _ _ n1, GoMap.get_merge_or _ _ n2, GoMap.get_merge_or _ _ n3,
    GoMap.get_merge_or _ _ n4, GoMap.get_merge_or _ _ n5, hb.1, hb.2, ha.1, ha.2, hs,
    f5, f6, f7, f8, f9]
  simp [Freeze]

/-- C2. Last-writer-wins on thaw.  Take any memory `m`, call `Freeze()`, make
any list `ws` of `UpdateBinaryTag` / `UpdateAnalogTag` / `UpdateStringTag`
calls and call `Unfreeze()`.  Then `frozen` is false, and for every tag `t`
and each kind: when the calls that returned nil contain a write of that kind
to `t`, the last of them being of value `v`, the primary store of `t` (the
pending buffer when `t` is external, the internal store when it is not) maps
`t` to `v` and the other store of that kind keeps its entry for `t`; when
they contain none, both stores keep their entry for `t` from before the
freeze.  The tag, module and device maps are as before the freeze. -/
theorem last_writer_wins_on_thaw (m : Memory) (ws : List Write) (t : String) :
    (Write.run m.Freeze.1 ws).1.Unfreeze.1.frozen = false ∧
    ((∀ v, Write.lastAnalog t (Write.run m.Freeze.1 ws).2 = some v →
        (m.analogTags.has t = true →
          (Write.run m.Freeze.1 ws).1.Unfreeze.1.updatedAnalogTags.get t = some v ∧
          (Write.run m.Freeze.1 ws).1.Unfreeze.1.internalAnalogTags.get t
            = m.internalAnalogTags.get t) ∧
        (m.analogTags.has t = false →
          (Write.run m.Freeze.1 ws).1.Unfreeze.1.internalAnalogTags.get t = some v ∧
          (Write.run m.Freeze.1 ws).1.Unfreeze.1.updatedAnalogTags.get t
            = m.updatedAnalogTags.get t)) ∧
      (Write.lastAnalog t (Write.run m.Freeze.1 ws).2 = none →
        (Write.run m.Freeze.1 ws).1.Unfreeze.1.updatedAnalogTags.get t
          = m.updatedAnalogTags.get t ∧
        (Write.run m.Freeze.1 ws).1.Unfreeze.1.internalAnalogTags.get t
          = m.internalAnalogTags.get t)) ∧
    ((∀ v, Write.lastBinary t (Write.run m.Freeze.1 ws).2 = some v →
        (m.binaryTags.has t = true →
          (Write.run m.Freeze.1 ws).1.Unfreeze.1.updatedBinaryTags.get t = some v ∧
          (Write.run m.Freeze.1 ws).1.Unfreeze.1.internalBinaryTags.get t
            = m.internalBinaryTags.get t) ∧
        (m.binaryTags.has t = false →
          (Write.run m.Freeze.1 ws).1.Unfreeze.1.internalBinaryTags.get t = some v ∧
          (Write.run m.Freeze.1 ws).1.Unfreeze.1.updatedBinaryTags.get t
            = m.updatedBinaryTags.get t)) ∧
      (Write.lastBinary t (Write.run m.Freeze.1 ws).2 = none →
        (Write.run m.Freeze.1 ws).1.Unfreeze.1.updatedBinaryTags.get t
          = m.updatedBinaryTags.get t ∧
        (Write.run m.Freeze.1 ws).1.Unfreeze.1.internalBinaryTags.get t
          = m.internalBinaryTags.get t)) ∧
    ((∀ v, Write.lastString t (Write.run m.Freeze.1 ws).2 = some v →
        (Write.run m.Freeze.1 ws).1.Unfreeze.1.internalStringTags.get t = some v) ∧
      (Write.lastString t (Write.run m.Freeze.1 ws).2 = none →
        (Write.run m.Freeze.1 ws).1.Unfreeze.1.internalStringTags.get t
          = m.internalStringTags.get t)) ∧
    ((Write.run m.Freeze.1 ws).1.Unfreeze.1.binaryTags = m.binaryTags ∧
      (Write.run m.Freeze.1 ws).1.Unfreeze.1.analogTags = m.analogTags ∧
      (Write.run m.Freeze.1 ws).1.Unfreeze.1.binaryModules = m.binaryModules ∧
      (Write.run m.Freeze.1 ws).1.Unfreeze.1.analogModules = m.analogModules ∧
      (Write.run m.Freeze.1 ws).1.Unfreeze.1.binaryDeviceStatuses = m.binaryDeviceStatuses ∧
      (Write.run m.Freeze.1 ws).1.Unfreeze.1.analogDeviceValues = m.analogDeviceValues) := by
  obtain ⟨s1, s2, s3, s4, s5⟩ := thaw_stores m ws t
  obtain ⟨-, f1, f2, f3, f4, -, -, -, -, -, f10, f11⟩ :=
    Write.run_frozen_frame ws m.Freeze.1 rfl
  refine ⟨rfl, ⟨?_, ?_⟩, ⟨?_, ?_⟩, ⟨?_, ?_⟩, ?_⟩
  · intro v hv
    rw [s3, s4, hv]
    constructor <;> intro h <;> simp [h]
  · intro hv
    rw [s3, s4, hv]
    simp
  · intro v hv
    rw [s1, s2, hv]
    constructor <;> intro h <;> simp [h]
  · intro hv
    rw [s1, s2, hv]
    simp
  · intro v hv
    rw [s5, hv]
    simp
  · intro hv
    rw [s5, hv]
    simp
  · exact ⟨f1, f2, f3, f4, f10, f11⟩

/-- Witness of C2 on `sampleMemory` and `sampleWrites`: the external tag `t`,
written 1.0 and then 2.0 during the freeze, has 2.0 pending after the thaw. -/
theorem last_writer_wins_on_thaw_witness :
    (Write.lastAnalog "t" (Write.run sampleMemory.Freeze.1 sampleWrites).2 = some Float64.two ∧
      sampleMemory.analogTags.has "t" = true) ∧
    (Write.run sampleMemory.Freeze.1 sampleWrites).1.Unfreeze.1.updatedAnalogTags.get "t"
      = some Float64.two :=
  ⟨⟨by decide, by decide⟩,
    (((last_writer_wins_on_thaw sampleMemory sampleWrites "t").2.1.1 Float64.two
      (by decide)).1 (by decide)).1⟩

end Memory

/-! ## Draining the pending outputs -/

namespace Memory

/-- The four ways through the body of the loop of `UpdateAnalogDevices`: the
entry is skipped, it is dropped as unchanged, `yield` fails, or `yield`
succeeds. -/
theorem analogDrainStep_cases {σ : Type} (yield : σ → String → Float64 → σ × Option String)
    (s : Drain σ Float64) (e : String × Float64) :
    (analogDrainStep yield s e = s ∧
      (s.mem.analogDeviceOf e.1 = none ∨
        ∃ d, s.mem.analogDeviceOf e.1 = some d ∧ s.mem.analogDeviceValues.get d = none)) ∨
    (∃ d cur, s.mem.analogDeviceOf e.1 = some d ∧ s.mem.analogDeviceValues.get d = some cur ∧
      ((Float64.eq e.2 cur = true ∧
          analogDrainStep yield s e =
            { s with mem :=
                { s.mem with updatedAnalogTags := s.mem.updatedAnalogTags.erase e.1 } }) ∨
        (Float64.eq e.2 cur = false ∧ ∃ err, (yield s.env d e.2).2 = some err ∧
          analogDrainStep yield s e =
            { s with
                env := (yield s.env d e.2).1,
                updateErr := some err,
                calls := s.calls ++ [⟨e.1, d, e.2, some err⟩] }) ∨
        (Float64.eq e.2 cur = false ∧ (yield s.env d e.2).2 = none ∧
          analogDrainStep yield s e =
            { mem :=
                { s.mem with
                    analogDeviceValues := s.mem.analogDeviceValues.set d e.2,
                    updatedAnalogTags := s.mem.updatedAnalogTags.erase e.1 },
              env := (yield s.env d e.2).1,
              updateErr := s.updateErr,
              calls := s.calls ++ [⟨e.1, d, e.2, none⟩] }))) := by
  unfold analogDrainStep analogDeviceOf
  cases h1 : s.mem.analogTags.get e.1 with
  | none => simp
  | some mo =>
    dsimp only
    cases h2 : s.mem.analogModules.get mo with
    | none => simp
    | some d =>
      dsimp only
      cases h3 : s.mem.analogDeviceValues.get d with
      | none => simp [getAnalogValueForTag, getAnalogDeviceValue, h1, h2, h3]
      | some cur =>
        right
        refine ⟨d, cur, rfl, h3, ?_⟩
        cases h4 : Float64.eq e.2 cur with
        | true => simp [getAnalogValueForTag, getAnalogDeviceValue, h1, h2, h3, h4]
        | false =>
          rcases h5 : yield s.env d e.2 with ⟨env', _ | err⟩
          · simp [getAnalogValueForTag, getAnalogDeviceValue, setAnalogDeviceValue,
              isAnalogDevice, GoMap.has, h1, h2, h3, h4, h5]
          · simp [getAnalogValueForTag, getAnalogDeviceValue, h1, h2, h3, h4, h5]

/-- The body of the loop changes no field of the memory but the pending
buffer and the device values. -/
theorem analogDrainStep_frame {σ : Type} (yield : σ → String → Float64 → σ × Option String)
    (s : Drain σ Float64) (e : String × Float64) :
    { (analogDrainStep yield s e).mem with updatedAnalogTags := [], analogDeviceValues := [] }
      = { s.mem with updatedAnalogTags := [], analogDeviceValues := [] } := by
  rcases analogDrainStep_cases yield s e with
    ⟨h, -⟩ | ⟨d, cur, -, -, ⟨-, h⟩ | ⟨-, err, -, h⟩ | ⟨-, -, h⟩⟩ <;> rw [h]

theorem analogDeviceOf_congr {m m' : Memory}
    (h : { m with updatedAnalogTags := [], analogDeviceValues := [] }
      = { m' with updatedAnalogTags := [], analogDeviceValues := [] }) (t : String) :
    m.analogDeviceOf t = m'.analogDeviceOf t := by
  have h1 := congrArg (fun x : Memory => x.analogTags) h
  have h2 := congrArg (fun x : Memory => x.analogModules) h
  simp only at h1 h2
  simp [analogDeviceOf, h1, h2]

/-- What the body of the loop leaves alone at the entry `e`: the pending
entries of the other tags, and the values of and the calls on the devices
other than the one the tag of `e` resolves to. -/
theorem analogDrainStep_others {σ : Type} (yield : σ → String → Float64 → σ × Option String)
    (s : Drain σ Float64) (e : String × Float64) :
    (∀ t, t ≠ e.1 →
      (analogDrainStep yield s e).mem.updatedAnalogTags.get t = s.mem.updatedAnalogTags.get t) ∧
    (∀ d, s.mem.analogDeviceOf e.1 ≠ some d →
      (analogDrainStep yield s e).mem.analogDeviceValues.get d = s.mem.analogDeviceValues.get d ∧
      (analogDrainStep yield s e).calls.filter (fun c => decide (c.device = d))
        = s.calls.filter (fun c => decide (c.device = d))) := by
  rcases analogDrainStep_cases yield s e with
    ⟨h, -⟩ | ⟨d, cur, hd, -, ⟨-, h⟩ | ⟨-, err, -, h⟩ | ⟨-, -, h⟩⟩ <;> rw [h]
  · simp
  · refine ⟨fun t ht => ?_, fun d' _ => by simp⟩
    exact GoMap.get_erase_ne _ (Ne.symm ht)
  · refine ⟨fun t _ => rfl, fun d' hd' => ?_⟩
    have : d ≠ d' := fun h' => hd' (h' ▸ hd)
    simp [List.filter_append, this]
  · refine ⟨fun t ht => ?_, fun d' hd' => ?_⟩
    · exact GoMap.get_erase_ne _ (Ne.symm ht)
    · have : d ≠ d' := fun h' => hd' (h' ▸ hd)
      simp [List.filter_append, this, GoMap.get_set_ne]

/-- The invariant holds when the loop starts. -/
theorem analogDrainInv_init {σ : Type} (m : Memory)
    (yield : σ → String → Float64 → σ × Option String) (env : σ)
    (hnd : m.updatedAnalogTags.keys.Nodup) :
    AnalogDrainInv m yield ⟨m, env, none, []⟩ [] m.updatedAnalogTags where
  frame := rfl
  pending := fun e he => GoMap.get_of_mem _ hnd he
  untouched := fun _ _ => rfl
  called := by simp
  failed := by simp
  retained := by simp
  settled := by simp

/-- The body of the loop keeps the invariant. -/
theorem analogDrainInv_step {σ : Type} (m : Memory)
    (yield : σ → String → Float64 → σ × Option String) (s : Drain σ Float64)
    (done : List (String × Float64)) (e : String × Float64) (rem : List (String × Float64))
    (hP : m.updatedAnalogTags = done ++ e :: rem) (hnd : m.updatedAnalogTags.keys.Nodup)
    (h : AnalogDrainInv m yield s done (e :: rem)) :
    AnalogDrainInv m yield (analogDrainStep yield s e) (done ++ [e]) rem := by
  have hkeys : (done.map Prod.fst ++ e.1 :: rem.map Prod.fst).Nodup := by
    simpa [hP, GoMap.keys] using hnd
  have hdone : ∀ e' ∈ done, e'.1 ≠ e.1 := by
    intro e' he' heq
    have h1 : e'.1 ∈ done.map Prod.fst := List.mem_map.mpr ⟨e', he', rfl⟩
    have h2 := (List.nodup_append.mp hkeys).2.2
    exact h2 h1 (by rw [heq]; exact List.mem_cons_self _ _)
  have hrem : ∀ e' ∈ rem, e'.1 ≠ e.1 := by
    intro e' he' heq
    have h1 : e'.1 ∈ rem.map Prod.fst := List.mem_map.mpr ⟨e', he', rfl⟩
    have h2 := (List.nodup_cons.mp (List.nodup_append.mp hkeys).2.1).1
    exact h2 (heq ▸ h1)
  have hmem : e.1 ∈ m.updatedAnalogTags.keys := by
    simp [hP, GoMap.keys]
  have hdev : ∀ t, s.mem.analogDeviceOf t = m.analogDeviceOf t := analogDeviceOf_congr h.frame
  obtain ⟨ho1, ho2⟩ := analogDrainStep_others yield s e
  have hpe : s.mem.updatedAnalogTags.get e.1 = some e.2 := h.pending e (List.mem_cons_self _ _)
  refine ⟨?_, ?_, ?_, ?_, ?_, ?_, ?_⟩
  · exact (analogDrainStep_frame yield s e).trans h.frame
  · intro e' he'
    rw [ho1 _ (hrem e' he')]
    exact h.pending e' (List.mem_cons_of_mem _ he')
  · intro d hd
    have h1 : s.mem.analogDeviceOf e.1 ≠ some d := by
      rw [hdev]
      exact hd e (by simp)
    rw [(ho2 d h1).1]
    exact h.untouched d (fun e' he' => hd e' (by simp [he']))
  · have hold : ∀ c ∈ s.calls, (c.tag, c.value) ∈ done ++ [e] ∧
        m.analogDeviceOf c.tag = some c.device ∧
        ∃ env, c.err = (yield env c.device c.value).2 := by
      intro c hc
      obtain ⟨h1, h2, h3⟩ := h.called c hc
      exact ⟨List.mem_append_left _ h1, h2, h3⟩
    rcases analogDrainStep_cases yield s e with
      ⟨hs, -⟩ | ⟨d, cur, hd, -, ⟨-, hs⟩ | ⟨-, err, hy, hs⟩ | ⟨-, hy, hs⟩⟩ <;> rw [hs]
    · exact hold
    · exact hold
    · intro c hc
      rcases List.mem_append.mp hc with hc | hc
      · exact hold c hc
      · rw [List.mem_singleton.mp hc]
        exact ⟨by simp, by rw [← hdev]; exact hd, s.env, hy.symm⟩
    · intro c hc
      rcases List.mem_append.mp hc with hc | hc
      · exact hold c hc
      · rw [List.mem_singleton.mp hc]
        exact ⟨by simp, by rw [← hdev]; exact hd, s.env, hy.symm⟩
  · rcases analogDrainStep_cases yield s e with
      ⟨hs, -⟩ | ⟨d, cur, hd, -, ⟨-, hs⟩ | ⟨-, err, hy, hs⟩ | ⟨-, hy, hs⟩⟩ <;> rw [hs]
    · exact h.failed
    · exact h.failed
    · simp only [List.mem_append, List.mem_singleton]
      exact ⟨fun _ => ⟨_, Or.inr rfl, by simp⟩, fun _ => by simp⟩
    · have := h.failed
      simp only [List.mem_append, List.mem_singleton]
      rw [this]
      constructor
      · rintro ⟨c, hc, hce⟩
        exact ⟨c, Or.inl hc, hce⟩
      · rintro ⟨c, hc | hc, hce⟩
        · exact ⟨c, hc, hce⟩
        · rw [hc] at hce
          exact absurd rfl hce
  · have hold : ∀ c ∈ s.calls, c.err ≠ none →
        (analogDrainStep yield s e).mem.updatedAnalogTags.get c.tag = some c.value := by
      intro c hc hce
      have h1 : c.tag ≠ e.1 := hdone _ (h.called c hc).1
      rw [ho1 _ h1]
      exact h.retained c hc hce
    rcases analogDrainStep_cases yield s e with
      ⟨hs, -⟩ | ⟨d, cur, hd, -, ⟨-, hs⟩ | ⟨-, err, hy, hs⟩ | ⟨-, hy, hs⟩⟩
    · rw [hs] at hold ⊢
      exact hold
    · intro c hc
      have : c ∈ s.calls := by rw [hs] at hc; exact hc
      exact hold c this
    · intro c hc hce
      have hc' : c ∈ s.calls ++ [⟨e.1, d, e.2, some err⟩] := by rw [hs] at hc; exact hc
      rcases List.mem_append.mp hc' with hc' | hc'
      · exact hold c hc' hce
      · rw [List.mem_singleton.mp hc', hs]
        exact hpe
    · intro c hc hce
      have hc' : c ∈ s.calls ++ [⟨e.1, d, e.2, none⟩] := by rw [hs] at hc; exact hc
      rcases List.mem_append.mp hc' with hc' | hc'
      · exact hold c hc' hce
      · rw [List.mem_singleton.mp hc'] at hce
        exact absurd rfl hce
  · intro e' he' d hd hU
    rcases List.mem_append.mp he' with he' | he'
    · have h1 : e'.1 ≠ e.1 := hdone e' he'
      have h2 : s.mem.analogDeviceOf e.1 ≠ some d := by
        rw [hdev]
        intro h3
        exact h1 (hU e.1 hmem h3).symm
      rw [(ho2 d h2).1, (ho2 d h2).2, ho1 _ h1]
      exact h.settled e' he' d hd hU
    · have he'' : e' = e := List.mem_singleton.mp he'
      subst he''
      have hsd : s.mem.analogDeviceOf e'.1 = some d := by rw [hdev]; exact hd
      have hval : s.mem.analogDeviceValues.get d = m.analogDeviceValues.get d := by
        apply h.untouched
        intro e'' he'' h3
        have hk : e''.1 ∈ m.updatedAnalogTags.keys := by
          rw [hP]
          simp only [GoMap.keys, List.map_append, List.mem_append, List.mem_map]
          exact Or.inl ⟨e'', he'', rfl⟩
        exact hdone e'' he'' (hU e''.1 hk h3)
      have hcalls : s.calls.filter (fun c => decide (c.device = d)) = [] := by
        rw [List.filter_eq_nil_iff]
        intro c hc hcd
        obtain ⟨h1, h2, -⟩ := h.called c hc
        have hcd' : c.device = d := by simpa using hcd
        have hk : c.tag ∈ m.updatedAnalogTags.keys := by
          rw [hP]
          simp only [GoMap.keys, List.map_append, List.mem_append, List.mem_map]
          exact Or.inl ⟨(c.tag, c.value), h1, rfl⟩
        exact hdone _ h1 (hU c.tag hk (hcd' ▸ h2))
      rcases analogDrainStep_cases yield s e' with
        ⟨hs, hn | ⟨d', hd', hv'⟩⟩ |
        ⟨d', cur', hd', hc', ⟨heq, hs⟩ | ⟨heq, err, hy, hs⟩ | ⟨heq, hy, hs⟩⟩
      · rw [hn] at hsd
        exact absurd hsd (by simp)
      · have hdd : d' = d := Option.some.inj (hd'.symm.trans hsd)
        subst hdd
        rw [hs]
        rw [hval] at hv'
        refine ⟨fun _ => hcalls, fun cur hcur => ?_⟩
        rw [hv'] at hcur
        exact absurd hcur (by simp)
      · have hdd : d' = d := Option.some.inj (hd'.symm.trans hsd)
        subst hdd
        rw [hs]
        rw [hval] at hc'
        refine ⟨fun hnone => ?_, fun cur hcur => ?_⟩
        · rw [hnone] at hc'
          exact absurd hc' (by simp)
        · have hcc : cur' = cur := Option.some.inj (hc'.symm.trans hcur)
          subst hcc
          refine ⟨fun _ => ⟨hcalls, GoMap.get_erase_self _ _, by rw [← hc', ← hval]⟩, fun hne => ?_⟩
          rw [heq] at hne
          exact absurd hne (by simp)
      · have hdd : d' = d := Option.some.inj (hd'.symm.trans hsd)
        subst hdd
        rw [hs]
        rw [hval] at hc'
        refine ⟨fun hnone => ?_, fun cur hcur => ?_⟩
        · rw [hnone] at hc'
          exact absurd hc' (by simp)
        · have hcc : cur' = cur := Option.some.inj (hc'.symm.trans hcur)
          subst hcc
          refine ⟨fun hne => ?_, fun _ => ⟨some err, ?_, ?_, fun _ => ⟨hpe, by rw [← hc', ← hval]⟩⟩⟩
          · rw [heq] at hne
            exact absurd hne (by simp)
          · simp [List.filter_append, hcalls]
          · intro h3
            exact absurd h3 (by simp)
      · have hdd : d' = d := Option.some.inj (hd'.symm.trans hsd)
        subst hdd
        rw [hs]
        rw [hval] at hc'
        refine ⟨fun hnone => ?_, fun cur hcur => ?_⟩
        · rw [hnone] at hc'
          exact absurd hc' (by simp)
        · have hcc : cur' = cur := Option.some.inj (hc'.symm.trans hcur)
          subst hcc
          refine ⟨fun hne => ?_, fun _ => ⟨none, ?_, fun _ => ⟨?_, ?_⟩, fun h3 => absurd rfl h3⟩⟩
          · rw [heq] at hne
            exact absurd hne (by simp)
          · simp [List.filter_append, hcalls]
          · exact GoMap.get_erase_self _ _
          · exact GoMap.get_set_self _ _ _

/-- The loop keeps the invariant over the entries that remain. -/
theorem analogDrainInv_fold {σ : Type} (m : Memory)
    (yield : σ → String → Float64 → σ × Option String)
    (hnd : m.updatedAnalogTags.keys.Nodup) :
    ∀ (rem done : List (String × Float64)) (s : Drain σ Float64),
      m.updatedAnalogTags = done ++ rem → AnalogDrainInv m yield s done rem →
      AnalogDrainInv m yield (rem.foldl (analogDrainStep yield) s) (done ++ rem) [] := by
  intro rem
  induction rem with
  | nil => intro done s _ h; simpa using h
  | cons e rem ih =>
    intro done s hP h
    have h1 := analogDrainInv_step m yield s done e rem hP hnd h
    have h2 := ih (done ++ [e]) (analogDrainStep yield s e) (by simpa using hP) h1
    simpa using h2

/-- The invariant holds when `UpdateAnalogDevices` returns. -/
theorem analogDrainInv_final {σ : Type} (m : Memory)
    (yield : σ → String → Float64 → σ × Option String) (env : σ)
    (hnd : m.updatedAnalogTags.keys.Nodup) :
    AnalogDrainInv m yield (m.UpdateAnalogDevices yield env) m.updatedAnalogTags [] := by
  have := analogDrainInv_fold m yield hnd m.updatedAnalogTags [] ⟨m, env, none, []⟩ rfl
    (analogDrainInv_init m yield env hnd)
  simpa [UpdateAnalogDevices] using this

/-- The loop changes no field of the memory but the pending buffer and the
device values. -/
theorem analogDrain_frame {σ : Type} (yield : σ → String → Float64 → σ × Option String)
    (es : List (String × Float64)) : ∀ s : Drain σ Float64,
    { (es.foldl (analogDrainStep yield) s).mem with
        updatedAnalogTags := [], analogDeviceValues := [] }
      = { s.mem with updatedAnalogTags := [], analogDeviceValues := [] } := by
  induction es with
  | nil => intro s; rfl
  | cons e es ih =>
    intro s
    exact (ih (analogDrainStep yield s e)).trans (analogDrainStep_frame yield s e)

/-- The loop adds no entry to the pending buffer. -/
theorem analogDrain_pending_none {σ : Type} (yield : σ → String → Float64 → σ × Option String)
    (t : String) (es : List (String × Float64)) : ∀ s : Drain σ Float64,
    s.mem.updatedAnalogTags.get t = none →
    (es.foldl (analogDrainStep yield) s).mem.updatedAnalogTags.get t = none := by
  induction es with
  | nil => intro s h; exact h
  | cons e es ih =>
    intro s h
    apply ih
    rcases analogDrainStep_cases yield s e with
      ⟨hs, -⟩ | ⟨d, cur, -, -, ⟨-, hs⟩ | ⟨-, err, -, hs⟩ | ⟨-, -, hs⟩⟩ <;> rw [hs]
    · exact h
    · simp [GoMap.get_erase, h]
    · exact h
    · simp [GoMap.get_erase, h]

/-- Every call the loop makes is for the tag of an entry it visits. -/
theorem analogDrain_call_tags {σ : Type} (yield : σ → String → Float64 → σ × Option String)
    (es : List (String × Float64)) : ∀ s : Drain σ Float64,
    ∀ c ∈ (es.foldl (analogDrainStep yield) s).calls, c ∈ s.calls ∨ c.tag ∈ GoMap.keys es := by
  induction es with
  | nil => intro s c hc; exact Or.inl hc
  | cons e es ih =>
    intro s c hc
    rcases ih (analogDrainStep yield s e) c hc with h1 | h1
    · rcases analogDrainStep_cases yield s e with
        ⟨hs, -⟩ | ⟨d, cur, -, -, ⟨-, hs⟩ | ⟨-, err, -, hs⟩ | ⟨-, -, hs⟩⟩ <;> rw [hs] at h1
      · exact Or.inl h1
      · exact Or.inl h1
      · rcases List.mem_append.mp h1 with h2 | h2
        · exact Or.inl h2
        · right
          rw [List.mem_singleton.mp h2]
          simp [GoMap.keys]
      · rcases List.mem_append.mp h1 with h2 | h2
        · exact Or.inl h2
        · right
          rw [List.mem_singleton.mp h2]
          simp [GoMap.keys]
    · right
      simp only [GoMap.keys, List.map_cons, List.mem_cons]
      exact Or.inr h1

/-- Unchanged-output suppression in `UpdateAnalogDevices`.  Let the loop have
visited the entries `pre` of the pending buffer and reach the entry `(t, v)`,
`s` being its variables at that moment.  When `t` resolves to the device `d`
and `d` holds `cur` at that moment with `v == cur`, the iteration makes no
call of `yield` and only deletes `t` from the pending buffer; when the method
returns, `t` is not in the pending buffer, and no call the method made was for
`t`. -/
theorem analog_unchanged_suppressed {σ : Type} (m : Memory)
    (yield : σ → String → Float64 → σ × Option String) (env : σ)
    (pre post : List (String × Float64)) (t : String) (v cur : Float64) (d : String)
    (s : Drain σ Float64)
    (hnd : m.updatedAnalogTags.keys.Nodup)
    (hP : m.updatedAnalogTags = pre ++ (t, v) :: post)
    (hs : s = pre.foldl (analogDrainStep yield) ⟨m, env, none, []⟩)
    (hd : m.analogDeviceOf t = some d)
    (hc : s.mem.analogDeviceValues.get d = some cur)
    (heq : Float64.eq v cur = true) :
    analogDrainStep yield s (t, v) =
      { s with mem := { s.mem with updatedAnalogTags := s.mem.updatedAnalogTags.erase t } } ∧
    m.UpdateAnalogDevices yield env = post.foldl (analogDrainStep yield)
      { s with mem := { s.mem with updatedAnalogTags := s.mem.updatedAnalogTags.erase t } } ∧
    (m.UpdateAnalogDevices yield env).mem.updatedAnalogTags.get t = none ∧
    ∀ c ∈ (m.UpdateAnalogDevices yield env).calls, c.tag ≠ t := by
  have hsd : s.mem.analogDeviceOf t = some d := by
    rw [← hd, hs]
    exact analogDeviceOf_congr (analogDrain_frame yield pre _) t
  have hstep : analogDrainStep yield s (t, v) =
      { s with mem := { s.mem with updatedAnalogTags := s.mem.updatedAnalogTags.erase t } } := by
    rcases analogDrainStep_cases yield s (t, v) with
      ⟨-, hn | ⟨d', hd', hv'⟩⟩ |
      ⟨d', cur', hd', hc', ⟨-, h1⟩ | ⟨h0, -⟩ | ⟨h0, -⟩⟩
    · rw [hsd] at hn
      exact absurd hn (by simp)
    · have hdd : d' = d := Option.some.inj (hd'.symm.trans hsd)
      rw [hdd, hc] at hv'
      exact absurd hv' (by simp)
    · exact h1
    · have hdd : d' = d := Option.some.inj (hd'.symm.trans hsd)
      rw [hdd, hc] at hc'
      rw [← Option.some.inj hc', heq] at h0
      exact absurd h0 (by simp)
    · have hdd : d' = d := Option.some.inj (hd'.symm.trans hsd)
      rw [hdd, hc] at hc'
      rw [← Option.some.inj hc', heq] at h0
      exact absurd h0 (by simp)
  have hrun : m.UpdateAnalogDevices yield env = post.foldl (analogDrainStep yield)
      { s with mem := { s.mem with updatedAnalogTags := s.mem.updatedAnalogTags.erase t } } := by
    rw [← hstep, hs, UpdateAnalogDevices, hP, List.foldl_append, List.foldl_cons]
  have hkeys : (pre.map Prod.fst ++ t :: post.map Prod.fst).Nodup := by
    simpa [hP, GoMap.keys] using hnd
  refine ⟨hstep, hrun, ?_, ?_⟩
  · rw [hrun]
    exact analogDrain_pending_none yield t post _ (GoMap.get_erase_self _ _)
  · intro c hcm hct
    rw [hrun] at hcm
    rcases analogDrain_call_tags yield post _ c hcm with h1 | h1
    · have h2 : c ∈ s.calls := h1
      rw [hs] at h2
      rcases analogDrain_call_tags yield pre _ c h2 with h3 | h3
      · simp at h3
      · have h4 := (List.nodup_append.mp hkeys).2.2
        exact h4 (hct ▸ h3) (List.mem_cons_self _ _)
    · have h4 := (List.nodup_cons.mp (List.nodup_append.mp hkeys).2.1).1
      exact h4 (hct ▸ h1)

/-- The four ways through the body of the loop of `UpdateBinaryDevices`: the
entry is skipped, it is dropped as unchanged, `yield` fails, or `yield`
succeeds. -/
theorem binaryDrainStep_cases {σ : Type} (yield : σ → String → Bool → σ × Option String)
    (s : Drain σ Bool) (e : String × Bool) :
    (binaryDrainStep yield s e = s ∧
      (s.mem.binaryDeviceOf e.1 = none ∨
        ∃ d, s.mem.binaryDeviceOf e.1 = some d ∧ s.mem.binaryDeviceStatuses.get d = none)) ∨
    (∃ d cur, s.mem.binaryDeviceOf e.1 = some d ∧ s.mem.binaryDeviceStatuses.get d = some cur ∧
      (((e.2 == cur) = true ∧
          binaryDrainStep yield s e =
            { s with mem :=
                { s.mem with updatedBinaryTags := s.mem.updatedBinaryTags.erase e.1 } }) ∨
        ((e.2 == cur) = false ∧ ∃ err, (yield s.env d e.2).2 = some err ∧
          binaryDrainStep yield s e =
            { s with
                env := (yield s.env d e.2).1,
                updateErr := some err,
                calls := s.calls ++ [⟨e.1, d, e.2, some err⟩] }) ∨
        ((e.2 == cur) = false ∧ (yield s.env d e.2).2 = none ∧
          binaryDrainStep yield s e =
            { mem :=
                { s.mem with
                    binaryDeviceStatuses := s.mem.binaryDeviceStatuses.set d e.2,
                    updatedBinaryTags := s.mem.updatedBinaryTags.erase e.1 },
              env := (yield s.env d e.2).1,
              updateErr := s.updateErr,
              calls := s.calls ++ [⟨e.1, d, e.2, none⟩] }))) := by
  unfold binaryDrainStep binaryDeviceOf
  cases h1 : s.mem.binaryTags.get e.1 with
  | none => simp
  | some mo =>
    dsimp only
    cases h2 : s.mem.binaryModules.get mo with
    | none => simp
    | some d =>
      dsimp only
      cases h3 : s.mem.binaryDeviceStatuses.get d with
      | none => simp [getBinaryStatusForTag, getBinaryDeviceStatus, h1, h2, h3]
      | some cur =>
        right
        refine ⟨d, cur, rfl, h3, ?_⟩
        cases h4 : (e.2 == cur) with
        | true => simp [getBinaryStatusForTag, getBinaryDeviceStatus, h1, h2, h3, h4]
        | false =>
          rcases h5 : yield s.env d e.2 with ⟨env', _ | err⟩
          · simp [getBinaryStatusForTag, getBinaryDeviceStatus, setBinaryDeviceStatus,
              isBinaryDevice, GoMap.has, h1, h2, h3, h4, h5]
          · simp [getBinaryStatusForTag, getBinaryDeviceStatus, h1, h2, h3, h4, h5]

/-- The body of the loop changes no field of the memory but the pending
buffer and the device values. -/
theorem binaryDrainStep_frame {σ : Type} (yield : σ → String → Bool → σ × Option String)
    (s : Drain σ Bool) (e : String × Bool) :
    { (binaryDrainStep yield s e).mem with updatedBinaryTags := [], binaryDeviceStatuses := [] }
      = { s.mem with updatedBinaryTags := [], binaryDeviceStatuses := [] } := by
  rcases binaryDrainStep_cases yield s e with
    ⟨h, -⟩ | ⟨d, cur, -, -, ⟨-, h⟩ | ⟨-, err, -, h⟩ | ⟨-, -, h⟩⟩ <;> rw [h]

theorem binaryDeviceOf_congr {m m' : Memory}
    (h : { m with updatedBinaryTags := [], binaryDeviceStatuses := [] }
      = { m' with updatedBinaryTags := [], binaryDeviceStatuses := [] }) (t : String) :
    m.binaryDeviceOf t = m'.binaryDeviceOf t := by
  have h1 := congrArg (fun x : Memory => x.binaryTags) h
  have h2 := congrArg (fun x : Memory => x.binaryModules) h
  simp only at h1 h2
  simp [binaryDeviceOf, h1, h2]

/-- What the body of the loop leaves alone at the entry `e`: the pending
entries of the other tags, and the values of and the calls on the devices
other than the one the tag of `e` resolves to. -/
theorem binaryDrainStep_others {σ : Type} (yield : σ → String → Bool → σ × Option String)
    (s : Drain σ Bool) (e : String × Bool) :
    (∀ t, t ≠ e.1 →
      (binaryDrainStep yield s e).mem.updatedBinaryTags.get t = s.mem.updatedBinaryTags.get t) ∧
    (∀ d, s.mem.binaryDeviceOf e.1 ≠ some d →
      (binaryDrainStep yield s e).mem.binaryDeviceStatuses.get d = s.mem.binaryDeviceStatuses.get d ∧
      (binaryDrainStep yield s e).calls.filter (fun c => decide (c.device = d))
        = s.calls.filter (fun c => decide (c.device = d))) := by
  rcases binaryDrainStep_cases yield s e with
    ⟨h, -⟩ | ⟨d, cur, hd, -, ⟨-, h⟩ | ⟨-, err, -, h⟩ | ⟨-, -, h⟩⟩ <;> rw [h]
  · simp
  · refine ⟨fun t ht => ?_, fun d' _ => by simp⟩
    exact GoMap.get_erase_ne _ (Ne.symm ht)
  · refine ⟨fun t _ => rfl, fun d' hd' => ?_⟩
    have : d ≠ d' := fun h' => hd' (h' ▸ hd)
    simp [List.filter_append, this]
  · refine ⟨fun t ht => ?_, fun d' hd' => ?_⟩
    · exact GoMap.get_erase_ne _ (Ne.symm ht)
    · have : d ≠ d' := fun h' => hd' (h' ▸ hd)
      simp [List.filter_append, this, GoMap.get_set_ne]

/-- The invariant holds when the loop starts. -/
theorem binaryDrainInv_init {σ : Type} (m : Memory)
    (yield : σ → String → Bool → σ × Option String) (env : σ)
    (hnd : m.updatedBinaryTags.keys.Nodup) :
    BinaryDrainInv m yield ⟨m, env, none, []⟩ [] m.updatedBinaryTags where
  frame := rfl
  pending := fun e he => GoMap.get_of_mem _ hnd he
  untouched := fun _ _ => rfl
  called := by simp
  failed := by simp
  retained := by simp
  settled := by simp

/-- The body of the loop keeps the invariant. -/
theorem binaryDrainInv_step {σ : Type} (m : Memory)
    (yield : σ → String → Bool → σ × Option String) (s : Drain σ Bool)
    (done : List (String × Bool)) (e : String × Bool) (rem : List (String × Bool))
    (hP : m.updatedBinaryTags = done ++ e :: rem) (hnd : m.updatedBinaryTags.keys.Nodup)
    (h : BinaryDrainInv m yield s done (e :: rem)) :
    BinaryDrainInv m yield (binaryDrainStep yield s e) (done ++ [e]) rem := by
  have hkeys : (done.map Prod.fst ++ e.1 :: rem.map Prod.fst).Nodup := by
    simpa [hP, GoMap.keys] using hnd
  have hdone : ∀ e' ∈ done, e'.1 ≠ e.1 := by
    intro e' he' heq
    have h1 : e'.1 ∈ done.map Prod.fst := List.mem_map.mpr ⟨e', he', rfl⟩
    have h2 := (List.nodup_append.mp hkeys).2.2
    exact h2 h1 (by rw [heq]; exact List.mem_cons_self _ _)
  have hrem : ∀ e' ∈ rem, e'.1 ≠ e.1 := by
    intro e' he' heq
    have h1 : e'.1 ∈ rem.map Prod.fst := List.mem_map.mpr ⟨e', he', rfl⟩
    have h2 := (List.nodup_cons.mp (List.nodup_append.mp hkeys).2.1).1
    exact h2 (heq ▸ h1)
  have hmem : e.1 ∈ m.updatedBinaryTags.keys := by
    simp [hP, GoMap.keys]
  have hdev : ∀ t, s.mem.binaryDeviceOf t = m.binaryDeviceOf t := binaryDeviceOf_congr h.frame
  obtain ⟨ho1, ho2⟩ := binaryDrainStep_others yield s e
  have hpe : s.mem.updatedBinaryTags.get e.1 = some e.2 := h.pending e (List.mem_cons_self _ _)
  refine ⟨?_, ?_, ?_, ?_, ?_, ?_, ?_⟩
  · exact (binaryDrainStep_frame yield s e).trans h.frame
  · intro e' he'
    rw [ho1 _ (hrem e' he')]
    exact h.pending e' (List.mem_cons_of_mem _ he')
  · intro d hd
    have h1 : s.mem.binaryDeviceOf e.1 ≠ some d := by
      rw [hdev]
      exact hd e (by simp)
    rw [(ho2 d h1).1]
    exact h.untouched d (fun e' he' => hd e' (by simp [he']))
  · have hold : ∀ c ∈ s.calls, (c.tag, c.value) ∈ done ++ [e] ∧
        m.binaryDeviceOf c.tag = some c.device ∧
        ∃ env, c.err = (yield env c.device c.value).2 := by
      intro c hc
      obtain ⟨h1, h2, h3⟩ := h.called c hc
      exact ⟨List.mem_append_left _ h1, h2, h3⟩
    rcases binaryDrainStep_cases yield s e with
      ⟨hs, -⟩ | ⟨d, cur, hd, -, ⟨-, hs⟩ | ⟨-, err, hy, hs⟩ | ⟨-, hy, hs⟩⟩ <;> rw [hs]
    · exact hold
    · exact hold
    · intro c hc
      rcases List.mem_append.mp hc with hc | hc
      · exact hold c hc
      · rw [List.mem_singleton.mp hc]
        exact ⟨by simp, by rw [← hdev]; exact hd, s.env, hy.symm⟩
    · intro c hc
      rcases List.mem_append.mp hc with hc | hc
      · exact hold c hc
      · rw [List.mem_singleton.mp hc]
        exact ⟨by simp, by rw [← hdev]; exact hd, s.env, hy.symm⟩
  · rcases binaryDrainStep_cases yield s e with
      ⟨hs, -⟩ | ⟨d, cur, hd, -, ⟨-, hs⟩ | ⟨-, err, hy, hs⟩ | ⟨-, hy, hs⟩⟩ <;> rw [hs]
    · exact h.failed
    · exact h.failed
    · simp only [List.mem_append, List.mem_singleton]
      exact ⟨fun _ => ⟨_, Or.inr rfl, by simp⟩, fun _ => by simp⟩
    · have := h.failed
      simp only [List.mem_append, List.mem_singleton]
      rw [this]
      constructor
      · rintro ⟨c, hc, hce⟩
        exact ⟨c, Or.inl hc, hce⟩
      · rintro ⟨c, hc | hc, hce⟩
        · exact ⟨c, hc, hce⟩
        · rw [hc] at hce
          exact absurd rfl hce
  · have hold : ∀ c ∈ s.calls, c.err ≠ none →
        (binaryDrainStep yield s e).mem.updatedBinaryTags.get c.tag = some c.value := by
      intro c hc hce
      have h1 : c.tag ≠ e.1 := hdone _ (h.called c hc).1
      rw [ho1 _ h1]
      exact h.retained c hc hce
    rcases binaryDrainStep_cases yield s e with
      ⟨hs, -⟩ | ⟨d, cur, hd, -, ⟨-, hs⟩ | ⟨-, err, hy, hs⟩ | ⟨-, hy, hs⟩⟩
    · rw [hs] at hold ⊢
      exact hold
    · intro c hc
      have : c ∈ s.calls := by rw [hs] at hc; exact hc
      exact hold c this
    · intro c hc hce
      have hc' : c ∈ s.calls ++ [⟨e.1, d, e.2, some err⟩] := by rw [hs] at hc; exact hc
      rcases List.mem_append.mp hc' with hc' | hc'
      · exact hold c hc' hce
      · rw [List.mem_singleton.mp hc', hs]
        exact hpe
    · intro c hc hce
      have hc' : c ∈ s.calls ++ [⟨e.1, d, e.2, none⟩] := by rw [hs] at hc; exact hc
      rcases List.mem_append.mp hc' with hc' | hc'
      · exact hold c hc' hce
      · rw [List.mem_singleton.mp hc'] at hce
        exact absurd rfl hce
  · intro e' he' d hd hU
    rcases List.mem_append.mp he' with he' | he'
    · have h1 : e'.1 ≠ e.1 := hdone e' he'
      have h2 : s.mem.binaryDeviceOf e.1 ≠ some d := by
        rw [hdev]
        intro h3
        exact h1 (hU e.1 hmem h3).symm
      rw [(ho2 d h2).1, (ho2 d h2).2, ho1 _ h1]
      exact h.settled e' he' d hd hU
    · have he'' : e' = e := List.mem_singleton.mp he'
      subst he''
      have hsd : s.mem.binaryDeviceOf e'.1 = some d := by rw [hdev]; exact hd
      have hval : s.mem.binaryDeviceStatuses.get d = m.binaryDeviceStatuses.get d := by
        apply h.untouched
        intro e'' he'' h3
        have hk : e''.1 ∈ m.updatedBinaryTags.keys := by
          rw [hP]
          simp only [GoMap.keys, List.map_append, List.mem_append, List.mem_map]
          exact Or.inl ⟨e'', he'', rfl⟩
        exact hdone e'' he'' (hU e''.1 hk h3)
      have hcalls : s.calls.filter (fun c => decide (c.device = d)) = [] := by
        rw [List.filter_eq_nil_iff]
        intro c hc hcd
        obtain ⟨h1, h2, -⟩ := h.called c hc
        have hcd' : c.device = d := by simpa using hcd
        have hk : c.tag ∈ m.updatedBinaryTags.keys := by
          rw [hP]
          simp only [GoMap.keys, List.map_append, List.mem_append, List.mem_map]
          exact Or.inl ⟨(c.tag, c.value), h1, rfl⟩
        exact hdone _ h1 (hU c.tag hk (hcd' ▸ h2))
      rcases binaryDrainStep_cases yield s e' with
        ⟨hs, hn | ⟨d', hd', hv'⟩⟩ |
        ⟨d', cur', hd', hc', ⟨heq, hs⟩ | ⟨heq, err, hy, hs⟩ | ⟨heq, hy, hs⟩⟩
      · rw [hn] at hsd
        exact absurd hsd (by simp)
      · have hdd : d' = d := Option.some.inj (hd'.symm.trans hsd)
        subst hdd
        rw [hs]
        rw [hval] at hv'
        refine ⟨fun _ => hcalls, fun cur hcur => ?_⟩
        rw [hv'] at hcur
        exact absurd hcur (by simp)
      · have hdd : d' = d := Option.some.inj (hd'.symm.trans hsd)
        subst hdd
        rw [hs]
        rw [hval] at hc'
        refine ⟨fun hnone => ?_, fun cur hcur => ?_⟩
        · rw [hnone] at hc'
          exact absurd hc' (by simp)
        · have hcc : cur' = cur := Option.some.inj (hc'.symm.trans hcur)
          subst hcc
          refine ⟨fun _ => ⟨hcalls, GoMap.get_erase_self _ _, by rw [← hc', ← hval]⟩, fun hne => ?_⟩
          rw [heq] at hne
          exact absurd hne (by simp)
      · have hdd : d' = d := Option.some.inj (hd'.symm.trans hsd)
        subst hdd
        rw [hs]
        rw [hval] at hc'
        refine ⟨fun hnone => ?_, fun cur hcur => ?_⟩
        · rw [hnone] at hc'
          exact absurd hc' (by simp)
        · have hcc : cur' = cur := Option.some.inj (hc'.symm.trans hcur)
          subst hcc
          refine ⟨fun hne => ?_, fun _ => ⟨some err, ?_, ?_, fun _ => ⟨hpe, by rw [← hc', ← hval]⟩⟩⟩
          · rw [heq] at hne
            exact absurd hne (by simp)
          · simp [List.filter_append, hcalls]
          · intro h3
            exact absurd h3 (by simp)
      · have hdd : d' = d := Option.some.inj (hd'.symm.trans hsd)
        subst hdd
        rw [hs]
        rw [hval] at hc'
        refine ⟨fun hnone => ?_, fun cur hcur => ?_⟩
        · rw [hnone] at hc'
          exact absurd hc' (by simp)
        · have hcc : cur' = cur := Option.some.inj (hc'.symm.trans hcur)
          subst hcc
          refine ⟨fun hne => ?_, fun _ => ⟨none, ?_, fun _ => ⟨?_, ?_⟩, fun h3 => absurd rfl h3⟩⟩
          · rw [heq] at hne
            exact absurd hne (by simp)
          · simp [List.filter_append, hcalls]
          · exact GoMap.get_erase_self _ _
          · exact GoMap.get_set_self _ _ _

/-- The loop keeps the invariant over the entries that remain. -/
theorem binaryDrainInv_fold {σ : Type} (m : Memory)
    (yield : σ → String → Bool → σ × Option String)
    (hnd : m.updatedBinaryTags.keys.Nodup) :
    ∀ (rem done : List (String × Bool)) (s : Drain σ Bool),
      m.updatedBinaryTags = done ++ rem → BinaryDrainInv m yield s done rem →
      BinaryDrainInv m yield (rem.foldl (binaryDrainStep yield) s) (done ++ rem) [] := by
  intro rem
  induction rem with
  | nil => intro done s _ h; simpa using h
  | cons e rem ih =>
    intro done s hP h
    have h1 := binaryDrainInv_step m yield s done e rem hP hnd h
    have h2 := ih (done ++ [e]) (binaryDrainStep yield s e) (by simpa using hP) h1
    simpa using h2

/-- The invariant holds when `UpdateBinaryDevices` returns. -/
theorem binaryDrainInv_final {σ : Type} (m : Memory)
    (yield : σ → String → Bool → σ × Option String) (env : σ)
    (hnd : m.updatedBinaryTags.keys.Nodup) :
    BinaryDrainInv m yield (m.UpdateBinaryDevices yield env) m.updatedBinaryTags [] := by
  have := binaryDrainInv_fold m yield hnd m.updatedBinaryTags [] ⟨m, env, none, []⟩ rfl
    (binaryDrainInv_init m yield env hnd)
  simpa [UpdateBinaryDevices] using this

/-- The loop changes no field of the memory but the pending buffer and the
device values. -/
theorem binaryDrain_frame {σ : Type} (yield : σ → String → Bool → σ × Option String)
    (es : List (String × Bool)) : ∀ s : Drain σ Bool,
    { (es.foldl (binaryDrainStep yield) s).mem with
        updatedBinaryTags := [], binaryDeviceStatuses := [] }
      = { s.mem with updatedBinaryTags := [], binaryDeviceStatuses := [] } := by
  induction es with
  | nil => intro s; rfl
  | cons e es ih =>
    intro s
    exact (ih (binaryDrainStep yield s e)).trans (binaryDrainStep_frame yield s e)

/-- The loop adds no entry to the pending buffer. -/
theorem binaryDrain_pending_none {σ : Type} (yield : σ → String → Bool → σ × Option String)
    (t : String) (es : List (String × Bool)) : ∀ s : Drain σ Bool,
    s.mem.updatedBinaryTags.get t = none →
    (es.foldl (binaryDrainStep yield) s).mem.updatedBinaryTags.get t = none := by
  induction es with
  | nil => intro s h; exact h
  | cons e es ih =>
    intro s h
    apply ih
    rcases binaryDrainStep_cases yield s e with
      ⟨hs, -⟩ | ⟨d, cur, -, -, ⟨-, hs⟩ | ⟨-, err, -, hs⟩ | ⟨-, -, hs⟩⟩ <;> rw [hs]
    · exact h
    · simp [GoMap.get_erase, h]
    · exact h
    · simp [GoMap.get_erase, h]

/-- Every call the loop makes is for the tag of an entry it visits. -/
theorem binaryDrain_call_tags {σ : Type} (yield : σ → String → Bool → σ × Option String)
    (es : List (String × Bool)) : ∀ s : Drain σ Bool,
    ∀ c ∈ (es.foldl (binaryDrainStep yield) s).calls, c ∈ s.calls ∨ c.tag ∈ GoMap.keys es := by
  induction es with
  | nil => intro s c hc; exact Or.inl hc
  | cons e es ih =>
    intro s c hc
    rcases ih (binaryDrainStep yield s e) c hc with h1 | h1
    · rcases binaryDrainStep_cases yield s e with
        ⟨hs, -⟩ | ⟨d, cur, -, -, ⟨-, hs⟩ | ⟨-, err, -, hs⟩ | ⟨-, -, hs⟩⟩ <;> rw [hs] at h1
      · exact Or.inl h1
      · exact Or.inl h1
      · rcases List.mem_append.mp h1 with h2 | h2
        · exact Or.inl h2
        · right
          rw [List.mem_singleton.mp h2]
          simp [GoMap.keys]
      · rcases List.mem_append.mp h1 with h2 | h2
        · exact Or.inl h2
        · right
          rw [List.mem_singleton.mp h2]
          simp [GoMap.keys]
    · right
      simp only [GoMap.keys, List.map_cons, List.mem_cons]
      exact Or.inr h1

/-- Unchanged-output suppression in `UpdateBinaryDevices`.  Let the loop have
visited the entries `pre` of the pending buffer and reach the entry `(t, v)`,
`s` being its variables at that moment.  When `t` resolves to the device `d`
and `d` holds `cur` at that moment with `v == cur`, the iteration makes no
call of `yield` and only deletes `t` from the pending buffer; when the method
returns, `t` is not in the pending buffer, and no call the method made was for
`t`. -/
theorem binary_unchanged_suppressed {σ : Type} (m : Memory)
    (yield : σ → String → Bool → σ × Option String) (env : σ)
    (pre post : List (String × Bool)) (t : String) (v cur : Bool) (d : String)
    (s : Drain σ Bool)
    (hnd : m.updatedBinaryTags.keys.Nodup)
    (hP : m.updatedBinaryTags = pre ++ (t, v) :: post)
    (hs : s = pre.foldl (binaryDrainStep yield) ⟨m, env, none, []⟩)
    (hd : m.binaryDeviceOf t = some d)
    (hc : s.mem.binaryDeviceStatuses.get d = some cur)
    (heq : (v == cur) = true) :
    binaryDrainStep yield s (t, v) =
      { s with mem := { s.mem with updatedBinaryTags := s.mem.updatedBinaryTags.erase t } } ∧
    m.UpdateBinaryDevices yield env = post.foldl (binaryDrainStep yield)
      { s with mem := { s.mem with updatedBinaryTags := s.mem.updatedBinaryTags.erase t } } ∧
    (m.UpdateBinaryDevices yield env).mem.updatedBinaryTags.get t = none ∧
    ∀ c ∈ (m.UpdateBinaryDevices yield env).calls, c.tag ≠ t := by
  have hsd : s.mem.binaryDeviceOf t = some d := by
    rw [← hd, hs]
    exact binaryDeviceOf_congr (binaryDrain_frame yield pre _) t
  have hstep : binaryDrainStep yield s (t, v) =
      { s with mem := { s.mem with updatedBinaryTags := s.mem.updatedBinaryTags.erase t } } := by
    rcases binaryDrainStep_cases yield s (t, v) with
      ⟨-, hn | ⟨d', hd', hv'⟩⟩ |
      ⟨d', cur', hd', hc', ⟨-, h1⟩ | ⟨h0, -⟩ | ⟨h0, -⟩⟩
    · rw [hsd] at hn
      exact absurd hn (by simp)
    · have hdd : d' = d := Option.some.inj (hd'.symm.trans hsd)
      rw [hdd, hc] at hv'
      exact absurd hv' (by simp)
    · exact h1
    · have hdd : d' = d := Option.some.inj (hd'.symm.trans hsd)
      rw [hdd, hc] at hc'
      rw [← Option.some.inj hc', heq] at h0
      exact absurd h0 (by simp)
    · have hdd : d' = d := Option.some.inj (hd'.symm.trans hsd)
      rw [hdd, hc] at hc'
      rw [← Option.some.inj hc', heq] at h0
      exact absurd h0 (by simp)
  have hrun : m.UpdateBinaryDevices yield env = post.foldl (binaryDrainStep yield)
      { s with mem := { s.mem with updatedBinaryTags := s.mem.updatedBinaryTags.erase t } } := by
    rw [← hstep, hs, UpdateBinaryDevices, hP, List.foldl_append, List.foldl_cons]
  have hkeys : (pre.map Prod.fst ++ t :: post.map Prod.fst).Nodup := by
    simpa [hP, GoMap.keys] using hnd
  refine ⟨hstep, hrun, ?_, ?_⟩
  · rw [hrun]
    exact binaryDrain_pending_none yield t post _ (GoMap.get_erase_self _ _)
  · intro c hcm hct
    rw [hrun] at hcm
    rcases binaryDrain_call_tags yield post _ c hcm with h1 | h1
    · have h2 : c ∈ s.calls := h1
      rw [hs] at h2
      rcases binaryDrain_call_tags yield pre _ c h2 with h3 | h3
      · simp at h3
      · have h4 := (List.nodup_append.mp hkeys).2.2
        exact h4 (hct ▸ h3) (List.mem_cons_self _ _)
    · have h4 := (List.nodup_cons.mp (List.nodup_append.mp hkeys).2.1).1
      exact h4 (hct ▸ h1)

/-- The error `UpdateAnalogDevices` returns is not nil exactly when one of its
calls of `yield` returned an error; the keys of the pending buffer need not be
known to be distinct for this. -/
theorem analogDrain_error_iff {σ : Type} (yield : σ → String → Float64 → σ × Option String)
    (es : List (String × Float64)) : ∀ s : Drain σ Float64,
    (s.updateErr ≠ none ↔ ∃ c ∈ s.calls, c.err ≠ none) →
    ((es.foldl (analogDrainStep yield) s).updateErr ≠ none ↔
      ∃ c ∈ (es.foldl (analogDrainStep yield) s).calls, c.err ≠ none) := by
  induction es with
  | nil => intro s h; exact h
  | cons e es ih =>
    intro s h
    apply ih
    rcases analogDrainStep_cases yield s e with
      ⟨hs, -⟩ | ⟨d, cur, hd, -, ⟨-, hs⟩ | ⟨-, err, hy, hs⟩ | ⟨-, hy, hs⟩⟩ <;> rw [hs]
    · exact h
    · exact h
    · simp only [List.mem_append, List.mem_singleton]
      exact ⟨fun _ => ⟨_, Or.inr rfl, by simp⟩, fun _ => by simp⟩
    · simp only [List.mem_append, List.mem_singleton]
      rw [h]
      constructor
      · rintro ⟨c, hc, hce⟩
        exact ⟨c, Or.inl hc, hce⟩
      · rintro ⟨c, hc | hc, hce⟩
        · exact ⟨c, hc, hce⟩
        · rw [hc] at hce
          exact absurd rfl hce

/-- A failed call of `yield` in `UpdateAnalogDevices`: the entry of its tag is
still pending when the method returns, and the device holds what it held on
entry when no other pending tag resolves to it. -/
theorem analogDrain_failed_call {σ : Type} (m : Memory)
    (yield : σ → String → Float64 → σ × Option String) (env : σ)
    (hnd : m.updatedAnalogTags.keys.Nodup) (c : YieldCall Float64)
    (hc : c ∈ (m.UpdateAnalogDevices yield env).calls) (hce : c.err ≠ none) :
    m.updatedAnalogTags.get c.tag = some c.value ∧
    (m.UpdateAnalogDevices yield env).mem.updatedAnalogTags.get c.tag = some c.value ∧
    ((∀ t ∈ m.updatedAnalogTags.keys, m.analogDeviceOf t = some c.device → t = c.tag) →
      (m.UpdateAnalogDevices yield env).mem.analogDeviceValues.get c.device
        = m.analogDeviceValues.get c.device) := by
  have inv := analogDrainInv_final m yield env hnd
  obtain ⟨h1, h2, -⟩ := inv.called c hc
  refine ⟨GoMap.get_of_mem _ hnd h1, inv.retained c hc hce, fun hU => ?_⟩
  obtain ⟨hn, hsome⟩ := inv.settled (c.tag, c.value) h1 c.device h2 hU
  have hcf : c ∈ (m.UpdateAnalogDevices yield env).calls.filter
      (fun x => decide (x.device = c.device)) := List.mem_filter.mpr ⟨hc, by simp⟩
  cases hm : m.analogDeviceValues.get c.device with
  | none =>
    rw [hn hm] at hcf
    exact absurd hcf (by simp)
  | some cur =>
    obtain ⟨ht, hf⟩ := hsome cur hm
    cases heq : Float64.eq c.value cur with
    | true =>
      rw [(ht heq).1] at hcf
      exact absurd hcf (by simp)
    | false =>
      obtain ⟨err, hfl, -, hfail⟩ := hf heq
      rw [hfl] at hcf
      have hcx := List.mem_singleton.mp hcf
      have herr : err ≠ none := by
        rw [hcx] at hce
        exact hce
      exact (hfail herr).2

/-- The error `UpdateBinaryDevices` returns is not nil exactly when one of its
calls of `yield` returned an error; the keys of the pending buffer need not be
known to be distinct for this. -/
theorem binaryDrain_error_iff {σ : Type} (yield : σ → String → Bool → σ × Option String)
    (es : List (String × Bool)) : ∀ s : Drain σ Bool,
    (s.updateErr ≠ none ↔ ∃ c ∈ s.calls, c.err ≠ none) →
    ((es.foldl (binaryDrainStep yield) s).updateErr ≠ none ↔
      ∃ c ∈ (es.foldl (binaryDrainStep yield) s).calls, c.err ≠ none) := by
  induction es with
  | nil => intro s h; exact h
  | cons e es ih =>
    intro s h
    apply ih
    rcases binaryDrainStep_cases yield s e with
      ⟨hs, -⟩ | ⟨d, cur, hd, -, ⟨-, hs⟩ | ⟨-, err, hy, hs⟩ | ⟨-, hy, hs⟩⟩ <;> rw [hs]
    · exact h
    · exact h
    · simp only [List.mem_append, List.mem_singleton]
      exact ⟨fun _ => ⟨_, Or.inr rfl, by simp⟩, fun _ => by simp⟩
    · simp only [List.mem_append, List.mem_singleton]
      rw [h]
      constructor
      · rintro ⟨c, hc, hce⟩
        exact ⟨c, Or.inl hc, hce⟩
      · rintro ⟨c, hc | hc, hce⟩
        · exact ⟨c, hc, hce⟩
        · rw [hc] at hce
          exact absurd rfl hce

/-- A failed call of `yield` in `UpdateBinaryDevices`: the entry of its tag is
still pending when the method returns, and the device holds what it held on
entry when no other pending tag resolves to it. -/
theorem binaryDrain_failed_call {σ : Type} (m : Memory)
    (yield : σ → String → Bool → σ × Option String) (env : σ)
    (hnd : m.updatedBinaryTags.keys.Nodup) (c : YieldCall Bool)
    (hc : c ∈ (m.UpdateBinaryDevices yield env).calls) (hce : c.err ≠ none) :
    m.updatedBinaryTags.get c.tag = some c.value ∧
    (m.UpdateBinaryDevices yield env).mem.updatedBinaryTags.get c.tag = some c.value ∧
    ((∀ t ∈ m.updatedBinaryTags.keys, m.binaryDeviceOf t = some c.device → t = c.tag) →
      (m.UpdateBinaryDevices yield env).mem.binaryDeviceStatuses.get c.device
        = m.binaryDeviceStatuses.get c.device) := by
  have inv := binaryDrainInv_final m yield env hnd
  obtain ⟨h1, h2, -⟩ := inv.called c hc
  refine ⟨GoMap.get_of_mem _ hnd h1, inv.retained c hc hce, fun hU => ?_⟩
  obtain ⟨hn, hsome⟩ := inv.settled (c.tag, c.value) h1 c.device h2 hU
  have hcf : c ∈ (m.UpdateBinaryDevices yield env).calls.filter
      (fun x => decide (x.device = c.device)) := List.mem_filter.mpr ⟨hc, by simp⟩
  cases hm : m.binaryDeviceStatuses.get c.device with
  | none =>
    rw [hn hm] at hcf
    exact absurd hcf (by simp)
  | some cur =>
    obtain ⟨ht, hf⟩ := hsome cur hm
    cases heq : (c.value == cur) with
    | true =>
      rw [(ht heq).1] at hcf
      exact absurd hcf (by simp)
    | false =>
      obtain ⟨err, hfl, -, hfail⟩ := hf heq
      rw [hfl] at hcf
      have hcx := List.mem_singleton.mp hcf
      have herr : err ≠ none := by
        rw [hcx] at hce
        exact hce
      exact (hfail herr).2

/-- C5. Unchanged-output suppression.  Let the loop of `UpdateAnalogDevices`
have visited the entries `pre` of the pending buffer and reach the entry
`(t, v)`, `s` being its variables at that moment.  When `t` resolves to the
device `d` and `d` holds `cur` at that moment with `v == cur` (the `==` of Go
on `float64`), the iteration makes no call of `yield` and changes nothing but
the pending buffer, from which it deletes `t`; when the method returns, `t`
is not in the pending buffer and none of the calls of `yield` it made was for
`t`.  The same holds for `UpdateBinaryDevices`. -/
theorem unchanged_outputs_suppressed {σ : Type} (m : Memory) (env : σ) (t d : String) :
    (∀ (yield : σ → String → Float64 → σ × Option String)
        (pre post : List (String × Float64)) (v cur : Float64) (s : Drain σ Float64),
      m.updatedAnalogTags.keys.Nodup →
      m.updatedAnalogTags = pre ++ (t, v) :: post →
      s = pre.foldl (analogDrainStep yield) ⟨m, env, none, []⟩ →
      m.analogDeviceOf t = some d →
      s.mem.analogDeviceValues.get d = some cur →
      Float64.eq v cur = true →
      analogDrainStep yield s (t, v) =
        { s with mem := { s.mem with updatedAnalogTags := s.mem.updatedAnalogTags.erase t } } ∧
      m.UpdateAnalogDevices yield env = post.foldl (analogDrainStep yield)
        { s with mem := { s.mem with updatedAnalogTags := s.mem.updatedAnalogTags.erase t } } ∧
      (m.UpdateAnalogDevices yield env).mem.updatedAnalogTags.get t = none ∧
      ∀ c ∈ (m.UpdateAnalogDevices yield env).calls, c.tag ≠ t) ∧
    (∀ (yield : σ → String → Bool → σ × Option String)
        (pre post : List (String × Bool)) (v cur : Bool) (s : Drain σ Bool),
      m.updatedBinaryTags.keys.Nodup →
      m.updatedBinaryTags = pre ++ (t, v) :: post →
      s = pre.foldl (binaryDrainStep yield) ⟨m, env, none, []⟩ →
      m.binaryDeviceOf t = some d →
      s.mem.binaryDeviceStatuses.get d = some cur →
      (v == cur) = true →
      binaryDrainStep yield s (t, v) =
        { s with mem := { s.mem with updatedBinaryTags := s.mem.updatedBinaryTags.erase t } } ∧
      m.UpdateBinaryDevices yield env = post.foldl (binaryDrainStep yield)
        { s with mem := { s.mem with updatedBinaryTags := s.mem.updatedBinaryTags.erase t } } ∧
      (m.UpdateBinaryDevices yield env).mem.updatedBinaryTags.get t = none ∧
      ∀ c ∈ (m.UpdateBinaryDevices yield env).calls, c.tag ≠ t) :=
  ⟨fun yield pre post v cur s hnd hP hs hd hc heq =>
      analog_unchanged_suppressed m yield env pre post t v cur d s hnd hP hs hd hc heq,
    fun yield pre post v cur s hnd hP hs hd hc heq =>
      binary_unchanged_suppressed m yield env pre post t v cur d s hnd hP hs hd hc heq⟩

/-- Witness of C5 on `samplePending`: 1.0 is pending for `t` and its device
`d` holds 1.0; the drain deletes the entry and makes no call for `t`. -/
theorem unchanged_outputs_suppressed_witness :
    (samplePending.updatedAnalogTags = [] ++ ("t", Float64.one) :: [] ∧
      samplePending.analogDeviceOf "t" = some "d" ∧
      samplePending.analogDeviceValues.get "d" = some Float64.one ∧
      Float64.eq Float64.one Float64.one = true) ∧
    (samplePending.UpdateAnalogDevices acceptAll ()).mem.updatedAnalogTags.get "t" = none ∧
    ∀ c ∈ (samplePending.UpdateAnalogDevices acceptAll ()).calls, c.tag ≠ "t" :=
  ⟨⟨by decide, by decide, by decide, by decide⟩,
    ((unchanged_outputs_suppressed samplePending () "t" "d").1 acceptAll [] []
      Float64.one Float64.one ⟨samplePending, (), none, []⟩
      (by decide) (by decide) rfl (by decide) (by decide) (by decide)).2.2⟩

/-- An external analog tag whose module and device resolve reads the value
of the device. -/
theorem getAnalogValueForTag_of_device (m : Memory) (t d : String) (v : Float64)
    (hd : m.analogDeviceOf t = some d) (hv : m.analogDeviceValues.get d = some v) :
    m.GetAnalogValueForTag t = (v, none) := by
  unfold analogDeviceOf at hd
  cases h1 : m.analogTags.get t with
  | none => simp [h1] at hd
  | some mo =>
    simp only [h1] at hd
    simp [GetAnalogValueForTag, getAnalogValueForTag, getAnalogDeviceValue, h1, hd, hv]

/-- C6. Successful drain.  Let no two pending analog tags resolve to the same
device and let `yield` return nil on every call.  Then `UpdateAnalogDevices`
returns nil.  For each pending entry `(t, v)` whose tag resolves through its
module to a registered device `d` holding `cur`, with `v` and `cur` not equal
under `==`: the calls of `yield` on `d` are exactly one call, for `t` with the
value `v`, so `yield(d, v)` is called exactly once; afterwards `t` is absent
from the pending buffer and `GetAnalogValueForTag(t)` returns `v`.  And
`yield` is called for no other entry: every call is for such an entry. -/
theorem successful_drain {σ : Type} (m : Memory)
    (yield : σ → String → Float64 → σ × Option String) (env : σ)
    (hnd : m.updatedAnalogTags.keys.Nodup)
    (hinj : ∀ t1 ∈ m.updatedAnalogTags.keys, ∀ t2 ∈ m.updatedAnalogTags.keys, ∀ d,
      m.analogDeviceOf t1 = some d → m.analogDeviceOf t2 = some d → t1 = t2)
    (hy : ∀ env d v, (yield env d v).2 = none) :
    (m.UpdateAnalogDevices yield env).updateErr = none ∧
    (∀ e ∈ m.updatedAnalogTags, ∀ d cur, m.analogDeviceOf e.1 = some d →
      m.analogDeviceValues.get d = some cur → Float64.eq e.2 cur = false →
      (m.UpdateAnalogDevices yield env).calls.filter (fun c => decide (c.device = d))
        = [⟨e.1, d, e.2, none⟩] ∧
      (m.UpdateAnalogDevices yield env).calls.countP
        (fun c => decide (c.device = d) && decide (c.value = e.2)) = 1 ∧
      (m.UpdateAnalogDevices yield env).mem.updatedAnalogTags.get e.1 = none ∧
      (m.UpdateAnalogDevices yield env).mem.GetAnalogValueForTag e.1 = (e.2, none)) ∧
    (∀ c ∈ (m.UpdateAnalogDevices yield env).calls,
      (c.tag, c.value) ∈ m.updatedAnalogTags ∧ m.analogDeviceOf c.tag = some c.device ∧
      c.err = none ∧
      ∃ cur, m.analogDeviceValues.get c.device = some cur ∧ Float64.eq c.value cur = false) := by
  have inv := analogDrainInv_final m yield env hnd
  have hnil : ∀ c ∈ (m.UpdateAnalogDevices yield env).calls, c.err = none := by
    intro c hc
    obtain ⟨-, -, env', h3⟩ := inv.called c hc
    rw [h3]
    exact hy _ _ _
  have hkey : ∀ e ∈ m.updatedAnalogTags, e.1 ∈ m.updatedAnalogTags.keys :=
    fun e he => List.mem_map.mpr ⟨e, he, rfl⟩
  refine ⟨?_, ?_, ?_⟩
  · by_contra hne
    obtain ⟨c, hc, hce⟩ := inv.failed.mp hne
    exact hce (hnil c hc)
  · intro e he d cur hd hcur hneq
    have hU : ∀ t ∈ m.updatedAnalogTags.keys, m.analogDeviceOf t = some d → t = e.1 :=
      fun t ht htd => hinj t ht e.1 (hkey e he) d htd hd
    obtain ⟨err, hfl, hok, -⟩ := ((inv.settled e he d hd hU).2 cur hcur).2 hneq
    have hmem : (⟨e.1, d, e.2, err⟩ : YieldCall Float64) ∈
        (m.UpdateAnalogDevices yield env).calls := by
      have : (⟨e.1, d, e.2, err⟩ : YieldCall Float64) ∈
          (m.UpdateAnalogDevices yield env).calls.filter (fun c => decide (c.device = d)) := by
        rw [hfl]
        exact List.mem_singleton.mpr rfl
      exact (List.mem_filter.mp this).1
    have herr : err = none := hnil _ hmem
    subst herr
    obtain ⟨hp, hv⟩ := hok rfl
    refine ⟨hfl, ?_, hp, ?_⟩
    · rw [List.countP_eq_length_filter]
      have h2 : (m.UpdateAnalogDevices yield env).calls.filter
            (fun c => decide (c.device = d) && decide (c.value = e.2))
          = ((m.UpdateAnalogDevices yield env).calls.filter
              (fun c => decide (c.device = d))).filter (fun c => decide (c.value = e.2)) := by
        rw [List.filter_filter]
        congr 1
        funext c
        exact Bool.and_comm _ _
      rw [h2, hfl]
      simp
    · apply getAnalogValueForTag_of_device _ _ d
      · rw [← hd]
        exact analogDeviceOf_congr inv.frame e.1
      · exact hv
  · intro c hc
    obtain ⟨h1, h2, -⟩ := inv.called c hc
    have hU : ∀ t ∈ m.updatedAnalogTags.keys, m.analogDeviceOf t = some c.device → t = c.tag :=
      fun t ht htd => hinj t ht c.tag (hkey _ h1) c.device htd h2
    obtain ⟨hn, hsome⟩ := inv.settled (c.tag, c.value) h1 c.device h2 hU
    have hcf : c ∈ (m.UpdateAnalogDevices yield env).calls.filter
        (fun x => decide (x.device = c.device)) := List.mem_filter.mpr ⟨hc, by simp⟩
    refine ⟨h1, h2, hnil c hc, ?_⟩
    cases hm : m.analogDeviceValues.get c.device with
    | none =>
      rw [hn hm] at hcf
      exact absurd hcf (by simp)
    | some cur =>
      refine ⟨cur, rfl, ?_⟩
      cases heq : Float64.eq c.value cur with
      | true =>
        rw [((hsome cur hm).1 heq).1] at hcf
        exact absurd hcf (by simp)
      | false => rfl

/-- Witness of C6 on `sampleChanged`: 2.0 is pending for `t` and its device
holds 1.0; the drain calls `yield` once, with `d` and 2.0, and `t` reads 2.0
afterwards. -/
theorem successful_drain_witness :
    (sampleChanged.updatedAnalogTags.keys.Nodup ∧
      ("t", Float64.two) ∈ sampleChanged.updatedAnalogTags ∧
      sampleChanged.analogDeviceOf "t" = some "d" ∧
      sampleChanged.analogDeviceValues.get "d" = some Float64.one ∧
      Float64.eq Float64.two Float64.one = false) ∧
    (sampleChanged.UpdateAnalogDevices acceptAll ()).calls.filter
        (fun c => decide (c.device = "d")) = [⟨"t", "d", Float64.two, none⟩] ∧
    (sampleChanged.UpdateAnalogDevices acceptAll ()).calls.countP
        (fun c => decide (c.device = "d") && decide (c.value = Float64.two)) = 1 ∧
    (sampleChanged.UpdateAnalogDevices acceptAll ()).mem.updatedAnalogTags.get "t" = none ∧
    (sampleChanged.UpdateAnalogDevices acceptAll ()).mem.GetAnalogValueForTag "t"
      = (Float64.two, none) :=
  ⟨⟨by decide, by decide, by decide, by decide, by decide⟩,
    (successful_drain sampleChanged acceptAll () (by decide)
      (by
        intro t1 h1 t2 h2 d _ _
        have e1 : t1 = "t" := by simpa [sampleChanged, GoMap.keys] using h1
        have e2 : t2 = "t" := by simpa [sampleChanged, GoMap.keys] using h2
        rw [e1, e2])
      (fun _ _ _ => rfl)).2.1 ("t", Float64.two) (by decide) "d" Float64.one
      (by decide) (by decide) (by decide)⟩

/-- C7, refuted as stated: a tag whose `yield` failed does not always find
its device value unchanged after the drain.  In `sharedDevice` the tags `t1`
and `t2` resolve to the same device `d`, which holds 0.0; `rejectOne` fails
for `t1` (value 1.0) and succeeds for `t2` (value 2.0), so the method returns
an error, the entry of `t1` is still pending, and `d` holds 2.0. -/
theorem failed_drain_device_changed :
    ¬ ∀ (m : Memory) (yield : Unit → String → Float64 → Unit × Option String)
        (c : YieldCall Float64),
      m.updatedAnalogTags.keys.Nodup →
      c ∈ (m.UpdateAnalogDevices yield ()).calls → c.err ≠ none →
      (m.UpdateAnalogDevices yield ()).mem.updatedAnalogTags.get c.tag
        = m.updatedAnalogTags.get c.tag ∧
      (m.UpdateAnalogDevices yield ()).mem.analogDeviceValues.get c.device
        = m.analogDeviceValues.get c.device := by
  intro h
  have := h sharedDevice rejectOne ⟨"t1", "d", Float64.one, some "rejected"⟩
    (by decide) (by decide) (by decide)
  revert this
  decide

/-- C7, amended.  `UpdateAnalogDevices` returns a non-nil error if and only if
at least one call of `yield` returned an error.  For every tag whose `yield`
failed the pending entry is retained, and the value of its device is left
unchanged provided no other pending tag resolves to the same device.  The
same holds for `UpdateBinaryDevices`. -/
theorem failed_drain {σ : Type} (m : Memory) (env : σ) :
    (∀ yield : σ → String → Float64 → σ × Option String,
      ((m.UpdateAnalogDevices yield env).updateErr ≠ none ↔
        ∃ c ∈ (m.UpdateAnalogDevices yield env).calls, c.err ≠ none) ∧
      (m.updatedAnalogTags.keys.Nodup →
        ∀ c ∈ (m.UpdateAnalogDevices yield env).calls, c.err ≠ none →
          m.updatedAnalogTags.get c.tag = some c.value ∧
          (m.UpdateAnalogDevices yield env).mem.updatedAnalogTags.get c.tag = some c.value ∧
          ((∀ t ∈ m.updatedAnalogTags.keys, m.analogDeviceOf t = some c.device → t = c.tag) →
            (m.UpdateAnalogDevices yield env).mem.analogDeviceValues.get c.device
              = m.analogDeviceValues.get c.device))) ∧
    (∀ yield : σ → String → Bool → σ × Option String,
      ((m.UpdateBinaryDevices yield env).updateErr ≠ none ↔
        ∃ c ∈ (m.UpdateBinaryDevices yield env).calls, c.err ≠ none) ∧
      (m.updatedBinaryTags.keys.Nodup →
        ∀ c ∈ (m.UpdateBinaryDevices yield env).calls, c.err ≠ none →
          m.updatedBinaryTags.get c.tag = some c.value ∧
          (m.UpdateBinaryDevices yield env).mem.updatedBinaryTags.get c.tag = some c.value ∧
          ((∀ t ∈ m.updatedBinaryTags.keys, m.binaryDeviceOf t = some c.device → t = c.tag) →
            (m.UpdateBinaryDevices yield env).mem.binaryDeviceStatuses.get c.device
              = m.binaryDeviceStatuses.get c.device))) :=
  ⟨fun yield =>
      ⟨analogDrain_error_iff yield m.updatedAnalogTags ⟨m, env, none, []⟩ (by simp),
        fun hnd c hc hce => analogDrain_failed_call m yield env hnd c hc hce⟩,
    fun yield =>
      ⟨binaryDrain_error_iff yield m.updatedBinaryTags ⟨m, env, none, []⟩ (by simp),
        fun hnd c hc hce => binaryDrain_failed_call m yield env hnd c hc hce⟩⟩

/-- Witness of the amended C7 on `sharedDevice` and `rejectOne`: the `yield`
for `t1` fails, the method returns an error, and 1.0 is still pending for
`t1`. -/
theorem failed_drain_witness :
    (sharedDevice.updatedAnalogTags.keys.Nodup ∧
      (⟨"t1", "d", Float64.one, some "rejected"⟩ : YieldCall Float64) ∈
        (sharedDevice.UpdateAnalogDevices rejectOne ()).calls) ∧
    (sharedDevice.UpdateAnalogDevices rejectOne ()).updateErr ≠ none ∧
    (sharedDevice.UpdateAnalogDevices rejectOne ()).mem.updatedAnalogTags.get "t1"
      = some Float64.one :=
  ⟨⟨by decide, by decide⟩,
    ((failed_drain sharedDevice ()).1 rejectOne).1.mpr
      ⟨⟨"t1", "d", Float64.one, some "rejected"⟩, by decide, by decide⟩,
    (((failed_drain sharedDevice ()).1 rejectOne).2 (by decide)
      ⟨"t1", "d", Float64.one, some "rejected"⟩ (by decide) (by decide)).2.1⟩

end Memory

/-! ## Tag names, snapshots and device points -/

namespace Memory

/-- C11. `HasTag(name)` is true if and only if `name` is a key of at least
one of the five tag maps (external binary, external analog, internal binary,
internal analog, internal string).  The other maps play no part: two memories
with the same five tag maps give the same answer, whatever their module,
device and pending maps hold. -/
theorem hasTag_iff (m : Memory) (name : String) :
    (m.HasTag name = true ↔
      (m.binaryTags.has name = true ∨ m.analogTags.has name = true ∨
        m.internalBinaryTags.has name = true ∨ m.internalAnalogTags.has name = true ∨
        m.internalStringTags.has name = true)) ∧
    (∀ m' : Memory, m'.binaryTags = m.binaryTags → m'.analogTags = m.analogTags →
      m'.internalBinaryTags = m.internalBinaryTags →
      m'.internalAnalogTags = m.internalAnalogTags →
      m'.internalStringTags = m.internalStringTags → m'.HasTag name = m.HasTag name) := by
  refine ⟨?_, ?_⟩
  · unfold HasTag
    cases m.binaryTags.has name <;> cases m.analogTags.has name <;>
      cases m.internalBinaryTags.has name <;> cases m.internalAnalogTags.has name <;>
      cases m.internalStringTags.has name <;> simp
  · intro m' h1 h2 h3 h4 h5
    simp [HasTag, h1, h2, h3, h4, h5]

/-- Witness of C11: in `noTags` the device name `d`, the module id `io` and
the pending key `t` are not tags, and in `samplePending` the tag `t` is. -/
theorem hasTag_iff_witness :
    (noTags.HasTag "d" = false ∧ noTags.HasTag "io" = false ∧ noTags.HasTag "t" = false) ∧
    (samplePending.HasTag "t" = true ↔
      (samplePending.binaryTags.has "t" = true ∨ samplePending.analogTags.has "t" = true ∨
        samplePending.internalBinaryTags.has "t" = true ∨
        samplePending.internalAnalogTags.has "t" = true ∨
        samplePending.internalStringTags.has "t" = true)) :=
  ⟨by decide, (hasTag_iff samplePending "t").1⟩

theorem hasTag_iff_count (m : Memory) (name : String) :
    m.HasTag name = true ↔ 1 ≤ m.namespaceCount name := by
  unfold HasTag namespaceCount
  cases m.binaryTags.has name <;> cases m.analogTags.has name <;>
    cases m.internalBinaryTags.has name <;> cases m.internalAnalogTags.has name <;>
    cases m.internalStringTags.has name <;> simp

end Memory

theorem GoMap.has_set {V : Type} (m : GoMap V) (k : String) (v : V) (k' : String) :
    (m.set k v).has k' = (decide (k = k') || m.has k') := by
  unfold GoMap.has
  rw [GoMap.get_set]
  by_cases h : k = k' <;> simp [h]

namespace Declaration

/-- A declaration leaves the memory as it is or assigns the name it declares
in one of the five tag maps. -/
theorem apply_effect (ParseFloat : String → Float64 × Option String) (m : Memory)
    (d : Declaration) :
    (apply ParseFloat m d).1 = m ∨
    (∃ v, (apply ParseFloat m d).1 =
      { m with binaryTags := m.binaryTags.set (d.name ParseFloat) v }) ∨
    (∃ v, (apply ParseFloat m d).1 =
      { m with analogTags := m.analogTags.set (d.name ParseFloat) v }) ∨
    (∃ v, (apply ParseFloat m d).1 =
      { m with internalBinaryTags := m.internalBinaryTags.set (d.name ParseFloat) v }) ∨
    (∃ v, (apply ParseFloat m d).1 =
      { m with internalAnalogTags := m.internalAnalogTags.set (d.name ParseFloat) v }) ∨
    (∃ v, (apply ParseFloat m d).1 =
      { m with internalStringTags := m.internalStringTags.set (d.name ParseFloat) v }) := by
  cases d with
  | external e =>
    simp only [apply, name, Memory.handleExternalTag]
    rcases h : Memory.externalTagFields e.ChildElements ("", "", "") with ⟨nm, io, ttype⟩
    by_cases h1 : ttype = "binary"
    · simp [h1]
    · by_cases h2 : ttype = "analog"
      · simp [h1, h2]
      · simp [h1, h2]
  | internal e =>
    simp only [apply, name, Memory.handleInternalTag]
    rcases h : Memory.internalTagFields ParseFloat e.ChildElements ("", "", Any.nil) with
      err | ⟨nm, ttype, value⟩
    · simp
    · by_cases h1 : ttype = "binary"
      · cases value <;> simp [h1]
      · by_cases h2 : ttype = "analog"
        · cases value <;> simp [h1, h2]
        · by_cases h3 : ttype = "string"
          · cases value <;> simp [h1, h2, h3]
          · simp [h1, h2, h3]

/-- A declaration changes the count of no other name and raises the count of
the name it declares to at most one more than it was, and to at most one when
the name was in no tag map. -/
theorem apply_count (ParseFloat : String → Float64 × Option String) (m : Memory)
    (d : Declaration) (n : String) :
    (n ≠ d.name ParseFloat →
      (apply ParseFloat m d).1.namespaceCount n = m.namespaceCount n) ∧
    (m.namespaceCount n = 0 → (apply ParseFloat m d).1.namespaceCount n ≤ 1) := by
  rcases apply_effect ParseFloat m d with h | ⟨v, h⟩ | ⟨v, h⟩ | ⟨v, h⟩ | ⟨v, h⟩ | ⟨v, h⟩ <;>
    rw [h]
  · exact ⟨fun _ => rfl, fun h0 => by omega⟩
  all_goals
    refine ⟨fun hn => ?_, fun h0 => ?_⟩
    · have hn' : ¬ d.name ParseFloat = n := fun h' => hn h'.symm
      simp [Memory.namespaceCount, GoMap.has_set, hn']
    · have h1 : m.binaryTags.has n = false ∧ m.analogTags.has n = false ∧
          m.internalBinaryTags.has n = false ∧ m.internalAnalogTags.has n = false ∧
          m.internalStringTags.has n = false := by
        unfold Memory.namespaceCount at h0
        revert h0
        cases m.binaryTags.has n <;> cases m.analogTags.has n <;>
          cases m.internalBinaryTags.has n <;> cases m.internalAnalogTags.has n <;>
          cases m.internalStringTags.has n <;> simp
      obtain ⟨a1, a2, a3, a4, a5⟩ := h1
      by_cases hn : d.name ParseFloat = n <;>
        simp [Memory.namespaceCount, GoMap.has_set, a1, a2, a3, a4, a5, hn]

/-- Declarations of pairwise distinct names keep every name in at most one
tag map. -/
theorem run_count (ParseFloat : String → Float64 × Option String) :
    ∀ (ds : List Declaration) (m : Memory) (names : List String),
      (∀ n, m.namespaceCount n ≤ 1 ∧ (1 ≤ m.namespaceCount n → n ∈ names)) →
      (names ++ ds.map (name ParseFloat)).Nodup →
      ∀ n, (run ParseFloat m ds).namespaceCount n ≤ 1 ∧
        (1 ≤ (run ParseFloat m ds).namespaceCount n → n ∈ names ++ ds.map (name ParseFloat)) := by
  intro ds
  induction ds with
  | nil => intro m names h _ n; simpa [run] using h n
  | cons d ds ih =>
    intro m names h hnd n
    have hd : d.name ParseFloat ∉ names := by
      intro hmem
      have := (List.nodup_append.mp hnd).2.2 hmem
      exact this (by simp)
    have hstep : ∀ n, (apply ParseFloat m d).1.namespaceCount n ≤ 1 ∧
        (1 ≤ (apply ParseFloat m d).1.namespaceCount n → n ∈ names ++ [d.name ParseFloat]) := by
      intro n
      obtain ⟨h1, h2⟩ := apply_count ParseFloat m d n
      by_cases hn : n = d.name ParseFloat
      · have h0 : m.namespaceCount n = 0 := by
          by_contra hne
          exact hd (hn ▸ (h n).2 (by omega))
        exact ⟨h2 h0, fun _ => by simp [hn]⟩
      · rw [h1 hn]
        exact ⟨(h n).1, fun h3 => List.mem_append_left _ ((h n).2 h3)⟩
    have := ih (apply ParseFloat m d).1 (names ++ [d.name ParseFloat]) hstep
      (by simpa using hnd) n
    simpa [run] using this

end Declaration

namespace Memory

/-- C12, refuted as stated: configuration does not keep names unique.  The
declarations `sameNameTwice`, an external binary tag `x` followed by an
internal binary tag `x`, leave `x` in two tag maps. -/
theorem names_not_unique :
    ¬ ∀ (ParseFloat : String → Float64 × Option String) (ds : List Declaration)
        (name : String), (Declaration.run ParseFloat NewMemory ds).namespaceCount name ≤ 1 := by
  intro h
  have := h parseNothing sameNameTwice "x"
  revert this
  decide

/-- C12, amended: a declaration adds the name it declares to at most one tag
map and looks at no other map.  So after any sequence of `handleExternalTag`
and `handleInternalTag` calls on `NewMemory()` that declare pairwise distinct
names, each name is a key of at most one of the five tag maps, and every name
for which `HasTag` is true is a key of exactly one. -/
theorem names_unique_when_declared_once (ParseFloat : String → Float64 × Option String)
    (ds : List Declaration) (hnd : (ds.map (Declaration.name ParseFloat)).Nodup)
    (name : String) :
    (Declaration.run ParseFloat NewMemory ds).namespaceCount name ≤ 1 ∧
    ((Declaration.run ParseFloat NewMemory ds).HasTag name = true ↔
      (Declaration.run ParseFloat NewMemory ds).namespaceCount name = 1) := by
  have h := Declaration.run_count ParseFloat ds NewMemory []
    (fun n => by simp [namespaceCount, NewMemory, GoMap.has, GoMap.get]) (by simpa using hnd) name
  refine ⟨h.1, ?_⟩
  rw [hasTag_iff_count]
  omega

/-- Witness of the amended C12: the three declarations of
`distinctDeclarations` declare the three names `t`, `flag` and `bt`, and each
of them is a tag in exactly one tag map afterwards. -/
theorem names_unique_when_declared_once_witness :
    (distinctDeclarations.map (Declaration.name parseNothing) = ["t", "flag", "bt"] ∧
      (distinctDeclarations.map (Declaration.name parseNothing)).Nodup) ∧
    ((Declaration.run parseNothing NewMemory distinctDeclarations).HasTag "t" = true ∧
      (Declaration.run parseNothing NewMemory distinctDeclarations).HasTag "flag" = true ∧
      (Declaration.run parseNothing NewMemory distinctDeclarations).HasTag "bt" = true) ∧
    (Declaration.run parseNothing NewMemory distinctDeclarations).namespaceCount "t" = 1 ∧
    (Declaration.run parseNothing NewMemory distinctDeclarations).namespaceCount "flag" = 1 ∧
    (Declaration.run parseNothing NewMemory distinctDeclarations).namespaceCount "bt" = 1 :=
  ⟨⟨by decide, by decide⟩, ⟨by decide, by decide, by decide⟩,
    ((names_unique_when_declared_once parseNothing distinctDeclarations (by decide) "t").2).1
      (by decide),
    ((names_unique_when_declared_once parseNothing distinctDeclarations (by decide)
      "flag").2).1 (by decide),
    ((names_unique_when_declared_once parseNothing distinctDeclarations (by decide) "bt").2).1
      (by decide)⟩

/-- What the first loop of `getAnalogPoints` puts in `points`: the value of
every tag it visits that resolves. -/
theorem analogPointsLoop_get (m : Memory) (n : String) :
    ∀ (l : List (String × String)) (acc : GoMap Float64 × List String),
      (analogPointsLoop m l acc).1.get n =
        if n ∈ GoMap.keys l ∧ (m.GetAnalogValueForTag n).2 = none
        then some (m.GetAnalogValueForTag n).1 else acc.1.get n := by
  intro l
  induction l with
  | nil => intro acc; simp [analogPointsLoop, GoMap.keys]
  | cons e l ih =>
    intro acc
    obtain ⟨tag, mo⟩ := e
    obtain ⟨points, errors⟩ := acc
    unfold analogPointsLoop
    rcases h : m.GetAnalogValueForTag tag with ⟨value, _ | err⟩
    · simp only [ih, GoMap.keys, List.map_cons, List.mem_cons]
      by_cases h1 : n ∈ List.map Prod.fst l ∧ (m.GetAnalogValueForTag n).2 = none
      · simp [h1]
      · by_cases h2 : tag = n
        · subst h2
          simp [h, GoMap.get_set_self]
        · have h3 : ¬ n = tag := fun h' => h2 h'.symm
          simp only [h3, false_or, h1, if_false]
          exact GoMap.get_set_ne _ _ h2
    · simp only [ih, GoMap.keys, List.map_cons, List.mem_cons]
      by_cases h2 : tag = n
      · subst h2
        simp [h]
      · have h3 : ¬ n = tag := fun h' => h2 h'.symm
        simp only [h3, false_or]

/-- The first loop of `getAnalogPoints` records an error exactly for the tags
it visits that do not resolve. -/
theorem analogPointsLoop_errors (m : Memory) :
    ∀ (l : List (String × String)) (acc : GoMap Float64 × List String),
      ((analogPointsLoop m l acc).2 ≠ [] ↔
        (acc.2 ≠ [] ∨ ∃ t ∈ GoMap.keys l, (m.GetAnalogValueForTag t).2 ≠ none)) := by
  intro l
  induction l with
  | nil => intro acc; simp [analogPointsLoop, GoMap.keys]
  | cons e l ih =>
    intro acc
    obtain ⟨tag, mo⟩ := e
    obtain ⟨points, errors⟩ := acc
    unfold analogPointsLoop
    rcases h : m.GetAnalogValueForTag tag with ⟨value, _ | err⟩
    · simp [ih, GoMap.keys, h]
    · simp [ih, GoMap.keys, h]

/-- The snapshot of the analog tags against the single reads. -/
theorem analogPoints_spec (Errorf : String → String) (m : Memory) :
    ((m.GetAnalogPoints Errorf).2 ≠ none ↔
      ∃ t, m.analogTags.has t = true ∧ (m.GetAnalogValueForTag t).2 ≠ none) ∧
    (m.internalAnalogTags.keys.Nodup →
      (∀ n, ¬ (m.analogTags.has n = true ∧ m.internalAnalogTags.has n = true)) →
      ∀ n v, ((m.GetAnalogPoints Errorf).1.get n = some v ↔
        m.GetAnalogValueForTag n = (v, none))) := by
  have herr := analogPointsLoop_errors m m.analogTags ([], [])
  refine ⟨?_, ?_⟩
  · simp only [GetAnalogPoints, getAnalogPoints]
    rcases hl : analogPointsLoop m m.analogTags ([], []) with ⟨points, errors⟩
    rw [hl] at herr
    simp only [ne_eq, not_true_eq_false, false_or] at herr
    by_cases he : errors = []
    · simp only [he, ne_eq, not_true_eq_false, if_false]
      have := herr.not.mp (by simpa using he)
      constructor
      · intro h; exact h.elim
      · rintro ⟨t, ht, hne⟩
        exact absurd ⟨t, (GoMap.has_eq_true_iff _ _).mp ht, hne⟩ this
    · simp only [ne_eq, he, not_false_eq_true, if_true]
      obtain ⟨t, ht, hne⟩ := herr.mp he
      exact ⟨fun _ => ⟨t, (GoMap.has_eq_true_iff _ _).mpr ht, hne⟩, fun _ => by simp⟩
  · intro hnd hdis n v
    have hpts : (m.GetAnalogPoints Errorf).1 =
        (analogPointsLoop m m.analogTags ([], [])).1.merge m.internalAnalogTags := by
      simp only [GetAnalogPoints, getAnalogPoints]
      rcases analogPointsLoop m m.analogTags ([], []) with ⟨points, errors⟩
      by_cases he : errors = [] <;> simp [he]
    rw [hpts, GoMap.get_merge_or _ _ hnd, analogPointsLoop_get]
    by_cases hx : m.analogTags.has n = true
    · have hi : m.internalAnalogTags.get n = none := by
        have := hdis n
        cases h' : m.internalAnalogTags.get n with
        | none => rfl
        | some x => exact absurd ⟨hx, by simp [GoMap.has, h']⟩ this
      have hk : n ∈ GoMap.keys m.analogTags := (GoMap.has_eq_true_iff _ _).mp hx
      rcases hg : m.GetAnalogValueForTag n with ⟨value, _ | err⟩
      · simp [hi, hk]
      · simp [hi, hk]
    · have hk : n ∉ GoMap.keys m.analogTags := fun h' => hx ((GoMap.has_eq_true_iff _ _).mpr h')
      have hg : m.analogTags.get n = none := (GoMap.get_eq_none_iff _ _).mpr hk
      simp only [hk, false_and, if_false, GoMap.get_nil, GetAnalogValueForTag,
        getAnalogValueForTag, hg]
      cases m.internalAnalogTags.get n <;> simp

/-- What the first loop of `getBinaryPoints` puts in `points`: the value of
every tag it visits that resolves. -/
theorem binaryPointsLoop_get (m : Memory) (n : String) :
    ∀ (l : List (String × String)) (acc : GoMap Bool × List String),
      (binaryPointsLoop m l acc).1.get n =
        if n ∈ GoMap.keys l ∧ (m.GetBinaryStatusForTag n).2 = none
        then some (m.GetBinaryStatusForTag n).1 else acc.1.get n := by
  intro l
  induction l with
  | nil => intro acc; simp [binaryPointsLoop, GoMap.keys]
  | cons e l ih =>
    intro acc
    obtain ⟨tag, mo⟩ := e
    obtain ⟨points, errors⟩ := acc
    unfold binaryPointsLoop
    rcases h : m.GetBinaryStatusForTag tag with ⟨value, _ | err⟩
    · simp only [ih, GoMap.keys, List.map_cons, List.mem_cons]
      by_cases h1 : n ∈ List.map Prod.fst l ∧ (m.GetBinaryStatusForTag n).2 = none
      · simp [h1]
      · by_cases h2 : tag = n
        · subst h2
          simp [h, GoMap.get_set_self]
        · have h3 : ¬ n = tag := fun h' => h2 h'.symm
          simp only [h3, false_or, h1, if_false]
          exact GoMap.get_set_ne _ _ h2
    · simp only [ih, GoMap.keys, List.map_cons, List.mem_cons]
      by_cases h2 : tag = n
      · subst h2
        simp [h]
      · have h3 : ¬ n = tag := fun h' => h2 h'.symm
        simp only [h3, false_or]

/-- The first loop of `getBinaryPoints` records an error exactly for the tags
it visits that do not resolve. -/
theorem binaryPointsLoop_errors (m : Memory) :
    ∀ (l : List (String × String)) (acc : GoMap Bool × List String),
      ((binaryPointsLoop m l acc).2 ≠ [] ↔
        (acc.2 ≠ [] ∨ ∃ t ∈ GoMap.keys l, (m.GetBinaryStatusForTag t).2 ≠ none)) := by
  intro l
  induction l with
  | nil => intro acc; simp [binaryPointsLoop, GoMap.keys]
  | cons e l ih =>
    intro acc
    obtain ⟨tag, mo⟩ := e
    obtain ⟨points, errors⟩ := acc
    unfold binaryPointsLoop
    rcases h : m.GetBinaryStatusForTag tag with ⟨value, _ | err⟩
    · simp [ih, GoMap.keys, h]
    · simp [ih, GoMap.keys, h]

/-- The snapshot of the binary tags against the single reads. -/
theorem binaryPoints_spec (Errorf : String → String) (m : Memory) :
    ((m.GetBinaryPoints Errorf).2 ≠ none ↔
      ∃ t, m.binaryTags.has t = true ∧ (m.GetBinaryStatusForTag t).2 ≠ none) ∧
    (m.internalBinaryTags.keys.Nodup →
      (∀ n, ¬ (m.binaryTags.has n = true ∧ m.internalBinaryTags.has n = true)) →
      ∀ n v, ((m.GetBinaryPoints Errorf).1.get n = some v ↔
        m.GetBinaryStatusForTag n = (v, none))) := by
  have herr := binaryPointsLoop_errors m m.binaryTags ([], [])
  refine ⟨?_, ?_⟩
  · simp only [GetBinaryPoints, getBinaryPoints]
    rcases hl : binaryPointsLoop m m.binaryTags ([], []) with ⟨points, errors⟩
    rw [hl] at herr
    simp only [ne_eq, not_true_eq_false, false_or] at herr
    by_cases he : errors = []
    · simp only [he, ne_eq, not_true_eq_false, if_false]
      have := herr.not.mp (by simpa using he)
      constructor
      · intro h; exact h.elim
      · rintro ⟨t, ht, hne⟩
        exact absurd ⟨t, (GoMap.has_eq_true_iff _ _).mp ht, hne⟩ this
    · simp only [ne_eq, he, not_false_eq_true, if_true]
      obtain ⟨t, ht, hne⟩ := herr.mp he
      exact ⟨fun _ => ⟨t, (GoMap.has_eq_true_iff _ _).mpr ht, hne⟩, fun _ => by simp⟩
  · intro hnd hdis n v
    have hpts : (m.GetBinaryPoints Errorf).1 =
        (binaryPointsLoop m m.binaryTags ([], [])).1.merge m.internalBinaryTags := by
      simp only [GetBinaryPoints, getBinaryPoints]
      rcases binaryPointsLoop m m.binaryTags ([], []) with ⟨points, errors⟩
      by_cases he : errors = [] <;> simp [he]
    rw [hpts, GoMap.get_merge_or _ _ hnd, binaryPointsLoop_get]
    by_cases hx : m.binaryTags.has n = true
    · have hi : m.internalBinaryTags.get n = none := by
        have := hdis n
        cases h' : m.internalBinaryTags.get n with
        | none => rfl
        | some x => exact absurd ⟨hx, by simp [GoMap.has, h']⟩ this
      have hk : n ∈ GoMap.keys m.binaryTags := (GoMap.has_eq_true_iff _ _).mp hx
      rcases hg : m.GetBinaryStatusForTag n with ⟨value, _ | err⟩
      · simp [hi, hk]
      · simp [hi, hk]
    · have hk : n ∉ GoMap.keys m.binaryTags := fun h' => hx ((GoMap.has_eq_true_iff _ _).mpr h')
      have hg : m.binaryTags.get n = none := (GoMap.get_eq_none_iff _ _).mpr hk
      simp only [hk, false_and, if_false, GoMap.get_nil, GetBinaryStatusForTag,
        getBinaryStatusForTag, hg]
      cases m.internalBinaryTags.get n <;> simp

/-- C13, refuted as stated: the snapshot does not agree with the single read
in every memory.  In `twoOrigins` the name `x` is an external analog tag whose
device reads 1.0 and also an internal analog tag holding 2.0:
`GetAnalogValueForTag("x")` returns 1.0 and `GetAnalogPoints()` maps `x` to
2.0. -/
theorem snapshot_disagrees_with_read :
    ¬ ∀ (Errorf : String → String) (m : Memory) (n : String) (v : Float64),
      m.internalAnalogTags.keys.Nodup →
      ((m.GetAnalogPoints Errorf).1.get n = some v ↔ m.GetAnalogValueForTag n = (v, none)) := by
  intro h
  have := (h id twoOrigins "x" Float64.two (by decide)).mp (by decide)
  revert this
  decide

/-- C13, amended.  In every memory in which no name is both an external and an
internal analog tag, `GetAnalogPoints()` maps `n` to `v` if and only if
`GetAnalogValueForTag(n)` returns `v` without error, and `GetBinaryPoints()`
likewise against `GetBinaryStatusForTag` when no name is both an external and
an internal binary tag.  In every memory `GetAnalogPoints()` returns a non-nil
error exactly when some external analog tag fails to resolve, and
`GetBinaryPoints()` likewise; the map is returned with the error. -/
theorem snapshot_agrees_with_reads (Errorf : String → String) (m : Memory) :
    (((m.GetAnalogPoints Errorf).2 ≠ none ↔
        ∃ t, m.analogTags.has t = true ∧ (m.GetAnalogValueForTag t).2 ≠ none) ∧
      (m.internalAnalogTags.keys.Nodup →
        (∀ n, ¬ (m.analogTags.has n = true ∧ m.internalAnalogTags.has n = true)) →
        ∀ n v, ((m.GetAnalogPoints Errorf).1.get n = some v ↔
          m.GetAnalogValueForTag n = (v, none)))) ∧
    (((m.GetBinaryPoints Errorf).2 ≠ none ↔
        ∃ t, m.binaryTags.has t = true ∧ (m.GetBinaryStatusForTag t).2 ≠ none) ∧
      (m.internalBinaryTags.keys.Nodup →
        (∀ n, ¬ (m.binaryTags.has n = true ∧ m.internalBinaryTags.has n = true)) →
        ∀ n v, ((m.GetBinaryPoints Errorf).1.get n = some v ↔
          m.GetBinaryStatusForTag n = (v, none)))) :=
  ⟨analogPoints_spec Errorf m, binaryPoints_spec Errorf m⟩

/-- Witness of the amended C13 on `sampleMemory`: the snapshot maps the
external tag `t` to the reading 1.0 of its device. -/
theorem snapshot_agrees_with_reads_witness :
    (sampleMemory.internalAnalogTags.keys.Nodup ∧
      sampleMemory.GetAnalogValueForTag "t" = (Float64.one, none)) ∧
    (sampleMemory.GetAnalogPoints id).1.get "t" = some Float64.one :=
  ⟨⟨by decide, by decide⟩,
    ((snapshot_agrees_with_reads id sampleMemory).1.2 (by decide)
      (by
        intro n hn
        have h1 : n = "t" := by
          have := (GoMap.has_eq_true_iff _ _).mp hn.1
          simpa [sampleMemory, NewMemory, GoMap.keys] using this
        have h2 : n = "x" := by
          have := (GoMap.has_eq_true_iff _ _).mp hn.2
          simpa [sampleMemory, NewMemory, GoMap.keys] using this
        rw [h1] at h2
        exact absurd h2 (by decide))
      "t" Float64.one).mpr (by decide)⟩

/-- C14, refuted as stated: a name can occur twice in `GetDevicePoints()`.
In `twoKinds` the name `p` is registered both as a binary and as an analog
device, and the result is `[p, p]`. -/
theorem device_points_repeat :
    ¬ ∀ m : Memory, m.binaryDeviceStatuses.keys.Nodup → m.analogDeviceValues.keys.Nodup →
      m.GetDevicePoints.Nodup := by
  intro h
  have := h twoKinds (by decide) (by decide)
  revert this
  decide

/-- C14, amended.  A name occurs in `GetDevicePoints()` if and only if it is a
registered binary device or a registered analog device; it occurs once for
each of the two device maps it is registered in, so it occurs twice exactly
when it is registered both as a binary and as an analog device, and never
more often. -/
theorem device_points_union (m : Memory) (name : String) :
    (name ∈ m.GetDevicePoints ↔
      (m.isBinaryDevice name = true ∨ m.isAnalogDevice name = true)) ∧
    (m.binaryDeviceStatuses.keys.Nodup → m.analogDeviceValues.keys.Nodup →
      m.GetDevicePoints.count name =
        (if m.isBinaryDevice name then 1 else 0) + (if m.isAnalogDevice name then 1 else 0)) := by
  have key : ∀ (l : List String), l.Nodup → ∀ (b : Bool), (b = true ↔ name ∈ l) →
      l.count name = if b then 1 else 0 := by
    intro l hl b hb
    cases b with
    | true => simpa using List.count_eq_one_of_mem hl (hb.mp rfl)
    | false =>
      have : name ∉ l := fun h => by simpa using hb.mpr h
      simpa using List.count_eq_zero_of_not_mem this
  refine ⟨?_, fun h1 h2 => ?_⟩
  · simp only [GetDevicePoints, List.mem_append, isBinaryDevice, isAnalogDevice,
      GoMap.has_eq_true_iff]
  · simp only [GetDevicePoints, List.count_append]
    rw [key _ h1 (m.isBinaryDevice name) (GoMap.has_eq_true_iff _ _),
      key _ h2 (m.isAnalogDevice name) (GoMap.has_eq_true_iff _ _)]

/-- Witness of the amended C14 on `twoKinds`: `p` occurs twice. -/
theorem device_points_union_witness :
    (twoKinds.binaryDeviceStatuses.keys.Nodup ∧ twoKinds.analogDeviceValues.keys.Nodup) ∧
    twoKinds.GetDevicePoints.count "p" = 2 :=
  ⟨⟨by decide, by decide⟩,
    ((device_points_union twoKinds "p").2 (by decide) (by decide)).trans (by decide)⟩

end Memory

set_option maxRecDepth 100000

/-! ## Arithmetic of `float64`: exact cases -/

namespace Float64

theorem bitLenAux_spec : ∀ (fuel n : Nat), n < 2 ^ fuel →
    (n < 2 ^ bitLenAux fuel n ∧ (n ≠ 0 → 2 ^ (bitLenAux fuel n - 1) ≤ n)) := by
  intro fuel
  induction fuel with
  | zero => intro n h; simp at h; subst h; simp [bitLenAux]
  | succ k ih =>
    intro n h
    unfold bitLenAux
    by_cases h0 : n = 0
    · simp [h0]
    · simp only [h0, if_false]
      have h2 : n / 2 < 2 ^ k := by
        rw [Nat.div_lt_iff_lt_mul (by norm_num)]; rw [pow_succ] at h; exact h
      obtain ⟨i1, i2⟩ := ih (n / 2) h2
      refine ⟨?_, fun _ => ?_⟩
      · rw [pow_succ]; omega
      · simp only [Nat.add_sub_cancel]
        by_cases h3 : n / 2 = 0
        · simp [h3, bitLenAux]
          cases k <;> simp [bitLenAux] <;> omega
        · have := i2 h3
          have h4 : bitLenAux k (n / 2) ≠ 0 := by
            intro h5; rw [h5] at i1; simp at i1; exact h3 (by omega)
          obtain ⟨j, hj⟩ := Nat.exists_eq_succ_of_ne_zero h4
          rw [hj] at this ⊢
          simp at this
          rw [pow_succ]; omega

/-- The number of binary digits of a number between `2^k` and `2^(k+1)`. -/
theorem bitLen_eq {n k : Nat} (h1 : 2 ^ k ≤ n) (h2 : n < 2 ^ (k + 1)) (hk : k + 1 ≤ 128) :
    bitLen n = k + 1 := by
  have hn : n < 2 ^ 128 := lt_of_lt_of_le h2 (Nat.pow_le_pow_right (by norm_num) hk)
  have h0 : n ≠ 0 := by
    have : 0 < 2 ^ k := Nat.two_pow_pos _
    omega
  obtain ⟨a, b⟩ := bitLenAux_spec 128 n hn
  have b := b h0
  change n < 2 ^ bitLen n at a
  change 2 ^ (bitLen n - 1) ≤ n at b
  by_contra hne
  rcases Nat.lt_or_gt_of_ne hne with h | h
  · have : 2 ^ bitLen n ≤ 2 ^ k := Nat.pow_le_pow_right (by norm_num) (by omega)
    omega
  · have : 2 ^ (k + 1) ≤ 2 ^ (bitLen n - 1) := Nat.pow_le_pow_right (by norm_num) (by omega)
    omega

/-- The bounds of a positive number below `2^128` in terms of its number of
binary digits. -/
theorem bitLen_bounds {n : Nat} (h0 : n ≠ 0) (hn : n < 2 ^ 128) :
    1 ≤ bitLen n ∧ 2 ^ (bitLen n - 1) ≤ n ∧ n < 2 ^ bitLen n := by
  obtain ⟨a, b⟩ := bitLenAux_spec 128 n hn
  refine ⟨?_, b h0, a⟩
  by_contra h
  have h1 : bitLen n = 0 := by omega
  change n < 2 ^ bitLen n at a
  rw [h1] at a
  simp at a
  exact h0 a

theorem roundShift_exact (a k : Nat) : roundShift (a * 2 ^ k) k = a := by
  have hp : 0 < 2 ^ k := Nat.two_pow_pos _
  simp [roundShift, Nat.mul_mod_left, Nat.mul_div_cancel _ hp]
  omega

/-- A positive integer below `2^53` is a `float64`: its number of digits and
the bounds of its significand. -/
theorem small_bounds {M : Nat} (h0 : M ≠ 0) (h : M < 2 ^ 53) :
    1 ≤ bitLen M ∧ bitLen M ≤ 53 ∧
    2 ^ 52 ≤ M * 2 ^ (53 - bitLen M) ∧ M * 2 ^ (53 - bitLen M) < 2 ^ 53 := by
  have hn : M < 2 ^ 128 := lt_of_lt_of_le h (Nat.pow_le_pow_right (by norm_num) (by norm_num))
  obtain ⟨b1, b2, b3⟩ := bitLen_bounds h0 hn
  have hL : bitLen M ≤ 53 := by
    by_contra hc
    have : 2 ^ 53 ≤ 2 ^ (bitLen M - 1) := Nat.pow_le_pow_right (by norm_num) (by omega)
    omega
  refine ⟨b1, hL, ?_, ?_⟩
  · have e1 : 2 ^ 52 = 2 ^ (bitLen M - 1) * 2 ^ (53 - bitLen M) := by
      rw [← pow_add]; congr 1; omega
    rw [e1]
    exact Nat.mul_le_mul_right _ b2
  · have e1 : 2 ^ 53 = 2 ^ bitLen M * 2 ^ (53 - bitLen M) := by
      rw [← pow_add]; congr 1; omega
    rw [e1]
    exact Nat.mul_lt_mul_of_pos_right b3 (Nat.two_pow_pos _)

/-- The fields of the `float64` equal to a positive integer below `2^53`. -/
theorem roundFields_small {M : Nat} (h0 : M ≠ 0) (h : M < 2 ^ 53) :
    roundFields 53 (-1074) 2047 M 0 =
      (bitLen M + 1022, M * 2 ^ (53 - bitLen M) - 2 ^ 52) := by
  obtain ⟨b1, b2, b3, b4⟩ := small_bounds h0 h
  have hs : roundScale 53 (-1074) M 0 = (bitLen M : Int) - 53 := by
    unfold roundScale
    rw [max_eq_left (by omega)]
    omega
  have hm : roundSignificand 53 (-1074) M 0 = M * 2 ^ (53 - bitLen M) := by
    unfold roundSignificand
    rw [hs, if_pos (by omega)]
    congr 2
    omega
  unfold roundFields
  rw [if_neg h0, hm, hs, if_neg (by omega), if_neg (by omega), if_neg (by omega)]
  congr 1
  omega

/-- The fields of the product of a finite `float64` and 1.0. -/
theorem roundFields_times_one (x : Float64) (hx : x.exponent.val ≠ 2047)
    (h0 : x.significand ≠ 0) :
    roundFields 53 (-1074) 2047 (x.significand * 2 ^ 52) (x.scale + -52) =
      (x.exponent.val, x.fraction.val) := by
  have hf : x.fraction.val < 2 ^ 52 := x.fraction.isLt
  have he : x.exponent.val < 2048 := x.exponent.isLt
  have hM0 : x.significand * 2 ^ 52 ≠ 0 := Nat.mul_ne_zero h0 (by norm_num)
  by_cases hz : x.exponent.val = 0
  · -- subnormal
    have hsig : x.significand = x.fraction.val := by simp [significand, hz]
    have hsc : x.scale = -1074 := by simp [scale, hz]
    have hlt : x.significand * 2 ^ 52 < 2 ^ 104 := by
      rw [hsig]
      have : (2:Nat) ^ 104 = 2 ^ 52 * 2 ^ 52 := by norm_num
      rw [this]
      exact Nat.mul_lt_mul_of_pos_right hf (by norm_num)
    have hL : bitLen (x.significand * 2 ^ 52) ≤ 104 := by
      obtain ⟨-, c2, -⟩ := bitLen_bounds hM0
        (lt_of_lt_of_le hlt (Nat.pow_le_pow_right (by norm_num) (by norm_num)))
      by_contra hc
      have : 2 ^ 104 ≤ 2 ^ (bitLen (x.significand * 2 ^ 52) - 1) :=
        Nat.pow_le_pow_right (by norm_num) (by omega)
      omega
    have hs : roundScale 53 (-1074) (x.significand * 2 ^ 52) (x.scale + -52) = -1074 := by
      unfold roundScale
      rw [hsc, max_eq_right (by omega)]
    have hm : roundSignificand 53 (-1074) (x.significand * 2 ^ 52) (x.scale + -52)
        = x.significand := by
      unfold roundSignificand
      rw [hs, hsc, if_neg (by omega)]
      have : ((-1074 : Int) - (-1074 + -52)).toNat = 52 := by omega
      rw [this]
      exact roundShift_exact _ _
    unfold roundFields
    rw [if_neg hM0, hm, if_pos (by rw [hsig]; exact hf), hsig, hz]
  · -- normal
    have hsig : x.significand = 2 ^ 52 + x.fraction.val := by simp [significand, hz]
    have hsc : x.scale = (x.exponent.val : Int) - 1075 := by simp [scale, hz]
    have hlo : 2 ^ 104 ≤ x.significand * 2 ^ 52 := by
      have : (2:Nat) ^ 104 = 2 ^ 52 * 2 ^ 52 := by norm_num
      rw [this]
      exact Nat.mul_le_mul_right _ (by omega)
    have hhi : x.significand * 2 ^ 52 < 2 ^ 105 := by
      have : (2:Nat) ^ 105 = 2 ^ 53 * 2 ^ 52 := by norm_num
      rw [this]
      exact Nat.mul_lt_mul_of_pos_right (by rw [hsig]; omega) (by norm_num)
    have hL : bitLen (x.significand * 2 ^ 52) = 105 := bitLen_eq hlo hhi (by norm_num)
    have hs : roundScale 53 (-1074) (x.significand * 2 ^ 52) (x.scale + -52)
        = (x.exponent.val : Int) - 1075 := by
      unfold roundScale
      rw [hL, hsc, max_eq_left (by omega)]
      omega
    have hm : roundSignificand 53 (-1074) (x.significand * 2 ^ 52) (x.scale + -52)
        = x.significand := by
      unfold roundSignificand
      rw [hs, hsc, if_neg (by omega)]
      have : (((x.exponent.val : Int) - 1075) - ((x.exponent.val : Int) - 1075 + -52)).toNat
          = 52 := by omega
      rw [this]
      exact roundShift_exact _ _
    unfold roundFields
    rw [if_neg hM0, hm, hs, if_neg (by rw [hsig]; omega), if_neg (by rw [hsig]; omega),
      if_neg (by omega)]
    have e1 : ((x.exponent.val : Int) - 1075 - -1074 + 1).toNat = x.exponent.val := by omega
    have e2 : x.significand - 2 ^ (53 - 1) = x.fraction.val := by rw [hsig]; omega
    rw [e1, e2]

theorem ofBits_self (x : Float64) : ofBits x.sign x.exponent.val x.fraction.val = x := by
  obtain ⟨s, ⟨e, he⟩, ⟨f, hf⟩⟩ := x
  simp [ofBits, Nat.mod_eq_of_lt he, Nat.mod_eq_of_lt hf]

/-- The product of a finite `float64` and 1.0 is exact. -/
theorem mul_one (x : Float64) (hx : x.exponent.val ≠ 2047) : mul x one = x := by
  have hnan : x.isNaN = false := by simp [isNaN, hx]
  have h1 : one.isNaN = false := by decide
  have h2 : one.exponent.val ≠ 2047 := by decide
  have h3 : one.significand = 2 ^ 52 := by decide
  have h4 : one.scale = -52 := by decide
  have h5 : one.sign = false := rfl
  unfold mul
  rw [hnan, h1]
  simp only [Bool.or_self, Bool.false_eq_true, if_false, hx, h2, or_self, h3, h4, h5,
    Bool.xor_false]
  unfold round
  by_cases h0 : x.significand = 0
  · have hz : x.exponent.val = 0 ∧ x.fraction.val = 0 := by
      unfold significand at h0
      by_cases hz : x.exponent.val = 0
      · simp [hz] at h0; exact ⟨hz, h0⟩
      · simp [hz] at h0
    simp only [roundFields, h0, Nat.zero_mul, if_true]
    have := ofBits_self x
    rw [hz.1, hz.2] at this
    exact this
  · rw [roundFields_times_one x hx h0]
    exact ofBits_self x

/-- The bit fields of the `float64` equal to a positive integer below
`2^53`, with either sign. -/
theorem round_small (s : Bool) {M : Nat} (h0 : M ≠ 0) (h : M < 2 ^ 53) :
    (round s M 0).sign = s ∧ (round s M 0).exponent.val = bitLen M + 1022 ∧
    (round s M 0).fraction.val = M * 2 ^ (53 - bitLen M) - 2 ^ 52 := by
  obtain ⟨b1, b2, b3, b4⟩ := small_bounds h0 h
  unfold round
  rw [roundFields_small h0 h]
  refine ⟨rfl, ?_, ?_⟩
  · show (bitLen M + 1022) % 2048 = _
    exact Nat.mod_eq_of_lt (by omega)
  · show (M * 2 ^ (53 - bitLen M) - 2 ^ 52) % 4503599627370496 = _
    exact Nat.mod_eq_of_lt (by omega)

theorem round_zero (s : Bool) (E : Int) : round s 0 E = ⟨s, 0, 0⟩ := by
  simp [round, roundFields, ofBits]

theorem truncate_zero (s : Bool) : (⟨s, 0, 0⟩ : Float64).truncate = some 0 := by
  have h2 : (⟨s, 0, 0⟩ : Float64).significand = 0 := rfl
  have h3 : (⟨s, 0, 0⟩ : Float64).scale = -1074 := rfl
  have h1 : ¬ (⟨s, 0, 0⟩ : Float64).exponent.val = 2047 := by simp
  have h4 : ¬ (0 : Int) ≤ -1074 := by omega
  unfold truncate
  rw [h2, h3, if_neg h1, if_neg h4, Nat.zero_div]
  cases s <;> rfl

/-- A `float64` made from an integer below `2^53` in absolute value is
finite. -/
theorem round_small_finite (s : Bool) {M : Nat} (h : M < 2 ^ 53) :
    (round s M 0).exponent.val ≠ 2047 := by
  by_cases h0 : M = 0
  · subst h0; rw [round_zero]; simp
  · obtain ⟨-, b2, -, -⟩ := small_bounds h0 h
    rw [(round_small s h0 h).2.1]
    omega

/-- The integer part of a `float64` made from an integer below `2^53` in
absolute value is that integer. -/
theorem truncate_round_small (s : Bool) {M : Nat} (h : M < 2 ^ 53) :
    (round s M 0).truncate = some (if s then -(M : Int) else (M : Int)) := by
  by_cases h0 : M = 0
  · subst h0
    rw [round_zero, truncate_zero]
    cases s <;> rfl
  · obtain ⟨b1, b2, b3, b4⟩ := small_bounds h0 h
    obtain ⟨r1, r2, r3⟩ := round_small s h0 h
    have hmag : (if 0 ≤ (round s M 0).scale
        then (round s M 0).significand * 2 ^ (round s M 0).scale.toNat
        else (round s M 0).significand / 2 ^ (-(round s M 0).scale).toNat) = M := by
      have hsig : (round s M 0).significand = M * 2 ^ (53 - bitLen M) := by
        unfold significand
        rw [r2, r3, if_neg (by omega)]
        omega
      have hsc : (round s M 0).scale = (bitLen M : Int) - 53 := by
        unfold scale
        rw [r2, if_neg (by omega)]
        push_cast
        omega
      rw [hsig, hsc]
      by_cases hL : bitLen M = 53
      · rw [if_pos (by omega), hL]
        simp
      · rw [if_neg (by omega)]
        have : (-((bitLen M : Int) - 53)).toNat = 53 - bitLen M := by omega
        rw [this]
        exact Nat.mul_div_cancel _ (Nat.two_pow_pos _)
    unfold truncate
    rw [if_neg (round_small_finite s h), r1, hmag]
    cases s <;> simp

theorem ofNat_finite {n : Nat} (h : n < 2 ^ 53) : (ofNat n).exponent.val ≠ 2047 :=
  round_small_finite false h

theorem truncate_ofNat {n : Nat} (h : n < 2 ^ 53) : (ofNat n).truncate = some (n : Int) := by
  simpa using truncate_round_small false h

theorem ofInt_finite {k : Int} (h : k.natAbs < 2 ^ 53) : (ofInt k).exponent.val ≠ 2047 :=
  round_small_finite _ h

theorem truncate_ofInt {k : Int} (h : k.natAbs < 2 ^ 53) : (ofInt k).truncate = some k := by
  unfold ofInt
  rw [truncate_round_small _ h]
  by_cases hk : k < 0
  · simp only [hk, decide_True, if_true]
    congr 1
    omega
  · simp only [hk, decide_False, Bool.false_eq_true, if_false]
    congr 1
    omega

end Float64

namespace Runtime

/-- An unsigned integer survives the conversion to `float64` and back. -/
theorem toUint_ofNat (rt : Runtime) {bits n : Nat} (hb : bits ≤ 53) (h : n < 2 ^ bits) :
    rt.toUint bits (Float64.ofNat n) = n := by
  have h53 : n < 2 ^ 53 := lt_of_lt_of_le h (Nat.pow_le_pow_right (by norm_num) hb)
  unfold toUint
  rw [Float64.truncate_ofNat h53]
  have : (0 : Int) ≤ (n : Int) ∧ (n : Int) < 2 ^ bits := ⟨by omega, by exact_mod_cast h⟩
  simp [this]

/-- A signed integer survives the conversion to `float64` and back. -/
theorem toIntBits_ofInt (rt : Runtime) {bits : Nat} {k : Int} (hb : bits ≤ 53)
    (h1 : -(2 ^ (bits - 1) : Int) ≤ k) (h2 : k < 2 ^ (bits - 1)) :
    rt.toIntBits bits (Float64.ofInt k) = (k % 2 ^ bits).toNat := by
  have hp : (2 : Int) ^ (bits - 1) ≤ 2 ^ 52 :=
    pow_le_pow_right₀ (by norm_num) (by omega)
  have h53 : k.natAbs < 2 ^ 53 := by
    have : (2 : Int) ^ 52 < 2 ^ 53 := by norm_num
    have h3 : (k.natAbs : Int) < 2 ^ 53 := by omega
    exact_mod_cast h3
  unfold toIntBits
  rw [Float64.truncate_ofInt h53]
  simp [h1, h2]

/-- With `Pow(x, ±0) = 1`, scaling a finite value by the exponent 0 changes
nothing, in either direction. -/
theorem scale_zero (rt : Runtime) (hp : rt.PowZero) (f : Float64)
    (hf : f.exponent.val ≠ 2047) :
    Register.scaleDown rt f 0 = f ∧ Register.scaleUp rt f 0 = f := by
  have h1 : rt.Pow Float64.ten (Float64.neg (Float64.ofInt 0)) = Float64.one :=
    hp _ _ (by decide)
  have h2 : rt.Pow Float64.ten (Float64.ofInt 0) = Float64.one := hp _ _ (by decide)
  exact ⟨by rw [Register.scaleDown, h1, Float64.mul_one f hf],
    by rw [Register.scaleUp, h2, Float64.mul_one f hf]⟩

end Runtime

/-! ## Big-endian bytes -/

theorem length_bigEndian (w n : Nat) : (bigEndian w n).length = w := by
  induction w generalizing n with
  | zero => rfl
  | succ w ih => simp [bigEndian, ih]

theorem fromBigEndian_append (a : List Nat) (b : Nat) :
    fromBigEndian (a ++ [b]) = fromBigEndian a * 256 + b := by
  simp [fromBigEndian, List.foldl_append]

theorem fromBigEndian_bigEndian (w n : Nat) : fromBigEndian (bigEndian w n) = n % 256 ^ w := by
  induction w generalizing n with
  | zero => simp [bigEndian, fromBigEndian, Nat.mod_one]
  | succ w ih =>
    rw [bigEndian, fromBigEndian_append, ih, pow_succ, Nat.mul_comm (256 ^ w) 256, Nat.mod_mul]
    omega

theorem bigEndian_mod (w n : Nat) : bigEndian w (n % 256 ^ w) = bigEndian w n := by
  induction w generalizing n with
  | zero => rfl
  | succ w ih =>
    rw [bigEndian, bigEndian, pow_succ]
    congr 1
    · rw [← ih ((n % (256 ^ w * 256)) / 256), ← ih (n / 256)]
      congr 1
      rw [Nat.mul_comm (256 ^ w) 256, Nat.mod_mul, Nat.add_mul_div_left _ _ (by norm_num),
        Nat.div_eq_of_lt (Nat.mod_lt _ (by norm_num)), Nat.zero_add,
        Nat.mod_mod]
    · rw [Nat.mul_comm (256 ^ w) 256, Nat.mod_mul_right_mod]

theorem take_bigEndian_append (w n : Nat) (rest : List Nat) :
    (bigEndian w n ++ rest).take w = bigEndian w n := by
  rw [List.take_append_of_le_length (by rw [length_bigEndian]), List.take_of_length_le
    (by rw [length_bigEndian])]

theorem drop_bigEndian_append (w n : Nat) (rest : List Nat) :
    (bigEndian w n ++ rest).drop w = rest := by
  rw [List.drop_append_of_le_length (by rw [length_bigEndian]), List.drop_of_length_le
    (by rw [length_bigEndian]), List.nil_append]

/-! ## The handlers on registers of type `uint16` -/

namespace Float64

/-- A `float64` that is `==` to the `float64` of a natural number below
`2^53` is finite and has that number as its integer part. -/
theorem truncate_of_eq_ofNat {f : Float64} {n : Nat} (hn : n < 2 ^ 53)
    (h : Float64.eq f (ofNat n) = true) : f.exponent.val ≠ 2047 ∧ f.truncate = some (n : Int) := by
  unfold Float64.eq at h
  simp only [Bool.and_eq_true, Bool.or_eq_true, decide_eq_true_eq, Bool.not_eq_true'] at h
  obtain ⟨-, h | ⟨h1, h2⟩⟩ := h
  · subst h
    exact ⟨ofNat_finite hn, truncate_ofNat hn⟩
  · have hn0 : n = 0 := by
      by_contra h0
      have := (round_small false h0 hn).2.1
      unfold isZero at h2
      simp only [Bool.and_eq_true, beq_iff_eq] at h2
      unfold ofNat at h2
      omega
    subst hn0
    unfold isZero at h1
    simp only [Bool.and_eq_true, beq_iff_eq] at h1
    obtain ⟨s, e, fr⟩ := f
    obtain ⟨e1, e2⟩ := h1
    have he : e = 0 := Fin.ext e1
    have hf : fr = 0 := Fin.ext e2
    subst he hf
    exact ⟨by simp, truncate_zero s⟩

end Float64

namespace Runtime

/-- The conversion to an unsigned integer of a `float64` whose integer part
fits. -/
theorem toUint_of_truncate (rt : Runtime) {bits n : Nat} {x : Float64}
    (hx : x.truncate = some (n : Int)) (h : n < 2 ^ bits) : rt.toUint bits x = n := by
  unfold toUint
  rw [hx]
  have : (0 : Int) ≤ (n : Int) ∧ (n : Int) < 2 ^ bits := ⟨by omega, by exact_mod_cast h⟩
  simp [this]

end Runtime

namespace Register

/-- The bytes of a register of type `uint16` with scaling 0 for a value that
is `==` to an integer of 16 bits. -/
theorem Bytes_uint16 (rt : Runtime) (hp : rt.PowZero) {f : Float64} {n : Nat}
    (hn : n < 65536) (h : Float64.eq f (Float64.ofNat n) = true) :
    (NewRegister "uint16").Bytes rt (Any.float64 f) 0 = some (bigEndian 2 n) := by
  obtain ⟨hf, ht⟩ := Float64.truncate_of_eq_ofNat (lt_trans hn (by norm_num)) h
  simp only [Bytes, NewRegister]
  rw [if_pos (Or.inr trivial), (Runtime.scale_zero rt hp f hf).1,
    Runtime.toUint_of_truncate rt ht (by norm_num; exact hn)]

/-- The value of a register of type `uint16` with scaling 0 from two
bytes. -/
theorem Value_uint16 (rt : Runtime) (hp : rt.PowZero) (n : Nat) :
    (NewRegister "uint16").Value rt (bigEndian 2 n) 0 = (Float64.ofNat (n % 65536), none) := by
  have hlt : n % 65536 < 2 ^ 53 := lt_trans (Nat.mod_lt _ (by norm_num)) (by norm_num)
  simp only [Value, NewRegister]
  rw [if_pos (Or.inr trivial)]
  have hr : readError 2 (bigEndian 2 n) = none := by
    simp [readError, length_bigEndian]
  rw [hr]
  simp only
  have e : (256 : Nat) ^ 2 = 65536 := by norm_num
  rw [List.take_of_length_le (by rw [length_bigEndian]), fromBigEndian_bigEndian, e,
    (Runtime.scale_zero rt hp _ (Float64.ofNat_finite hlt)).2]

theorem Length_uint16 : (NewRegister "uint16").Length = 1 := by decide

end Register

namespace SunSpecRTU

/-- The value `readHandler` fetches for a tag that is not of a string type and
has an analog value. -/
theorem readValue_analog (this : SunSpecRTU) (m : Memory) (tag : String) (f : Float64)
    (h1 : this.typeOf tag ≠ "string8") (h2 : this.typeOf tag ≠ "string16")
    (h : m.GetAnalogValueForTag tag = (f, none)) :
    this.readValue m tag = (Any.float64 f, none) := by
  unfold readValue
  rw [if_neg (by simp [h1, h2]), h]

/-- The analog value of an internal tag. -/
theorem getAnalog_internal (m : Memory) (tag : String) (f : Float64)
    (h1 : m.analogTags.get tag = none) (h2 : m.internalAnalogTags.get tag = some f) :
    m.GetAnalogValueForTag tag = (f, none) := by
  simp [Memory.GetAnalogValueForTag, Memory.getAnalogValueForTag, h1, h2]

/-- The loop of `readHandler` over registers of type `uint16` with scaling
0, from the register `start + k` on with `count - k` registers left. -/
theorem readLoop_uint16 (rt : Runtime) (hp : rt.PowZero) (this : SunSpecRTU) (m : Memory)
    (start count : Nat) (tag : Nat → String) (f : Nat → Float64) (value : Nat → Nat)
    (hreg : ∀ k, k < count →
      this.registers.get ((start + k : Nat) : Int) = some (tag k) ∧
      this.typeOf (tag k) = "uint16" ∧ this.scalingOf (start + k) = 0 ∧
      m.analogTags.get (tag k) = none ∧ m.internalAnalogTags.get (tag k) = some (f k) ∧
      Float64.eq (f k) (Float64.ofNat (value k)) = true ∧ value k ≤ 65535) :
    ∀ (j k fuel : Nat), k + j = count → j < fuel →
      this.readLoop rt m (start + count) fuel (start + k) (2 * k)
        (concatBytes (fun k => bigEndian 2 (value k)) k) =
      Reply.returned (((2 * count) % 256) :: concatBytes (fun k => bigEndian 2 (value k)) count)
        Exception.Success := by
  intro j
  induction j with
  | zero =>
    intro k fuel hk hf
    obtain ⟨fuel, rfl⟩ : ∃ g, fuel = g + 1 := ⟨fuel - 1, by omega⟩
    have : k = count := by omega
    subst this
    rw [readLoop, if_neg (by omega)]
  | succ j ih =>
    intro k fuel hk hf
    obtain ⟨fuel, rfl⟩ : ∃ g, fuel = g + 1 := ⟨fuel - 1, by omega⟩
    obtain ⟨h1, h2, h3, h4, h5, h6, h7⟩ := hreg k (by omega)
    have hv := readValue_analog this m (tag k) (f k) (by rw [h2]; decide) (by rw [h2]; decide)
      (getAnalog_internal m _ _ h4 h5)
    rw [readLoop, if_pos (by omega), h1]
    simp only [hv, h2, h3]
    rw [Register.Bytes_uint16 rt hp (by omega) h6, Register.Length_uint16]
    have e1 : start + k + 1 = start + (k + 1) := by omega
    have e2 : 2 * k + 1 * 2 = 2 * (k + 1) := by omega
    simp only
    rw [e1, e2]
    exact ih (k + 1) fuel (by omega) (by omega)

/-- Claim C15.  Read of registers of type `uint16`: with `Pow(x, ±0) = 1`, for
every `start` below 65536 and `count` from 1 to 127 such that every register
of `[start, start + count)` is mapped to an internal analog tag of type
`uint16` with scaling 0 whose value is `==` to an integer `value k` of
`[0, 65535]`, `readHandler` on the request of `start` and `count` returns, with
any fuel above `count`, the exception `Success` and the byte `2 * count`
followed in ascending register order by the big-endian 16-bit encoding of
each value. -/
theorem read_uint16_registers (rt : Runtime) (hp : rt.PowZero) (this : SunSpecRTU) (m : Memory)
    (start count : Nat) (tag : Nat → String) (f : Nat → Float64) (value : Nat → Nat)
    (rest : List Nat) (fuel : Nat)
    (hs : start < 65536) (hc1 : 1 ≤ count) (hc2 : count ≤ 127)
    (hreg : ∀ k, k < count →
      this.registers.get ((start + k : Nat) : Int) = some (tag k) ∧
      this.typeOf (tag k) = "uint16" ∧ this.scalingOf (start + k) = 0 ∧
      m.analogTags.get (tag k) = none ∧ m.internalAnalogTags.get (tag k) = some (f k) ∧
      Float64.eq (f k) (Float64.ofNat (value k)) = true ∧ value k ≤ 65535)
    (hfuel : count < fuel) :
    this.readHandler rt m fuel (bigEndian 2 start ++ bigEndian 2 count ++ rest) =
      Reply.returned ((2 * count) :: concatBytes (fun k => bigEndian 2 (value k)) count)
        Exception.Success := by
  have hlen : ¬ (bigEndian 2 start ++ bigEndian 2 count ++ rest).length < 4 := by
    simp only [List.length_append, length_bigEndian]; omega
  have h3 : requestStart (bigEndian 2 start ++ bigEndian 2 count ++ rest) = start := by
    rw [requestStart, List.append_assoc, take_bigEndian_append, fromBigEndian_bigEndian]
    exact Nat.mod_eq_of_lt (by norm_num; exact hs)
  have h4 : requestCount (bigEndian 2 start ++ bigEndian 2 count ++ rest) = count := by
    rw [requestCount, List.append_assoc, drop_bigEndian_append, take_bigEndian_append,
      fromBigEndian_bigEndian]
    exact Nat.mod_eq_of_lt (by norm_num; omega)
  unfold readHandler
  rw [if_neg hlen, h3, h4]
  have key := readLoop_uint16 rt hp this m start count tag f value hreg count 0 fuel
    (by omega) hfuel
  rw [Nat.mod_eq_of_lt (by omega)] at key
  exact key

/-- Witness of C15, the test `TestModbusReadHandler`: `var_I0 = 5` and
`var_I1 = 10` at 40000 and 40001 give `[4, 0, 5, 0, 10]`. -/
theorem read_uint16_registers_witness :
    (sampleRuntime.PowZero ∧ (40000 < 65536 ∧ 1 ≤ 2 ∧ 2 ≤ 127) ∧
      (∀ k, k < 2 →
        testRTU.registers.get ((40000 + k : Nat) : Int) = some (testTag k) ∧
        testRTU.typeOf (testTag k) = "uint16" ∧ testRTU.scalingOf (40000 + k) = 0 ∧
        testMemory.analogTags.get (testTag k) = none ∧
        testMemory.internalAnalogTags.get (testTag k) = some (Float64.ofNat (testValue k)) ∧
        Float64.eq (Float64.ofNat (testValue k)) (Float64.ofNat (testValue k)) = true ∧
        testValue k ≤ 65535) ∧ 2 < 3) ∧
    testRTU.readHandler sampleRuntime testMemory 3 [0x9c, 0x40, 0, 2] =
      Reply.returned [4, 0, 5, 0, 10] Exception.Success :=
  have hp : sampleRuntime.PowZero := fun x y h => by
    show powSpecialCases x y = Float64.one
    unfold powSpecialCases
    rw [h]; rfl
  have hreg : ∀ k, k < 2 →
      testRTU.registers.get ((40000 + k : Nat) : Int) = some (testTag k) ∧
      testRTU.typeOf (testTag k) = "uint16" ∧ testRTU.scalingOf (40000 + k) = 0 ∧
      testMemory.analogTags.get (testTag k) = none ∧
      testMemory.internalAnalogTags.get (testTag k) = some (Float64.ofNat (testValue k)) ∧
      Float64.eq (Float64.ofNat (testValue k)) (Float64.ofNat (testValue k)) = true ∧
      testValue k ≤ 65535 := by decide
  ⟨⟨hp, ⟨by decide, by decide, by decide⟩, hreg, by decide⟩,
    read_uint16_registers sampleRuntime hp testRTU testMemory 40000 2 testTag
      (fun k => Float64.ofNat (testValue k)) testValue [] 3 (by decide) (by decide) (by decide)
      hreg (by decide)⟩

end SunSpecRTU

namespace SunSpecRTU

/-- One turn of the loop of `readHandler` on a register that yields a value
and bytes. -/
theorem readLoop_step (rt : Runtime) (this : SunSpecRTU) (m : Memory) (stop fuel i size : Nat)
    (data : List Nat) (tag : String) (value : Any) (bytes : List Nat) (hi : i < stop)
    (hreg : this.registers.get (i : Int) = some tag)
    (hval : this.readValue m tag = (value, none))
    (hbytes : (NewRegister (this.typeOf tag)).Bytes rt value (this.scalingOf i) = some bytes) :
    this.readLoop rt m stop (fuel + 1) i size data =
      this.readLoop rt m stop fuel (i + (NewRegister (this.typeOf tag)).Length)
        (size + (NewRegister (this.typeOf tag)).Length * 2) (data ++ bytes) := by
  rw [readLoop, if_pos hi, hreg]
  simp only [hval, hbytes]

/-- The loop of `readHandler` on a register outside the table. -/
theorem readLoop_unmapped (rt : Runtime) (this : SunSpecRTU) (m : Memory) (stop fuel i size : Nat)
    (data : List Nat) (hi : i < stop) (hreg : this.registers.get (i : Int) = none) :
    this.readLoop rt m stop (fuel + 1) i size data =
      Reply.returned [] Exception.IllegalDataAddress := by
  rw [readLoop, if_pos hi, hreg]

/-- The loop of `readHandler` on a register whose tag has no value. -/
theorem readLoop_no_value (rt : Runtime) (this : SunSpecRTU) (m : Memory)
    (stop fuel i size : Nat) (data : List Nat) (tag : String) (hi : i < stop)
    (hreg : this.registers.get (i : Int) = some tag)
    (hval : (this.readValue m tag).2 ≠ none) :
    this.readLoop rt m stop (fuel + 1) i size data =
      Reply.returned [] Exception.SlaveDeviceFailure := by
  rw [readLoop, if_pos hi, hreg]
  rcases hv : this.readValue m tag with ⟨value, _ | err⟩
  · rw [hv] at hval; exact absurd rfl hval
  · simp only [hv]

/-- The loop of `readHandler` past the last register. -/
theorem readLoop_done (rt : Runtime) (this : SunSpecRTU) (m : Memory) (stop fuel i size : Nat)
    (data : List Nat) (hi : ¬ i < stop) :
    this.readLoop rt m stop (fuel + 1) i size data =
      Reply.returned ((size % 256) :: data) Exception.Success := by
  rw [readLoop, if_neg hi]

/-- One turn of the loop of `writeHandler` on a register whose bytes decode
and whose tag is updated. -/
theorem writeLoop_step (rt : Runtime) (this : SunSpecRTU) (data : List Nat) (stop fuel : Nat)
    (m m1 : Memory) (i b : Nat) (tag : String) (value : Float64) (hi : i < stop)
    (hreg : this.registers.get (i : Int) = some tag)
    (hlen : b + (NewRegister (this.typeOf tag)).Length * 2 ≤ data.length)
    (hval : (NewRegister (this.typeOf tag)).Value rt
      ((data.drop b).take ((NewRegister (this.typeOf tag)).Length * 2)) (this.scalingOf i)
      = (value, none))
    (hupd : writeTag m tag value = (m1, none)) :
    this.writeLoop rt data stop (fuel + 1) m i b =
      this.writeLoop rt data stop fuel m1 (i + (NewRegister (this.typeOf tag)).Length)
        (b + (NewRegister (this.typeOf tag)).Length * 2) := by
  rw [writeLoop, if_pos hi, hreg]
  simp only [hval, hupd]
  rw [if_neg (by omega)]

/-- The loop of `writeHandler` on a register outside the table. -/
theorem writeLoop_unmapped (rt : Runtime) (this : SunSpecRTU) (data : List Nat)
    (stop fuel : Nat) (m : Memory) (i b : Nat) (hi : i < stop)
    (hreg : this.registers.get (i : Int) = none) :
    this.writeLoop rt data stop (fuel + 1) m i b =
      (m, Reply.returned [] Exception.IllegalDataAddress) := by
  rw [writeLoop, if_pos hi, hreg]

/-- The loop of `writeHandler` on a register whose tag no update accepts. -/
theorem writeLoop_no_tag (rt : Runtime) (this : SunSpecRTU) (data : List Nat) (stop fuel : Nat)
    (m : Memory) (i b : Nat) (tag : String) (value : Float64) (hi : i < stop)
    (hreg : this.registers.get (i : Int) = some tag)
    (hlen : b + (NewRegister (this.typeOf tag)).Length * 2 ≤ data.length)
    (hval : (NewRegister (this.typeOf tag)).Value rt
      ((data.drop b).take ((NewRegister (this.typeOf tag)).Length * 2)) (this.scalingOf i)
      = (value, none))
    (hupd : (writeTag m tag value).2 ≠ none) :
    (this.writeLoop rt data stop (fuel + 1) m i b).2 =
      Reply.returned [] Exception.SlaveDeviceFailure := by
  rw [writeLoop, if_pos hi, hreg]
  simp only [hval]
  rw [if_neg (by omega)]
  rcases hv : writeTag m tag value with ⟨m1, _ | err⟩
  · rw [hv] at hupd; exact absurd rfl hupd
  · simp only [hv]

/-- The loop of `writeHandler` past the last register. -/
theorem writeLoop_done (rt : Runtime) (this : SunSpecRTU) (data : List Nat) (stop fuel : Nat)
    (m : Memory) (i b : Nat) (hi : ¬ i < stop) :
    this.writeLoop rt data stop (fuel + 1) m i b =
      (m, Reply.returned (data.take 4) Exception.Success) := by
  rw [writeLoop, if_neg hi]

/-- The update of an internal analog tag of an unfrozen memory in
`writeHandler`. -/
theorem writeTag_internal_analog (m : Memory) (tag : String) (value : Float64)
    (h1 : m.analogTags.has tag = false) (h2 : m.internalAnalogTags.has tag = true)
    (h3 : m.frozen = false) :
    writeTag m tag value =
      ({ m with internalAnalogTags := m.internalAnalogTags.set tag value }, none) := by
  simp [writeTag, Memory.UpdateAnalogTag, h1, h2, h3]

/-- The data of a write request: the start, the count, the byte count and the
payload. -/
theorem request_fields (start count : Nat) (hs : start < 65536) (hc : count < 65536)
    (tail : List Nat) :
    4 ≤ (bigEndian 2 start ++ bigEndian 2 count ++ tail).length ∧
    (bigEndian 2 start ++ bigEndian 2 count ++ tail).take 4
      = bigEndian 2 start ++ bigEndian 2 count ∧
    requestStart (bigEndian 2 start ++ bigEndian 2 count ++ tail) = start ∧
    requestCount (bigEndian 2 start ++ bigEndian 2 count ++ tail) = count := by
  unfold requestStart requestCount
  refine ⟨?_, ?_, ?_, ?_⟩
  · simp only [List.length_append, length_bigEndian]; omega
  · rw [List.take_append_of_le_length (by simp [length_bigEndian]),
      List.take_of_length_le (by simp [length_bigEndian])]
  · rw [List.append_assoc, take_bigEndian_append, fromBigEndian_bigEndian]
    exact Nat.mod_eq_of_lt (by norm_num; exact hs)
  · rw [List.append_assoc, drop_bigEndian_append, take_bigEndian_append,
      fromBigEndian_bigEndian]
    exact Nat.mod_eq_of_lt (by norm_num; exact hc)

/-- Claim C18.  Write of one register of type `uint16`: with
`Pow(x, ±0) = 1`, for every value `v` of 16 bits and every register `r` mapped
to an internal analog tag of type `uint16` with scaling 0 in an unfrozen
memory, `writeHandler` on the request with start `r`, count 1, any byte count
`bc` and the two bytes of `v` returns, with any fuel from 2 on, the exception
`Success` and the first four bytes of the request data, which are `r` and 1
in big-endian order, and afterwards `GetAnalogValueForTag(tag)` returns
`float64(v)` without error. -/
theorem write_uint16_register (rt : Runtime) (hp : rt.PowZero) (this : SunSpecRTU) (m : Memory)
    (r v : Nat) (tag : String) (bc fuel : Nat) (hr : r < 65536) (hv : v < 65536)
    (hreg : this.registers.get (r : Int) = some tag) (hty : this.typeOf tag = "uint16")
    (hsc : this.scalingOf r = 0) (hext : m.analogTags.get tag = none)
    (hint : m.internalAnalogTags.has tag = true) (hfz : m.frozen = false)
    (hfuel : 2 ≤ fuel) :
    (this.writeHandler rt m fuel (bigEndian 2 r ++ bigEndian 2 1 ++ ([bc] ++ bigEndian 2 v))).2
      = Reply.returned
          ((bigEndian 2 r ++ bigEndian 2 1 ++ ([bc] ++ bigEndian 2 v)).take 4)
          Exception.Success ∧
    (bigEndian 2 r ++ bigEndian 2 1 ++ ([bc] ++ bigEndian 2 v)).take 4
      = bigEndian 2 r ++ bigEndian 2 1 ∧
    (this.writeHandler rt m fuel
      (bigEndian 2 r ++ bigEndian 2 1 ++ ([bc] ++ bigEndian 2 v))).1.GetAnalogValueForTag tag
      = (Float64.ofNat v, none) := by
  obtain ⟨g1, g2, g3, g4⟩ := request_fields r 1 hr (by norm_num) ([bc] ++ bigEndian 2 v)
  obtain ⟨fuel, rfl⟩ : ∃ g, fuel = g + 2 := ⟨fuel - 2, by omega⟩
  have hd : ((bigEndian 2 r ++ bigEndian 2 1 ++ ([bc] ++ bigEndian 2 v)).drop 5).take 2
      = bigEndian 2 v := by
    have e : bigEndian 2 r ++ bigEndian 2 1 ++ ([bc] ++ bigEndian 2 v)
        = (bigEndian 2 r ++ bigEndian 2 1 ++ [bc]) ++ bigEndian 2 v := by
      simp only [List.append_assoc]
    rw [e, List.drop_append_of_le_length (by simp [length_bigEndian]),
      List.drop_of_length_le (by simp [length_bigEndian]), List.nil_append,
      List.take_of_length_le (by simp [length_bigEndian])]
  have hl : (bigEndian 2 r ++ bigEndian 2 1 ++ ([bc] ++ bigEndian 2 v)).length = 7 := by
    simp [length_bigEndian]
  have hval : (NewRegister (this.typeOf tag)).Value rt
      (((bigEndian 2 r ++ bigEndian 2 1 ++ ([bc] ++ bigEndian 2 v)).drop 5).take
        ((NewRegister (this.typeOf tag)).Length * 2)) (this.scalingOf r)
      = (Float64.ofNat v, none) := by
    rw [hty, hsc, Register.Length_uint16, hd, Register.Value_uint16 rt hp,
      Nat.mod_eq_of_lt hv]
  have hnot : m.analogTags.has tag = false := by simp [GoMap.has, hext]
  have hrun : this.writeHandler rt m (fuel + 2)
      (bigEndian 2 r ++ bigEndian 2 1 ++ ([bc] ++ bigEndian 2 v))
      = ({ m with internalAnalogTags := m.internalAnalogTags.set tag (Float64.ofNat v) },
          Reply.returned ((bigEndian 2 r ++ bigEndian 2 1 ++ ([bc] ++ bigEndian 2 v)).take 4)
            Exception.Success) := by
    unfold writeHandler
    rw [if_neg (by omega), g3, g4,
      writeLoop_step rt this _ (r + 1) (fuel + 1) m _ r 5 tag (Float64.ofNat v) (by omega) hreg
        (by rw [hty, Register.Length_uint16, hl]) hval
        (writeTag_internal_analog m tag _ hnot hint hfz),
      writeLoop_done rt this _ (r + 1) fuel _ _ _ (by rw [hty, Register.Length_uint16]; omega)]
  rw [hrun]
  refine ⟨rfl, g2, ?_⟩
  simp [Memory.GetAnalogValueForTag, Memory.getAnalogValueForTag, hext, GoMap.get_set_self]

/-- Witness of C18, the test `TestModbusWriteHandler`: the value 1 written to
the register 40000 gives `[0x9c, 0x40, 0x00, 0x01]` and the value 1.0. -/
theorem write_uint16_register_witness :
    (sampleRuntime.PowZero ∧ 40000 < 65536 ∧ 1 < 65536 ∧
      testRTU.registers.get ((40000 : Nat) : Int) = some "var_I0" ∧
      testRTU.typeOf "var_I0" = "uint16" ∧ testRTU.scalingOf 40000 = 0 ∧
      testMemory.analogTags.get "var_I0" = none ∧
      testMemory.internalAnalogTags.has "var_I0" = true ∧ testMemory.frozen = false ∧ 2 ≤ 2) ∧
    (testRTU.writeHandler sampleRuntime testMemory 2 [0x9c, 0x40, 0, 1, 2, 0, 1]).2
      = Reply.returned [0x9c, 0x40, 0, 1] Exception.Success ∧
    (testRTU.writeHandler sampleRuntime testMemory 2
      [0x9c, 0x40, 0, 1, 2, 0, 1]).1.GetAnalogValueForTag "var_I0" = (Float64.one, none) :=
  have hp : sampleRuntime.PowZero := fun x y h => by
    show powSpecialCases x y = Float64.one
    unfold powSpecialCases
    rw [h]; rfl
  have key := write_uint16_register sampleRuntime hp testRTU testMemory 40000 1 "var_I0" 2 2
    (by decide) (by decide) (by decide) (by decide) (by decide) (by decide) (by decide)
    (by decide) (by decide)
  ⟨⟨hp, by decide, by decide, by decide, by decide, by decide, by decide, by decide, by decide,
    by decide⟩, key.1, key.2.2⟩

end SunSpecRTU

namespace SunSpecRTU

/-- The loop of `readHandler` started with `n` turns more of fuel comes, after
`n` turns without failure, to the state these turns reach. -/
theorem readLoop_reaches (rt : Runtime) (this : SunSpecRTU) (m : Memory) (start stop : Nat)
    {n i size : Nat} {data : List Nat} (h : ReadReaches rt this m start stop n i size data) :
    ∀ fuel, this.readLoop rt m stop (n + fuel) start 0 [] =
      this.readLoop rt m stop fuel i size data := by
  induction h with
  | first => intro fuel; rw [Nat.zero_add]
  | next n i size data tag value bytes _ hi hreg hval hbytes ih =>
    intro fuel
    have e : n + 1 + fuel = n + (fuel + 1) := by omega
    rw [e, ih (fuel + 1), readLoop_step rt this m stop fuel i size data tag value bytes hi hreg
      hval hbytes]

/-- The loop of `writeHandler` started with `n` turns more of fuel comes,
after `n` turns without failure, to the state these turns reach. -/
theorem writeLoop_reaches (rt : Runtime) (this : SunSpecRTU) (data : List Nat) (m0 : Memory)
    (start stop : Nat) {n : Nat} {m : Memory} {i b : Nat}
    (h : WriteReaches rt this data m0 start stop n m i b) :
    ∀ fuel, this.writeLoop rt data stop (n + fuel) m0 start 5 =
      this.writeLoop rt data stop fuel m i b := by
  induction h with
  | first => intro fuel; rw [Nat.zero_add]
  | next n m m1 i b tag value _ hi hreg hlen hval hupd ih =>
    intro fuel
    have e : n + 1 + fuel = n + (fuel + 1) := by omega
    rw [e, ih (fuel + 1), writeLoop_step rt this data stop fuel m m1 i b tag value hi hreg hlen
      hval hupd]

/-- The handler `readHandler` with more fuel than the `n` turns that reach a
state continues from that state. -/
theorem readHandler_reaches (rt : Runtime) (this : SunSpecRTU) (m : Memory) (data : List Nat)
    (hlen : 4 ≤ data.length) {n i size : Nat} {out : List Nat}
    (h : ReadReaches rt this m (requestStart data) (requestStart data + requestCount data)
      n i size out) (fuel : Nat) :
    this.readHandler rt m (n + fuel) data =
      this.readLoop rt m (requestStart data + requestCount data) fuel i size out := by
  unfold readHandler
  rw [if_neg (by omega), readLoop_reaches rt this m _ _ h fuel]

/-- The handler `writeHandler` with more fuel than the `n` turns that reach a
state continues from that state. -/
theorem writeHandler_reaches (rt : Runtime) (this : SunSpecRTU) (m0 : Memory) (data : List Nat)
    (hlen : 4 ≤ data.length) {n : Nat} {m : Memory} {i b : Nat}
    (h : WriteReaches rt this data m0 (requestStart data)
      (requestStart data + requestCount data) n m i b) (fuel : Nat) :
    this.writeHandler rt m0 (n + fuel) data =
      this.writeLoop rt data (requestStart data + requestCount data) fuel m i b := by
  unfold writeHandler
  rw [if_neg (by omega), writeLoop_reaches rt this data m0 _ _ h fuel]

/-- Counterexample to C16 as stated: the table `lonelyRTU` maps the register 1
alone, the walk by lengths from 1 comes to the register 2, which is below
`1 + 2` and not in the table, and yet on the memory without tags the
handlers answer the read and the write of the registers 1 and 2 with
`SlaveDeviceFailure` whatever the fuel, because the register 1 fails first. -/
theorem unmapped_register_not_reached :
    Visits lonelyRTU 1 2 ∧ 2 < 1 + 2 ∧ lonelyRTU.registers.get ((2 : Nat) : Int) = none ∧
    requestStart [0, 1, 0, 2] = 1 ∧ requestCount [0, 1, 0, 2] = 2 ∧
    requestStart [0, 1, 0, 2, 4, 0, 1, 0, 1] = 1 ∧ requestCount [0, 1, 0, 2, 4, 0, 1, 0, 1] = 2 ∧
    ∀ (rt : Runtime) (fuel : Nat),
      lonelyRTU.readHandler rt NewMemory (fuel + 1) [0, 1, 0, 2]
        = Reply.returned [] Exception.SlaveDeviceFailure ∧
      (lonelyRTU.writeHandler rt NewMemory (fuel + 1) [0, 1, 0, 2, 4, 0, 1, 0, 1]).2
        = Reply.returned [] Exception.SlaveDeviceFailure := by
  refine ⟨Visits.next 1 "a" Visits.first (by decide), by decide, by decide, by decide, by decide,
    by decide, by decide, ?_⟩
  intro rt fuel
  constructor
  · have h : lonelyRTU.readHandler rt NewMemory (0 + (fuel + 1)) [0, 1, 0, 2]
        = lonelyRTU.readLoop rt NewMemory
            (requestStart [0, 1, 0, 2] + requestCount [0, 1, 0, 2]) (fuel + 1) 1 0 [] :=
      readHandler_reaches rt lonelyRTU NewMemory [0, 1, 0, 2] (by decide) ReadReaches.first _
    rw [Nat.zero_add] at h
    rw [h]
    exact readLoop_no_value rt lonelyRTU NewMemory _ fuel 1 0 [] "a" (by decide) (by decide)
      (by decide)
  · have h : lonelyRTU.writeHandler rt NewMemory (0 + (fuel + 1)) [0, 1, 0, 2, 4, 0, 1, 0, 1]
        = lonelyRTU.writeLoop rt [0, 1, 0, 2, 4, 0, 1, 0, 1]
            (requestStart [0, 1, 0, 2, 4, 0, 1, 0, 1] + requestCount [0, 1, 0, 2, 4, 0, 1, 0, 1])
            (fuel + 1) NewMemory 1 5 :=
      writeHandler_reaches rt lonelyRTU NewMemory _ (by decide) WriteReaches.first _
    rw [Nat.zero_add] at h
    rw [h]
    have hv : (NewRegister (lonelyRTU.typeOf "a")).Value rt
        ((([0, 1, 0, 2, 4, 0, 1, 0, 1] : List Nat).drop 5).take
          ((NewRegister (lonelyRTU.typeOf "a")).Length * 2)) (lonelyRTU.scalingOf 1)
        = (Register.scaleUp rt (Float64.ofNat 1) 0, none) := by
      simp [Register.Value, NewRegister, typeOf, lonelyRTU, GoMap.get, readError, Register.Length,
        scalingOf, IntMap.get, fromBigEndian]
    exact writeLoop_no_tag rt lonelyRTU _ _ fuel NewMemory 1 5 "a" _ (by decide) (by decide)
      (by decide) hv (by simp [writeTag, Memory.UpdateAnalogTag, Memory.UpdateBinaryTag,
        NewMemory, GoMap.has, GoMap.get])

/-- Claim C16, amended.  Unmapped registers are rejected once the handler
comes to them: for every register table, memory and request data of at
least four bytes, if the loop of `readHandler` reaches after `n` turns
without failure a register below `start + count` that is not in the table,
`readHandler` returns no bytes and `IllegalDataAddress` with any fuel above
`n`; likewise `writeHandler` on its request; in particular both do with any
fuel from 1 on when `count ≥ 1` and `start` itself is not in the table. -/
theorem unmapped_register_rejected (rt : Runtime) (this : SunSpecRTU) (m : Memory)
    (readData writeData : List Nat) (hr : 4 ≤ readData.length) (hw : 4 ≤ writeData.length) :
    (∀ n i size out fuel,
      ReadReaches rt this m (requestStart readData)
        (requestStart readData + requestCount readData) n i size out →
      i < requestStart readData + requestCount readData →
      this.registers.get (i : Int) = none → n < fuel →
      this.readHandler rt m fuel readData = Reply.returned [] Exception.IllegalDataAddress) ∧
    (∀ n m1 i b fuel,
      WriteReaches rt this writeData m (requestStart writeData)
        (requestStart writeData + requestCount writeData) n m1 i b →
      i < requestStart writeData + requestCount writeData →
      this.registers.get (i : Int) = none → n < fuel →
      (this.writeHandler rt m fuel writeData).2
        = Reply.returned [] Exception.IllegalDataAddress) ∧
    (∀ fuel, 1 ≤ requestCount readData →
      this.registers.get (requestStart readData : Int) = none → 1 ≤ fuel →
      this.readHandler rt m fuel readData = Reply.returned [] Exception.IllegalDataAddress) ∧
    (∀ fuel, 1 ≤ requestCount writeData →
      this.registers.get (requestStart writeData : Int) = none → 1 ≤ fuel →
      (this.writeHandler rt m fuel writeData).2
        = Reply.returned [] Exception.IllegalDataAddress) := by
  have hread : ∀ n i size out fuel,
      ReadReaches rt this m (requestStart readData)
        (requestStart readData + requestCount readData) n i size out →
      i < requestStart readData + requestCount readData →
      this.registers.get (i : Int) = none → n < fuel →
      this.readHandler rt m fuel readData
        = Reply.returned [] Exception.IllegalDataAddress := by
    intro n i size out fuel h hi hreg hf
    obtain ⟨g, rfl⟩ : ∃ g, fuel = n + (g + 1) := ⟨fuel - n - 1, by omega⟩
    rw [readHandler_reaches rt this m readData hr h (g + 1),
      readLoop_unmapped rt this m _ g i size out hi hreg]
  have hwrite : ∀ n m1 i b fuel,
      WriteReaches rt this writeData m (requestStart writeData)
        (requestStart writeData + requestCount writeData) n m1 i b →
      i < requestStart writeData + requestCount writeData →
      this.registers.get (i : Int) = none → n < fuel →
      (this.writeHandler rt m fuel writeData).2
        = Reply.returned [] Exception.IllegalDataAddress := by
    intro n m1 i b fuel h hi hreg hf
    obtain ⟨g, rfl⟩ : ∃ g, fuel = n + (g + 1) := ⟨fuel - n - 1, by omega⟩
    rw [writeHandler_reaches rt this m writeData hw h (g + 1),
      writeLoop_unmapped rt this writeData _ g m1 i b hi hreg]
  exact ⟨hread, hwrite,
    fun fuel hc hreg hf => hread 0 _ 0 [] fuel ReadReaches.first (by omega) hreg (by omega),
    fun fuel hc hreg hf => hwrite 0 m _ 5 fuel WriteReaches.first (by omega) hreg (by omega)⟩

/-- Witness of the amended C16, the tests `TestReadOutOfBoundsRegister` and
`TestWriteOutOfBoundsRegister`: with the register 40001 alone in the table,
the read and the write of the register 1 are rejected. -/
theorem unmapped_register_rejected_witness :
    (4 ≤ ([0, 1, 0, 1] : List Nat).length ∧ 4 ≤ ([0, 1, 0, 1, 2, 0, 1] : List Nat).length) ∧
    outOfBoundsRTU.readHandler sampleRuntime NewMemory 1 [0, 1, 0, 1]
      = Reply.returned [] Exception.IllegalDataAddress ∧
    (outOfBoundsRTU.writeHandler sampleRuntime NewMemory 1 [0, 1, 0, 1, 2, 0, 1]).2
      = Reply.returned [] Exception.IllegalDataAddress :=
  have key := unmapped_register_rejected sampleRuntime outOfBoundsRTU NewMemory [0, 1, 0, 1]
    [0, 1, 0, 1, 2, 0, 1] (by decide) (by decide)
  ⟨⟨by decide, by decide⟩, key.2.2.1 1 (by decide) (by decide) (by decide),
    key.2.2.2 1 (by decide) (by decide) (by decide)⟩

end SunSpecRTU

namespace SunSpecRTU

/-- Claim C17.  Read value source: for every register the loop of
`readHandler` reaches that is below `start + count` and mapped to a tag, a tag
of type `string8` or `string16` takes its value and its error from
`GetStringValueForTag` alone; a tag of another type takes the analog value when
`GetAnalogValueForTag` succeeds, else 1.0 or 0.0 for the binary status true or
false when `GetBinaryStatusForTag` succeeds, else no value; a value obtained
is encoded and the loop goes on to the next register; without a value
`readHandler` returns no bytes and `SlaveDeviceFailure` with any fuel above
the turns made so far. -/
theorem read_value_source (rt : Runtime) (this : SunSpecRTU) (m : Memory) (data : List Nat)
    (n i size : Nat) (out : List Nat) (tag : String) (hlen : 4 ≤ data.length)
    (h : ReadReaches rt this m (requestStart data) (requestStart data + requestCount data)
      n i size out)
    (hi : i < requestStart data + requestCount data)
    (hreg : this.registers.get (i : Int) = some tag) :
    ((this.typeOf tag = "string8" ∨ this.typeOf tag = "string16") →
      this.readValue m tag
        = (Any.string (m.GetStringValueForTag tag).1, (m.GetStringValueForTag tag).2)) ∧
    (¬ (this.typeOf tag = "string8" ∨ this.typeOf tag = "string16") →
      (∀ f, m.GetAnalogValueForTag tag = (f, none) →
        this.readValue m tag = (Any.float64 f, none)) ∧
      ((m.GetAnalogValueForTag tag).2 ≠ none → ∀ s, m.GetBinaryStatusForTag tag = (s, none) →
        this.readValue m tag
          = (Any.float64 (if s then Float64.one else Float64.zero), none)) ∧
      ((m.GetAnalogValueForTag tag).2 ≠ none → (m.GetBinaryStatusForTag tag).2 ≠ none →
        (this.readValue m tag).2 ≠ none)) ∧
    (∀ value bytes, this.readValue m tag = (value, none) →
      (NewRegister (this.typeOf tag)).Bytes rt value (this.scalingOf i) = some bytes →
      ReadReaches rt this m (requestStart data) (requestStart data + requestCount data) (n + 1)
        (i + (NewRegister (this.typeOf tag)).Length)
        (size + (NewRegister (this.typeOf tag)).Length * 2) (out ++ bytes)) ∧
    ((this.readValue m tag).2 ≠ none → ∀ fuel, n < fuel →
      this.readHandler rt m fuel data = Reply.returned [] Exception.SlaveDeviceFailure) := by
  refine ⟨?_, ?_, ?_, ?_⟩
  · intro hs
    unfold readValue
    rw [if_pos hs]
  · intro hs
    refine ⟨?_, ?_, ?_⟩
    · intro f hf
      unfold readValue
      rw [if_neg hs, hf]
    · intro ha s hb
      unfold readValue
      rw [if_neg hs]
      rcases hv : m.GetAnalogValueForTag tag with ⟨value, _ | err⟩
      · rw [hv] at ha; exact absurd rfl ha
      · simp only [hb]
        cases s <;> rfl
    · intro ha hb
      unfold readValue
      rw [if_neg hs]
      rcases hv : m.GetAnalogValueForTag tag with ⟨value, _ | err⟩
      · rw [hv] at ha; exact absurd rfl ha
      · rcases hw : m.GetBinaryStatusForTag tag with ⟨status, _ | err2⟩
        · rw [hw] at hb; exact absurd rfl hb
        · simp
  · intro value bytes hv hb
    exact ReadReaches.next n i size out tag value bytes h hi hreg hv hb
  · intro hv fuel hf
    obtain ⟨g, rfl⟩ : ∃ g, fuel = n + (g + 1) := ⟨fuel - n - 1, by omega⟩
    rw [readHandler_reaches rt this m data hlen h (g + 1),
      readLoop_no_value rt this m _ g i size out tag hi hreg hv]

/-- Witness of C17 on the first register of `TestModbusReadHandler`: the
value of `var_I0` is its analog value 5, encoded as `[0, 5]`. -/
theorem read_value_source_witness :
    (4 ≤ ([0x9c, 0x40, 0, 2] : List Nat).length ∧
      40000 < requestStart [0x9c, 0x40, 0, 2] + requestCount [0x9c, 0x40, 0, 2] ∧
      testRTU.registers.get ((40000 : Nat) : Int) = some "var_I0") ∧
    testRTU.readValue testMemory "var_I0" = (Any.float64 (Float64.ofNat 5), none) ∧
    ReadReaches sampleRuntime testRTU testMemory (requestStart [0x9c, 0x40, 0, 2])
      (requestStart [0x9c, 0x40, 0, 2] + requestCount [0x9c, 0x40, 0, 2]) 1 40001 2 [0, 5] :=
  have key := read_value_source sampleRuntime testRTU testMemory [0x9c, 0x40, 0, 2] 0 40000 0 []
    "var_I0" (by decide) ReadReaches.first (by decide) (by decide)
  ⟨⟨by decide, by decide, by decide⟩, (key.2.1 (by decide)).1 _ (by decide),
    key.2.2.1 (Any.float64 (Float64.ofNat 5)) [0, 5] (by decide) (by decide)⟩

/-- A failed `UpdateAnalogTag` leaves the memory as it was; it fails exactly
for a tag that is neither an external nor an internal analog tag. -/
theorem updateAnalogTag_fails (m : Memory) (tag : String) (x : Float64) :
    ((m.UpdateAnalogTag tag x).2 ≠ none → (m.UpdateAnalogTag tag x).1 = m) ∧
    ((m.UpdateAnalogTag tag x).2 ≠ none ↔
      (m.analogTags.has tag = false ∧ m.internalAnalogTags.has tag = false)) := by
  unfold Memory.UpdateAnalogTag
  cases h1 : m.analogTags.has tag <;> cases h2 : m.internalAnalogTags.has tag <;>
    cases h3 : m.frozen <;> simp

/-- A failed `UpdateBinaryTag` is one for a tag that is neither an external
nor an internal binary tag. -/
theorem updateBinaryTag_fails (m : Memory) (tag : String) (s : Bool) :
    (m.UpdateBinaryTag tag s).2 ≠ none ↔
      (m.binaryTags.has tag = false ∧ m.internalBinaryTags.has tag = false) := by
  unfold Memory.UpdateBinaryTag
  cases h1 : m.binaryTags.has tag <;> cases h2 : m.internalBinaryTags.has tag <;>
    cases h3 : m.frozen <;> simp

/-- Claim C19.  Write fallback to binary: for every register the loop of
`writeHandler` reaches that is below `start + count`, mapped to a tag and
whose bytes of the request decode to a value `x`, the handler applies
`UpdateAnalogTag(tag, x)` and goes on when it succeeds; when it fails the
memory is unchanged and the handler applies `UpdateBinaryTag(tag, x != 0)`
and goes on when that succeeds; when both fail, which is exactly when the tag
is neither an analog nor a binary tag, `writeHandler` returns no bytes and
`SlaveDeviceFailure` with any fuel above the turns made so far. -/
theorem write_falls_back_to_binary (rt : Runtime) (this : SunSpecRTU) (m0 : Memory)
    (data : List Nat) (n : Nat) (m : Memory) (i b : Nat) (tag : String) (x : Float64)
    (hlen : 4 ≤ data.length)
    (h : WriteReaches rt this data m0 (requestStart data)
      (requestStart data + requestCount data) n m i b)
    (hi : i < requestStart data + requestCount data)
    (hreg : this.registers.get (i : Int) = some tag)
    (hb : b + (NewRegister (this.typeOf tag)).Length * 2 ≤ data.length)
    (hval : (NewRegister (this.typeOf tag)).Value rt
      ((data.drop b).take ((NewRegister (this.typeOf tag)).Length * 2)) (this.scalingOf i)
      = (x, none)) :
    (∀ m1, m.UpdateAnalogTag tag x = (m1, none) →
      WriteReaches rt this data m0 (requestStart data) (requestStart data + requestCount data)
        (n + 1) m1 (i + (NewRegister (this.typeOf tag)).Length)
        (b + (NewRegister (this.typeOf tag)).Length * 2)) ∧
    ((m.UpdateAnalogTag tag x).2 ≠ none →
      writeTag m tag x = m.UpdateBinaryTag tag (!Float64.eq x Float64.zero)) ∧
    ((m.UpdateAnalogTag tag x).2 ≠ none →
      ∀ m1, m.UpdateBinaryTag tag (!Float64.eq x Float64.zero) = (m1, none) →
      WriteReaches rt this data m0 (requestStart data) (requestStart data + requestCount data)
        (n + 1) m1 (i + (NewRegister (this.typeOf tag)).Length)
        (b + (NewRegister (this.typeOf tag)).Length * 2)) ∧
    ((m.UpdateAnalogTag tag x).2 ≠ none →
      (m.UpdateBinaryTag tag (!Float64.eq x Float64.zero)).2 ≠ none →
      ∀ fuel, n < fuel →
      (this.writeHandler rt m0 fuel data).2 = Reply.returned [] Exception.SlaveDeviceFailure) ∧
    (((m.UpdateAnalogTag tag x).2 ≠ none ∧
        (m.UpdateBinaryTag tag (!Float64.eq x Float64.zero)).2 ≠ none) ↔
      (m.analogTags.has tag = false ∧ m.internalAnalogTags.has tag = false ∧
        m.binaryTags.has tag = false ∧ m.internalBinaryTags.has tag = false)) := by
  have hfall : (m.UpdateAnalogTag tag x).2 ≠ none →
      writeTag m tag x = m.UpdateBinaryTag tag (!Float64.eq x Float64.zero) := by
    intro ha
    have hm := (updateAnalogTag_fails m tag x).1 ha
    unfold writeTag
    rcases hv : m.UpdateAnalogTag tag x with ⟨m1, _ | err⟩
    · rw [hv] at ha; exact absurd rfl ha
    · rw [hv] at hm
      simp only at hm
      subst hm
      rfl
  refine ⟨?_, hfall, ?_, ?_, ?_⟩
  · intro m1 ha
    have hw : writeTag m tag x = (m1, none) := by
      unfold writeTag
      rw [ha]
    exact WriteReaches.next n m m1 i b tag x h hi hreg hb hval hw
  · intro ha m1 hu
    exact WriteReaches.next n m m1 i b tag x h hi hreg hb hval ((hfall ha).trans hu)
  · intro ha hu fuel hf
    obtain ⟨g, rfl⟩ : ∃ g, fuel = n + (g + 1) := ⟨fuel - n - 1, by omega⟩
    rw [writeHandler_reaches rt this m0 data hlen h (g + 1)]
    exact writeLoop_no_tag rt this data _ g m i b tag x hi hreg hb hval
      (by rw [hfall ha]; exact hu)
  · rw [(updateAnalogTag_fails m tag x).2, updateBinaryTag_fails]
    tauto

/-- Witness of C19: the value 1 written to the register 1 of `lonelyRTU`,
whose tag `a` is an internal binary tag of `binaryMemory`, goes to
`UpdateBinaryTag` as true, and the tag reads true afterwards. -/
theorem write_falls_back_to_binary_witness :
    (4 ≤ ([0, 1, 0, 1, 2, 0, 1] : List Nat).length ∧
      1 < requestStart [0, 1, 0, 1, 2, 0, 1] + requestCount [0, 1, 0, 1, 2, 0, 1] ∧
      lonelyRTU.registers.get ((1 : Nat) : Int) = some "a" ∧
      (NewRegister (lonelyRTU.typeOf "a")).Value sampleRuntime
        ((([0, 1, 0, 1, 2, 0, 1] : List Nat).drop 5).take
          ((NewRegister (lonelyRTU.typeOf "a")).Length * 2)) (lonelyRTU.scalingOf 1)
        = (Float64.one, none)) ∧
    writeTag binaryMemory "a" Float64.one = binaryMemory.UpdateBinaryTag "a" true ∧
    (lonelyRTU.writeHandler sampleRuntime binaryMemory 2
      [0, 1, 0, 1, 2, 0, 1]).1.GetBinaryStatusForTag "a" = (true, none) :=
  have key := write_falls_back_to_binary sampleRuntime lonelyRTU binaryMemory
    [0, 1, 0, 1, 2, 0, 1] 0 binaryMemory 1 5 "a" Float64.one (by decide) WriteReaches.first
    (by decide) (by decide) (by decide) (by decide)
  ⟨⟨by decide, by decide, by decide, by decide⟩, key.2.1 (by decide), by decide⟩

end SunSpecRTU

/-! ## The encoding of the integer types -/

namespace Float64

/-- The `float64` of an integer below `2^53` in absolute value is `== 0`
exactly when the integer is 0. -/
theorem round_eq_zero (s : Bool) {M : Nat} (h : M < 2 ^ 53) :
    Float64.eq (round s M 0) zero = decide (M = 0) := by
  by_cases h0 : M = 0
  · subst h0
    rw [round_zero]
    cases s <;> decide
  · obtain ⟨r1, r2, r3⟩ := round_small s h0 h
    obtain ⟨b1, -, -, -⟩ := small_bounds h0 h
    have hz : (round s M 0).isZero = false := by
      unfold isZero
      simp only [Bool.and_eq_false_imp, beq_iff_eq]
      intro he
      omega
    have hne : round s M 0 ≠ zero := by
      intro he
      have := congrArg (fun x : Float64 => x.exponent.val) he
      simp only [r2] at this
      have hz0 : zero.exponent.val = 0 := rfl
      omega
    unfold Float64.eq
    simp [hz, hne, h0]

theorem ofNat_eq_zero {n : Nat} (h : n < 2 ^ 53) :
    Float64.eq (ofNat n) zero = decide (n = 0) := round_eq_zero false h

theorem ofInt_eq_zero {k : Int} (h : k.natAbs < 2 ^ 53) :
    Float64.eq (ofInt k) zero = decide (k = 0) := by
  unfold ofInt
  rw [round_eq_zero _ h]
  simp

theorem one_eq_ofNat : one = ofNat 1 := by decide

theorem zero_eq_ofNat : zero = ofNat 0 := by decide

theorem one_eq_ofInt : one = ofInt 1 := by decide

theorem zero_eq_ofInt : zero = ofInt 0 := by decide

end Float64

theorem toSigned_16 {k : Nat} (h : k < 65536) :
    -(2 ^ (16 - 1) : Int) ≤ toSigned 16 k ∧ toSigned 16 k < 2 ^ (16 - 1) ∧
    (toSigned 16 k % 2 ^ 16).toNat = k ∧ (toSigned 16 k = 0 ↔ k = 0) ∧
    (toSigned 16 k).natAbs < 2 ^ 53 := by
  unfold toSigned
  norm_num
  split <;> omega

theorem toSigned_32 {k : Nat} (h : k < 4294967296) :
    -(2 ^ (32 - 1) : Int) ≤ toSigned 32 k ∧ toSigned 32 k < 2 ^ (32 - 1) ∧
    (toSigned 32 k % 2 ^ 32).toNat = k ∧ (toSigned 32 k = 0 ↔ k = 0) ∧
    (toSigned 32 k).natAbs < 2 ^ 53 := by
  unfold toSigned
  norm_num
  split <;> omega

namespace Register

theorem readError_bigEndian {w : Nat} (hw : 0 < w) (n : Nat) :
    readError w (bigEndian w n) = none := by
  unfold readError
  rw [length_bigEndian, if_neg (by omega), if_neg (by omega)]

theorem pow_256 (w : Nat) : 256 ^ w = 2 ^ (8 * w) := by
  rw [pow_mul]; norm_num

/-- The unsigned scaled types at the scaling 0. -/
theorem exact_unsigned_scaled (rt : Runtime) (hp : rt.PowZero) (ty : String) (w : Nat)
    (hw0 : 0 < w) (hw : 8 * w ≤ 53) (hs : ty ≠ "string8" ∧ ty ≠ "string16")
    (hB : ∀ f, Bytes rt (NewRegister ty) (Any.float64 f) 0
      = some (bigEndian w (rt.toUint (8 * w) (scaleDown rt f 0))))
    (hV : ∀ d, readError w d = none → Value rt (NewRegister ty) d 0
      = (scaleUp rt (Float64.ofNat (fromBigEndian (d.take w))) 0, none)) :
    Exact rt ty 0 w := by
  have hlt : ∀ n, n % 256 ^ w < 2 ^ (8 * w) := fun n => by
    rw [← pow_256]; exact Nat.mod_lt _ (by positivity)
  have h53 : ∀ n, n % 256 ^ w < 2 ^ 53 := fun n =>
    lt_of_lt_of_le (hlt n) (Nat.pow_le_pow_right (by norm_num) hw)
  have hk : ∀ k, k < 2 ^ (8 * w) → Bytes rt (NewRegister ty) (Any.float64 (Float64.ofNat k)) 0
      = some (bigEndian w k) := by
    intro k hk
    have hk53 : k < 2 ^ 53 := lt_of_lt_of_le hk (Nat.pow_le_pow_right (by norm_num) hw)
    rw [hB, (Runtime.scale_zero rt hp _ (Float64.ofNat_finite hk53)).1,
      Runtime.toUint_ofNat rt hw hk]
  have h1 : 1 < 2 ^ (8 * w) := Nat.one_lt_two_pow (by omega)
  refine ⟨hs, fun f => ⟨_, hB f⟩, ?_, ?_, ?_⟩
  · intro n
    refine ⟨Float64.ofNat (n % 256 ^ w), ?_, ?_, Float64.ofNat_eq_zero (h53 n)⟩
    · rw [hV _ (readError_bigEndian hw0 n), List.take_of_length_le (by rw [length_bigEndian]),
        fromBigEndian_bigEndian, (Runtime.scale_zero rt hp _ (Float64.ofNat_finite (h53 n))).2]
    · rw [hk _ (hlt n), bigEndian_mod]
  · rw [Float64.one_eq_ofNat]; exact hk 1 h1
  · rw [Float64.zero_eq_ofNat]; exact hk 0 (by omega)

/-- The unsigned types without scaling. -/
theorem exact_unsigned (rt : Runtime) (ty : String) (s : Int) (w : Nat)
    (hw0 : 0 < w) (hw : 8 * w ≤ 53) (hs : ty ≠ "string8" ∧ ty ≠ "string16")
    (hB : ∀ f, Bytes rt (NewRegister ty) (Any.float64 f) s
      = some (bigEndian w (rt.toUint (8 * w) f)))
    (hV : ∀ d, readError w d = none → Value rt (NewRegister ty) d s
      = (Float64.ofNat (fromBigEndian (d.take w)), none)) :
    Exact rt ty s w := by
  have hlt : ∀ n, n % 256 ^ w < 2 ^ (8 * w) := fun n => by
    rw [← pow_256]; exact Nat.mod_lt _ (by positivity)
  have h53 : ∀ n, n % 256 ^ w < 2 ^ 53 := fun n =>
    lt_of_lt_of_le (hlt n) (Nat.pow_le_pow_right (by norm_num) hw)
  have hk : ∀ k, k < 2 ^ (8 * w) → Bytes rt (NewRegister ty) (Any.float64 (Float64.ofNat k)) s
      = some (bigEndian w k) := by
    intro k hk
    rw [hB, Runtime.toUint_ofNat rt hw hk]
  have h1 : 1 < 2 ^ (8 * w) := Nat.one_lt_two_pow (by omega)
  refine ⟨hs, fun f => ⟨_, hB f⟩, ?_, ?_, ?_⟩
  · intro n
    refine ⟨Float64.ofNat (n % 256 ^ w), ?_, ?_, Float64.ofNat_eq_zero (h53 n)⟩
    · rw [hV _ (readError_bigEndian hw0 n), List.take_of_length_le (by rw [length_bigEndian]),
        fromBigEndian_bigEndian]
    · rw [hk _ (hlt n), bigEndian_mod]
  · rw [Float64.one_eq_ofNat]; exact hk 1 h1
  · rw [Float64.zero_eq_ofNat]; exact hk 0 (by omega)

/-- The signed scaled types at the scaling 0. -/
theorem exact_signed_scaled (rt : Runtime) (hp : rt.PowZero) (ty : String) (w : Nat)
    (hw0 : 0 < w) (hw : 8 * w ≤ 53) (hs : ty ≠ "string8" ∧ ty ≠ "string16")
    (hS : ∀ k, k < 256 ^ w →
      -(2 ^ (8 * w - 1) : Int) ≤ toSigned (8 * w) k ∧ toSigned (8 * w) k < 2 ^ (8 * w - 1) ∧
      (toSigned (8 * w) k % 2 ^ (8 * w)).toNat = k ∧ (toSigned (8 * w) k = 0 ↔ k = 0) ∧
      (toSigned (8 * w) k).natAbs < 2 ^ 53)
    (hB : ∀ f, Bytes rt (NewRegister ty) (Any.float64 f) 0
      = some (bigEndian w (rt.toIntBits (8 * w) (scaleDown rt f 0))))
    (hV : ∀ d, readError w d = none → Value rt (NewRegister ty) d 0
      = (scaleUp rt (Float64.ofInt (toSigned (8 * w) (fromBigEndian (d.take w)))) 0, none)) :
    Exact rt ty 0 w := by
  have hpos : 0 < 256 ^ w := by positivity
  have h1 : 1 < 256 ^ w := Nat.one_lt_pow (by omega) (by norm_num)
  have hk : ∀ k, k < 256 ^ w →
      Bytes rt (NewRegister ty) (Any.float64 (Float64.ofInt (toSigned (8 * w) k))) 0
      = some (bigEndian w k) := by
    intro k hk
    obtain ⟨s1, s2, s3, -, s5⟩ := hS k hk
    rw [hB, (Runtime.scale_zero rt hp _ (Float64.ofInt_finite s5)).1,
      Runtime.toIntBits_ofInt rt hw s1 s2, s3]
  have t1 : toSigned (8 * w) 1 = 1 := by
    obtain ⟨s1, s2, s3, -, -⟩ := hS 1 h1
    unfold toSigned at s3 ⊢
    split
    · rfl
    · rename_i hc
      exfalso
      have : (2 : Nat) ^ 1 ≤ 2 ^ (8 * w - 1) := Nat.pow_le_pow_right (by norm_num) (by omega)
      omega
  have t0 : toSigned (8 * w) 0 = 0 := ((hS 0 hpos).2.2.2.1).2 rfl
  refine ⟨hs, fun f => ⟨_, hB f⟩, ?_, ?_, ?_⟩
  · intro n
    obtain ⟨s1, s2, s3, s4, s5⟩ := hS (n % 256 ^ w) (Nat.mod_lt _ hpos)
    refine ⟨Float64.ofInt (toSigned (8 * w) (n % 256 ^ w)), ?_, ?_, ?_⟩
    · rw [hV _ (readError_bigEndian hw0 n), List.take_of_length_le (by rw [length_bigEndian]),
        fromBigEndian_bigEndian, (Runtime.scale_zero rt hp _ (Float64.ofInt_finite s5)).2]
    · rw [hk _ (Nat.mod_lt _ hpos), bigEndian_mod]
    · rw [Float64.ofInt_eq_zero s5]
      exact decide_eq_decide.mpr s4
  · have := hk 1 h1
    rw [t1] at this
    rw [Float64.one_eq_ofInt]; exact this
  · have := hk 0 hpos
    rw [t0] at this
    rw [Float64.zero_eq_ofInt]; exact this

/-- The encoding of the integer types of 16 and 32 bits is exact: with
`Pow(x, ±0) = 1` every type and scaling of `exactCodec` is `Exact` for the
width of the type. -/
theorem exact_of_exactCodec (rt : Runtime) (hp : rt.PowZero) {ty : String} {s : Int}
    (h : exactCodec ty s) :
    ((NewRegister ty).Length = 1 ∨ (NewRegister ty).Length = 2) ∧
    Exact rt ty s ((NewRegister ty).Length * 2) := by
  rcases h with (rfl | rfl | rfl | rfl) | ⟨rfl | rfl | rfl | rfl | rfl | rfl, rfl⟩
  · exact ⟨Or.inl (by decide), exact_unsigned rt _ s 2 (by decide) (by decide) (by decide)
      (fun f => by simp [Bytes, NewRegister])
      (fun d hd => by simp [Value, NewRegister, hd])⟩
  · exact ⟨Or.inl (by decide), exact_unsigned rt _ s 2 (by decide) (by decide) (by decide)
      (fun f => by simp [Bytes, NewRegister])
      (fun d hd => by simp [Value, NewRegister, hd])⟩
  · exact ⟨Or.inr (by decide), exact_unsigned rt _ s 4 (by decide) (by decide) (by decide)
      (fun f => by simp [Bytes, NewRegister])
      (fun d hd => by simp [Value, NewRegister, hd])⟩
  · exact ⟨Or.inr (by decide), exact_unsigned rt _ s 4 (by decide) (by decide) (by decide)
      (fun f => by simp [Bytes, NewRegister])
      (fun d hd => by simp [Value, NewRegister, hd])⟩
  · exact ⟨Or.inl (by decide), exact_unsigned_scaled rt hp _ 2 (by decide) (by decide)
      (by decide) (fun f => by simp [Bytes, NewRegister])
      (fun d hd => by simp [Value, NewRegister, hd])⟩
  · exact ⟨Or.inl (by decide), exact_unsigned_scaled rt hp _ 2 (by decide) (by decide)
      (by decide) (fun f => by simp [Bytes, NewRegister])
      (fun d hd => by simp [Value, NewRegister, hd])⟩
  · exact ⟨Or.inl (by decide), exact_signed_scaled rt hp _ 2 (by decide) (by decide)
      (by decide) (fun k hk => toSigned_16 (by simpa using hk))
      (fun f => by simp [Bytes, NewRegister])
      (fun d hd => by simp [Value, NewRegister, hd])⟩
  · exact ⟨Or.inr (by decide), exact_unsigned_scaled rt hp _ 4 (by decide) (by decide)
      (by decide) (fun f => by simp [Bytes, NewRegister])
      (fun d hd => by simp [Value, NewRegister, hd])⟩
  · exact ⟨Or.inr (by decide), exact_unsigned_scaled rt hp _ 4 (by decide) (by decide)
      (by decide) (fun f => by simp [Bytes, NewRegister])
      (fun d hd => by simp [Value, NewRegister, hd])⟩
  · exact ⟨Or.inr (by decide), exact_signed_scaled rt hp _ 4 (by decide) (by decide)
      (by decide) (fun k hk => toSigned_32 (by simpa using hk))
      (fun f => by simp [Bytes, NewRegister])
      (fun d hd => by simp [Value, NewRegister, hd])⟩

/-- The bytes of a value do not depend on which exact scaling the register
has. -/
theorem Bytes_exact_scaling (rt : Runtime) {ty : String} {s s' : Int}
    (h : exactCodec ty s) (h' : exactCodec ty s') (v : Any) :
    Bytes rt (NewRegister ty) v s' = Bytes rt (NewRegister ty) v s := by
  rcases h with (rfl | rfl | rfl | rfl) | ⟨h1, rfl⟩
  · simp [Bytes, NewRegister]
  · simp [Bytes, NewRegister]
  · simp [Bytes, NewRegister]
  · simp [Bytes, NewRegister]
  · rcases h' with (rfl | rfl | rfl | rfl) | ⟨-, rfl⟩
    · simp at h1
    · simp at h1
    · simp at h1
    · simp at h1
    · rfl

end Register

/-! ## A read, a write of the bytes read, and a read again -/

theorem bigEndian_inj_mod {w a b : Nat} (h : bigEndian w a = bigEndian w b) :
    a % 256 ^ w = b % 256 ^ w := by
  have := congrArg fromBigEndian h
  rwa [fromBigEndian_bigEndian, fromBigEndian_bigEndian] at this

namespace SunSpecRTU

/-- The value `readHandler` fetches depends only on the maps it reads and,
among the internal tags, on the tag itself. -/
theorem readValue_congr (this : SunSpecRTU) (m1 m2 : Memory) (t : String)
    (h1 : m1.analogTags = m2.analogTags) (h2 : m1.analogModules = m2.analogModules)
    (h3 : m1.analogDeviceValues = m2.analogDeviceValues)
    (h4 : m1.binaryTags = m2.binaryTags) (h5 : m1.binaryModules = m2.binaryModules)
    (h6 : m1.binaryDeviceStatuses = m2.binaryDeviceStatuses)
    (h7 : m1.internalStringTags = m2.internalStringTags)
    (h8 : m1.internalAnalogTags.get t = m2.internalAnalogTags.get t)
    (h9 : m1.internalBinaryTags.get t = m2.internalBinaryTags.get t) :
    this.readValue m1 t = this.readValue m2 t := by
  simp only [readValue, Memory.GetStringValueForTag, Memory.GetAnalogValueForTag,
    Memory.getAnalogValueForTag, Memory.GetBinaryStatusForTag, Memory.getBinaryStatusForTag,
    Memory.getAnalogDeviceValue, Memory.getBinaryDeviceStatus, h1, h2, h3, h4, h5, h6, h7, h8, h9]

/-- The value of a tag that is not of a string type is a `float64`. -/
theorem readValue_float (this : SunSpecRTU) (m : Memory) (t : String)
    (hs : ¬ (this.typeOf t = "string8" ∨ this.typeOf t = "string16")) :
    ∃ f, (this.readValue m t).1 = Any.float64 f := by
  unfold readValue
  rw [if_neg hs]
  rcases m.GetAnalogValueForTag t with ⟨value, _ | err⟩
  · exact ⟨value, rfl⟩
  · rcases m.GetBinaryStatusForTag t with ⟨status, _ | err2⟩
    · cases status
      · exact ⟨Float64.zero, rfl⟩
      · exact ⟨Float64.one, rfl⟩
    · exact ⟨value, rfl⟩

/-- The value of an internal analog tag that is not of a string type. -/
theorem readValue_internal_analog (this : SunSpecRTU) (m : Memory) (t : String) (x : Float64)
    (hs : ¬ (this.typeOf t = "string8" ∨ this.typeOf t = "string16"))
    (h1 : m.analogTags.get t = none) (h2 : m.internalAnalogTags.get t = some x) :
    this.readValue m t = (Any.float64 x, none) := by
  unfold readValue
  rw [if_neg hs, getAnalog_internal m t x h1 h2]

/-- The value of an internal binary tag that is no analog tag and not of a
string type. -/
theorem readValue_internal_binary (this : SunSpecRTU) (m : Memory) (t : String) (b : Bool)
    (hs : ¬ (this.typeOf t = "string8" ∨ this.typeOf t = "string16"))
    (h1 : m.analogTags.get t = none) (h2 : m.internalAnalogTags.get t = none)
    (h3 : m.binaryTags.get t = none) (h4 : m.internalBinaryTags.get t = some b) :
    this.readValue m t = (Any.float64 (if b then Float64.one else Float64.zero), none) := by
  unfold readValue
  rw [if_neg hs]
  simp only [Memory.GetAnalogValueForTag, Memory.getAnalogValueForTag, h1, h2,
    Memory.GetBinaryStatusForTag, Memory.getBinaryStatusForTag, h3, h4]
  cases b <;> rfl

/-- A tag that is in none of the four maps of analog and binary tags and not
of a string type has no value. -/
theorem readValue_no_tag (this : SunSpecRTU) (m : Memory) (t : String)
    (hs : ¬ (this.typeOf t = "string8" ∨ this.typeOf t = "string16"))
    (h1 : m.analogTags.get t = none) (h2 : m.internalAnalogTags.get t = none)
    (h3 : m.binaryTags.get t = none) (h4 : m.internalBinaryTags.get t = none) :
    (this.readValue m t).2 ≠ none := by
  unfold readValue
  rw [if_neg hs]
  simp [Memory.GetAnalogValueForTag, Memory.getAnalogValueForTag, h1, h2,
    Memory.GetBinaryStatusForTag, Memory.getBinaryStatusForTag, h3, h4]

theorem has_false_iff {V : Type} (m : GoMap V) (k : String) :
    m.has k = false ↔ m.get k = none := by
  unfold GoMap.has
  cases m.get k <;> simp

theorem has_true_iff {V : Type} (m : GoMap V) (k : String) :
    m.has k = true ↔ ∃ v, m.get k = some v := by
  unfold GoMap.has
  cases m.get k <;> simp

/-- The start and the count of a write request made of the first four bytes
of a read request, a byte count and a payload. -/
theorem write_request_fields (request : List Nat) (hlen : 4 ≤ request.length) (bc : Nat)
    (payload : List Nat) :
    requestStart (request.take 4 ++ [bc] ++ payload) = requestStart request ∧
    requestCount (request.take 4 ++ [bc] ++ payload) = requestCount request ∧
    (request.take 4 ++ [bc] ++ payload).take 4 = request.take 4 ∧
    (request.take 4 ++ [bc] ++ payload).drop 5 = payload ∧
    4 ≤ (request.take 4 ++ [bc] ++ payload).length := by
  match request, hlen with
  | a :: b :: c :: d :: tl, _ =>
    refine ⟨rfl, rfl, rfl, rfl, ?_⟩
    simp

end SunSpecRTU

/-! ## The encoding of the scaled types -/

namespace Register

/-- Counterexample to C21 as stated: with `math.Pow(10, 2) = 100` and
`math.Pow(10, -2)` the `float64` nearest to 1/100, the type `uint16`, the
scaling -2 and the integer 29: `Value` of the bytes of 29 is 29 times 10^-2,
the `float64` 0.29; `Bytes` of it multiplies by 100, which gives
28.999999999999996, and truncates to 28; `Value` of these bytes is 0.28, not
0.29. -/
theorem scaled_round_trip_loses_one :
    (NewRegister "uint16").Value decimalRuntime (bigEndian 2 29) (-2)
      = (⟨false, 1021, 0x28F5C28F5C28F⟩, none) ∧
    Float64.mul ⟨false, 1021, 0x28F5C28F5C28F⟩ Float64.hundred
      = ⟨false, 1027, 0xCFFFFFFFFFFFF⟩ ∧
    (NewRegister "uint16").Bytes decimalRuntime (Any.float64 ⟨false, 1021, 0x28F5C28F5C28F⟩) (-2)
      = some (bigEndian 2 28) ∧
    (NewRegister "uint16").Value decimalRuntime (bigEndian 2 28) (-2)
      = (⟨false, 1021, 0x1EB851EB851EC⟩, none) ∧
    Float64.eq ⟨false, 1021, 0x1EB851EB851EC⟩ ⟨false, 1021, 0x28F5C28F5C28F⟩ = false := by
  refine ⟨by decide, by decide, by decide, by decide, by decide⟩

theorem toSigned_of_mod_16 {k : Int} (h1 : -(2 ^ 15 : Int) ≤ k) (h2 : k < 2 ^ 15) :
    toSigned 16 ((k % 2 ^ 16).toNat % 256 ^ 2) = k := by
  unfold toSigned
  norm_num at h1 h2 ⊢
  split <;> omega

theorem toSigned_of_mod_32 {k : Int} (h1 : -(2 ^ 31 : Int) ≤ k) (h2 : k < 2 ^ 31) :
    toSigned 32 ((k % 2 ^ 32).toNat % 256 ^ 4) = k := by
  unfold toSigned
  norm_num at h1 h2 ⊢
  split <;> omega

/-- The round trip of an unsigned scaled type at the scaling 0. -/
theorem unsigned_round_trip (rt : Runtime) (hp : rt.PowZero) (ty : String) (w v : Nat)
    (hw0 : 0 < w) (hw : 8 * w ≤ 53) (hv : v < 2 ^ (8 * w))
    (hB : ∀ f, Bytes rt (NewRegister ty) (Any.float64 f) 0
      = some (bigEndian w (rt.toUint (8 * w) (scaleDown rt f 0))))
    (hV : ∀ d, readError w d = none → Value rt (NewRegister ty) d 0
      = (scaleUp rt (Float64.ofNat (fromBigEndian (d.take w))) 0, none)) :
    Bytes rt (NewRegister ty) (Any.float64 (Float64.ofNat v)) 0 = some (bigEndian w v) ∧
    Value rt (NewRegister ty) (bigEndian w v) 0 = (Float64.ofNat v, none) := by
  have h53 : v < 2 ^ 53 := lt_of_lt_of_le hv (Nat.pow_le_pow_right (by norm_num) hw)
  have hm : v % 256 ^ w = v := Nat.mod_eq_of_lt (by rw [pow_256]; exact hv)
  constructor
  · rw [hB, (Runtime.scale_zero rt hp _ (Float64.ofNat_finite h53)).1,
      Runtime.toUint_ofNat rt hw hv]
  · rw [hV _ (readError_bigEndian hw0 v), List.take_of_length_le (by rw [length_bigEndian]),
      fromBigEndian_bigEndian, hm, (Runtime.scale_zero rt hp _ (Float64.ofNat_finite h53)).2]

/-- The round trip of a signed scaled type at the scaling 0. -/
theorem signed_round_trip (rt : Runtime) (hp : rt.PowZero) (ty : String) (w : Nat) (k : Int)
    (hw0 : 0 < w) (hw : 8 * w ≤ 53)
    (h1 : -(2 ^ (8 * w - 1) : Int) ≤ k) (h2 : k < 2 ^ (8 * w - 1))
    (hS : toSigned (8 * w) ((k % 2 ^ (8 * w)).toNat % 256 ^ w) = k)
    (hB : ∀ f, Bytes rt (NewRegister ty) (Any.float64 f) 0
      = some (bigEndian w (rt.toIntBits (8 * w) (scaleDown rt f 0))))
    (hV : ∀ d, readError w d = none → Value rt (NewRegister ty) d 0
      = (scaleUp rt (Float64.ofInt (toSigned (8 * w) (fromBigEndian (d.take w)))) 0, none)) :
    Bytes rt (NewRegister ty) (Any.float64 (Float64.ofInt k)) 0
      = some (bigEndian w (k % 2 ^ (8 * w)).toNat) ∧
    Value rt (NewRegister ty) (bigEndian w (k % 2 ^ (8 * w)).toNat) 0
      = (Float64.ofInt k, none) := by
  have hpw : (2 : Int) ^ (8 * w - 1) ≤ 2 ^ 52 := pow_le_pow_right₀ (by norm_num) (by omega)
  have h53 : k.natAbs < 2 ^ 53 := by
    have : (2 : Int) ^ 52 < 2 ^ 53 := by norm_num
    have h3 : (k.natAbs : Int) < 2 ^ 53 := by omega
    exact_mod_cast h3
  constructor
  · rw [hB, (Runtime.scale_zero rt hp _ (Float64.ofInt_finite h53)).1,
      Runtime.toIntBits_ofInt rt hw h1 h2]
  · rw [hV _ (readError_bigEndian hw0 _), List.take_of_length_le (by rw [length_bigEndian]),
      fromBigEndian_bigEndian, hS, (Runtime.scale_zero rt hp _ (Float64.ofInt_finite h53)).2]

/-- The conversion to a signed integer type of a `float64` whose integer part
fits the type. -/
theorem toIntBits_of_truncate (rt : Runtime) {bits : Nat} {k : Int} {x : Float64}
    (h : x.truncate = some k) (h1 : -(2 ^ (bits - 1) : Int) ≤ k) (h2 : k < 2 ^ (bits - 1)) :
    rt.toIntBits bits x = (k % 2 ^ bits).toNat := by
  unfold Runtime.toIntBits
  rw [h]
  simp [h1, h2]

/-- The round trip of an unsigned scaled type at the scaling `s`, when the
integer part of the product of `Bytes` is `v`. -/
theorem unsigned_round_trip_at (rt : Runtime) (ty : String) (w v : Nat) (s : Int)
    (hw0 : 0 < w) (hv : v < 2 ^ (8 * w))
    (ht : (scaleDown rt (scaleUp rt (Float64.ofNat v) s) s).truncate = some (v : Int))
    (hB : ∀ f, Bytes rt (NewRegister ty) (Any.float64 f) s
      = some (bigEndian w (rt.toUint (8 * w) (scaleDown rt f s))))
    (hV : ∀ d, readError w d = none → Value rt (NewRegister ty) d s
      = (scaleUp rt (Float64.ofNat (fromBigEndian (d.take w))) s, none)) :
    Bytes rt (NewRegister ty) (Any.float64 (scaleUp rt (Float64.ofNat v) s)) s
      = some (bigEndian w v) ∧
    Value rt (NewRegister ty) (bigEndian w v) s = (scaleUp rt (Float64.ofNat v) s, none) := by
  have hm : v % 256 ^ w = v := Nat.mod_eq_of_lt (by rw [pow_256]; exact hv)
  constructor
  · rw [hB, Runtime.toUint_of_truncate rt ht hv]
  · rw [hV _ (readError_bigEndian hw0 v), List.take_of_length_le (by rw [length_bigEndian]),
      fromBigEndian_bigEndian, hm]

/-- The round trip of a signed scaled type at the scaling `s`, when the
integer part of the product of `Bytes` is `k`. -/
theorem signed_round_trip_at (rt : Runtime) (ty : String) (w : Nat) (k s : Int)
    (hw0 : 0 < w)
    (h1 : -(2 ^ (8 * w - 1) : Int) ≤ k) (h2 : k < 2 ^ (8 * w - 1))
    (hS : toSigned (8 * w) ((k % 2 ^ (8 * w)).toNat % 256 ^ w) = k)
    (ht : (scaleDown rt (scaleUp rt (Float64.ofInt k) s) s).truncate = some k)
    (hB : ∀ f, Bytes rt (NewRegister ty) (Any.float64 f) s
      = some (bigEndian w (rt.toIntBits (8 * w) (scaleDown rt f s))))
    (hV : ∀ d, readError w d = none → Value rt (NewRegister ty) d s
      = (scaleUp rt (Float64.ofInt (toSigned (8 * w) (fromBigEndian (d.take w)))) s, none)) :
    Bytes rt (NewRegister ty) (Any.float64 (scaleUp rt (Float64.ofInt k) s)) s
      = some (bigEndian w (k % 2 ^ (8 * w)).toNat) ∧
    Value rt (NewRegister ty) (bigEndian w (k % 2 ^ (8 * w)).toNat) s
      = (scaleUp rt (Float64.ofInt k) s, none) := by
  constructor
  · rw [hB, toIntBits_of_truncate rt ht h1 h2]
  · rw [hV _ (readError_bigEndian hw0 _), List.take_of_length_le (by rw [length_bigEndian]),
      fromBigEndian_bigEndian, hS]

/-- Claim C21, amended.  Scaled codec round trip: for every scaled integer
type (`acc16`, `uint16`, `int16`, `acc32`, `uint32`, `int32`), every scaling
exponent `s` and every integer `v` representable in the type, when the
`float64` product `(float64(v) * Pow(10, s)) * Pow(10, -s)` that `Bytes`
truncates has the integer part `v`, `Bytes` of `float64(v) * Pow(10, s)` at
the scaling `s` is the big-endian encoding of `v` (two's complement for the
signed types) and `Value` of these bytes at the scaling `s` returns
`float64(v) * Pow(10, s)` with no error.  With `Pow(x, ±0) = 1` the product
at the scaling 0 is `float64(v)` and has the integer part `v` for every
representable `v`, so that the round trip holds at the scaling 0 for every
`v`. -/
theorem scaled_codec_round_trip (rt : Runtime) :
    (∀ ty, ty = "acc16" ∨ ty = "uint16" → ∀ (s : Int) (v : Nat), v < 2 ^ 16 →
      (scaleDown rt (scaleUp rt (Float64.ofNat v) s) s).truncate = some (v : Int) →
      Bytes rt (NewRegister ty) (Any.float64 (scaleUp rt (Float64.ofNat v) s)) s
        = some (bigEndian 2 v) ∧
      Value rt (NewRegister ty) (bigEndian 2 v) s
        = (scaleUp rt (Float64.ofNat v) s, none)) ∧
    (∀ ty, ty = "acc32" ∨ ty = "uint32" → ∀ (s : Int) (v : Nat), v < 2 ^ 32 →
      (scaleDown rt (scaleUp rt (Float64.ofNat v) s) s).truncate = some (v : Int) →
      Bytes rt (NewRegister ty) (Any.float64 (scaleUp rt (Float64.ofNat v) s)) s
        = some (bigEndian 4 v) ∧
      Value rt (NewRegister ty) (bigEndian 4 v) s
        = (scaleUp rt (Float64.ofNat v) s, none)) ∧
    (∀ (s v : Int), -(2 ^ 15 : Int) ≤ v → v < 2 ^ 15 →
      (scaleDown rt (scaleUp rt (Float64.ofInt v) s) s).truncate = some v →
      Bytes rt (NewRegister "int16") (Any.float64 (scaleUp rt (Float64.ofInt v) s)) s
        = some (bigEndian 2 (v % 2 ^ 16).toNat) ∧
      Value rt (NewRegister "int16") (bigEndian 2 (v % 2 ^ 16).toNat) s
        = (scaleUp rt (Float64.ofInt v) s, none)) ∧
    (∀ (s v : Int), -(2 ^ 31 : Int) ≤ v → v < 2 ^ 31 →
      (scaleDown rt (scaleUp rt (Float64.ofInt v) s) s).truncate = some v →
      Bytes rt (NewRegister "int32") (Any.float64 (scaleUp rt (Float64.ofInt v) s)) s
        = some (bigEndian 4 (v % 2 ^ 32).toNat) ∧
      Value rt (NewRegister "int32") (bigEndian 4 (v % 2 ^ 32).toNat) s
        = (scaleUp rt (Float64.ofInt v) s, none)) ∧
    (rt.PowZero →
      (∀ v : Nat, v < 2 ^ 32 →
        scaleUp rt (Float64.ofNat v) 0 = Float64.ofNat v ∧
        (scaleDown rt (scaleUp rt (Float64.ofNat v) 0) 0).truncate = some (v : Int)) ∧
      (∀ v : Int, -(2 ^ 31 : Int) ≤ v → v < 2 ^ 31 →
        scaleUp rt (Float64.ofInt v) 0 = Float64.ofInt v ∧
        (scaleDown rt (scaleUp rt (Float64.ofInt v) 0) 0).truncate = some v)) := by
  refine ⟨?_, ?_, ?_, ?_, ?_⟩
  · rintro ty (rfl | rfl) s v hv ht
    · exact unsigned_round_trip_at rt "acc16" 2 v s (by decide) hv ht
        (fun f => by simp [Bytes, NewRegister]) (fun d hd => by simp [Value, NewRegister, hd])
    · exact unsigned_round_trip_at rt "uint16" 2 v s (by decide) hv ht
        (fun f => by simp [Bytes, NewRegister]) (fun d hd => by simp [Value, NewRegister, hd])
  · rintro ty (rfl | rfl) s v hv ht
    · exact unsigned_round_trip_at rt "acc32" 4 v s (by decide) hv ht
        (fun f => by simp [Bytes, NewRegister]) (fun d hd => by simp [Value, NewRegister, hd])
    · exact unsigned_round_trip_at rt "uint32" 4 v s (by decide) hv ht
        (fun f => by simp [Bytes, NewRegister]) (fun d hd => by simp [Value, NewRegister, hd])
  · intro s v h1 h2 ht
    exact signed_round_trip_at rt "int16" 2 v s (by decide) h1 h2
      (toSigned_of_mod_16 h1 h2) ht
      (fun f => by simp [Bytes, NewRegister]) (fun d hd => by simp [Value, NewRegister, hd])
  · intro s v h1 h2 ht
    exact signed_round_trip_at rt "int32" 4 v s (by decide) h1 h2
      (toSigned_of_mod_32 h1 h2) ht
      (fun f => by simp [Bytes, NewRegister]) (fun d hd => by simp [Value, NewRegister, hd])
  · intro hp
    refine ⟨?_, ?_⟩
    · intro v hv
      have h53 : v < 2 ^ 53 := lt_of_lt_of_le hv (by norm_num)
      have hz := Runtime.scale_zero rt hp _ (Float64.ofNat_finite h53)
      rw [hz.2, hz.1]
      exact ⟨rfl, Float64.truncate_ofNat h53⟩
    · intro v h1 h2
      have h53 : v.natAbs < 2 ^ 53 := by
        have e1 : (2 : Int) ^ 31 = 2147483648 := by norm_num
        have e2 : (2 : Int) ^ 53 = 9007199254740992 := by norm_num
        have h3 : (v.natAbs : Int) < 2 ^ 53 := by
          rw [e1] at h1 h2
          rw [e2]
          omega
        exact_mod_cast h3
      have hz := Runtime.scale_zero rt hp _ (Float64.ofInt_finite h53)
      rw [hz.2, hz.1]
      exact ⟨rfl, Float64.truncate_ofInt h53⟩

/-- Witness of the amended C21 with `math.Pow(10, 2) = 100` and
`math.Pow(10, -2)` the `float64` nearest to 1/100: 29 as `uint16` at the
scaling 2, where the product 2900 times 1/100 has the integer part 29, and -2
as `int16` at the scaling -2, where the product has the integer part -2. -/
theorem scaled_codec_round_trip_witness :
    ((29 : Nat) < 2 ^ 16 ∧
      (scaleDown decimalRuntime (scaleUp decimalRuntime (Float64.ofNat 29) 2) 2).truncate
        = some ((29 : Nat) : Int) ∧
      scaleUp decimalRuntime (Float64.ofNat 29) 2 = Float64.ofNat 2900) ∧
    ((NewRegister "uint16").Bytes decimalRuntime
        (Any.float64 (scaleUp decimalRuntime (Float64.ofNat 29) 2)) 2 = some (bigEndian 2 29) ∧
      (NewRegister "uint16").Value decimalRuntime (bigEndian 2 29) 2
        = (scaleUp decimalRuntime (Float64.ofNat 29) 2, none)) ∧
    (-(2 ^ 15 : Int) ≤ -2 ∧ (-2 : Int) < 2 ^ 15 ∧
      (scaleDown decimalRuntime (scaleUp decimalRuntime (Float64.ofInt (-2)) (-2))
        (-2)).truncate = some (-2)) ∧
    ((NewRegister "int16").Bytes decimalRuntime
        (Any.float64 (scaleUp decimalRuntime (Float64.ofInt (-2)) (-2))) (-2)
        = some (bigEndian 2 ((-2 : Int) % 2 ^ 16).toNat) ∧
      (NewRegister "int16").Value decimalRuntime (bigEndian 2 ((-2 : Int) % 2 ^ 16).toNat) (-2)
        = (scaleUp decimalRuntime (Float64.ofInt (-2)) (-2), none)) :=
  ⟨⟨by decide, by decide, by decide⟩,
    (scaled_codec_round_trip decimalRuntime).1 "uint16" (Or.inr rfl) 2 29 (by decide)
      (by decide),
    ⟨by decide, by decide, by decide⟩,
    (scaled_codec_round_trip decimalRuntime).2.2.1 (-2) (-2) (by decide) (by decide)
      (by decide)⟩

end Register

/-! ## The register length table and the function codes -/

theorem length_copyString (size : Nat) (s : String) : (copyString size s).length = size := by
  unfold copyString
  rw [List.length_append, List.length_take, List.length_replicate]
  omega

/-- The bytes of `copyString` are the leading bytes of the string, then
zeros. -/
theorem getElem_copyString (size : Nat) (s : String) (i : Nat) (hi : i < size) :
    (copyString size s)[i]? = some ((stringBytes s).getD i 0) := by
  unfold copyString
  by_cases h : i < (stringBytes s).length
  · rw [List.getElem?_append_left (by rw [List.length_take]; omega), List.getElem?_take,
      if_pos hi, List.getD_eq_getElem?_getD, List.getElem?_eq_getElem h]
    rfl
  · have hle : (stringBytes s).length ≤ size := by omega
    have h0 : (stringBytes s).getD i 0 = 0 := by
      rw [List.getD_eq_getElem?_getD, List.getElem?_eq_none (by omega)]
      rfl
    rw [List.take_of_length_le hle, List.getElem?_append_right (by omega), h0,
      List.getElem?_replicate, if_pos (by omega)]

namespace Register

/-- Claim C22.  Register length table: `Length` is 1 for `int16`, `uint16`,
`acc16`, `bitfield16`, `enum16` and `sunssf`, 2 for `int32`, `uint32`, `acc32`,
`bitfield32`, `enum32` and `float32`, 4 for `acc64`, 8 for `string8` and 16
for `string16`; for each of the thirteen types that are not strings `Bytes`
of a `float64` is `2 * Length` bytes, and for `string8` and `string16` `Bytes`
of a string is 16 and 32 bytes, the bytes of the string in front and zeros
behind. -/
theorem length_table (rt : Runtime) (s : Int) :
    ((NewRegister "int16").Length = 1 ∧ (NewRegister "uint16").Length = 1 ∧
      (NewRegister "acc16").Length = 1 ∧ (NewRegister "bitfield16").Length = 1 ∧
      (NewRegister "enum16").Length = 1 ∧ (NewRegister "sunssf").Length = 1 ∧
      (NewRegister "int32").Length = 2 ∧ (NewRegister "uint32").Length = 2 ∧
      (NewRegister "acc32").Length = 2 ∧ (NewRegister "bitfield32").Length = 2 ∧
      (NewRegister "enum32").Length = 2 ∧ (NewRegister "float32").Length = 2 ∧
      (NewRegister "acc64").Length = 4 ∧ (NewRegister "string8").Length = 8 ∧
      (NewRegister "string16").Length = 16) ∧
    (∀ ty, ty ∈ ["int16", "uint16", "acc16", "bitfield16", "enum16", "sunssf", "int32",
        "uint32", "acc32", "bitfield32", "enum32", "float32", "acc64"] →
      ∀ f, ∃ d, Bytes rt (NewRegister ty) (Any.float64 f) s = some d ∧
        d.length = 2 * (NewRegister ty).Length) ∧
    (∀ str, Bytes rt (NewRegister "string8") (Any.string str) s = some (copyString 16 str) ∧
      (copyString 16 str).length = 2 * (NewRegister "string8").Length ∧
      ∀ i, i < 16 → (copyString 16 str)[i]? = some ((stringBytes str).getD i 0)) ∧
    (∀ str, Bytes rt (NewRegister "string16") (Any.string str) s = some (copyString 32 str) ∧
      (copyString 32 str).length = 2 * (NewRegister "string16").Length ∧
      ∀ i, i < 32 → (copyString 32 str)[i]? = some ((stringBytes str).getD i 0)) := by
  refine ⟨by decide, ?_, ?_, ?_⟩
  · intro ty hty f
    simp only [List.mem_cons, List.mem_singleton, List.not_mem_nil, or_false] at hty
    rcases hty with rfl | rfl | rfl | rfl | rfl | rfl | rfl | rfl | rfl | rfl | rfl | rfl | rfl
    all_goals
      refine ⟨_, by simp [Bytes, NewRegister]; rfl, ?_⟩
      rw [length_bigEndian]
      decide
  · intro str
    exact ⟨by simp [Bytes, NewRegister], by rw [length_copyString]; decide,
      fun i hi => getElem_copyString 16 str i hi⟩
  · intro str
    exact ⟨by simp [Bytes, NewRegister], by rw [length_copyString]; decide,
      fun i hi => getElem_copyString 32 str i hi⟩

end Register

namespace SunSpecRTU

/-- Claim C23.  For every data of a frame `notImplementedHandler` returns no
bytes and `IllegalFunction`; after the registrations of `Start`, whatever the
server held before, the function codes 1, 2, 4, 5, 6 and 15 have this handler,
the code 3 has `readHandler` and the code 16 has `writeHandler`, and every
other code has what it had. -/
theorem function_codes (rt : Runtime) (this : SunSpecRTU) (m : Memory) (fuel : Nat)
    (server : Nat → FunctionHandler) (data : List Nat) :
    notImplementedHandler data = Reply.returned [] Exception.IllegalFunction ∧
    (∀ code, code ∈ [1, 2, 4, 5, 6, 15] →
      Start server code = FunctionHandler.notImplemented ∧
      this.call rt m fuel data (Start server code)
        = some (m, Reply.returned [] Exception.IllegalFunction)) ∧
    (Start server 3 = FunctionHandler.read ∧
      this.call rt m fuel data (Start server 3) = some (m, this.readHandler rt m fuel data)) ∧
    (Start server 16 = FunctionHandler.write ∧
      this.call rt m fuel data (Start server 16) = some (this.writeHandler rt m fuel data)) ∧
    (∀ code, code ∉ [1, 2, 3, 4, 5, 6, 15, 16] → Start server code = server code) := by
  refine ⟨rfl, ?_, ⟨rfl, rfl⟩, ⟨rfl, rfl⟩, ?_⟩
  · intro code hc
    simp only [List.mem_cons, List.mem_singleton, List.not_mem_nil, or_false] at hc
    rcases hc with rfl | rfl | rfl | rfl | rfl | rfl <;> exact ⟨rfl, rfl⟩
  · intro code hc
    simp only [List.mem_cons, List.mem_singleton, List.not_mem_nil, or_false, not_or] at hc
    obtain ⟨h1, h2, h3, h4, h5, h6, h7, h8⟩ := hc
    simp [Start, RegisterFunctionHandler, h1, h2, h3, h4, h5, h6, h7, h8]

end SunSpecRTU

/-! ## When the handlers return -/

namespace Register

/-- A type outside the register length table has no value: `Value` returns
an error for it. -/
theorem Value_of_length_zero (rt : Runtime) (ty : String) (d : List Nat) (s : Int)
    (h : (NewRegister ty).Length = 0) : (Value rt (NewRegister ty) d s).2 ≠ none := by
  intro hc
  unfold Value NewRegister at hc
  simp only at hc
  split_ifs at hc with h1 h2 h3 h4 h5 h6 h7 h8
  · rcases h1 with h1 | h1 <;> subst h1 <;> exact absurd h (by decide)
  · rcases h2 with h2 | h2 <;> subst h2 <;> exact absurd h (by decide)
  · subst h3; exact absurd h (by decide)
  · rcases h4 with h4 | h4 <;> subst h4 <;> exact absurd h (by decide)
  · rcases h5 with h5 | h5 <;> subst h5 <;> exact absurd h (by decide)
  · subst h6; exact absurd h (by decide)
  · subst h7; exact absurd h (by decide)
  · subst h8; exact absurd h (by decide)

/-- The types outside the register length table have the length 0. -/
theorem Length_outside_table (ty : String)
    (h : ty ∉ ["acc16", "acc32", "acc64", "bitfield16", "bitfield32", "enum16", "enum32",
      "float32", "int16", "int32", "string8", "string16", "sunssf", "uint16", "uint32"]) :
    (NewRegister ty).Length = 0 := by
  simp only [List.mem_cons, List.mem_singleton, List.not_mem_nil, or_false, not_or] at h
  obtain ⟨h1, h2, h3, h4, h5, h6, h7, h8, h9, h10, h11, h12, h13, h14, h15⟩ := h
  simp [Length, NewRegister, h1, h2, h3, h4, h5, h6, h7, h8, h9, h10, h11, h12, h13, h14, h15]

/-- For a type outside the register length table `Bytes` panics, whatever the
value. -/
theorem Bytes_outside_table (rt : Runtime) (ty : String) (v : Any) (s : Int)
    (h : ty ∉ ["acc16", "acc32", "acc64", "bitfield16", "bitfield32", "enum16", "enum32",
      "float32", "int16", "int32", "string8", "string16", "sunssf", "uint16", "uint32"]) :
    Bytes rt (NewRegister ty) v s = none := by
  simp only [List.mem_cons, List.mem_singleton, List.not_mem_nil, or_false, not_or] at h
  obtain ⟨h1, h2, h3, h4, h5, h6, h7, h8, h9, h10, h11, h12, h13, h14, h15⟩ := h
  simp [Bytes, NewRegister, h1, h2, h3, h4, h5, h6, h7, h8, h9, h10, h11, h12, h13, h14, h15]

/-- A `float64` has bytes in every type of the register length table but the
two of strings. -/
theorem Bytes_float (rt : Runtime) (ty : String) (f : Float64) (s : Int)
    (h8 : ty ≠ "string8") (h16 : ty ≠ "string16") (hL : 1 ≤ (NewRegister ty).Length) :
    ∃ b, Bytes rt (NewRegister ty) (Any.float64 f) s = some b := by
  by_cases hin : ty ∈ ["acc16", "acc32", "acc64", "bitfield16", "bitfield32", "enum16",
      "enum32", "float32", "int16", "int32", "string8", "string16", "sunssf", "uint16",
      "uint32"]
  · simp only [List.mem_cons, List.mem_singleton, List.not_mem_nil, or_false] at hin
    rcases hin with rfl | rfl | rfl | rfl | rfl | rfl | rfl | rfl | rfl | rfl | rfl | rfl |
      rfl | rfl | rfl <;>
    first
      | exact absurd rfl h8
      | exact absurd rfl h16
      | simp [Bytes, NewRegister]
  · rw [Length_outside_table ty hin] at hL
    omega

/-- A string has bytes in the two types of strings. -/
theorem Bytes_string (rt : Runtime) (ty : String) (str : String) (s : Int)
    (h : ty = "string8" ∨ ty = "string16") :
    ∃ b, Bytes rt (NewRegister ty) (Any.string str) s = some b := by
  rcases h with rfl | rfl
  · exact ⟨_, by simp [Bytes, NewRegister]; rfl⟩
  · exact ⟨_, by simp [Bytes, NewRegister]; rfl⟩

end Register

namespace SunSpecRTU

/-- The value `readHandler` fetches for a tag whose type is in the register
length table has bytes in the type of the tag: no type assertion of `Bytes`
fails in `readHandler`. -/
theorem Bytes_readValue (rt : Runtime) (this : SunSpecRTU) (m : Memory) (tag : String)
    (s : Int) (hL : 1 ≤ (NewRegister (this.typeOf tag)).Length) :
    ∃ b, (NewRegister (this.typeOf tag)).Bytes rt (this.readValue m tag).1 s = some b := by
  by_cases hs : this.typeOf tag = "string8" ∨ this.typeOf tag = "string16"
  · have : (this.readValue m tag).1 = Any.string (m.GetStringValueForTag tag).1 := by
      unfold readValue
      rw [if_pos hs]
    rw [this]
    exact Register.Bytes_string rt _ _ s hs
  · obtain ⟨f, hf⟩ := readValue_float this m tag hs
    rw [hf]
    exact Register.Bytes_float rt _ f s (fun h => hs (Or.inl h)) (fun h => hs (Or.inr h)) hL

/-- The loop of `readHandler` returns when every register of the range that
is in the table has a type of the register length table. -/
theorem readLoop_returns (rt : Runtime) (this : SunSpecRTU) (m : Memory) (start stop : Nat)
    (hty : ∀ (i : Nat) (t : String), start ≤ i → i < stop →
      this.registers.get (i : Int) = some t → 1 ≤ (NewRegister (this.typeOf t)).Length) :
    ∀ (k fuel i size : Nat) (acc : List Nat), start ≤ i → stop - i ≤ k → k < fuel →
      ∃ out ex, this.readLoop rt m stop fuel i size acc = Reply.returned out ex := by
  intro k
  induction k with
  | zero =>
    intro fuel i size acc _ hk hf
    obtain ⟨fuel, rfl⟩ : ∃ g, fuel = g + 1 := ⟨fuel - 1, by omega⟩
    exact ⟨_, _, readLoop_done rt this m stop fuel i size acc (by omega)⟩
  | succ k ih =>
    intro fuel i size acc hlo hk hf
    obtain ⟨fuel, rfl⟩ : ∃ g, fuel = g + 1 := ⟨fuel - 1, by omega⟩
    by_cases hi : i < stop
    · rcases hreg : this.registers.get (i : Int) with _ | tag
      · exact ⟨_, _, readLoop_unmapped rt this m stop fuel i size acc hi hreg⟩
      · rcases hv : this.readValue m tag with ⟨value, _ | err⟩
        · have hL := hty i tag hlo hi hreg
          obtain ⟨b, hb⟩ := Bytes_readValue rt this m tag (this.scalingOf i) hL
          rw [hv] at hb
          rw [readLoop_step rt this m stop fuel i size acc tag value b hi hreg hv hb]
          exact ih fuel _ _ _ (by omega) (by omega) (by omega)
        · exact ⟨_, _, readLoop_no_value rt this m stop fuel i size acc tag hi hreg
            (by rw [hv]; simp)⟩
    · exact ⟨_, _, readLoop_done rt this m stop fuel i size acc hi⟩

/-- The loop of `writeHandler` on a register whose bytes do not decode. -/
theorem writeLoop_no_decode (rt : Runtime) (this : SunSpecRTU) (data : List Nat)
    (stop fuel : Nat) (m : Memory) (i b : Nat) (tag : String) (hi : i < stop)
    (hreg : this.registers.get (i : Int) = some tag)
    (hlen : b + (NewRegister (this.typeOf tag)).Length * 2 ≤ data.length)
    (hval : ((NewRegister (this.typeOf tag)).Value rt
      ((data.drop b).take ((NewRegister (this.typeOf tag)).Length * 2))
      (this.scalingOf i)).2 ≠ none) :
    this.writeLoop rt data stop (fuel + 1) m i b =
      (m, Reply.returned [] Exception.SlaveDeviceFailure) := by
  rw [writeLoop, if_pos hi, hreg]
  simp only
  rw [if_neg (by omega)]
  rcases hv : (NewRegister (this.typeOf tag)).Value rt
      ((data.drop b).take ((NewRegister (this.typeOf tag)).Length * 2))
      (this.scalingOf i) with ⟨value, _ | err⟩
  · rw [hv] at hval; exact absurd rfl hval
  · rfl

/-- The loop of `writeHandler` returns when the request holds the bytes of
every register of the range that is in the table. -/
theorem writeLoop_returns (rt : Runtime) (this : SunSpecRTU) (data : List Nat)
    (start stop : Nat)
    (hpay : ∀ (i : Nat) (t : String), start ≤ i → i < stop →
      this.registers.get (i : Int) = some t →
      5 + 2 * (i - start) + 2 * (NewRegister (this.typeOf t)).Length ≤ data.length) :
    ∀ (k fuel : Nat) (m : Memory) (i b : Nat), start ≤ i → b = 5 + 2 * (i - start) →
      stop - i ≤ k → k < fuel →
      ∃ out ex, (this.writeLoop rt data stop fuel m i b).2 = Reply.returned out ex := by
  intro k
  induction k with
  | zero =>
    intro fuel m i b _ _ hk hf
    obtain ⟨fuel, rfl⟩ : ∃ g, fuel = g + 1 := ⟨fuel - 1, by omega⟩
    exact ⟨_, _, by rw [writeLoop_done rt this data stop fuel m i b (by omega)]⟩
  | succ k ih =>
    intro fuel m i b hlo hb hk hf
    obtain ⟨fuel, rfl⟩ : ∃ g, fuel = g + 1 := ⟨fuel - 1, by omega⟩
    by_cases hi : i < stop
    · rcases hreg : this.registers.get (i : Int) with _ | tag
      · exact ⟨_, _, by rw [writeLoop_unmapped rt this data stop fuel m i b hi hreg]⟩
      · have hp := hpay i tag hlo hi hreg
        have hlen : b + (NewRegister (this.typeOf tag)).Length * 2 ≤ data.length := by omega
        rcases hv : (NewRegister (this.typeOf tag)).Value rt
            ((data.drop b).take ((NewRegister (this.typeOf tag)).Length * 2))
            (this.scalingOf i) with ⟨value, _ | err⟩
        · have hL : 1 ≤ (NewRegister (this.typeOf tag)).Length := by
            by_contra hc
            have := Register.Value_of_length_zero rt (this.typeOf tag)
              ((data.drop b).take ((NewRegister (this.typeOf tag)).Length * 2))
              (this.scalingOf i) (by omega)
            rw [hv] at this
            exact this rfl
          rcases hu : writeTag m tag value with ⟨m1, _ | err⟩
          · rw [writeLoop_step rt this data stop fuel m m1 i b tag value hi hreg hlen hv hu]
            exact ih fuel m1 _ _ (by omega) (by omega) (by omega) (by omega)
          · exact ⟨_, _, writeLoop_no_tag rt this data stop fuel m i b tag value hi hreg hlen
              hv (by rw [hu]; simp)⟩
        · exact ⟨_, _, by rw [writeLoop_no_decode rt this data stop fuel m i b tag hi hreg hlen
            (by rw [hv]; simp)]⟩
    · exact ⟨_, _, by rw [writeLoop_done rt this data stop fuel m i b hi]⟩

/-- The loop of `readHandler` on a register whose value has no bytes: `Bytes`
panics. -/
theorem readLoop_no_bytes (rt : Runtime) (this : SunSpecRTU) (m : Memory)
    (stop fuel i size : Nat) (data : List Nat) (tag : String) (value : Any) (hi : i < stop)
    (hreg : this.registers.get (i : Int) = some tag)
    (hval : this.readValue m tag = (value, none))
    (hbytes : (NewRegister (this.typeOf tag)).Bytes rt value (this.scalingOf i) = none) :
    this.readLoop rt m stop (fuel + 1) i size data = Reply.crashed := by
  rw [readLoop, if_pos hi, hreg]
  simp only [hval, hbytes]

/-- The loop of `readHandler` on the register of `untypedRTU` panics: the tag
has a value and its type is outside the switch of `Bytes`. -/
theorem readLoop_untyped (rt : Runtime) (fuel size : Nat) (acc : List Nat) :
    untypedRTU.readLoop rt binaryMemory 2 (fuel + 1) 1 size acc = Reply.crashed :=
  readLoop_no_bytes rt untypedRTU binaryMemory 2 fuel 1 size acc "a"
    (Any.float64 Float64.zero) (by decide) (by decide) (by decide)
    (Register.Bytes_outside_table rt _ _ _ (by decide))

/-- Counterexample to C24 as stated: on the read of the register 1 of
`untypedRTU`, whose tag has a binary status and no type, `Bytes` panics in
`binary.Write` and `readHandler` does not return; on request data of three
bytes the slice `data[2:4]` of `readHandler` is out of range; and on a write
request for the register 40000 of `testRTU` with one byte of payload the
slice `data[5:7]` of `writeHandler` is out of range. -/
theorem handlers_not_total :
    (untypedRTU.registers.get ((1 : Nat) : Int) = some "a" ∧
      (NewRegister (untypedRTU.typeOf "a")).Length = 0 ∧
      ∀ (rt : Runtime) (fuel : Nat),
        untypedRTU.readHandler rt binaryMemory (fuel + 1) [0, 1, 0, 1] = Reply.crashed) ∧
    (∀ (rt : Runtime) (fuel : Nat),
      testRTU.readHandler rt testMemory fuel [0x9c, 0x40, 0] = Reply.crashed) ∧
    (∀ (rt : Runtime) (fuel : Nat),
      (testRTU.writeHandler rt testMemory (fuel + 1) [0x9c, 0x40, 0, 1, 2, 0]).2
        = Reply.crashed) := by
  refine ⟨⟨by decide, by decide, ?_⟩, ?_, ?_⟩
  · intro rt fuel
    unfold readHandler
    rw [if_neg (by decide)]
    have e1 : requestStart [0, 1, 0, 1] = 1 := by decide
    have e2 : requestCount [0, 1, 0, 1] = 1 := by decide
    rw [e1, e2]
    exact readLoop_untyped rt fuel 0 []
  · intro rt fuel
    unfold readHandler
    rw [if_pos (by decide)]
  · intro rt fuel
    unfold writeHandler
    rw [if_neg (by decide)]
    have e1 : requestStart [0x9c, 0x40, 0, 1, 2, 0] = 40000 := by decide
    have e2 : requestCount [0x9c, 0x40, 0, 1, 2, 0] = 1 := by decide
    have hreg : testRTU.registers.get ((40000 : Nat) : Int) = some "var_I0" := by decide
    rw [e1, e2, writeLoop, if_pos (by decide), hreg]
    simp only
    rw [if_pos (by decide)]

/-- Claim C24, amended.  When the handlers return: for every register table,
memory and request data of at least four bytes, `readHandler` returns bytes
and an exception, with any fuel above `count`, if every register of
`[start, start + count)` that is in the table has a type of the register
length table, outside of which `Bytes` panics; `writeHandler` returns bytes
and an exception, with any fuel above `count`, if the request data reaches to
the end of the bytes of every register of the range that is in the table, the
bytes of the register `i` starting at the offset `5 + 2 * (i - start)`. -/
theorem handlers_return (rt : Runtime) (this : SunSpecRTU) (m : Memory)
    (readData writeData : List Nat) (fuel : Nat)
    (hr : 4 ≤ readData.length) (hw : 4 ≤ writeData.length)
    (hty : ∀ (i : Nat) (t : String), requestStart readData ≤ i →
      i < requestStart readData + requestCount readData →
      this.registers.get (i : Int) = some t → 1 ≤ (NewRegister (this.typeOf t)).Length)
    (hpay : ∀ (i : Nat) (t : String), requestStart writeData ≤ i →
      i < requestStart writeData + requestCount writeData →
      this.registers.get (i : Int) = some t →
      5 + 2 * (i - requestStart writeData) + 2 * (NewRegister (this.typeOf t)).Length
        ≤ writeData.length)
    (hfr : requestCount readData < fuel) (hfw : requestCount writeData < fuel) :
    (∃ out ex, this.readHandler rt m fuel readData = Reply.returned out ex) ∧
    (∃ out ex, (this.writeHandler rt m fuel writeData).2 = Reply.returned out ex) := by
  constructor
  · unfold readHandler
    rw [if_neg (by omega)]
    exact readLoop_returns rt this m _ _ hty (requestCount readData) fuel _ 0 [] (le_refl _)
      (by omega) hfr
  · unfold writeHandler
    rw [if_neg (by omega)]
    exact writeLoop_returns rt this writeData _ _ hpay (requestCount writeData) fuel m _ 5
      (le_refl _) (by omega) (by omega) hfw

/-- The registers of `testRTU` are 40000 and 40001, for `var_I0` and
`var_I1`. -/
theorem testRTU_registers (i : Nat) (t : String)
    (h : testRTU.registers.get (i : Int) = some t) :
    (i = 40000 ∧ t = "var_I0") ∨ (i = 40001 ∧ t = "var_I1") := by
  simp only [testRTU, IntMap.get] at h
  split at h
  · cases h; left; constructor
    · omega
    · rfl
  · split at h
    · cases h; right; constructor
      · omega
      · rfl
    · cases h

/-- Witness of the amended C24 on the requests of the handler tests. -/
theorem handlers_return_witness :
    (4 ≤ ([0x9c, 0x40, 0, 2] : List Nat).length ∧
      4 ≤ ([0x9c, 0x40, 0, 1, 2, 0, 1] : List Nat).length ∧
      requestCount [0x9c, 0x40, 0, 2] < 3 ∧ requestCount [0x9c, 0x40, 0, 1, 2, 0, 1] < 3) ∧
    (∃ out ex, testRTU.readHandler sampleRuntime testMemory 3 [0x9c, 0x40, 0, 2]
      = Reply.returned out ex) ∧
    (∃ out ex, (testRTU.writeHandler sampleRuntime testMemory 3 [0x9c, 0x40, 0, 1, 2, 0, 1]).2
      = Reply.returned out ex) :=
  ⟨⟨by decide, by decide, by decide, by decide⟩,
    handlers_return sampleRuntime testRTU testMemory [0x9c, 0x40, 0, 2]
      [0x9c, 0x40, 0, 1, 2, 0, 1] 3 (by decide) (by decide)
      (fun i t _ _ h => by
        rcases testRTU_registers i t h with ⟨-, rfl⟩ | ⟨-, rfl⟩ <;> decide)
      (fun i t h1 h2 h => by
        have e1 : requestStart [0x9c, 0x40, 0, 1, 2, 0, 1] = 40000 := by decide
        have e2 : requestCount [0x9c, 0x40, 0, 1, 2, 0, 1] = 1 := by decide
        rw [e1, e2] at h2
        rw [e1] at h1 ⊢
        rcases testRTU_registers i t h with ⟨rfl, rfl⟩ | ⟨rfl, rfl⟩
        · decide
        · omega)
      (by decide) (by decide)⟩

end SunSpecRTU

/-! ## Points on the subscribe wire and the input module -/

/-- Counterexample to C29 as stated: the value texts `1`, `0` and `t` are not
`true` or `false`, and `NewPointDataFromPoint` treats them as booleans: the
point `A:1` gets the status true and the value 0, not the value 1; `A:0`
gets the status false, and `A:t` the status true.  `strconv.ParseBool` is
tried first and accepts them, so that `strconv.ParseFloat` is not reached. -/
theorem point_one_is_status :
    ParseBool "1" = (true, none) ∧ ParseBool "0" = (false, none) ∧
    ParseBool "t" = (true, none) ∧
    ∀ ParseFloat : String → Float64 × Option String,
      NewPointDataFromPoint ParseFloat "A:1"
        = ({ Name := "A", Status := true, Value := Float64.zero }, none) ∧
      NewPointDataFromPoint ParseFloat "A:0"
        = ({ Name := "A", Status := false, Value := Float64.zero }, none) ∧
      NewPointDataFromPoint ParseFloat "A:t"
        = ({ Name := "A", Status := true, Value := Float64.zero }, none) := by
  refine ⟨by decide, by decide, by decide, fun _ => ⟨rfl, rfl, rfl⟩⟩

/-- Claim C30.  Inbound point application: for every memory and point, the
step of the input module sets `binaryDeviceStatuses[Name]` to `Status` when
`Name` is a binary device; otherwise it sets `analogDeviceValues[Name]` to
`Value` when `Name` is an analog device; otherwise it leaves the memory as it
is.  In every case the tag maps, the module maps, the pending buffers, the
internal stores, the frozen flag, the shadow maps and every other device
entry are as before. -/
theorem inbound_point_application (m : Memory) (p : PointData) :
    (m.isBinaryDevice p.Name = true →
      (handlePoint m p).binaryDeviceStatuses.get p.Name = some p.Status ∧
      (handlePoint m p).analogDeviceValues = m.analogDeviceValues) ∧
    (m.isBinaryDevice p.Name = false → m.isAnalogDevice p.Name = true →
      (handlePoint m p).analogDeviceValues.get p.Name = some p.Value ∧
      (handlePoint m p).binaryDeviceStatuses = m.binaryDeviceStatuses) ∧
    (m.isBinaryDevice p.Name = false → m.isAnalogDevice p.Name = false →
      handlePoint m p = m) ∧
    (∀ d, d ≠ p.Name →
      (handlePoint m p).binaryDeviceStatuses.get d = m.binaryDeviceStatuses.get d ∧
      (handlePoint m p).analogDeviceValues.get d = m.analogDeviceValues.get d) ∧
    ((handlePoint m p).binaryTags = m.binaryTags ∧
      (handlePoint m p).analogTags = m.analogTags ∧
      (handlePoint m p).binaryModules = m.binaryModules ∧
      (handlePoint m p).analogModules = m.analogModules ∧
      (handlePoint m p).updatedBinaryTags = m.updatedBinaryTags ∧
      (handlePoint m p).updatedAnalogTags = m.updatedAnalogTags ∧
      (handlePoint m p).internalBinaryTags = m.internalBinaryTags ∧
      (handlePoint m p).internalAnalogTags = m.internalAnalogTags ∧
      (handlePoint m p).internalStringTags = m.internalStringTags ∧
      (handlePoint m p).frozen = m.frozen ∧
      (handlePoint m p).frozenUpdatedBinaryTags = m.frozenUpdatedBinaryTags ∧
      (handlePoint m p).frozenUpdatedAnalogTags = m.frozenUpdatedAnalogTags ∧
      (handlePoint m p).frozenInternalBinaryTags = m.frozenInternalBinaryTags ∧
      (handlePoint m p).frozenInternalAnalogTags = m.frozenInternalAnalogTags ∧
      (handlePoint m p).frozenInternalStringTags = m.frozenInternalStringTags) := by
  unfold handlePoint Memory.IsBinaryDevice Memory.IsAnalogDevice Memory.SetBinaryDeviceStatus
    Memory.SetAnalogDeviceValue Memory.setBinaryDeviceStatus Memory.setAnalogDeviceValue
  cases hb : m.isBinaryDevice p.Name <;> cases ha : m.isAnalogDevice p.Name <;>
    simp +contextual [GoMap.get_set_self, GoMap.get_set_ne, Ne.symm]

/-- An instance of C30 on `twoKinds`, where `p` is a device of both kinds: the
point goes to the binary device and the analog device keeps its value. -/
theorem inbound_point_application_witness :
    (handlePoint twoKinds { Name := "p", Status := true, Value := Float64.one }
      ).binaryDeviceStatuses.get "p" = some true ∧
    (handlePoint twoKinds { Name := "p", Status := true, Value := Float64.one }
      ).analogDeviceValues = twoKinds.analogDeviceValues :=
  (inbound_point_application twoKinds
    { Name := "p", Status := true, Value := Float64.one }).1 (by decide)

/-! ## The logic module -/

namespace LogicModule

variable {P : Type}

/-- A turn of the loop of `Execute` whose call of `expr.Run` succeeds: the
loop goes on with the call recorded and the error as before. -/
theorem evalLoop_cons_ok (Run : Option P → GoMap Any → Any × Option String) (logic : GoMap P)
    (v : String) (rest : List String) (st : Evaluation P) (result : Any)
    (hr : Run (logic.get v) st.env = (result, none)) :
    ∃ st1 : Evaluation P, st1.error = st.error ∧
      st1.calls = st.calls ++ [⟨v, logic.get v, st.env, result, none⟩] ∧
      evalLoop Run logic (v :: rest) st = evalLoop Run logic rest st1 := by
  by_cases hs : HasPrefix v "sprintf" = true
  · refine ⟨{ st with
        calls := st.calls ++ [⟨v, logic.get v, st.env, result, none⟩],
        printed := st.printed ++ [result] }, rfl, rfl, ?_⟩
    rw [evalLoop]
    simp only [hr, hs, if_true]
  · refine ⟨{ st with
        env := st.env.set v result,
        results := st.results.set v result,
        calls := st.calls ++ [⟨v, logic.get v, st.env, result, none⟩] }, rfl, rfl, ?_⟩
    rw [evalLoop]
    simp only [hr, hs]
    rfl

/-- The loop of `Execute` over the statements: every call of `expr.Run` is
made on the program the map `logic` holds for the left-hand side; either no
call fails and there is one call for each statement, in order, or the loop
ends at the first call that fails, with the error that names its left-hand
side. -/
theorem evalLoop_inv (Run : Option P → GoMap Any → Any × Option String) (logic : GoMap P) :
    ∀ (order : List String) (st : Evaluation P) (done : List String),
      st.error = none → (∀ d ∈ st.calls, d.err = none) →
      st.calls.map RunCall.lhs = done →
      (∀ d ∈ st.calls, Run d.program d.env = (d.result, d.err) ∧
        d.program = logic.get d.lhs) →
      (∀ d ∈ (evalLoop Run logic order st).calls,
        Run d.program d.env = (d.result, d.err) ∧ d.program = logic.get d.lhs) ∧
      (((evalLoop Run logic order st).error = none ∧
          (∀ d ∈ (evalLoop Run logic order st).calls, d.err = none) ∧
          (evalLoop Run logic order st).calls.map RunCall.lhs = done ++ order) ∨
        (∃ pre v post last err, order = pre ++ v :: post ∧
          (evalLoop Run logic order st).calls.map RunCall.lhs = done ++ pre ++ [v] ∧
          (evalLoop Run logic order st).calls.getLast? = some last ∧
          last.lhs = v ∧ last.err = some err ∧
          (evalLoop Run logic order st).error
            = some ("running logic for tag '" ++ v ++ "': " ++ err) ∧
          ∀ d ∈ (evalLoop Run logic order st).calls, d.err ≠ none → d = last)) := by
  intro order
  induction order with
  | nil =>
    intro st done h1 h2 h3 h4
    have e : evalLoop Run logic [] st = st := rfl
    rw [e]
    exact ⟨h4, Or.inl ⟨h1, h2, by rw [h3, List.append_nil]⟩⟩
  | cons v rest ih =>
    intro st done h1 h2 h3 h4
    rcases hr : Run (logic.get v) st.env with ⟨result, _ | err⟩
    · -- the call succeeds and the loop goes on
      have hnew : ∀ d ∈ st.calls ++ [(⟨v, logic.get v, st.env, result, none⟩ : RunCall P)],
          Run d.program d.env = (d.result, d.err) ∧ d.program = logic.get d.lhs := by
        intro d hd
        rcases List.mem_append.1 hd with hd | hd
        · exact h4 d hd
        · rw [List.mem_singleton.1 hd]; exact ⟨hr, rfl⟩
      have hok : ∀ d ∈ st.calls ++ [(⟨v, logic.get v, st.env, result, none⟩ : RunCall P)],
          d.err = none := by
        intro d hd
        rcases List.mem_append.1 hd with hd | hd
        · exact h2 d hd
        · rw [List.mem_singleton.1 hd]
      have hlhs : (st.calls ++ [(⟨v, logic.get v, st.env, result, none⟩ : RunCall P)]).map
          RunCall.lhs = done ++ [v] := by
        rw [List.map_append, h3]; rfl
      obtain ⟨st1, e1, e2, e3⟩ := evalLoop_cons_ok Run logic v rest st result hr
      have := ih st1 (done ++ [v]) (e1.trans h1) (by rw [e2]; exact hok)
        (by rw [e2]; exact hlhs) (by rw [e2]; exact hnew)
      rw [e3]
      refine ⟨this.1, ?_⟩
      rcases this.2 with ⟨a, b, c⟩ | ⟨pre, w, post, last, err, a, b, c, d, e, f, g⟩
      · exact Or.inl ⟨a, b, by rw [c, List.append_assoc]; rfl⟩
      · exact Or.inr ⟨v :: pre, w, post, last, err, by rw [a]; rfl,
          by rw [b]; simp, c, d, e, f, g⟩
    · -- the call fails and the loop ends
      have hfin : evalLoop Run logic (v :: rest) st =
          { st with
            error := some ("running logic for tag '" ++ v ++ "': " ++ err),
            calls := st.calls ++ [⟨v, logic.get v, st.env, result, some err⟩] } := by
        rw [evalLoop]; simp only [hr]
      rw [hfin]
      refine ⟨?_, Or.inr ⟨[], v, rest, ⟨v, logic.get v, st.env, result, some err⟩, err, rfl,
        ?_, ?_, rfl, rfl, rfl, ?_⟩⟩
      · intro d hd
        rcases List.mem_append.1 hd with hd | hd
        · exact h4 d hd
        · rw [List.mem_singleton.1 hd]; exact ⟨hr, rfl⟩
      · show (st.calls ++ [_]).map RunCall.lhs = _
        rw [List.map_append, h3]; simp
      · show (st.calls ++ [_]).getLast? = _
        rw [List.getLast?_append]; rfl
      · intro d hd hne
        rcases List.mem_append.1 hd with hd | hd
        · exact absurd (h2 d hd) hne
        · exact List.mem_singleton.1 hd

/-- The calls of `expr.Run` in `Execute` are those of its first part. -/
theorem Execute_calls (Errorf : String → String)
    (Run : Option P → GoMap Any → Any × Option String) (range : GoMap Any → GoMap Any)
    (this : LogicModule P) (m : Memory) (h0 : this.logic.length ≠ 0) :
    (this.Execute Errorf Run range m).calls = (this.evaluate Errorf Run m).calls ∧
    (this.Execute Errorf Run range m).results = (this.evaluate Errorf Run m).results ∧
    (this.Execute Errorf Run range m).statuses = (m.GetBinaryPoints Errorf).1 ∧
    (this.Execute Errorf Run range m).values = (m.GetAnalogPoints Errorf).1 := by
  unfold Execute
  rw [if_neg h0]
  cases (this.evaluate Errorf Run m).error <;> exact ⟨rfl, rfl, rfl, rfl⟩

/-- `Execute` when a statement fails. -/
theorem Execute_of_error (Errorf : String → String)
    (Run : Option P → GoMap Any → Any × Option String) (range : GoMap Any → GoMap Any)
    (this : LogicModule P) (m : Memory) (h0 : this.logic.length ≠ 0) (err : String)
    (h : (this.evaluate Errorf Run m).error = some err) :
    (this.Execute Errorf Run range m).outcome = Outcome.returned (some err) ∧
    (this.Execute Errorf Run range m).memory = m ∧
    (this.Execute Errorf Run range m).writes = [] := by
  unfold Execute
  rw [if_neg h0, h]
  exact ⟨rfl, rfl, rfl⟩

/-- `Execute` when every statement runs. -/
theorem Execute_of_ok (Errorf : String → String)
    (Run : Option P → GoMap Any → Any × Option String) (range : GoMap Any → GoMap Any)
    (this : LogicModule P) (m : Memory) (h0 : this.logic.length ≠ 0)
    (h : (this.evaluate Errorf Run m).error = none) :
    (this.Execute Errorf Run range m).memory
      = (writeBack (m.GetBinaryPoints Errorf).1 (m.GetAnalogPoints Errorf).1
          (range (this.evaluate Errorf Run m).results) m []).1 ∧
    (this.Execute Errorf Run range m).writes
      = (writeBack (m.GetBinaryPoints Errorf).1 (m.GetAnalogPoints Errorf).1
          (range (this.evaluate Errorf Run m).results) m []).2.1 ∧
    (this.Execute Errorf Run range m).outcome
      = (if (writeBack (m.GetBinaryPoints Errorf).1 (m.GetAnalogPoints Errorf).1
          (range (this.evaluate Errorf Run m).results) m []).2.2 then Outcome.crashed
        else Outcome.returned none) := by
  unfold Execute
  rw [if_neg h0, h]
  exact ⟨rfl, rfl, rfl⟩

/-- The first part of `Execute` against the statements of the program. -/
theorem evaluate_inv (Errorf : String → String)
    (Run : Option P → GoMap Any → Any × Option String) (this : LogicModule P) (m : Memory) :
    (∀ d ∈ (this.evaluate Errorf Run m).calls,
      Run d.program d.env = (d.result, d.err) ∧ d.program = this.logic.get d.lhs) ∧
    (((this.evaluate Errorf Run m).error = none ∧
        (∀ d ∈ (this.evaluate Errorf Run m).calls, d.err = none) ∧
        (this.evaluate Errorf Run m).calls.map RunCall.lhs = this.order) ∨
      (∃ pre v post last err, this.order = pre ++ v :: post ∧
        (this.evaluate Errorf Run m).calls.map RunCall.lhs = pre ++ [v] ∧
        (this.evaluate Errorf Run m).calls.getLast? = some last ∧
        last.lhs = v ∧ last.err = some err ∧
        (this.evaluate Errorf Run m).error
          = some ("running logic for tag '" ++ v ++ "': " ++ err) ∧
        ∀ d ∈ (this.evaluate Errorf Run m).calls, d.err ≠ none → d = last)) := by
  have := evalLoop_inv Run this.logic this.order
    { env := initialEnv (m.GetBinaryPoints Errorf).1 (m.GetAnalogPoints Errorf).1,
      results := [], error := none, calls := [], printed := [] } [] rfl
    (fun d hd => absurd hd (List.not_mem_nil _)) rfl
    (fun d hd => absurd hd (List.not_mem_nil _))
  simpa only [List.nil_append] using this

/-- Claim C27.  Evaluation errors abort without side effects: for every
program, memory and order of ranging, if a call of `expr.Run` made by
`Execute` fails, then `Execute` returns the error that names the left-hand
side of that call, the call is the last one made, the calls made are those
for the first statements of the program in order, the memory is as before
and neither `UpdateBinaryTag` nor `UpdateAnalogTag` has been called. -/
theorem evaluation_error_aborts (Errorf : String → String)
    (Run : Option P → GoMap Any → Any × Option String) (range : GoMap Any → GoMap Any)
    (this : LogicModule P) (m : Memory) (c : RunCall P) (err : String)
    (hc : c ∈ (this.Execute Errorf Run range m).calls) (herr : c.err = some err) :
    (this.Execute Errorf Run range m).outcome
      = Outcome.returned (some ("running logic for tag '" ++ c.lhs ++ "': " ++ err)) ∧
    (this.Execute Errorf Run range m).memory = m ∧
    (this.Execute Errorf Run range m).writes = [] ∧
    (this.Execute Errorf Run range m).calls.getLast? = some c ∧
    (this.Execute Errorf Run range m).calls.map RunCall.lhs
      = this.order.take (this.Execute Errorf Run range m).calls.length ∧
    (∀ d ∈ (this.Execute Errorf Run range m).calls,
      Run d.program d.env = (d.result, d.err) ∧ d.program = this.logic.get d.lhs) := by
  by_cases h0 : this.logic.length = 0
  · have : (this.Execute Errorf Run range m).calls = [] := by
      unfold Execute; rw [if_pos h0]
    rw [this] at hc
    exact absurd hc (List.not_mem_nil _)
  · obtain ⟨inv1, inv2⟩ := evaluate_inv Errorf Run this m
    have hcalls := (Execute_calls Errorf Run range this m h0).1
    rw [hcalls] at hc ⊢
    rcases inv2 with ⟨-, b, -⟩ | ⟨pre, v, post, last, err1, a, b, c1, d, e, f, g⟩
    · exact absurd (b c hc) (by rw [herr]; simp)
    · have hlast : c = last := g c hc (by rw [herr]; simp)
      subst hlast
      have herr1 : err1 = err := by
        rw [e] at herr; exact Option.some.inj herr
      subst herr1
      obtain ⟨o1, o2, o3⟩ := Execute_of_error Errorf Run range this m h0 _ f
      refine ⟨by rw [o1, d], o2, o3, c1, ?_, inv1⟩
      have hl : (this.evaluate Errorf Run m).calls.length = pre.length + 1 := by
        have := congrArg List.length b
        simpa using this
      rw [hl, b, a]
      have e2 : pre ++ v :: post = (pre ++ [v]) ++ post := by simp
      rw [e2, List.take_left' (by simp)]

/-- Witness of C27 on `failingLogic`: the second of three statements cannot
run; `Execute` returns the error for `B`, after two calls, and the memory is
as before. -/
theorem evaluation_error_aborts_witness :
    ((⟨"B", some "fail",
        (LogicModule.initialEnv (logicMemory.GetBinaryPoints id).1
          (logicMemory.GetAnalogPoints id).1).set "A" (Any.float64 Float64.one),
        Any.nil, some "cannot run"⟩ : RunCall String)
      ∈ (failingLogic.Execute id runName id logicMemory).calls) ∧
    (failingLogic.Execute id runName id logicMemory).outcome
      = Outcome.returned (some "running logic for tag 'B': cannot run") ∧
    (failingLogic.Execute id runName id logicMemory).memory = logicMemory ∧
    (failingLogic.Execute id runName id logicMemory).calls.map RunCall.lhs = ["A", "B"] :=
  have key := evaluation_error_aborts id runName id failingLogic logicMemory
    ⟨"B", some "fail",
      (LogicModule.initialEnv (logicMemory.GetBinaryPoints id).1
        (logicMemory.GetAnalogPoints id).1).set "A" (Any.float64 Float64.one),
      Any.nil, some "cannot run"⟩ "cannot run" (by decide) rfl
  ⟨by decide, key.1, key.2.1, by decide⟩

end LogicModule

namespace LogicModule

variable {P : Type}

/-- The body of the loop of `HandleTreeData` against the pair the line adds. -/
theorem handleLine_spec (Compile : String → Except String P) (this : LogicModule P)
    (line : String) :
    handleLine Compile this line =
      match statementOf this.order.length line with
      | none => (this, none)
      | some (lhs, source) =>
        match Compile source with
        | Except.error err => (this, some ("compiling logic '" ++ source ++ "': " ++ err))
        | Except.ok p =>
          ({ logic := this.logic.set lhs p, order := this.order ++ [lhs] }, none) := by
  unfold handleLine statementOf
  by_cases h : TrimSpace line = ""
  · rw [if_pos h, if_pos h]
  · rw [if_neg h, if_neg h]
    split
    · rename_i side _
      by_cases hp : HasPrefix (TrimSpace side) "sprintf" = true
      · rw [if_pos hp, if_pos hp]
      · rw [if_neg hp, if_neg hp]
    · rfl
    · rfl

theorem lastSource_of_mem (lhs source : String) (prog : List (String × String))
    (h : (lhs, source) ∈ prog) : ∃ src, lastSource lhs prog = some src := by
  induction prog with
  | nil => exact absurd h (List.not_mem_nil _)
  | cons s rest ih =>
    obtain ⟨left, right⟩ := s
    unfold lastSource
    rcases hl : lastSource lhs rest with _ | later
    · rcases List.mem_cons.1 h with h | h
      · have e : left = lhs := (congrArg Prod.fst h).symm
        exact ⟨right, by simp [e]⟩
      · obtain ⟨src, hs⟩ := ih h
        rw [hl] at hs
        exact absurd hs (by simp)
    · exact ⟨later, rfl⟩

theorem lastSource_none (lhs : String) (prog : List (String × String))
    (h : lhs ∉ prog.map Prod.fst) : lastSource lhs prog = none := by
  induction prog with
  | nil => rfl
  | cons s rest ih =>
    obtain ⟨left, right⟩ := s
    simp only [List.map_cons, List.mem_cons, not_or] at h
    unfold lastSource
    rw [ih h.2]
    simp only
    rw [if_neg (fun e => h.1 e.symm)]

/-- In a program whose left-hand sides are all different the last source of a
left-hand side is the one of its own pair. -/
theorem lastSource_of_nodup (prog : List (String × String))
    (hn : (prog.map Prod.fst).Nodup) (s : String × String) (h : s ∈ prog) :
    lastSource s.1 prog = some s.2 := by
  induction prog with
  | nil => exact absurd h (List.not_mem_nil _)
  | cons t rest ih =>
    obtain ⟨left, right⟩ := t
    simp only [List.map_cons, List.nodup_cons] at hn
    unfold lastSource
    rcases List.mem_cons.1 h with h | h
    · subst h
      rw [lastSource_none _ _ hn.1]
      simp
    · rw [ih hn.2 h]

/-- The loop of `HandleTreeData` against the program as a list of pairs: the
slice `order` grows by the left-hand sides, in order, and the map `logic`
holds for each left-hand side the program compiled from its last source. -/
theorem handleLines_spec (Compile : String → Except String P) :
    ∀ (lines : List String) (this0 this : LogicModule P),
      handleLines Compile this0 lines = (this, none) →
      this.order = this0.order ++ (statements this0.order.length lines).map Prod.fst ∧
      (∀ lhs src, lastSource lhs (statements this0.order.length lines) = some src →
        ∃ p, Compile src = Except.ok p ∧ this.logic.get lhs = some p) ∧
      (∀ lhs, lastSource lhs (statements this0.order.length lines) = none →
        this.logic.get lhs = this0.logic.get lhs) := by
  intro lines
  induction lines with
  | nil =>
    intro this0 this h
    have e : this0 = this := congrArg Prod.fst h
    subst e
    exact ⟨by simp [statements], fun lhs src hs => by simp [statements, lastSource] at hs,
      fun lhs _ => rfl⟩
  | cons line rest ih =>
    intro this0 this h
    rw [handleLines, handleLine_spec] at h
    rw [statements]
    rcases hs : statementOf this0.order.length line with _ | ⟨lhs, source⟩
    · rw [hs] at h
      exact ih this0 this h
    · rw [hs] at h
      simp only at h ⊢
      rcases hc : Compile source with err | p
      · rw [hc] at h
        simp at h
      · rw [hc] at h
        simp only at h
        obtain ⟨i1, i2, i3⟩ := ih _ this h
        have hlen : (this0.order ++ [lhs]).length = this0.order.length + 1 := by simp
        simp only [hlen] at i1 i2 i3
        refine ⟨by rw [i1]; simp, ?_, ?_⟩
        · intro k src hk
          unfold lastSource at hk
          rcases hl : lastSource k (statements (this0.order.length + 1) rest) with _ | later
          · rw [hl] at hk
            simp only at hk
            by_cases e : lhs = k
            · rw [if_pos e] at hk
              have e2 : source = src := Option.some.inj hk
              subst e e2
              exact ⟨p, hc, by rw [i3 _ hl]; exact GoMap.get_set_self _ _ _⟩
            · rw [if_neg e] at hk
              exact absurd hk (by simp)
          · rw [hl] at hk
            simp only at hk
            have e2 : later = src := Option.some.inj hk
            subst e2
            exact i2 k later hl
        · intro k hk
          unfold lastSource at hk
          rcases hl : lastSource k (statements (this0.order.length + 1) rest) with _ | later
          · rw [hl] at hk
            simp only at hk
            by_cases e : lhs = k
            · rw [if_pos e] at hk
              exact absurd hk (by simp)
            · rw [i3 _ hl]
              exact GoMap.get_set_ne _ _ e
          · rw [hl] at hk
            exact absurd hk (by simp)

/-- On claim C25, the code on two lines with the same left-hand side: the lines
`A = x` and `A = y` compile and are two accepted lines, the pairs of `A` with
`x` and of `A` with `y`; `Execute` makes two evaluations for `A`, and both
use the expression compiled from the second line and give the value 2 of
`y`, because `HandleTreeData` appends the left-hand side to `order` for each
line and overwrites the one program the map `logic` holds for it. -/
theorem same_lhs_runs_last_expression :
    twiceAssigned.2 = none ∧
    statements 0 (Split "A = x\nA = y" (Char.ofNat 10)) = [("A", "x"), ("A", "y")] ∧
    twiceAssigned.1.order = ["A", "A"] ∧
    compileName "x" = Except.ok "x" ∧ compileName "y" = Except.ok "y" ∧
    (twiceAssigned.1.Execute id runName id xyMemory).outcome = Outcome.returned none ∧
    (twiceAssigned.1.Execute id runName id xyMemory).calls.map
      (fun d => (d.lhs, d.program, d.result))
      = [("A", some "y", Any.float64 Float64.two), ("A", some "y", Any.float64 Float64.two)] := by
  refine ⟨by decide, by decide, by decide, rfl, rfl, by decide, by decide⟩

end LogicModule

namespace LogicModule

variable {P : Type}

/-- The calls of `expr.Run` in `Execute` are for the first statements of the
program, in order, each on the program the map `logic` holds. -/
theorem Execute_calls_prefix (Errorf : String → String)
    (Run : Option P → GoMap Any → Any × Option String) (range : GoMap Any → GoMap Any)
    (this : LogicModule P) (m : Memory) :
    (this.Execute Errorf Run range m).calls.map RunCall.lhs
      = this.order.take (this.Execute Errorf Run range m).calls.length ∧
    (∀ d ∈ (this.Execute Errorf Run range m).calls, d.program = this.logic.get d.lhs) ∧
    (this.logic.length ≠ 0 → (∀ d ∈ (this.Execute Errorf Run range m).calls, d.err = none) →
      (this.Execute Errorf Run range m).calls.map RunCall.lhs = this.order) := by
  by_cases h0 : this.logic.length = 0
  · have : (this.Execute Errorf Run range m).calls = [] := by
      unfold Execute; rw [if_pos h0]
    rw [this]
    exact ⟨by simp, fun d hd => absurd hd (List.not_mem_nil _), fun h => absurd h0 h⟩
  · obtain ⟨inv1, inv2⟩ := evaluate_inv Errorf Run this m
    rw [(Execute_calls Errorf Run range this m h0).1]
    refine ⟨?_, fun d hd => (inv1 d hd).2, ?_⟩
    · rcases inv2 with ⟨-, -, c⟩ | ⟨pre, v, post, last, err, a, b, -, -, -, -, -⟩
      · have hl := congrArg List.length c
        rw [List.length_map] at hl
        rw [hl, c, List.take_length]
      · have hl := congrArg List.length b
        rw [List.length_map] at hl
        have e2 : pre ++ v :: post = (pre ++ [v]) ++ post := by simp
        rw [hl, b, a, e2, List.take_left' rfl]
    · intro _ hall
      rcases inv2 with ⟨-, -, c⟩ | ⟨pre, v, post, last, err, -, -, c1, -, e, -, -⟩
      · exact c
      · have := hall last (List.mem_of_getLast?_eq_some c1)
        rw [e] at this
        exact absurd this (by simp)

/-- The program as the code keeps it: for every logic source text that
compiles, the slice `order` holds the left-hand sides of the accepted lines,
one for each line in source order, and the map `logic` holds for each
left-hand side the expression compiled from the last accepted line with that
left-hand side; `Execute` makes its evaluations in that order, the i-th
evaluation being for the left-hand side of the i-th accepted line and using
the expression `logic` holds for it, and it makes one for every accepted
line when none fails.  When the left-hand sides are all different, that
expression is the one compiled from the i-th accepted line itself. -/
theorem program_order (Compile : String → Except String P) (Errorf : String → String)
    (Run : Option P → GoMap Any → Any × Option String) (range : GoMap Any → GoMap Any)
    (e : Element) (this : LogicModule P) (m : Memory)
    (h : HandleTreeData Compile NewLogicModule e = (this, none)) :
    this.order = (statements 0 (Split e.Text (Char.ofNat 10))).map Prod.fst ∧
    (∀ lhs src, lastSource lhs (statements 0 (Split e.Text (Char.ofNat 10))) = some src →
      ∃ p, Compile src = Except.ok p ∧ this.logic.get lhs = some p) ∧
    (∀ (i : Nat) (d : RunCall P), (this.Execute Errorf Run range m).calls[i]? = some d →
      ∃ s src p, (statements 0 (Split e.Text (Char.ofNat 10)))[i]? = some s ∧ d.lhs = s.1 ∧
        lastSource s.1 (statements 0 (Split e.Text (Char.ofNat 10))) = some src ∧
        Compile src = Except.ok p ∧ d.program = some p) ∧
    ((∀ d ∈ (this.Execute Errorf Run range m).calls, d.err = none) →
      (this.Execute Errorf Run range m).calls.length
        = (statements 0 (Split e.Text (Char.ofNat 10))).length) ∧
    (((statements 0 (Split e.Text (Char.ofNat 10))).map Prod.fst).Nodup →
      ∀ s ∈ statements 0 (Split e.Text (Char.ofNat 10)),
        lastSource s.1 (statements 0 (Split e.Text (Char.ofNat 10))) = some s.2) := by
  obtain ⟨s1, s2, -⟩ := handleLines_spec Compile _ NewLogicModule this h
  have hord : this.order = (statements 0 (Split e.Text (Char.ofNat 10))).map Prod.fst := by
    simpa [NewLogicModule] using s1
  have hlog : ∀ lhs src,
      lastSource lhs (statements 0 (Split e.Text (Char.ofNat 10))) = some src →
      ∃ p, Compile src = Except.ok p ∧ this.logic.get lhs = some p := by
    simpa [NewLogicModule] using s2
  obtain ⟨c1, c2, c3⟩ := Execute_calls_prefix Errorf Run range this m
  refine ⟨hord, hlog, ?_, ?_, fun hn s hs => lastSource_of_nodup _ hn s hs⟩
  · intro i d hd
    have hi : i < (this.Execute Errorf Run range m).calls.length := by
      by_contra hc
      rw [List.getElem?_eq_none (by omega)] at hd
      exact absurd hd (by simp)
    have h1 : ((this.Execute Errorf Run range m).calls.map RunCall.lhs)[i]? = some d.lhs := by
      rw [List.getElem?_map, hd]; rfl
    rw [c1, List.getElem?_take, if_pos hi, hord, List.getElem?_map] at h1
    rcases hs : (statements 0 (Split e.Text (Char.ofNat 10)))[i]? with _ | s
    · rw [hs] at h1; exact absurd h1 (by simp)
    · rw [hs] at h1
      have e1 : s.1 = d.lhs := Option.some.inj h1
      obtain ⟨src, hsrc⟩ := lastSource_of_mem s.1 s.2 _ (List.getElem?_mem hs)
      obtain ⟨p, hp1, hp2⟩ := hlog s.1 src hsrc
      exact ⟨s, src, p, rfl, e1.symm, hsrc, hp1, by
        rw [c2 d (List.getElem?_mem hd), ← e1]; exact hp2⟩
  · intro hall
    by_cases h0 : this.logic.length = 0
    · have hcalls : (this.Execute Errorf Run range m).calls = [] := by
        unfold Execute; rw [if_pos h0]
      rw [hcalls]
      rcases hst : statements 0 (Split e.Text (Char.ofNat 10)) with _ | ⟨s, rest⟩
      · rfl
      · obtain ⟨src, hsrc⟩ := lastSource_of_mem s.1 s.2
          (statements 0 (Split e.Text (Char.ofNat 10))) (by rw [hst]; simp)
        obtain ⟨p, -, hp2⟩ := hlog s.1 src hsrc
        have hnil : this.logic = [] := List.length_eq_zero.1 h0
        rw [hnil] at hp2
        exact absurd hp2 (by simp)
    · have := congrArg List.length (c3 h0 hall)
      rw [List.length_map, hord, List.length_map] at this
      exact this

/-- The program of the line `A = current`. -/
theorem program_order_witness :
    HandleTreeData compileName NewLogicModule (Element.node "logic" "A = current" [])
      = ({ logic := [("A", "current")], order := ["A"] }, none) ∧
    ({ logic := [("A", "current")], order := ["A"] } : LogicModule String).order
      = (statements 0 (Split "A = current" (Char.ofNat 10))).map Prod.fst ∧
    statements 0 (Split "A = current" (Char.ofNat 10)) = [("A", "current")] :=
  ⟨by decide,
    (program_order compileName id runName id (Element.node "logic" "A = current" [])
      { logic := [("A", "current")], order := ["A"] } logicMemory (by decide)).1,
    by decide⟩

end LogicModule

theorem GoMap.mem_of_get {V : Type} (m : GoMap V) (k : String) (v : V)
    (h : m.get k = some v) : (k, v) ∈ m := by
  induction m with
  | nil => simp at h
  | cons e m ih =>
    obtain ⟨k', v'⟩ := e
    rw [GoMap.get_cons] at h
    by_cases hk : k' = k
    · rw [if_pos hk] at h
      have hv : v' = v := Option.some.inj h
      rw [hk, hv]
      exact List.mem_cons_self _ _
    · rw [if_neg hk] at h
      exact List.mem_cons_of_mem _ (ih h)

namespace LogicModule

variable {P : Type}

/-- The map `results` of the loop of `Execute`: its keys are distinct, no key
begins with `sprintf`, and every value is the result of a call of `expr.Run`
for the key that did not fail. -/
theorem evalLoop_results (Run : Option P → GoMap Any → Any × Option String) (logic : GoMap P) :
    ∀ (order : List String) (st : Evaluation P),
      st.results.keys.Nodup →
      (∀ L, HasPrefix L "sprintf" = true → st.results.get L = none) →
      (∀ L r, st.results.get L = some r →
        ∃ d ∈ st.calls, d.lhs = L ∧ d.result = r ∧ d.err = none) →
      (evalLoop Run logic order st).results.keys.Nodup ∧
      (∀ L, HasPrefix L "sprintf" = true → (evalLoop Run logic order st).results.get L = none) ∧
      (∀ L r, (evalLoop Run logic order st).results.get L = some r →
        ∃ d ∈ (evalLoop Run logic order st).calls, d.lhs = L ∧ d.result = r ∧ d.err = none) := by
  intro order
  induction order with
  | nil => intro st h1 h2 h3; exact ⟨h1, h2, h3⟩
  | cons v rest ih =>
    intro st h1 h2 h3
    rcases hr : Run (logic.get v) st.env with ⟨result, _ | err⟩
    · by_cases hs : HasPrefix v "sprintf" = true
      · have e : evalLoop Run logic (v :: rest) st = evalLoop Run logic rest
            { st with
              calls := st.calls ++ [⟨v, logic.get v, st.env, result, none⟩],
              printed := st.printed ++ [result] } := by
          rw [evalLoop]; simp only [hr, hs, if_true]
        rw [e]
        refine ih _ h1 h2 ?_
        intro L r hL
        obtain ⟨d, hd, hd2⟩ := h3 L r hL
        exact ⟨d, List.mem_append_left _ hd, hd2⟩
      · have e : evalLoop Run logic (v :: rest) st = evalLoop Run logic rest
            { st with
              env := st.env.set v result,
              results := st.results.set v result,
              calls := st.calls ++ [⟨v, logic.get v, st.env, result, none⟩] } := by
          rw [evalLoop]; simp only [hr, hs]; rfl
        rw [e]
        refine ih _ (GoMap.nodup_keys_set _ _ _ h1) ?_ ?_
        · intro L hL
          have hne : v ≠ L := fun e2 => hs (e2 ▸ hL)
          show (st.results.set v result).get L = none
          rw [GoMap.get_set_ne _ _ hne]
          exact h2 L hL
        · intro L r hL
          have hL2 : (st.results.set v result).get L = some r := hL
          rw [GoMap.get_set] at hL2
          by_cases e2 : v = L
          · rw [if_pos e2] at hL2
            exact ⟨⟨v, logic.get v, st.env, result, none⟩,
              List.mem_append_right _ (List.mem_singleton_self _), e2, Option.some.inj hL2, rfl⟩
          · rw [if_neg e2] at hL2
            obtain ⟨d, hd, hd2⟩ := h3 L r hL2
            exact ⟨d, List.mem_append_left _ hd, hd2⟩
    · have e : evalLoop Run logic (v :: rest) st =
          { st with
            error := some ("running logic for tag '" ++ v ++ "': " ++ err),
            calls := st.calls ++ [⟨v, logic.get v, st.env, result, some err⟩] } := by
        rw [evalLoop]; simp only [hr]
      rw [e]
      refine ⟨h1, h2, ?_⟩
      intro L r hL
      obtain ⟨d, hd, hd2⟩ := h3 L r hL
      exact ⟨d, List.mem_append_left _ hd, hd2⟩

/-- The loop of `Execute` over `results`, when no type assertion panics: the
calls it makes, in order, and the memory after them.  There is one call for
each entry whose tag is in a snapshot, by the kind of the snapshot, and no
other call. -/
theorem writeBack_spec (statuses : GoMap Bool) (values : GoMap Float64) :
    ∀ (entries : List (String × Any)) (m : Memory) (ws : List Write),
      (writeBack statuses values entries m ws).2.2 = false →
      ∃ new, (writeBack statuses values entries m ws).2.1 = ws ++ new ∧
        (writeBack statuses values entries m ws).1 = (Write.run m new).1 ∧
        (new.map Write.tag).Sublist (entries.map Prod.fst) ∧
        (∀ tag value, (tag, value) ∈ entries →
          (statuses.has tag = true → ∃ b, value = Any.bool b ∧ Write.binary tag b ∈ new) ∧
          (statuses.has tag = false → values.has tag = true →
            ∃ f, value = Any.float64 f ∧ Write.analog tag f ∈ new)) ∧
        (∀ w ∈ new,
          (∃ b, w = Write.binary w.tag b ∧ (w.tag, Any.bool b) ∈ entries ∧
            statuses.has w.tag = true) ∨
          (∃ f, w = Write.analog w.tag f ∧ (w.tag, Any.float64 f) ∈ entries ∧
            statuses.has w.tag = false ∧ values.has w.tag = true)) := by
  intro entries
  induction entries with
  | nil =>
    intro m ws _
    exact ⟨[], by simp [writeBack], by simp [writeBack, Write.run], by simp,
      fun _ _ h => absurd h (List.not_mem_nil _), fun _ h => absurd h (List.not_mem_nil _)⟩
  | cons e rest ih =>
    intro m ws hok
    obtain ⟨tag, value⟩ := e
    -- an entry that makes a call `w`
    have withCall : ∀ (w : Write), w.tag = tag →
        writeBack statuses values ((tag, value) :: rest) m ws
          = writeBack statuses values rest (Write.apply m w).1 (ws ++ [w]) →
        ((∃ b, w = Write.binary tag b ∧ value = Any.bool b ∧ statuses.has tag = true) ∨
          (∃ f, w = Write.analog tag f ∧ value = Any.float64 f ∧ statuses.has tag = false ∧
            values.has tag = true)) →
        ∃ new, (writeBack statuses values ((tag, value) :: rest) m ws).2.1 = ws ++ new ∧
          (writeBack statuses values ((tag, value) :: rest) m ws).1 = (Write.run m new).1 ∧
          (new.map Write.tag).Sublist (((tag, value) :: rest).map Prod.fst) ∧
          (∀ t v, (t, v) ∈ (tag, value) :: rest →
            (statuses.has t = true → ∃ b, v = Any.bool b ∧ Write.binary t b ∈ new) ∧
            (statuses.has t = false → values.has t = true →
              ∃ f, v = Any.float64 f ∧ Write.analog t f ∈ new)) ∧
          (∀ w ∈ new,
            (∃ b, w = Write.binary w.tag b ∧ (w.tag, Any.bool b) ∈ (tag, value) :: rest ∧
              statuses.has w.tag = true) ∨
            (∃ f, w = Write.analog w.tag f ∧ (w.tag, Any.float64 f) ∈ (tag, value) :: rest ∧
              statuses.has w.tag = false ∧ values.has w.tag = true)) := by
      intro w hw hstep hkind
      rw [hstep] at hok ⊢
      obtain ⟨new, n1, n2, n3, n4, n5⟩ := ih _ _ hok
      refine ⟨w :: new, by rw [n1]; simp, by rw [n2, Write.run_cons], ?_, ?_, ?_⟩
      · simp only [List.map_cons, hw]
        exact n3.cons₂ _
      · intro t v htv
        rcases List.mem_cons.1 htv with h | h
        · have e1 : t = tag := congrArg Prod.fst h
          have e2 : v = value := congrArg Prod.snd h
          subst e1 e2
          rcases hkind with ⟨b, k1, k2, k3⟩ | ⟨f, k1, k2, k3, k4⟩
          · exact ⟨fun _ => ⟨b, k2, by rw [k1]; exact List.mem_cons_self _ _⟩,
              fun h0 => absurd k3 (by rw [h0]; simp)⟩
          · exact ⟨fun h0 => absurd h0 (by rw [k3]; simp),
              fun _ _ => ⟨f, k2, by rw [k1]; exact List.mem_cons_self _ _⟩⟩
        · obtain ⟨a1, a2⟩ := n4 t v h
          exact ⟨fun h0 => (a1 h0).imp fun b hb => ⟨hb.1, List.mem_cons_of_mem _ hb.2⟩,
            fun h0 h1 => (a2 h0 h1).imp fun f hf => ⟨hf.1, List.mem_cons_of_mem _ hf.2⟩⟩
      · intro w' hw'
        rcases List.mem_cons.1 hw' with h | h
        · subst h
          rcases hkind with ⟨b, k1, k2, k3⟩ | ⟨f, k1, k2, k3, k4⟩
          · left
            refine ⟨b, by rw [hw]; exact k1, ?_, by rw [hw]; exact k3⟩
            rw [hw, ← k2]; exact List.mem_cons_self _ _
          · right
            refine ⟨f, by rw [hw]; exact k1, ?_, by rw [hw]; exact k3, by rw [hw]; exact k4⟩
            rw [hw, ← k2]; exact List.mem_cons_self _ _
        · rcases n5 w' h with ⟨b, b1, b2, b3⟩ | ⟨f, f1, f2, f3, f4⟩
          · exact Or.inl ⟨b, b1, List.mem_cons_of_mem _ b2, b3⟩
          · exact Or.inr ⟨f, f1, List.mem_cons_of_mem _ f2, f3, f4⟩
    by_cases hb : statuses.has tag = true
    · cases value with
      | bool b =>
        exact withCall (Write.binary tag b) rfl (by rw [writeBack, if_pos hb]; rfl)
          (Or.inl ⟨b, rfl, rfl, hb⟩)
      | nil => simp [writeBack, hb] at hok
      | float64 f => simp [writeBack, hb] at hok
      | string s => simp [writeBack, hb] at hok
      | func n => simp [writeBack, hb] at hok
    · have hb0 : statuses.has tag = false := by simpa using hb
      by_cases ha : values.has tag = true
      · cases value with
        | float64 f =>
          exact withCall (Write.analog tag f) rfl
            (by rw [writeBack, if_neg hb, if_pos ha]; rfl) (Or.inr ⟨f, rfl, rfl, hb0, ha⟩)
        | nil => simp [writeBack, hb0, ha] at hok
        | bool b => simp [writeBack, hb0, ha] at hok
        | string s => simp [writeBack, hb0, ha] at hok
        | func n => simp [writeBack, hb0, ha] at hok
      · have ha0 : values.has tag = false := by simpa using ha
        have hstep : writeBack statuses values ((tag, value) :: rest) m ws
            = writeBack statuses values rest m ws := by
          cases value <;> simp [writeBack, hb0, ha0]
        rw [hstep] at hok ⊢
        obtain ⟨new, n1, n2, n3, n4, n5⟩ := ih _ _ hok
        refine ⟨new, n1, n2, n3.cons _, ?_, ?_⟩
        · intro t v htv
          rcases List.mem_cons.1 htv with h | h
          · have e1 : t = tag := congrArg Prod.fst h
            subst e1
            exact ⟨fun h0 => absurd h0 (by rw [hb0]; simp),
              fun _ h1 => absurd h1 (by rw [ha0]; simp)⟩
          · exact n4 t v h
        · intro w hw
          rcases n5 w hw with ⟨b, b1, b2, b3⟩ | ⟨f, f1, f2, f3, f4⟩
          · exact Or.inl ⟨b, b1, List.mem_cons_of_mem _ b2, b3⟩
          · exact Or.inr ⟨f, f1, List.mem_cons_of_mem _ f2, f3, f4⟩

end LogicModule

namespace LogicModule

variable {P : Type}

/-- Counterexample to C26 as stated: with the line `L = R` on `mixedMemory`,
where `L` is a binary tag and `R` an analog tag holding 1, the only expression
evaluates without error to the `float64` 1 and `L` is in the binary snapshot,
but the type assertion `value.(bool)` panics: `Execute` does not return, no
`UpdateBinaryTag` is applied and the memory stays as it was. -/
theorem result_of_other_type_panics :
    (copyLogic.Execute id runName id mixedMemory).calls.map
      (fun d => (d.lhs, d.result, d.err)) = [("L", Any.float64 Float64.one, none)] ∧
    (copyLogic.Execute id runName id mixedMemory).results.get "L"
      = some (Any.float64 Float64.one) ∧
    (copyLogic.Execute id runName id mixedMemory).statuses.has "L" = true ∧
    (copyLogic.Execute id runName id mixedMemory).outcome = Outcome.crashed ∧
    (copyLogic.Execute id runName id mixedMemory).writes = [] ∧
    (copyLogic.Execute id runName id mixedMemory).memory = mixedMemory := by
  refine ⟨by decide, by decide, by decide, by decide, by decide, by decide⟩

/-- The map `results` of `Execute`. -/
theorem evaluate_results (Errorf : String → String)
    (Run : Option P → GoMap Any → Any × Option String) (this : LogicModule P) (m : Memory) :
    (this.evaluate Errorf Run m).results.keys.Nodup ∧
    (∀ L, HasPrefix L "sprintf" = true → (this.evaluate Errorf Run m).results.get L = none) ∧
    (∀ L r, (this.evaluate Errorf Run m).results.get L = some r →
      ∃ d ∈ (this.evaluate Errorf Run m).calls, d.lhs = L ∧ d.result = r ∧ d.err = none) :=
  evalLoop_results Run this.logic this.order _ (by simp [GoMap.keys]) (fun _ _ => rfl)
    (fun L r h => by simp at h)

/-- Claim C26, amended.  Write-back by pre-evaluation kind: after an `Execute`
that returns nil, whatever the order in which the map `results` is ranged
over, the memory is the one after the calls of `UpdateBinaryTag` and
`UpdateAnalogTag` that were made; for every left-hand side `L` with the final
result `r`, which is the result of an evaluation for `L`: if `L` is in the
binary snapshot, `r` is a bool and `UpdateBinaryTag(L, r)` is among the calls;
else if `L` is in the analog snapshot, `r` is a `float64` and
`UpdateAnalogTag(L, r)` is among the calls; otherwise no call is for `L`.
There is no other call and at most one for a tag; a left-hand side that
begins with `sprintf` has no result and no call.  The snapshots are those of
the memory before the evaluation. -/
theorem write_back_by_kind (Errorf : String → String)
    (Run : Option P → GoMap Any → Any × Option String) (range : GoMap Any → GoMap Any)
    (this : LogicModule P) (m : Memory) (hrange : ∀ l, (range l).Perm l)
    (hret : (this.Execute Errorf Run range m).outcome = Outcome.returned none) :
    (this.Execute Errorf Run range m).memory
      = (Write.run m (this.Execute Errorf Run range m).writes).1 ∧
    (∀ L r, (this.Execute Errorf Run range m).results.get L = some r →
      (∃ d ∈ (this.Execute Errorf Run range m).calls,
        d.lhs = L ∧ d.result = r ∧ d.err = none) ∧
      ((this.Execute Errorf Run range m).statuses.has L = true →
        ∃ b, r = Any.bool b ∧ Write.binary L b ∈ (this.Execute Errorf Run range m).writes) ∧
      ((this.Execute Errorf Run range m).statuses.has L = false →
        (this.Execute Errorf Run range m).values.has L = true →
        ∃ f, r = Any.float64 f ∧
          Write.analog L f ∈ (this.Execute Errorf Run range m).writes) ∧
      ((this.Execute Errorf Run range m).statuses.has L = false →
        (this.Execute Errorf Run range m).values.has L = false →
        ∀ w ∈ (this.Execute Errorf Run range m).writes, w.tag ≠ L)) ∧
    (∀ w ∈ (this.Execute Errorf Run range m).writes,
      (∃ b, w = Write.binary w.tag b ∧
        (this.Execute Errorf Run range m).results.get w.tag = some (Any.bool b) ∧
        (this.Execute Errorf Run range m).statuses.has w.tag = true) ∨
      (∃ f, w = Write.analog w.tag f ∧
        (this.Execute Errorf Run range m).results.get w.tag = some (Any.float64 f) ∧
        (this.Execute Errorf Run range m).statuses.has w.tag = false ∧
        (this.Execute Errorf Run range m).values.has w.tag = true)) ∧
    ((this.Execute Errorf Run range m).writes.map Write.tag).Nodup ∧
    (∀ L, HasPrefix L "sprintf" = true →
      (this.Execute Errorf Run range m).results.get L = none ∧
      ∀ w ∈ (this.Execute Errorf Run range m).writes, w.tag ≠ L) ∧
    (this.logic.length ≠ 0 →
      (this.Execute Errorf Run range m).statuses = (m.GetBinaryPoints Errorf).1 ∧
      (this.Execute Errorf Run range m).values = (m.GetAnalogPoints Errorf).1) := by
  by_cases h0 : this.logic.length = 0
  · have he : this.Execute Errorf Run range m =
        { memory := m, outcome := Outcome.returned none, statuses := [], values := [],
          results := [], calls := [], printed := [], writes := [] } := by
      unfold Execute; rw [if_pos h0]
    rw [he]
    refine ⟨rfl, fun L r h => by simp at h, fun w h => absurd h (List.not_mem_nil _),
      List.nodup_nil, fun L _ => ⟨rfl, fun w h => absurd h (List.not_mem_nil _)⟩,
      fun h => absurd h0 h⟩
  · obtain ⟨c1, c2, c3, c4⟩ := Execute_calls Errorf Run range this m h0
    obtain ⟨r1, r2, r3⟩ := evaluate_results Errorf Run this m
    rcases herr : (this.evaluate Errorf Run m).error with _ | err
    swap
    · rw [(Execute_of_error Errorf Run range this m h0 err herr).1] at hret
      simp at hret
    obtain ⟨o1, o2, o3⟩ := Execute_of_ok Errorf Run range this m h0 herr
    have hok : (writeBack (m.GetBinaryPoints Errorf).1 (m.GetAnalogPoints Errorf).1
        (range (this.evaluate Errorf Run m).results) m []).2.2 = false := by
      rw [o3] at hret
      by_contra hc
      rw [if_pos (by simpa using hc)] at hret
      simp at hret
    obtain ⟨new, n1, n2, n3, n4, n5⟩ := writeBack_spec _ _ _ m [] hok
    rw [List.nil_append] at n1
    have hw : (this.Execute Errorf Run range m).writes = new := o2.trans n1
    have hperm := hrange (this.evaluate Errorf Run m).results
    have hmem : ∀ t v, (t, v) ∈ range (this.evaluate Errorf Run m).results ↔
        (this.evaluate Errorf Run m).results.get t = some v := fun t v =>
      ⟨fun h => GoMap.get_of_mem _ r1 (hperm.mem_iff.1 h),
        fun h => hperm.mem_iff.2 (GoMap.mem_of_get _ _ _ h)⟩
    have hnodup : (new.map Write.tag).Nodup := by
      have : ((range (this.evaluate Errorf Run m).results).map Prod.fst).Nodup :=
        (hperm.map Prod.fst).nodup_iff.2 r1
      exact List.Nodup.sublist n3 this
    have hchar : ∀ w ∈ new,
        (∃ b, w = Write.binary w.tag b ∧
          (this.evaluate Errorf Run m).results.get w.tag = some (Any.bool b) ∧
          (m.GetBinaryPoints Errorf).1.has w.tag = true) ∨
        (∃ f, w = Write.analog w.tag f ∧
          (this.evaluate Errorf Run m).results.get w.tag = some (Any.float64 f) ∧
          (m.GetBinaryPoints Errorf).1.has w.tag = false ∧
          (m.GetAnalogPoints Errorf).1.has w.tag = true) := by
      intro w hw'
      rcases n5 w hw' with ⟨b, b1, b2, b3⟩ | ⟨f, f1, f2, f3, f4⟩
      · exact Or.inl ⟨b, b1, (hmem _ _).1 b2, b3⟩
      · exact Or.inr ⟨f, f1, (hmem _ _).1 f2, f3, f4⟩
    rw [hw, c1, c2, c3, c4, o1, n2]
    refine ⟨rfl, ?_, hchar, hnodup, ?_, fun _ => ⟨rfl, rfl⟩⟩
    · intro L r hL
      obtain ⟨a1, a2⟩ := n4 L r ((hmem L r).2 hL)
      refine ⟨r3 L r hL, a1, a2, ?_⟩
      intro hb ha w hw' hwt
      rcases hchar w hw' with ⟨b, -, -, b3⟩ | ⟨f, -, -, -, f4⟩
      · rw [hwt, hb] at b3; simp at b3
      · rw [hwt, ha] at f4; simp at f4
    · intro L hL
      refine ⟨r2 L hL, ?_⟩
      intro w hw' hwt
      have hnone := r2 L hL
      rcases hchar w hw' with ⟨b, -, b2, -⟩ | ⟨f, -, f2, -, -⟩
      · rw [hwt, hnone] at b2; simp at b2
      · rw [hwt, hnone] at f2; simp at f2

/-- Witness of the amended C26 on the line `A = current` and `logicMemory`:
`A` is in the analog snapshot and `UpdateAnalogTag(A, 1)` is the call made. -/
theorem write_back_by_kind_witness :
    (currentLogic.Execute id runName id logicMemory).outcome = Outcome.returned none ∧
    (currentLogic.Execute id runName id logicMemory).memory
      = (Write.run logicMemory (currentLogic.Execute id runName id logicMemory).writes).1 ∧
    (currentLogic.Execute id runName id logicMemory).writes
      = [Write.analog "A" Float64.one] :=
  ⟨by decide,
    (write_back_by_kind id runName id currentLogic logicMemory (fun l => List.Perm.refl l)
      (by decide)).1,
    by decide⟩

end LogicModule

/-! ## Lines of the form `L = R` -/

theorem dropWhile_isSpace_cons (c : Char) (cs : List Char) (h : isSpace c = false) :
    (c :: cs).dropWhile isSpace = c :: cs := by
  rw [List.dropWhile_cons, h]
  rfl

/-- Trimming changes nothing in a text that begins and ends with a character
that is no space. -/
theorem trim_of_ends (cs mid : List Char) (a b : Char) (ha : isSpace a = false)
    (hb : isSpace b = false) (h : cs = a :: mid ++ [b]) :
    ((cs.dropWhile isSpace).reverse.dropWhile isSpace).reverse = cs := by
  subst h
  have e1 : (a :: mid ++ [b]) = a :: (mid ++ [b]) := rfl
  rw [e1, dropWhile_isSpace_cons a _ ha]
  have e2 : (a :: (mid ++ [b])).reverse = b :: (a :: mid).reverse := by simp
  rw [e2, dropWhile_isSpace_cons b _ hb]
  simp

/-- Trimming changes nothing in a text of one character that is no space. -/
theorem trim_of_single (a : Char) (ha : isSpace a = false) :
    (([a].dropWhile isSpace).reverse.dropWhile isSpace).reverse = [a] := by
  rw [dropWhile_isSpace_cons a _ ha]
  have e2 : [a].reverse = [a] := rfl
  rw [e2, dropWhile_isSpace_cons a _ ha]
  rfl

/-- Trimming changes nothing in a text without spaces at its two ends. -/
theorem trim_of_head_last (cs : List Char) (hne : cs ≠ [])
    (hh : ∀ c, cs.head? = some c → isSpace c = false)
    (hl : ∀ c, cs.getLast? = some c → isSpace c = false) :
    ((cs.dropWhile isSpace).reverse.dropWhile isSpace).reverse = cs := by
  rcases cs with _ | ⟨a, t⟩
  · exact absurd rfl hne
  · have ha := hh a rfl
    rcases List.eq_nil_or_concat t with ht | ⟨mid, b, ht⟩
    · subst ht
      exact trim_of_single a ha
    · subst ht
      have e3 : a :: mid.concat b = (a :: mid) ++ [b] := by simp
      have hb : isSpace b = false :=
        hl b (by rw [e3, List.getLast?_append_of_ne_nil _ (by simp)]; rfl)
      exact trim_of_ends _ mid a b ha hb (by simp)

theorem String.mk_data (s : String) : String.mk s.data = s := rfl

theorem Plain.trim {s : String} (h : Plain s) : TrimSpace s = s := by
  unfold TrimSpace
  rw [trim_of_head_last s.data h.1
    (fun c hc => h.2 c (List.mem_of_mem_head? hc))
    (fun c hc => h.2 c (List.mem_of_mem_getLast? hc))]

theorem Plain.ne_empty {s : String} (h : Plain s) : s ≠ "" := by
  intro e
  rw [e] at h
  exact h.1 rfl

/-- The first ` = ` of a text that begins with a text without blanks and
` = `. -/
theorem cut_assignment (left right : List Char) (h : ∀ c ∈ left, isSpace c = false) :
    cut " = ".data (left ++ " = ".data ++ right) = some (left, right) := by
  induction left with
  | nil =>
    show cut " = ".data (Char.ofNat 32 :: Char.ofNat 61 :: Char.ofNat 32 :: right) = _
    rw [cut]
    have hp : List.isPrefixOf " = ".data
        (Char.ofNat 32 :: Char.ofNat 61 :: Char.ofNat 32 :: right) = true := by
      show List.isPrefixOf [Char.ofNat 32, Char.ofNat 61, Char.ofNat 32] _ = true
      simp [List.isPrefixOf]
    rw [hp]
    rfl
  | cons c t ih =>
    have hc : isSpace c = false := h c (List.mem_cons_self _ _)
    have hne : (c == Char.ofNat 32) = false := by
      rw [beq_eq_false_iff_ne]
      intro e
      rw [e] at hc
      exact absurd hc (by decide)
    have hp : List.isPrefixOf " = ".data (c :: (t ++ " = ".data ++ right)) = false := by
      show List.isPrefixOf [Char.ofNat 32, Char.ofNat 61, Char.ofNat 32] _ = false
      rw [List.isPrefixOf]
      simp [hne, Bool.beq_comm]
    show cut " = ".data (c :: (t ++ " = ".data ++ right)) = _
    rw [cut, hp]
    simp only [Bool.false_eq_true, if_false]
    rw [ih (fun d hd => h d (List.mem_cons_of_mem _ hd))]

/-- The line `L = R` of two names without white space gives the pair of `L`
and `R`. -/
theorem statementOf_assignment (n : Nat) (L R : String) (hL : Plain L) (hR : Plain R) :
    statementOf n (L ++ " = " ++ R) = some (L, R) := by
  have hd : (L ++ " = " ++ R).data = L.data ++ " = ".data ++ R.data := by
    simp [String.data_append]
  have hline : TrimSpace (L ++ " = " ++ R) = L ++ " = " ++ R := by
    unfold TrimSpace
    rw [trim_of_head_last _ (by rw [hd]; simp [hL.1])]
    · intro c hc
      rw [hd] at hc
      rcases hl : L.data with _ | ⟨a, t⟩
      · exact absurd hl hL.1
      · rw [hl] at hc
        simp at hc
        exact hL.2 c (by rw [hl, ← hc]; exact List.mem_cons_self _ _)
    · intro c hc
      rw [hd, List.getLast?_append_of_ne_nil _ hR.1] at hc
      exact hR.2 c (List.mem_of_mem_getLast? hc)
  have hne : ¬ (L ++ " = " ++ R) = "" := by
    intro e
    have := congrArg String.data e
    rw [hd] at this
    simp [hL.1] at this
  have hsplit : SplitN2 (L ++ " = " ++ R) " = " = [L, R] := by
    unfold SplitN2
    rw [hd, cut_assignment _ _ hL.2]
  unfold statementOf
  rw [hline, if_neg hne, hsplit]
  simp only
  rw [hL.trim, hR.trim]

/-- No character of a name without white space is a line feed. -/
theorem Plain.no_newline {s : String} (h : Plain s) : ∀ c ∈ s.data, c ≠ Char.ofNat 10 := by
  intro c hc e
  have := h.2 c hc
  rw [e] at this
  exact absurd this (by decide)

/-- A text without the separator is one part. -/
theorem splitChar_none (sep : Char) (cs : List Char) (h : ∀ c ∈ cs, c ≠ sep) :
    splitChar sep cs = [cs] := by
  induction cs with
  | nil => rfl
  | cons c t ih =>
    rw [splitChar, if_neg (h c (List.mem_cons_self _ _)),
      ih (fun d hd => h d (List.mem_cons_of_mem _ hd))]

/-- A text is cut at the first separator. -/
theorem splitChar_append (sep : Char) (a b : List Char) (h : ∀ c ∈ a, c ≠ sep) :
    splitChar sep (a ++ sep :: b) = a :: splitChar sep b := by
  induction a with
  | nil => simp [splitChar]
  | cons c t ih =>
    show splitChar sep (c :: (t ++ sep :: b)) = _
    rw [splitChar, if_neg (h c (List.mem_cons_self _ _)),
      ih (fun d hd => h d (List.mem_cons_of_mem _ hd))]

/-- No character of the line `L = R` is a line feed. -/
theorem assignment_no_newline (L R : String) (hL : Plain L) (hR : Plain R) :
    ∀ c ∈ (L ++ " = " ++ R).data, c ≠ Char.ofNat 10 := by
  intro c hc
  have hd : (L ++ " = " ++ R).data = L.data ++ " = ".data ++ R.data := by
    simp [String.data_append]
  rw [hd] at hc
  rcases List.mem_append.1 hc with h | h
  · rcases List.mem_append.1 h with h | h
    · exact hL.no_newline c h
    · have h2 : c ∈ [Char.ofNat 32, Char.ofNat 61, Char.ofNat 32] := h
      simp only [List.mem_cons, List.mem_singleton, List.not_mem_nil, or_false] at h2
      rcases h2 with e | e | e <;> rw [e] <;> decide
  · exact hR.no_newline c h

/-- The text of one line `L = R` is one line. -/
theorem Split_one_line (L R : String) (hL : Plain L) (hR : Plain R) :
    Split (L ++ " = " ++ R) (Char.ofNat 10) = [L ++ " = " ++ R] := by
  unfold Split
  rw [splitChar_none _ _ (assignment_no_newline L R hL hR)]
  rfl

/-- The text of the two lines `B = R` and `L = B` is two lines. -/
theorem Split_two_lines (L R B : String) (hL : Plain L) (hR : Plain R) (hB : Plain B) :
    Split (B ++ " = " ++ R ++ "\n" ++ L ++ " = " ++ B) (Char.ofNat 10)
      = [B ++ " = " ++ R, L ++ " = " ++ B] := by
  unfold Split
  have hd : (B ++ " = " ++ R ++ "\n" ++ L ++ " = " ++ B).data
      = (B ++ " = " ++ R).data ++ Char.ofNat 10 :: (L ++ " = " ++ B).data := by
    simp [String.data_append]
  rw [hd, splitChar_append _ _ _ (assignment_no_newline B R hB hR),
    splitChar_none _ _ (assignment_no_newline L B hL hB)]
  rfl

/-! ## The snapshots as maps -/

namespace GoMap

variable {V : Type}

theorem nodup_keys_merge (dst src : GoMap V) (h : dst.keys.Nodup) :
    (dst.merge src).keys.Nodup := by
  induction src generalizing dst with
  | nil => exact h
  | cons e src ih =>
    show (merge (dst.set e.1 e.2) src).keys.Nodup
    exact ih _ (nodup_keys_set _ _ _ h)

theorem has_merge (dst src : GoMap V) (k : String) (h : (dst.merge src).has k = true) :
    dst.has k = true ∨ src.has k = true := by
  induction src generalizing dst with
  | nil => exact Or.inl h
  | cons e src ih =>
    have h2 : (merge (dst.set e.1 e.2) src).has k = true := h
    rcases ih _ h2 with h3 | h3
    · rw [GoMap.has_set] at h3
      by_cases hk : e.1 = k
      · right
        unfold has
        obtain ⟨k1, v1⟩ := e
        rw [get_cons, if_pos hk]
        rfl
      · left
        simpa [hk] using h3
    · right
      unfold has at h3 ⊢
      obtain ⟨k1, v1⟩ := e
      rw [get_cons]
      by_cases hk : k1 = k
      · rw [if_pos hk]; rfl
      · rw [if_neg hk]; exact h3

theorem keys_map_value {W : Type} (m : GoMap V) (g : V → W) :
    keys (m.map (fun e => (e.1, g e.2))) = m.keys := by
  simp [keys, List.map_map, Function.comp_def]

theorem get_map_value {W : Type} (m : GoMap V) (g : V → W) (k : String) :
    get (m.map (fun e => (e.1, g e.2))) k = (m.get k).map g := by
  induction m with
  | nil => rfl
  | cons e m ih =>
    obtain ⟨k1, v1⟩ := e
    simp only [List.map_cons]
    rw [get_cons, get_cons]
    by_cases hk : k1 = k
    · rw [if_pos hk, if_pos hk]; rfl
    · rw [if_neg hk, if_neg hk]; exact ih

end GoMap

namespace Memory

theorem analogPointsLoop_nodup (m : Memory) :
    ∀ (l : List (String × String)) (acc : GoMap Float64 × List String),
      acc.1.keys.Nodup → (analogPointsLoop m l acc).1.keys.Nodup := by
  intro l
  induction l with
  | nil => intro acc h; exact h
  | cons e l ih =>
    intro acc h
    obtain ⟨tag, mo⟩ := e
    obtain ⟨points, errors⟩ := acc
    unfold analogPointsLoop
    rcases hv : m.GetAnalogValueForTag tag with ⟨value, _ | err⟩
    · exact ih _ (GoMap.nodup_keys_set _ _ _ h)
    · exact ih _ h

theorem binaryPointsLoop_nodup (m : Memory) :
    ∀ (l : List (String × String)) (acc : GoMap Bool × List String),
      acc.1.keys.Nodup → (binaryPointsLoop m l acc).1.keys.Nodup := by
  intro l
  induction l with
  | nil => intro acc h; exact h
  | cons e l ih =>
    intro acc h
    obtain ⟨tag, mo⟩ := e
    obtain ⟨points, errors⟩ := acc
    unfold binaryPointsLoop
    rcases hv : m.GetBinaryStatusForTag tag with ⟨value, _ | err⟩
    · exact ih _ (GoMap.nodup_keys_set _ _ _ h)
    · exact ih _ h

/-- The map of `GetAnalogPoints`. -/
theorem analogPoints_fst (Errorf : String → String) (m : Memory) :
    (m.GetAnalogPoints Errorf).1
      = (analogPointsLoop m m.analogTags ([], [])).1.merge m.internalAnalogTags := by
  unfold GetAnalogPoints getAnalogPoints
  rcases analogPointsLoop m m.analogTags ([], []) with ⟨points, errors⟩
  show (if errors ≠ [] then _ else _ : GoMap _ × Option String).1 = _
  by_cases h : errors ≠ []
  · rw [if_pos h]
  · rw [if_neg h]

/-- The map of `GetBinaryPoints`. -/
theorem binaryPoints_fst (Errorf : String → String) (m : Memory) :
    (m.GetBinaryPoints Errorf).1
      = (binaryPointsLoop m m.binaryTags ([], [])).1.merge m.internalBinaryTags := by
  unfold GetBinaryPoints getBinaryPoints
  rcases binaryPointsLoop m m.binaryTags ([], []) with ⟨points, errors⟩
  show (if errors ≠ [] then _ else _ : GoMap _ × Option String).1 = _
  by_cases h : errors ≠ []
  · rw [if_pos h]
  · rw [if_neg h]

/-- The keys of the analog snapshot are distinct. -/
theorem analogPoints_nodup (Errorf : String → String) (m : Memory) :
    (m.GetAnalogPoints Errorf).1.keys.Nodup := by
  rw [analogPoints_fst]
  exact GoMap.nodup_keys_merge _ _ (analogPointsLoop_nodup m _ _ (by simp [GoMap.keys]))

/-- The keys of the binary snapshot are distinct. -/
theorem binaryPoints_nodup (Errorf : String → String) (m : Memory) :
    (m.GetBinaryPoints Errorf).1.keys.Nodup := by
  rw [binaryPoints_fst]
  exact GoMap.nodup_keys_merge _ _ (binaryPointsLoop_nodup m _ _ (by simp [GoMap.keys]))

/-- A key of the analog snapshot is an external or an internal analog tag. -/
theorem analogPoints_has (Errorf : String → String) (m : Memory) (L : String)
    (h : (m.GetAnalogPoints Errorf).1.has L = true) :
    m.analogTags.has L = true ∨ m.internalAnalogTags.has L = true := by
  rw [analogPoints_fst] at h
  rcases GoMap.has_merge _ _ _ h with h1 | h1
  · left
    unfold GoMap.has at h1
    rw [analogPointsLoop_get m L m.analogTags ([], [])] at h1
    by_cases hk : L ∈ GoMap.keys m.analogTags ∧ (m.GetAnalogValueForTag L).2 = none
    · exact (GoMap.has_eq_true_iff _ _).2 hk.1
    · rw [if_neg hk] at h1
      simp at h1
  · exact Or.inr h1

end Memory

namespace LogicModule

/-- A tag of the analog snapshot is in `env` with its value. -/
theorem initialEnv_get (statuses : GoMap Bool) (values : GoMap Float64) (R : String)
    (x : Float64) (hn : values.keys.Nodup) (h : values.get R = some x) :
    (initialEnv statuses values).get R = some (Any.float64 x) := by
  unfold initialEnv
  rw [GoMap.get_merge _ _ (by rw [GoMap.keys_map_value]; exact hn), GoMap.get_map_value, h]
  rfl

end LogicModule

/-! ## The logic round trip -/

namespace Write

/-- One call on an unfrozen memory in which `L` is an analog tag, when a call
for `L` can only be `UpdateAnalogTag(L, x)`: the memory stays unfrozen, `L`
keeps its kind, and `L` holds `x` afterwards if the call is for `L` or if `L`
held `x` before: in the pending buffer when `L` is external, in the internal
map otherwise. -/
theorem apply_unfrozen_analog (m : Memory) (w : Write) (L : String) (x : Float64)
    (hf : m.frozen = false) (hw : w.tag = L → w = Write.analog L x)
    (htag : m.analogTags.has L = true ∨ m.internalAnalogTags.has L = true) :
    (apply m w).1.frozen = false ∧ (apply m w).1.analogTags = m.analogTags ∧
    (apply m w).1.internalAnalogTags.has L = m.internalAnalogTags.has L ∧
    ((w = Write.analog L x ∨
        ((m.analogTags.has L = true → m.updatedAnalogTags.get L = some x) ∧
          (m.analogTags.has L = false → m.internalAnalogTags.get L = some x))) →
      ((m.analogTags.has L = true → (apply m w).1.updatedAnalogTags.get L = some x) ∧
        (m.analogTags.has L = false → (apply m w).1.internalAnalogTags.get L = some x))) := by
  cases w with
  | binary t v =>
    simp only [apply, Memory.UpdateBinaryTag, hf]
    cases m.binaryTags.has t <;> cases m.internalBinaryTags.has t <;> simp [hf]
  | string t v =>
    simp only [apply, Memory.UpdateStringTag, hf]
    cases m.internalStringTags.has t <;> simp [hf]
  | analog t v =>
    by_cases ht : t = L
    · subst ht
      have hv : v = x := by
        have := hw rfl
        injection this
      subst hv
      simp only [apply, Memory.UpdateAnalogTag, hf]
      cases h1 : m.analogTags.has t <;> cases h3 : m.internalAnalogTags.has t <;>
        simp [hf, GoMap.get_set_self, GoMap.has_set, h1, h3] at htag ⊢
    · simp only [apply, Memory.UpdateAnalogTag, hf]
      cases h1 : m.analogTags.has t <;> cases h3 : m.internalAnalogTags.has t <;>
        simp [hf, GoMap.get_set_ne _ _ ht, GoMap.has_set, ht]

/-- A run of calls on an unfrozen memory in which `L` is an analog tag, when a
call for `L` can only be `UpdateAnalogTag(L, x)`: if there is such a call, or
`L` held `x` before, `L` holds `x` afterwards. -/
theorem run_unfrozen_analog (L : String) (x : Float64) (ws : List Write) : ∀ (m : Memory),
    m.frozen = false → (∀ w ∈ ws, w.tag = L → w = Write.analog L x) →
    (m.analogTags.has L = true ∨ m.internalAnalogTags.has L = true) →
    (Write.analog L x ∈ ws ∨
        ((m.analogTags.has L = true → m.updatedAnalogTags.get L = some x) ∧
          (m.analogTags.has L = false → m.internalAnalogTags.get L = some x))) →
      ((m.analogTags.has L = true → (run m ws).1.updatedAnalogTags.get L = some x) ∧
        (m.analogTags.has L = false → (run m ws).1.internalAnalogTags.get L = some x)) := by
  induction ws with
  | nil =>
    intro m _ _ _ h
    rcases h with h | h
    · exact absurd h (List.not_mem_nil _)
    · simpa [run] using h
  | cons w ws ih =>
    intro m hf hws htag h
    obtain ⟨a1, a2, a3, a4⟩ :=
      apply_unfrozen_analog m w L x hf (hws w (List.mem_cons_self _ _)) htag
    rw [run_cons]
    have hstep : Write.analog L x ∈ ws ∨
        (((apply m w).1.analogTags.has L = true →
            (apply m w).1.updatedAnalogTags.get L = some x) ∧
          ((apply m w).1.analogTags.has L = false →
            (apply m w).1.internalAnalogTags.get L = some x)) := by
      rcases h with h | h
      · rcases List.mem_cons.1 h with e | e
        · right; rw [a2]; exact a4 (Or.inl e.symm)
        · left; exact e
      · right; rw [a2]; exact a4 (Or.inr h)
    have key := ih (apply m w).1 a1 (fun w1 hw1 => hws w1 (List.mem_cons_of_mem _ hw1))
      (by rw [a2, a3]; exact htag) hstep
    rw [a2] at key
    exact key

end Write

namespace LogicModule

variable {P : Type}

/-- What `HandleTreeData` does with the line `L = R`. -/
theorem handleLine_assignment (Compile : String → Except String P) (this : LogicModule P)
    (L R : String) (p : P) (hL : Plain L) (hR : Plain R) (hp : Compile R = Except.ok p) :
    handleLine Compile this (L ++ " = " ++ R)
      = ({ logic := this.logic.set L p, order := this.order ++ [L] }, none) := by
  rw [handleLine_spec, statementOf_assignment _ L R hL hR]
  simp only [hp]

/-- The module after the one line `L = R`. -/
theorem load_one_line (Compile : String → Except String P) (L R : String) (p : P)
    (hL : Plain L) (hR : Plain R) (hp : Compile R = Except.ok p) :
    HandleTreeData Compile NewLogicModule (Element.node "logic" (L ++ " = " ++ R) [])
      = ({ logic := [(L, p)], order := [L] }, none) := by
  unfold HandleTreeData
  rw [show (Element.node "logic" (L ++ " = " ++ R) []).Text = L ++ " = " ++ R from rfl,
    Split_one_line L R hL hR, handleLines, handleLine_assignment Compile _ L R p hL hR hp]
  rfl

/-- The module after the two lines `B = R` and `L = B`. -/
theorem load_two_lines (Compile : String → Except String P) (L R B : String) (p q : P)
    (hL : Plain L) (hR : Plain R) (hB : Plain B)
    (hp : Compile R = Except.ok p) (hq : Compile B = Except.ok q) :
    HandleTreeData Compile NewLogicModule
        (Element.node "logic" (B ++ " = " ++ R ++ "\n" ++ L ++ " = " ++ B) [])
      = ({ logic := GoMap.set [(B, p)] L q, order := [B, L] }, none) := by
  unfold HandleTreeData
  rw [show (Element.node "logic" (B ++ " = " ++ R ++ "\n" ++ L ++ " = " ++ B) []).Text
      = B ++ " = " ++ R ++ "\n" ++ L ++ " = " ++ B from rfl,
    Split_two_lines L R B hL hR hB, handleLines,
    handleLine_assignment Compile _ B R p hB hR hp]
  simp only []
  rw [handleLines, handleLine_assignment Compile _ L B q hL hB hq]
  rfl

/-- One turn of the loop of `Execute` for a left-hand side that does not begin
with `sprintf`, when the call of `expr.Run` returns no error. -/
theorem evalLoop_cons_assign (Run : Option P → GoMap Any → Any × Option String)
    (logic : GoMap P) (v : String) (rest : List String) (st : Evaluation P) (result : Any)
    (hr : Run (logic.get v) st.env = (result, none)) (hs : HasPrefix v "sprintf" = false) :
    evalLoop Run logic (v :: rest) st = evalLoop Run logic rest
      { st with
        env := st.env.set v result,
        results := st.results.set v result,
        calls := st.calls ++ [⟨v, logic.get v, st.env, result, none⟩] } := by
  rw [evalLoop]
  simp only [hr, hs]
  rfl

/-- The loop of `Execute` over `results` does not panic when no tag of
`results` is in the binary snapshot and every result is a `float64`. -/
theorem writeBack_no_crash (statuses : GoMap Bool) (values : GoMap Float64) :
    ∀ (entries : List (String × Any)) (m : Memory) (ws : List Write),
      (∀ e ∈ entries, statuses.has e.1 = false ∧ ∃ f, e.2 = Any.float64 f) →
      (writeBack statuses values entries m ws).2.2 = false := by
  intro entries
  induction entries with
  | nil => intro m ws _; rfl
  | cons e rest ih =>
    intro m ws h
    obtain ⟨tag, value⟩ := e
    obtain ⟨hb, f, hv⟩ := h (tag, value) (List.mem_cons_self _ _)
    have hrest : ∀ e ∈ rest, statuses.has e.1 = false ∧ ∃ f, e.2 = Any.float64 f :=
      fun e he => h e (List.mem_cons_of_mem _ he)
    simp only at hb hv
    subst hv
    by_cases ha : values.has tag = true
    · have hstep : writeBack statuses values ((tag, Any.float64 f) :: rest) m ws
          = writeBack statuses values rest (m.UpdateAnalogTag tag f).1
              (ws ++ [Write.analog tag f]) := by
        simp [writeBack, hb, ha]
      rw [hstep]
      exact ih _ _ hrest
    · have ha0 : values.has tag = false := by simpa using ha
      have hstep : writeBack statuses values ((tag, Any.float64 f) :: rest) m ws
          = writeBack statuses values rest m ws := by
        simp [writeBack, hb, ha0]
      rw [hstep]
      exact ih _ _ hrest

/-- The loop of `Execute` over `results` on an unfrozen memory, when every
result is the `float64` `x`, no tag of `results` is in the binary snapshot and
`L` is a tag of `results` that is in the analog snapshot and is an analog tag:
no type assertion panics and `L` holds `x` afterwards. -/
theorem writeBack_round_trip (statuses : GoMap Bool) (values : GoMap Float64)
    (entries : List (String × Any)) (m : Memory) (L : String) (x : Float64)
    (hf : m.frozen = false)
    (hall : ∀ e ∈ entries, statuses.has e.1 = false ∧ e.2 = Any.float64 x)
    (hL : (L, Any.float64 x) ∈ entries) (hLa : values.has L = true)
    (htag : m.analogTags.has L = true ∨ m.internalAnalogTags.has L = true) :
    (writeBack statuses values entries m []).2.2 = false ∧
    (m.analogTags.has L = true →
      (writeBack statuses values entries m []).1.updatedAnalogTags.get L = some x) ∧
    (m.analogTags.has L = false →
      (writeBack statuses values entries m []).1.internalAnalogTags.get L = some x) := by
  have hok := writeBack_no_crash statuses values entries m []
    (fun e he => ⟨(hall e he).1, x, (hall e he).2⟩)
  obtain ⟨new, _, n2, _, n4, n5⟩ := writeBack_spec statuses values entries m [] hok
  refine ⟨hok, ?_⟩
  rw [n2]
  refine Write.run_unfrozen_analog L x new m hf ?_ htag (Or.inl ?_)
  · intro w hw ht
    rcases n5 w hw with ⟨b, _, b2, _⟩ | ⟨f, f1, f2, _, _⟩
    · have := (hall _ b2).2
      simp at this
    · have e := (hall _ f2).2
      simp only [Any.float64.injEq] at e
      rw [f1, ht, e]
  · obtain ⟨f, e, hw⟩ := (n4 L (Any.float64 x) hL).2 (hall _ hL).1 hLa
    simp only [Any.float64.injEq] at e
    rw [e]
    exact hw

/-- The call of `Execute` on an unfrozen memory, when every statement runs,
every result is the `float64` `x`, no tag of `results` is in the binary
snapshot and `L` is a tag of `results` that is in the analog snapshot:
`Execute` returns nil and `L` holds `x` afterwards. -/
theorem Execute_round_trip (Errorf : String → String)
    (Run : Option P → GoMap Any → Any × Option String) (range : GoMap Any → GoMap Any)
    (this : LogicModule P) (m : Memory) (L : String) (x : Float64)
    (hrange : ∀ l, (range l).Perm l) (hf : m.frozen = false) (h0 : this.logic.length ≠ 0)
    (herr : (this.evaluate Errorf Run m).error = none)
    (hall : ∀ e ∈ (this.evaluate Errorf Run m).results,
      (m.GetBinaryPoints Errorf).1.has e.1 = false ∧ e.2 = Any.float64 x)
    (hL : (L, Any.float64 x) ∈ (this.evaluate Errorf Run m).results)
    (hLa : (m.GetAnalogPoints Errorf).1.has L = true) :
    (this.Execute Errorf Run range m).outcome = Outcome.returned none ∧
    (m.analogTags.has L = true →
      (this.Execute Errorf Run range m).memory.updatedAnalogTags.get L = some x) ∧
    (m.analogTags.has L = false →
      (this.Execute Errorf Run range m).memory.internalAnalogTags.get L = some x) := by
  obtain ⟨e1, _, e3⟩ := Execute_of_ok Errorf Run range this m h0 herr
  obtain ⟨w1, w2, w3⟩ := writeBack_round_trip (m.GetBinaryPoints Errorf).1
    (m.GetAnalogPoints Errorf).1 (range (this.evaluate Errorf Run m).results) m L x hf
    (fun e he => hall e ((hrange _).mem_iff.1 he)) ((hrange _).mem_iff.2 hL) hLa
    (Memory.analogPoints_has Errorf m L hLa)
  rw [e1, e3, w1]
  exact ⟨rfl, w2, w3⟩

/-- The first part of `Execute` for the module of the one line `L = R`. -/
theorem evaluate_one_line (Errorf : String → String)
    (Run : Option P → GoMap Any → Any × Option String) (m : Memory) (L R : String)
    (x : Float64) (p : P) (hLs : HasPrefix L "sprintf" = false)
    (hRun : ∀ env v, GoMap.get env R = some v → Run (some p) env = (v, none))
    (hx : (m.GetAnalogPoints Errorf).1.get R = some x) :
    (evaluate Errorf Run { logic := [(L, p)], order := [L] } m).error = none ∧
    (evaluate Errorf Run { logic := [(L, p)], order := [L] } m).results
      = [(L, Any.float64 x)] := by
  unfold evaluate
  have hg : GoMap.get [(L, p)] L = some p := by rw [GoMap.get_cons, if_pos rfl]
  have hr := hRun _ _ (initialEnv_get (m.GetBinaryPoints Errorf).1 (m.GetAnalogPoints Errorf).1
    R x (Memory.analogPoints_nodup Errorf m) hx)
  rw [← hg] at hr
  rw [evalLoop_cons_assign Run _ L [] _ _ hr hLs]
  exact ⟨rfl, rfl⟩

/-- The first part of `Execute` for the module of the two lines `B = R` and
`L = B`. -/
theorem evaluate_two_lines (Errorf : String → String)
    (Run : Option P → GoMap Any → Any × Option String) (m : Memory) (L R B : String)
    (x : Float64) (p q : P) (hLs : HasPrefix L "sprintf" = false)
    (hBs : HasPrefix B "sprintf" = false) (hBL : B ≠ L)
    (hRunR : ∀ env v, GoMap.get env R = some v → Run (some p) env = (v, none))
    (hRunB : ∀ env v, GoMap.get env B = some v → Run (some q) env = (v, none))
    (hx : (m.GetAnalogPoints Errorf).1.get R = some x) :
    (evaluate Errorf Run { logic := GoMap.set [(B, p)] L q, order := [B, L] } m).error = none ∧
    (evaluate Errorf Run { logic := GoMap.set [(B, p)] L q, order := [B, L] } m).results
      = GoMap.set [(B, Any.float64 x)] L (Any.float64 x) := by
  unfold evaluate
  have hgB : GoMap.get (GoMap.set [(B, p)] L q) B = some p := by
    rw [GoMap.get_set_ne _ _ (Ne.symm hBL), GoMap.get_cons, if_pos rfl]
  have hgL : GoMap.get (GoMap.set [(B, p)] L q) L = some q := GoMap.get_set_self _ _ _
  have hr := hRunR _ _ (initialEnv_get (m.GetBinaryPoints Errorf).1
    (m.GetAnalogPoints Errorf).1 R x (Memory.analogPoints_nodup Errorf m) hx)
  rw [← hgB] at hr
  rw [evalLoop_cons_assign Run _ B [L] _ _ hr hBs]
  have hr2 := hRunB
    ((initialEnv (m.GetBinaryPoints Errorf).1 (m.GetAnalogPoints Errorf).1).set B
      (Any.float64 x)) _ (GoMap.get_set_self _ _ _)
  rw [← hgL] at hr2
  rw [evalLoop_cons_assign Run _ L [] _ _ hr2 hLs]
  exact ⟨rfl, rfl⟩

/-- Counterexample to C28 as stated, with `compileName` and `runName` for the
library and `current` holding 1 in every memory.  The line `sprintfA =
current` leaves the internal analog tag `sprintfA` at 0, since a left-hand
side that begins with `sprintf` is printed and not written back.  The line `A
= current` leaves nothing pending for the external analog tag `A` of
`unboundMemory`, which does not resolve and so is not in the analog snapshot.
In `twoNamespaces`, where `A` is also a binary tag, the type assertion
`value.(bool)` panics.  The lines `B = current` and `A = B` panic in
`binaryStep`, where `B` is a binary tag, in both orders of the range over
`results`.  The lines `A = current` and `A = A` leave `A` at 0, since the map
`logic` keeps one program for `A`.  The lines `sprintfB = current` and `A =
sprintfB` give `A` the value 2 that `sprintfB` held. -/
theorem round_trip_fails :
    ((loadNames "sprintfA = current").2 = none ∧ sprintfMemory.frozen = false ∧
      sprintfMemory.GetAnalogValueForTag "current" = (Float64.one, none) ∧
      ((loadNames "sprintfA = current").1.Execute id runName id sprintfMemory).outcome
        = Outcome.returned none ∧
      ((loadNames "sprintfA = current").1.Execute id runName id
        sprintfMemory).memory.internalAnalogTags.get "sprintfA" = some Float64.zero) ∧
    ((loadNames "A = current").2 = none ∧ unboundMemory.frozen = false ∧
      unboundMemory.GetAnalogValueForTag "current" = (Float64.one, none) ∧
      unboundMemory.analogTags.has "A" = true ∧
      ((loadNames "A = current").1.Execute id runName id unboundMemory).outcome
        = Outcome.returned none ∧
      ((loadNames "A = current").1.Execute id runName id
        unboundMemory).memory.updatedAnalogTags.get "A" = none) ∧
    (twoNamespaces.frozen = false ∧ twoNamespaces.internalAnalogTags.has "A" = true ∧
      ((loadNames "A = current").1.Execute id runName id twoNamespaces).outcome
        = Outcome.crashed) ∧
    ((loadNames "B = current\nA = B").2 = none ∧ binaryStep.frozen = false ∧
      binaryStep.internalAnalogTags.has "A" = true ∧
      ((loadNames "B = current\nA = B").1.Execute id runName id binaryStep).outcome
        = Outcome.crashed ∧
      ((loadNames "B = current\nA = B").1.Execute id runName List.reverse binaryStep).outcome
        = Outcome.crashed) ∧
    ((loadNames "A = current\nA = A").2 = none ∧
      ((loadNames "A = current\nA = A").1.Execute id runName id logicMemory).outcome
        = Outcome.returned none ∧
      ((loadNames "A = current\nA = A").1.Execute id runName id
        logicMemory).memory.internalAnalogTags.get "A" = some Float64.zero) ∧
    ((loadNames "sprintfB = current\nA = sprintfB").2 = none ∧
      ((loadNames "sprintfB = current\nA = sprintfB").1.Execute id runName id
        sprintfStep).outcome = Outcome.returned none ∧
      ((loadNames "sprintfB = current\nA = sprintfB").1.Execute id runName id
        sprintfStep).memory.internalAnalogTags.get "A" = some Float64.two) := by
  decide

/-- Claim C28, amended.  Logic round trip: for every unfrozen memory whose
analog snapshot maps `R` to `x` and holds `L`, where `L` is not in the binary
snapshot and does not begin with `sprintf`, after loading the one-line program
`L = R` into a new module and calling `Execute`, which returns nil, the pending
analog output for `L` equals `x` if `L` is external, and the internal value of
`L` equals `x` otherwise; and for the two-line program `B = R` then `L = B`,
where `B` is another name than `L`, does not begin with `sprintf` and is not in
the binary snapshot, `L` likewise receives `x`, whatever the order in which
the map `results` is ranged over.  The names are without white space, and
`expr` compiles a name to a program that returns the value of the name in
`env`. -/
theorem logic_round_trip (Errorf : String → String) (Compile : String → Except String P)
    (Run : Option P → GoMap Any → Any × Option String) (range : GoMap Any → GoMap Any)
    (m : Memory) (L R B : String) (x : Float64) (p q : P)
    (hrange : ∀ l, (range l).Perm l) (hf : m.frozen = false)
    (hL : Plain L) (hR : Plain R) (hB : Plain B)
    (hLs : HasPrefix L "sprintf" = false) (hBs : HasPrefix B "sprintf" = false)
    (hBL : B ≠ L)
    (hp : Compile R = Except.ok p) (hq : Compile B = Except.ok q)
    (hRunR : ∀ env v, GoMap.get env R = some v → Run (some p) env = (v, none))
    (hRunB : ∀ env v, GoMap.get env B = some v → Run (some q) env = (v, none))
    (hx : (m.GetAnalogPoints Errorf).1.get R = some x)
    (hLa : (m.GetAnalogPoints Errorf).1.has L = true)
    (hLb : (m.GetBinaryPoints Errorf).1.has L = false)
    (hBb : (m.GetBinaryPoints Errorf).1.has B = false) :
    (∃ this : LogicModule P,
      HandleTreeData Compile NewLogicModule (Element.node "logic" (L ++ " = " ++ R) [])
        = (this, none) ∧
      (this.Execute Errorf Run range m).outcome = Outcome.returned none ∧
      (m.analogTags.has L = true →
        (this.Execute Errorf Run range m).memory.updatedAnalogTags.get L = some x) ∧
      (m.analogTags.has L = false → m.internalAnalogTags.has L = true ∧
        (this.Execute Errorf Run range m).memory.internalAnalogTags.get L = some x)) ∧
    (∃ this : LogicModule P,
      HandleTreeData Compile NewLogicModule
          (Element.node "logic" (B ++ " = " ++ R ++ "\n" ++ L ++ " = " ++ B) [])
        = (this, none) ∧
      (this.Execute Errorf Run range m).outcome = Outcome.returned none ∧
      (m.analogTags.has L = true →
        (this.Execute Errorf Run range m).memory.updatedAnalogTags.get L = some x) ∧
      (m.analogTags.has L = false → m.internalAnalogTags.has L = true ∧
        (this.Execute Errorf Run range m).memory.internalAnalogTags.get L = some x)) := by
  have hint : m.analogTags.has L = false → m.internalAnalogTags.has L = true := by
    intro h
    rcases Memory.analogPoints_has Errorf m L hLa with h1 | h1
    · rw [h] at h1; exact absurd h1 (by simp)
    · exact h1
  constructor
  · obtain ⟨e1, e2⟩ := evaluate_one_line Errorf Run m L R x p hLs hRunR hx
    obtain ⟨r1, r2, r3⟩ := Execute_round_trip Errorf Run range
      { logic := [(L, p)], order := [L] } m L x hrange hf (by simp) e1
      (by
        intro e he
        rw [e2] at he
        rw [List.mem_singleton.1 he]
        exact ⟨hLb, rfl⟩)
      (by rw [e2]; exact List.mem_singleton.2 rfl) hLa
    exact ⟨_, load_one_line Compile L R p hL hR hp, r1, r2, fun h => ⟨hint h, r3 h⟩⟩
  · obtain ⟨e1, e2⟩ := evaluate_two_lines Errorf Run m L R B x p q hLs hBs hBL hRunR hRunB hx
    obtain ⟨r1, r2, r3⟩ := Execute_round_trip Errorf Run range
      { logic := GoMap.set [(B, p)] L q, order := [B, L] } m L x hrange hf
      (by simp [GoMap.set]) e1
      (by
        intro e he
        rw [e2] at he
        simp only [GoMap.set, GoMap.erase, List.mem_cons, List.mem_filter] at he
        rcases he with h | ⟨h, _⟩
        · rw [h]; exact ⟨hLb, rfl⟩
        · rcases h with h | h
          · rw [h]; exact ⟨hBb, rfl⟩
          · exact absurd h (List.not_mem_nil _))
      (by rw [e2]; exact List.mem_cons_self _ _) hLa
    exact ⟨_, load_two_lines Compile L R B p q hL hR hB hp hq, r1, r2,
      fun h => ⟨hint h, r3 h⟩⟩

/-- Witness of the amended C28 on `logicMemory`, where `current` holds 1.0 and
`A` is an internal analog tag: after the line `A = current`, and after the
lines `B = current` and `A = B`, `Execute` returns nil and the internal value
of `A` is 1.0. -/
theorem logic_round_trip_witness :
    (logicMemory.frozen = false ∧ Plain "A" ∧ Plain "current" ∧ Plain "B" ∧
      (logicMemory.GetAnalogPoints id).1.get "current" = some Float64.one ∧
      (logicMemory.GetAnalogPoints id).1.has "A" = true ∧
      (logicMemory.GetBinaryPoints id).1.has "A" = false ∧
      logicMemory.analogTags.has "A" = false) ∧
    ((∃ this : LogicModule String,
      HandleTreeData compileName NewLogicModule
          (Element.node "logic" ("A" ++ " = " ++ "current") []) = (this, none) ∧
      (this.Execute id runName id logicMemory).outcome = Outcome.returned none ∧
      (logicMemory.analogTags.has "A" = true →
        (this.Execute id runName id logicMemory).memory.updatedAnalogTags.get "A"
          = some Float64.one) ∧
      (logicMemory.analogTags.has "A" = false → logicMemory.internalAnalogTags.has "A" = true ∧
        (this.Execute id runName id logicMemory).memory.internalAnalogTags.get "A"
          = some Float64.one)) ∧
    (∃ this : LogicModule String,
      HandleTreeData compileName NewLogicModule
          (Element.node "logic" ("B" ++ " = " ++ "current" ++ "\n" ++ "A" ++ " = " ++ "B") [])
        = (this, none) ∧
      (this.Execute id runName id logicMemory).outcome = Outcome.returned none ∧
      (logicMemory.analogTags.has "A" = true →
        (this.Execute id runName id logicMemory).memory.updatedAnalogTags.get "A"
          = some Float64.one) ∧
      (logicMemory.analogTags.has "A" = false → logicMemory.internalAnalogTags.has "A" = true ∧
        (this.Execute id runName id logicMemory).memory.internalAnalogTags.get "A"
          = some Float64.one))) :=
  ⟨⟨by decide, ⟨by decide, by decide⟩, ⟨by decide, by decide⟩, ⟨by decide, by decide⟩,
      by decide, by decide, by decide, by decide⟩,
    logic_round_trip id compileName runName id logicMemory "A" "current" "B" Float64.one
      "current" "B" (fun l => List.Perm.refl l) (by decide)
      ⟨by decide, by decide⟩ ⟨by decide, by decide⟩ ⟨by decide, by decide⟩
      (by decide) (by decide) (by decide) rfl rfl
      (fun env v h => by simp [runName, h]) (fun env v h => by simp [runName, h])
      (by decide) (by decide) (by decide) (by decide)⟩

end LogicModule

/-! ## Replies of the provider and the batch message -/

/-- The number of parts `strings.Split` returns: one more than the separator
occurs. -/
theorem length_splitChar (sep : Char) (cs : List Char) :
    (splitChar sep cs).length = cs.count sep + 1 := by
  induction cs with
  | nil => rfl
  | cons c t ih =>
    rw [splitChar]
    by_cases h : c = sep
    · rw [if_pos h, List.length_cons, ih, h, List.count_cons_self]
    · rw [if_neg h, List.count_cons_of_ne (fun e => h e.symm)]
      rcases hs : splitChar sep t with _ | ⟨part, parts⟩
      · rw [hs] at ih; simp at ih
      · rw [hs] at ih
        simpa using ih

/-- A text in which the separator occurs once is cut in two parts without
it. -/
theorem splitChar_once (sep : Char) (cs : List Char) (h : cs.count sep = 1) :
    ∃ a b, cs = a ++ sep :: b ∧ sep ∉ a ∧ sep ∉ b := by
  induction cs with
  | nil => simp at h
  | cons c t ih =>
    by_cases hc : c = sep
    · subst hc
      rw [List.count_cons_self] at h
      have h0 : t.count c = 0 := by omega
      exact ⟨[], t, rfl, List.not_mem_nil _, List.count_eq_zero.1 h0⟩
    · rw [List.count_cons_of_ne (fun e => hc e.symm)] at h
      obtain ⟨a, b, e, ha, hb⟩ := ih h
      refine ⟨c :: a, b, by rw [e]; rfl, ?_, hb⟩
      intro hm
      rcases List.mem_cons.1 hm with h1 | h1
      · exact hc h1.symm
      · exact ha h1

namespace ZMQUpdater

/-- The two parts of a reply `head=tail` with one `=`. -/
theorem Split_reply (head tail : String) (hh : '=' ∉ head.data) (ht : '=' ∉ tail.data) :
    Split (head ++ "=" ++ tail) '=' = [head, tail] := by
  unfold Split
  have hd : (head ++ "=" ++ tail).data = head.data ++ '=' :: tail.data := by
    simp [String.data_append]
  rw [hd, splitChar_append '=' _ _ (fun c hc e => hh (e ▸ hc)),
    splitChar_none '=' _ (fun c hc e => ht (e ▸ hc))]
  rfl

/-- Counterexample to C31 as stated: the reply `ACK=a=b` is of the form
`ACK=<info>` and is not accepted, `ERR=a=b` gives the protocol error and not
the reason `a=b`, and the replies `ack=ok` and `err=no`, which are of neither
form, are accepted and answered with the reason `no`. -/
theorem reply_with_two_equal_signs :
    (sendUpdateMessage (["ACK=a=b"], none) "x:1").result
      = SendResult.returned (some
          (PkgError.WithMessage (PkgError.New "unexpected provider response") "ACK=a=b")) ∧
    (sendUpdateMessage (["ERR=a=b"], none) "x:1").result
      = SendResult.returned (some
          (PkgError.WithMessage (PkgError.New "unexpected provider response") "ERR=a=b")) ∧
    (sendUpdateMessage (["ack=ok"], none) "x:1").result = SendResult.returned none ∧
    (sendUpdateMessage (["err=no"], none) "x:1").result
      = SendResult.returned (some (PkgError.New "no")) := by
  decide

/-- Claim C31, amended.  Update reply classification: for every reply whose
first frame is a text with exactly one `=`, the updater accepts it (returns
nil) if the text before the `=` is `ACK` or `ack`, returns an error that is
the reason, the text after the `=`, if the text before is `ERR` or `err`, and
returns the protocol error `malformed provider response` with the reply
otherwise; for every reply text in which `=` does not occur exactly once it
returns the protocol error `unexpected provider response` with the reply.  A
text with exactly one `=` is `head=tail` in one way. -/
theorem reply_classification (msg reply : String) (frames : List String) :
    (reply.data.count '=' ≠ 1 →
      (sendUpdateMessage (reply :: frames, none) msg).result
        = SendResult.returned (some
            (PkgError.WithMessage (PkgError.New "unexpected provider response") reply))) ∧
    (reply.data.count '=' = 1 →
      ∃ head tail, reply = head ++ "=" ++ tail ∧ '=' ∉ head.data ∧ '=' ∉ tail.data) ∧
    (∀ head tail, reply = head ++ "=" ++ tail → '=' ∉ head.data → '=' ∉ tail.data →
      reply.data.count '=' = 1 ∧
      (head = "ACK" ∨ head = "ack" →
        (sendUpdateMessage (reply :: frames, none) msg).result = SendResult.returned none) ∧
      (head = "ERR" ∨ head = "err" →
        (sendUpdateMessage (reply :: frames, none) msg).result
          = SendResult.returned (some (PkgError.New tail))) ∧
      (head ≠ "ACK" → head ≠ "ack" → head ≠ "ERR" → head ≠ "err" →
        (sendUpdateMessage (reply :: frames, none) msg).result
          = SendResult.returned (some
              (PkgError.WithMessage (PkgError.New "malformed provider response") reply)))) := by
  refine ⟨?_, ?_, ?_⟩
  · intro h
    have hl : (Split reply '=').length ≠ 2 := by
      unfold Split
      rw [List.length_map, length_splitChar]
      omega
    show classify (reply :: frames) = _
    unfold classify
    rcases hs : Split reply '=' with _ | ⟨a, _ | ⟨b, _ | ⟨c, l⟩⟩⟩
    · simp only [hs]
    · simp only [hs]
    · rw [hs] at hl; exact absurd rfl hl
    · simp only [hs]
  · intro h
    obtain ⟨a, b, e, ha, hb⟩ := splitChar_once '=' reply.data h
    refine ⟨String.mk a, String.mk b, ?_, ha, hb⟩
    apply String.ext
    simp [String.data_append, e]
  · intro head tail e hh ht
    have hs := Split_reply head tail hh ht
    rw [← e] at hs
    have hres : (sendUpdateMessage (reply :: frames, none) msg).result
        = if head = "ACK" ∨ head = "ack" then SendResult.returned none
          else if head = "ERR" ∨ head = "err" then
            SendResult.returned (some (PkgError.New tail))
          else SendResult.returned (some
            (PkgError.WithMessage (PkgError.New "malformed provider response") reply)) := by
      show classify (reply :: frames) = _
      unfold classify
      simp only [hs]
    refine ⟨?_, ?_, ?_, ?_⟩
    · have hl := length_splitChar '=' reply.data
      have h2 : (splitChar '=' reply.data).length = 2 := by
        have := congrArg List.length hs
        unfold Split at this
        simpa using this
      omega
    · intro h
      rw [hres, if_pos h]
    · intro h
      have hn : ¬ (head = "ACK" ∨ head = "ack") := by
        rcases h with h | h <;> rw [h] <;> decide
      rw [hres, if_neg hn, if_pos h]
    · intro h1 h2 h3 h4
      rw [hres, if_neg (by simp [h1, h2]), if_neg (by simp [h3, h4])]

/-- Witness of the amended C31 on the reply `ACK=ok`. -/
theorem reply_classification_witness :
    ("ACK=ok" = "ACK" ++ "=" ++ "ok" ∧ '=' ∉ "ACK".data ∧ '=' ∉ "ok".data) ∧
    (sendUpdateMessage (["ACK=ok"], none) "x:1").result = SendResult.returned none :=
  ⟨⟨by decide, by decide, by decide⟩,
    (((reply_classification "x:1" "ACK=ok" []).2.2 "ACK" "ok" (by decide) (by decide)
      (by decide)).2.1) (Or.inl rfl)⟩

end ZMQUpdater

namespace zmqBatchUpdater

/-- The slice `updates` after a run of calls on a batch. -/
theorem updates_foldl (formatFloat : Float64 → String) (ops : List FieldUpdate) :
    ∀ batch : zmqBatchUpdater,
      (ops.foldl (FieldUpdate.queue formatFloat) batch).updates
        = batch.updates ++ ops.map (FieldUpdate.item formatFloat) := by
  induction ops with
  | nil => intro batch; simp
  | cons op ops ih =>
    intro batch
    rw [List.foldl_cons, ih]
    cases op <;>
      simp [FieldUpdate.queue, FieldUpdate.item, UpdateBinaryField, UpdateAnalogField]

/-- Claim C32.  Batch commit message: on a new batch on which the updates `op`
and then `ops` were queued, `Commit` hands one message to `SendMessage`:
`WRITE=`, then the items `name:value` of the updates in the order they were
queued, joined by single commas, then one NUL byte; on a new batch without
updates `Commit` sends nothing and returns nil. -/
theorem batch_commit_message (formatFloat : Float64 → String)
    (RecvMessage : List String × Option PkgError) (op : FieldUpdate)
    (ops : List FieldUpdate) :
    (Commit RecvMessage
        ((op :: ops).foldl (FieldUpdate.queue formatFloat) newZMQBatchUpdater)).sent
      = ["WRITE=" ++ String.intercalate "," ((op :: ops).map (FieldUpdate.item formatFloat))
          ++ "\x00"] ∧
    ((op :: ops).foldl (FieldUpdate.queue formatFloat) newZMQBatchUpdater).updates
      = (op :: ops).map (FieldUpdate.item formatFloat) ∧
    Commit RecvMessage newZMQBatchUpdater
      = { sent := [], result := SendResult.returned none } := by
  have hu := updates_foldl formatFloat (op :: ops) newZMQBatchUpdater
  have hn : newZMQBatchUpdater.updates = [] := rfl
  rw [hn, List.nil_append] at hu
  refine ⟨?_, hu, rfl⟩
  unfold Commit
  rw [hu, if_neg (by simp)]
  rfl

end zmqBatchUpdater

/-! ## Outputs written during a freeze -/

namespace Memory

/-- The memory after `Freeze()` and `UpdateAnalogTag(t, v)` for an external
analog tag `t`: the value waits in the shadow of the pending buffer. -/
theorem freeze_then_update (m : Memory) (t module : String) (v : Float64)
    (ht : m.analogTags.get t = some module) :
    m.Freeze.1.UpdateAnalogTag t v =
      ({ m with
          frozen := true,
          frozenUpdatedBinaryTags := [],
          frozenUpdatedAnalogTags := [(t, v)],
          frozenInternalBinaryTags := [],
          frozenInternalAnalogTags := [],
          frozenInternalStringTags := [] }, none) := by
  have hh : m.analogTags.has t = true := by simp [GoMap.has, ht]
  simp [Freeze, UpdateAnalogTag, hh, GoMap.set, GoMap.erase]

/-- One turn of the drain at the pending entry of an external analog tag
bound to a registered device that holds another value: `yield` is called with
the device and the value. -/
theorem analogDrainStep_calls {σ : Type} (yield : σ → String → Float64 → σ × Option String)
    (s : Drain σ Float64) (t module d : String) (v cur : Float64)
    (ht : s.mem.analogTags.get t = some module)
    (hm : s.mem.analogModules.get module = some d)
    (hd : s.mem.analogDeviceValues.get d = some cur)
    (hv : Float64.eq v cur = false) :
    (analogDrainStep yield s (t, v)).calls = s.calls ++ [⟨t, d, v, (yield s.env d v).2⟩] := by
  have hg : s.mem.getAnalogValueForTag t = (cur, none) := by
    simp [getAnalogValueForTag, ht, hm, getAnalogDeviceValue, hd]
  unfold analogDrainStep
  simp only [ht, hm, hg, hv]
  rcases hy : yield s.env d v with ⟨env1, _ | err⟩ <;> simp

/-- Claim C33.  Outputs written during a freeze are flushed one drain late:
for every memory with an empty pending buffer and every external analog tag
`t` bound to a registered device `d`, after `Freeze()` and `UpdateAnalogTag(t,
v)`, which returns nil, with `v != ` the value of `d`, a drain
`UpdateAnalogDevices(yield)` before `Unfreeze()` calls `yield` for no device,
returns nil and leaves the memory, and so the value of `d`, as it was, whereas
the first drain after `Unfreeze()` makes the call `yield(d, v)` and no other,
also when the memory has been frozen again for the next cycle. -/
theorem frozen_output_flushed_late {σ : Type} (m : Memory)
    (yield : σ → String → Float64 → σ × Option String) (env env1 : σ)
    (t module d : String) (v cur : Float64)
    (hp : m.updatedAnalogTags = [])
    (ht : m.analogTags.get t = some module)
    (hm : m.analogModules.get module = some d)
    (hd : m.analogDeviceValues.get d = some cur)
    (hv : Float64.eq v cur = false) :
    (m.Freeze.1.UpdateAnalogTag t v).2 = none ∧
    ((m.Freeze.1.UpdateAnalogTag t v).1.UpdateAnalogDevices yield env).calls = [] ∧
    ((m.Freeze.1.UpdateAnalogTag t v).1.UpdateAnalogDevices yield env).updateErr = none ∧
    ((m.Freeze.1.UpdateAnalogTag t v).1.UpdateAnalogDevices yield env).mem
      = (m.Freeze.1.UpdateAnalogTag t v).1 ∧
    ((m.Freeze.1.UpdateAnalogTag t v).1.UpdateAnalogDevices yield env).mem.analogDeviceValues.get d
      = some cur ∧
    (((m.Freeze.1.UpdateAnalogTag t v).1.UpdateAnalogDevices yield env).mem.Unfreeze.1.UpdateAnalogDevices
        yield env1).calls = [⟨t, d, v, (yield env1 d v).2⟩] ∧
    (((m.Freeze.1.UpdateAnalogTag t v).1.UpdateAnalogDevices yield
        env).mem.Unfreeze.1.Freeze.1.UpdateAnalogDevices yield env1).calls
      = [⟨t, d, v, (yield env1 d v).2⟩] := by
  have h1 := freeze_then_update m t module v ht
  have hdrain : ((m.Freeze.1.UpdateAnalogTag t v).1.UpdateAnalogDevices yield env)
      = ⟨(m.Freeze.1.UpdateAnalogTag t v).1, env, none, []⟩ := by
    rw [h1]
    unfold UpdateAnalogDevices
    simp only [hp, List.foldl_nil]
  rw [hdrain]
  refine ⟨by rw [h1], rfl, rfl, rfl, by rw [h1]; exact hd, ?_, ?_⟩
  · rw [h1]
    unfold UpdateAnalogDevices
    simp only [Unfreeze, hp, GoMap.merge, List.foldl_cons, List.foldl_nil, GoMap.set,
      GoMap.erase, List.filter_nil]
    rw [analogDrainStep_calls yield _ t module d v cur ht hm hd hv]
    rfl
  · rw [h1]
    unfold UpdateAnalogDevices
    simp only [Unfreeze, Freeze, hp, GoMap.merge, List.foldl_cons, List.foldl_nil, GoMap.set,
      GoMap.erase, List.filter_nil]
    rw [analogDrainStep_calls yield _ t module d v cur ht hm hd hv]
    rfl

/-- Witness of C33 on `sampleMemory`: the tag `t` is bound through `io` to the
device `d`, which reads 1.0, and 2.0 is written during the freeze. -/
theorem frozen_output_flushed_late_witness :
    (sampleMemory.updatedAnalogTags = [] ∧ sampleMemory.analogTags.get "t" = some "io" ∧
      sampleMemory.analogModules.get "io" = some "d" ∧
      sampleMemory.analogDeviceValues.get "d" = some Float64.one ∧
      Float64.eq Float64.two Float64.one = false) ∧
    ((sampleMemory.Freeze.1.UpdateAnalogTag "t" Float64.two).1.UpdateAnalogDevices
      (acceptAll : Unit → String → Float64 → Unit × Option String) ()).calls = [] ∧
    (((sampleMemory.Freeze.1.UpdateAnalogTag "t" Float64.two).1.UpdateAnalogDevices
      (acceptAll : Unit → String → Float64 → Unit × Option String)
        ()).mem.Unfreeze.1.UpdateAnalogDevices
      (acceptAll : Unit → String → Float64 → Unit × Option String) ()).calls
      = [⟨"t", "d", Float64.two, none⟩] :=
  ⟨⟨by decide, by decide, by decide, by decide, by decide⟩,
    (frozen_output_flushed_late sampleMemory acceptAll () () "t" "io" "d" Float64.two
      Float64.one (by decide) (by decide) (by decide) (by decide) (by decide)).2.1,
    (frozen_output_flushed_late sampleMemory acceptAll () () "t" "io" "d" Float64.two
      Float64.one (by decide) (by decide) (by decide) (by decide) (by decide)).2.2.2.2.2.1⟩

end Memory

/-! ## Failing writes and the progress of the handler loops -/

namespace SunSpecRTU

/-- An update of a tag in `writeHandler` that fails leaves the memory as it
was. -/
theorem writeTag_fails (m : Memory) (tag : String) (value : Float64)
    (h : (writeTag m tag value).2 ≠ none) : (writeTag m tag value).1 = m := by
  unfold writeTag at h ⊢
  unfold Memory.UpdateAnalogTag at h ⊢
  cases h1 : m.analogTags.has tag <;> cases h2 : m.internalAnalogTags.has tag <;>
    cases h5 : m.frozen <;> simp [h1, h2, h5] at h ⊢
  all_goals
    unfold Memory.UpdateBinaryTag at h ⊢
    cases h3 : m.binaryTags.has tag <;> cases h4 : m.internalBinaryTags.has tag <;>
      simp [h3, h4, h5] at h ⊢

/-- The loop of `writeHandler` on a register whose tag cannot be updated. -/
theorem writeLoop_not_updatable (rt : Runtime) (this : SunSpecRTU) (data : List Nat)
    (stop fuel : Nat) (m : Memory) (i b : Nat) (tag : String) (value : Float64) (hi : i < stop)
    (hreg : this.registers.get (i : Int) = some tag)
    (hlen : b + (NewRegister (this.typeOf tag)).Length * 2 ≤ data.length)
    (hval : (NewRegister (this.typeOf tag)).Value rt
      ((data.drop b).take ((NewRegister (this.typeOf tag)).Length * 2)) (this.scalingOf i)
      = (value, none))
    (hupd : (writeTag m tag value).2 ≠ none) :
    this.writeLoop rt data stop (fuel + 1) m i b =
      (m, Reply.returned [] Exception.SlaveDeviceFailure) := by
  have hm := writeTag_fails m tag value hupd
  rw [writeLoop, if_pos hi, hreg]
  simp only
  rw [if_neg (by omega), hval]
  simp only
  rcases hu : writeTag m tag value with ⟨m1, _ | err⟩
  · rw [hu] at hupd; exact absurd rfl hupd
  · rw [hu] at hm
    simp only at hm ⊢
    rw [hm]

/-- The loop of `writeHandler` on a register whose bytes the request does not
hold: the slice expression `data[b:e]` panics. -/
theorem writeLoop_short (rt : Runtime) (this : SunSpecRTU) (data : List Nat)
    (stop fuel : Nat) (m : Memory) (i b : Nat) (tag : String) (hi : i < stop)
    (hreg : this.registers.get (i : Int) = some tag)
    (hlen : data.length < b + (NewRegister (this.typeOf tag)).Length * 2) :
    this.writeLoop rt data stop (fuel + 1) m i b = (m, Reply.crashed) := by
  rw [writeLoop, if_pos hi, hreg]
  simp only
  rw [if_pos hlen]

/-- Claim C34, amended.  A failing write request is not rolled back: when the
first `k` registers that `writeHandler` visits are mapped, decodable and
updatable, the memory after their updates being `m`, and the next register it
visits is unmapped, or its bytes are in the request and `Value` returns an
error for them, or they decode and neither `UpdateAnalogTag` nor
`UpdateBinaryTag` takes the tag, then `writeHandler` returns the memory `m`,
no bytes, and the exception `IllegalDataAddress` in the first case and
`SlaveDeviceFailure` in the two others, with any fuel above `k`.  When the
request data ends before the bytes of the next register, `writeHandler`
panics on the slice expression and returns nothing; the memory is `m` then
too. -/
theorem failing_write_not_rolled_back (rt : Runtime) (this : SunSpecRTU) (m0 : Memory)
    (data : List Nat) (hlen : 4 ≤ data.length) (k : Nat) (m : Memory) (i b : Nat)
    (hreach : WriteReaches rt this data m0 (requestStart data)
      (requestStart data + requestCount data) k m i b)
    (hi : i < requestStart data + requestCount data) (fuel : Nat) :
    (this.registers.get (i : Int) = none →
      this.writeHandler rt m0 (k + (fuel + 1)) data
        = (m, Reply.returned [] Exception.IllegalDataAddress)) ∧
    (∀ tag, this.registers.get (i : Int) = some tag →
      b + (NewRegister (this.typeOf tag)).Length * 2 ≤ data.length →
      (((NewRegister (this.typeOf tag)).Value rt
          ((data.drop b).take ((NewRegister (this.typeOf tag)).Length * 2))
          (this.scalingOf i)).2 ≠ none →
        this.writeHandler rt m0 (k + (fuel + 1)) data
          = (m, Reply.returned [] Exception.SlaveDeviceFailure)) ∧
      (∀ value, (NewRegister (this.typeOf tag)).Value rt
          ((data.drop b).take ((NewRegister (this.typeOf tag)).Length * 2))
          (this.scalingOf i) = (value, none) →
        (writeTag m tag value).2 ≠ none →
        this.writeHandler rt m0 (k + (fuel + 1)) data
          = (m, Reply.returned [] Exception.SlaveDeviceFailure))) ∧
    (∀ tag, this.registers.get (i : Int) = some tag →
      data.length < b + (NewRegister (this.typeOf tag)).Length * 2 →
      this.writeHandler rt m0 (k + (fuel + 1)) data = (m, Reply.crashed)) := by
  have hw := writeHandler_reaches rt this m0 data hlen hreach (fuel + 1)
  refine ⟨?_, ?_, ?_⟩
  · intro hreg
    rw [hw, writeLoop_unmapped rt this data _ fuel m i b hi hreg]
  · intro tag hreg hl
    refine ⟨?_, ?_⟩
    · intro hv
      rw [hw, writeLoop_no_decode rt this data _ fuel m i b tag hi hreg hl hv]
    · intro value hv hu
      rw [hw, writeLoop_not_updatable rt this data _ fuel m i b tag value hi hreg hl hv hu]
  · intro tag hreg hl
    rw [hw, writeLoop_short rt this data _ fuel m i b tag hi hreg hl]

/-- The runtime `sampleRuntime` follows `Pow(x, ±0) = 1`. -/
theorem sampleRuntime_powZero : sampleRuntime.PowZero := fun x y h => by
  show powSpecialCases x y = Float64.one
  unfold powSpecialCases
  rw [h]; rfl

/-- The first turn of `writeHandler` on `testRTU` for the write of 1 to the
register 40001 and of a value to the register 40002, which is unmapped. -/
theorem testRTU_first_turn :
    WriteReaches sampleRuntime testRTU [0x9c, 0x41, 0, 2, 4, 0, 1, 0, 2] testMemory
      (requestStart [0x9c, 0x41, 0, 2, 4, 0, 1, 0, 2])
      (requestStart [0x9c, 0x41, 0, 2, 4, 0, 1, 0, 2]
        + requestCount [0x9c, 0x41, 0, 2, 4, 0, 1, 0, 2])
      1 { testMemory with
          internalAnalogTags := testMemory.internalAnalogTags.set "var_I1" (Float64.ofNat 1) }
      40002 7 := by
  have e1 : requestStart [0x9c, 0x41, 0, 2, 4, 0, 1, 0, 2] = 40001 := by decide
  have e2 : requestCount [0x9c, 0x41, 0, 2, 4, 0, 1, 0, 2] = 2 := by decide
  rw [e1, e2]
  have hty : testRTU.typeOf "var_I1" = "uint16" := by decide
  have hv : (NewRegister (testRTU.typeOf "var_I1")).Value sampleRuntime
      ((List.drop 5 [0x9c, 0x41, 0, 2, 4, 0, 1, 0, 2]).take
        ((NewRegister (testRTU.typeOf "var_I1")).Length * 2)) (testRTU.scalingOf 40001)
      = (Float64.ofNat 1, none) := by
    have hd : (List.drop 5 [0x9c, 0x41, 0, 2, 4, 0, 1, 0, 2]).take
        ((NewRegister (testRTU.typeOf "var_I1")).Length * 2) = bigEndian 2 1 := by decide
    have hs : testRTU.scalingOf 40001 = 0 := by decide
    rw [hd, hs, hty, Register.Value_uint16 sampleRuntime sampleRuntime_powZero 1]
  exact WriteReaches.next 0 testMemory _ 40001 5 "var_I1" (Float64.ofNat 1)
    WriteReaches.first (by decide) (by decide) (by decide) hv
    (writeTag_internal_analog testMemory "var_I1" _ (by decide) (by decide) (by decide))

/-- The first turn of `writeHandler` on `testRTU` for the write of 1 to the
register 40000 in a request for two registers that holds the bytes of one. -/
theorem testRTU_short_first_turn :
    WriteReaches sampleRuntime testRTU [0x9c, 0x40, 0, 2, 4, 0, 1] testMemory
      (requestStart [0x9c, 0x40, 0, 2, 4, 0, 1])
      (requestStart [0x9c, 0x40, 0, 2, 4, 0, 1] + requestCount [0x9c, 0x40, 0, 2, 4, 0, 1])
      1 { testMemory with
          internalAnalogTags := testMemory.internalAnalogTags.set "var_I0" (Float64.ofNat 1) }
      40001 7 := by
  have e1 : requestStart [0x9c, 0x40, 0, 2, 4, 0, 1] = 40000 := by decide
  have e2 : requestCount [0x9c, 0x40, 0, 2, 4, 0, 1] = 2 := by decide
  rw [e1, e2]
  have hty : testRTU.typeOf "var_I0" = "uint16" := by decide
  have hv : (NewRegister (testRTU.typeOf "var_I0")).Value sampleRuntime
      ((List.drop 5 [0x9c, 0x40, 0, 2, 4, 0, 1]).take
        ((NewRegister (testRTU.typeOf "var_I0")).Length * 2)) (testRTU.scalingOf 40000)
      = (Float64.ofNat 1, none) := by
    have hd : (List.drop 5 [0x9c, 0x40, 0, 2, 4, 0, 1]).take
        ((NewRegister (testRTU.typeOf "var_I0")).Length * 2) = bigEndian 2 1 := by decide
    have hs : testRTU.scalingOf 40000 = 0 := by decide
    rw [hd, hs, hty, Register.Value_uint16 sampleRuntime sampleRuntime_powZero 1]
  exact WriteReaches.next 0 testMemory _ 40000 5 "var_I0" (Float64.ofNat 1)
    WriteReaches.first (by decide) (by decide) (by decide) hv
    (writeTag_internal_analog testMemory "var_I0" _ (by decide) (by decide) (by decide))

/-- Counterexample to C34 as stated: the write request for the registers 40000
and 40001 of `testRTU` that holds the two bytes of the register 40000 alone
updates `var_I0` from 5 to 1; the register 40001 is mapped and its bytes are
not in the request data, so nothing of it can be decoded: `writeHandler` does
not return an exception, the slice expression `data[7:9]` panics, and
`var_I0` stays at 1. -/
theorem short_write_panics_after_update :
    testRTU.registers.get ((40000 : Nat) : Int) = some "var_I0" ∧
    testRTU.registers.get ((40001 : Nat) : Int) = some "var_I1" ∧
    requestStart [0x9c, 0x40, 0, 2, 4, 0, 1] = 40000 ∧
    requestCount [0x9c, 0x40, 0, 2, 4, 0, 1] = 2 ∧
    testMemory.GetAnalogValueForTag "var_I0" = (Float64.ofNat 5, none) ∧
    ∀ fuel : Nat,
      testRTU.writeHandler sampleRuntime testMemory (1 + (fuel + 1))
          [0x9c, 0x40, 0, 2, 4, 0, 1]
        = ({ testMemory with
              internalAnalogTags :=
                testMemory.internalAnalogTags.set "var_I0" (Float64.ofNat 1) },
            Reply.crashed) := by
  refine ⟨by decide, by decide, by decide, by decide, by decide, ?_⟩
  intro fuel
  rw [writeHandler_reaches sampleRuntime testRTU testMemory [0x9c, 0x40, 0, 2, 4, 0, 1]
    (by decide) testRTU_short_first_turn (fuel + 1)]
  exact writeLoop_short sampleRuntime testRTU _ _ fuel _ 40001 7 "var_I1"
    (by decide) (by decide) (by decide)

/-- Witness of the amended C34 on `testRTU`: the write of the registers 40001
and 40002 updates `var_I1` to 1, fails with `IllegalDataAddress` at the
register 40002, which is unmapped, and leaves `var_I1` at 1. -/
theorem failing_write_not_rolled_back_witness :
    (4 ≤ [0x9c, 0x41, 0, 2, 4, 0, 1, 0, 2].length ∧
      testRTU.registers.get ((40002 : Nat) : Int) = none ∧
      testMemory.GetAnalogValueForTag "var_I1" = (Float64.ofNat 10, none)) ∧
    testRTU.writeHandler sampleRuntime testMemory (1 + (0 + 1)) [0x9c, 0x41, 0, 2, 4, 0, 1, 0, 2]
      = ({ testMemory with
            internalAnalogTags :=
              testMemory.internalAnalogTags.set "var_I1" (Float64.ofNat 1) },
          Reply.returned [] Exception.IllegalDataAddress) :=
  ⟨⟨by decide, by decide, by decide⟩,
    (failing_write_not_rolled_back sampleRuntime testRTU testMemory
      [0x9c, 0x41, 0, 2, 4, 0, 1, 0, 2] (by decide) 1 _ 40002 7 testRTU_first_turn
      (by decide) 0).1 (by decide)⟩

/-- The states the loop of `readHandler` reaches, when every mapped tag has a
type of length 1 or more: the index has advanced by one register or more a
turn, and there were at most `count` turns. -/
theorem readReaches_bound (rt : Runtime) (this : SunSpecRTU) (m : Memory) (start count : Nat)
    (hty : ∀ (i : Nat) (t : String), this.registers.get (i : Int) = some t →
      1 ≤ (NewRegister (this.typeOf t)).Length)
    {n i size : Nat} {out : List Nat}
    (h : ReadReaches rt this m start (start + count) n i size out) :
    start + n ≤ i ∧ n ≤ count := by
  induction h with
  | first => exact ⟨le_refl _, Nat.zero_le _⟩
  | next n i size data tag value bytes _ hi hreg _ _ ih =>
    have := hty i tag hreg
    omega

/-- The states the loop of `writeHandler` reaches: the index has advanced by
one register or more a turn, and there were at most `count` turns. -/
theorem writeReaches_bound (rt : Runtime) (this : SunSpecRTU) (data : List Nat) (m0 : Memory)
    (start count : Nat) {n : Nat} {m : Memory} {i b : Nat}
    (h : WriteReaches rt this data m0 start (start + count) n m i b) :
    start + n ≤ i ∧ n ≤ count := by
  induction h with
  | first => exact ⟨le_refl _, Nat.zero_le _⟩
  | next n m m1 i b tag value _ hi hreg _ hv _ ih =>
    have hL : 1 ≤ (NewRegister (this.typeOf tag)).Length := by
      by_contra hc
      have := Register.Value_of_length_zero rt (this.typeOf tag)
        ((data.drop b).take ((NewRegister (this.typeOf tag)).Length * 2))
        (this.scalingOf i) (by omega)
      rw [hv] at this
      exact this rfl
    omega

/-- The loop of `writeHandler` ends: from the register `i` it needs no more
turns than there are registers up to `stop`. -/
theorem writeLoop_ends (rt : Runtime) (this : SunSpecRTU) (data : List Nat) (stop : Nat) :
    ∀ (k fuel : Nat) (m : Memory) (i b : Nat), stop - i ≤ k → k < fuel →
      (this.writeLoop rt data stop fuel m i b).2 ≠ Reply.unfinished := by
  intro k
  induction k with
  | zero =>
    intro fuel m i b hk hf
    obtain ⟨fuel, rfl⟩ : ∃ g, fuel = g + 1 := ⟨fuel - 1, by omega⟩
    rw [writeLoop_done rt this data stop fuel m i b (by omega)]
    simp
  | succ k ih =>
    intro fuel m i b hk hf
    obtain ⟨fuel, rfl⟩ : ∃ g, fuel = g + 1 := ⟨fuel - 1, by omega⟩
    by_cases hi : i < stop
    · rcases hreg : this.registers.get (i : Int) with _ | tag
      · rw [writeLoop_unmapped rt this data stop fuel m i b hi hreg]
        simp
      · by_cases hlen : b + (NewRegister (this.typeOf tag)).Length * 2 ≤ data.length
        · rcases hv : (NewRegister (this.typeOf tag)).Value rt
              ((data.drop b).take ((NewRegister (this.typeOf tag)).Length * 2))
              (this.scalingOf i) with ⟨value, _ | err⟩
          · have hL : 1 ≤ (NewRegister (this.typeOf tag)).Length := by
              by_contra hc
              have := Register.Value_of_length_zero rt (this.typeOf tag)
                ((data.drop b).take ((NewRegister (this.typeOf tag)).Length * 2))
                (this.scalingOf i) (by omega)
              rw [hv] at this
              exact this rfl
            rcases hu : writeTag m tag value with ⟨m1, _ | err⟩
            · rw [writeLoop_step rt this data stop fuel m m1 i b tag value hi hreg hlen hv hu]
              exact ih fuel m1 _ _ (by omega) (by omega)
            · rw [writeLoop_no_tag rt this data stop fuel m i b tag value hi hreg hlen hv
                (by rw [hu]; simp)]
              simp
          · rw [writeLoop_no_decode rt this data stop fuel m i b tag hi hreg hlen
              (by rw [hv]; simp)]
            simp
        · rw [writeLoop_short rt this data stop fuel m i b tag hi hreg (by omega)]
          simp
    · rw [writeLoop_done rt this data stop fuel m i b hi]
      simp

end SunSpecRTU

namespace SunSpecRTU

/-- Counterexample to C35 as stated: the tag of the register 1 of `untypedRTU`
has a type outside the register length table, so a `Length` of 0, and a value
in `binaryMemory`; the turn of the loop of `readHandler` that visits it does
not leave the index where it was and go on: `Bytes` panics in `binary.Write`
and the handler does not return. -/
theorem untyped_register_read_panics :
    untypedRTU.registers.get ((1 : Nat) : Int) = some "a" ∧
    (NewRegister (untypedRTU.typeOf "a")).Length = 0 ∧
    untypedRTU.readValue binaryMemory "a" = (Any.float64 Float64.zero, none) ∧
    ∀ (rt : Runtime) (fuel size : Nat) (acc : List Nat),
      untypedRTU.readLoop rt binaryMemory 2 (fuel + 1) 1 size acc = Reply.crashed := by
  refine ⟨by decide, by decide, by decide, ?_⟩
  intro rt fuel size acc
  exact readLoop_untyped rt fuel size acc

/-- Claim C35, amended.  Handler loops make progress only for recognised
types.  If every tag mapped in the register table has a type of the register length
table, so a `Length` of 1 or more, then for every request each turn of the
loop of `readHandler` comes from a lower index, a state reached after `n`
turns has `n` at most `count`, and `readHandler` returns with any fuel above
`count`; the loop of `writeHandler` does the same whatever the types, because
`Value` rejects a type of length 0, and ends with any fuel above `count`.  For
a mapped tag whose type is not in the table `Length` is 0, and a turn of the
loop of `readHandler` that visits it, the tag having a value, does not reach
the statement that advances the index: `Bytes` panics in `binary.Write`. -/
theorem loops_progress (rt : Runtime) (this : SunSpecRTU) (m : Memory) (data : List Nat)
    (hlen : 4 ≤ data.length) :
    ((∀ (i : Nat) (t : String), this.registers.get (i : Int) = some t →
        1 ≤ (NewRegister (this.typeOf t)).Length) →
      (∀ n i size out, ReadReaches rt this m (requestStart data)
          (requestStart data + requestCount data) (n + 1) i size out →
        ∃ j size0 out0, ReadReaches rt this m (requestStart data)
          (requestStart data + requestCount data) n j size0 out0 ∧ j < i) ∧
      (∀ n i size out, ReadReaches rt this m (requestStart data)
          (requestStart data + requestCount data) n i size out → n ≤ requestCount data) ∧
      (∀ fuel, requestCount data < fuel →
        ∃ out ex, this.readHandler rt m fuel data = Reply.returned out ex)) ∧
    ((∀ n m1 i b, WriteReaches rt this data m (requestStart data)
          (requestStart data + requestCount data) (n + 1) m1 i b →
        ∃ m2 j b0, WriteReaches rt this data m (requestStart data)
          (requestStart data + requestCount data) n m2 j b0 ∧ j < i) ∧
      (∀ n m1 i b, WriteReaches rt this data m (requestStart data)
          (requestStart data + requestCount data) n m1 i b → n ≤ requestCount data) ∧
      (∀ fuel, requestCount data < fuel →
        (this.writeHandler rt m fuel data).2 ≠ Reply.unfinished)) ∧
    (∀ ty, ty ∉ ["acc16", "acc32", "acc64", "bitfield16", "bitfield32", "enum16", "enum32",
        "float32", "int16", "int32", "string8", "string16", "sunssf", "uint16", "uint32"] →
      (NewRegister ty).Length = 0) ∧
    (∀ (i : Nat) (tag : String) (value : Any) (stop fuel size : Nat) (acc : List Nat),
      i < stop → this.registers.get (i : Int) = some tag →
      this.typeOf tag ∉ ["acc16", "acc32", "acc64", "bitfield16", "bitfield32", "enum16",
        "enum32", "float32", "int16", "int32", "string8", "string16", "sunssf", "uint16",
        "uint32"] →
      this.readValue m tag = (value, none) →
      this.readLoop rt m stop (fuel + 1) i size acc = Reply.crashed) := by
  refine ⟨?_, ⟨?_, ?_, ?_⟩, Register.Length_outside_table, ?_⟩
  · intro hty
    refine ⟨?_, ?_, ?_⟩
    · intro n i size out h
      cases h with
      | next n j size0 out0 tag value bytes hprev hj hreg hval hbytes =>
        exact ⟨j, size0, out0, hprev, by have := hty j tag hreg; omega⟩
    · intro n i size out h
      exact (readReaches_bound rt this m _ _ hty h).2
    · intro fuel hf
      unfold readHandler
      rw [if_neg (by omega)]
      exact readLoop_returns rt this m (requestStart data) _
        (fun i t _ _ h => hty i t h) (requestCount data) fuel _ 0 [] (le_refl _)
        (by omega) hf
  · intro n m1 i b h
    cases h with
    | next n m2 m3 j b0 tag value hprev hj hreg hl hv hu =>
      refine ⟨m2, j, b0, hprev, ?_⟩
      have hL : 1 ≤ (NewRegister (this.typeOf tag)).Length := by
        by_contra hc
        have := Register.Value_of_length_zero rt (this.typeOf tag)
          ((data.drop b0).take ((NewRegister (this.typeOf tag)).Length * 2))
          (this.scalingOf j) (by omega)
        rw [hv] at this
        exact this rfl
      omega
  · intro n m1 i b h
    exact (writeReaches_bound rt this data m _ _ h).2
  · intro fuel hf
    unfold writeHandler
    rw [if_neg (by omega)]
    exact writeLoop_ends rt this data _ (requestCount data) fuel m _ 5 (by omega) hf
  · intro i tag value stop fuel size acc hi hreg hty hval
    exact readLoop_no_bytes rt this m stop fuel i size acc tag value hi hreg hval
      (Register.Bytes_outside_table rt _ _ _ hty)

/-- Witness of the amended C35 on the test request for the registers 40000
and 40001 of `testRTU`, whose tags have the type `uint16`: `readHandler`
returns with the fuel 3. -/
theorem loops_progress_witness :
    (4 ≤ [0x9c, 0x40, 0, 2].length ∧ requestCount [0x9c, 0x40, 0, 2] < 3 ∧
      ∀ (i : Nat) (t : String), testRTU.registers.get (i : Int) = some t →
        1 ≤ (NewRegister (testRTU.typeOf t)).Length) ∧
    ∃ out ex, testRTU.readHandler sampleRuntime testMemory 3 [0x9c, 0x40, 0, 2]
      = Reply.returned out ex :=
  have hty : ∀ (i : Nat) (t : String), testRTU.registers.get (i : Int) = some t →
      1 ≤ (NewRegister (testRTU.typeOf t)).Length := by
    intro i t h
    rcases testRTU_registers i t h with ⟨_, rfl⟩ | ⟨_, rfl⟩ <;> decide
  ⟨⟨by decide, by decide, hty⟩,
    ((loops_progress sampleRuntime testRTU testMemory [0x9c, 0x40, 0, 2] (by decide)).1
      hty).2.2 3 (by decide)⟩

end SunSpecRTU

/-! ## The size of a read response -/

namespace Register

/-- The bytes of `Bytes` are two for each register of `Length`. -/
theorem length_Bytes (rt : Runtime) (ty : String) (v : Any) (s : Int) (b : List Nat)
    (h : Bytes rt (NewRegister ty) v s = some b) : b.length = 2 * (NewRegister ty).Length := by
  by_cases hin : ty ∈ ["acc16", "acc32", "acc64", "bitfield16", "bitfield32", "enum16",
      "enum32", "float32", "int16", "int32", "string8", "string16", "sunssf", "uint16",
      "uint32"]
  · simp only [List.mem_cons, List.mem_singleton, List.not_mem_nil, or_false] at hin
    rcases hin with rfl | rfl | rfl | rfl | rfl | rfl | rfl | rfl | rfl | rfl | rfl | rfl |
      rfl | rfl | rfl <;>
    cases v <;> simp [Bytes, NewRegister] at h <;> subst h <;>
    simp [length_bigEndian, length_copyString, Length, NewRegister]
  · rw [Bytes_outside_table rt ty v s hin] at h
    exact absurd h (by simp)

end Register

namespace SunSpecRTU

/-- The loop of `readHandler` when it ends with `Success`: the payload it
appends has two bytes for each register of `Length` of the registers it
visits, the first byte of the response is the size modulo 256, the walk ends
at `stop` or beyond, and it ends at `stop` exactly when no visited register
reaches beyond `stop`. -/
theorem readLoop_size (rt : Runtime) (this : SunSpecRTU) (m : Memory) (stop : Nat) :
    ∀ (fuel i size : Nat) (acc out : List Nat),
      this.readLoop rt m stop fuel i size acc = Reply.returned out Exception.Success →
      ∃ payload,
        out = ((size + 2 * this.lengthSum (this.readVisits rt m stop fuel i)) % 256)
          :: (acc ++ payload) ∧
        payload.length = 2 * this.lengthSum (this.readVisits rt m stop fuel i) ∧
        stop ≤ i + this.lengthSum (this.readVisits rt m stop fuel i) ∧
        (i ≤ stop →
          (i + this.lengthSum (this.readVisits rt m stop fuel i) = stop ↔
            ∀ e ∈ this.readVisits rt m stop fuel i,
              e.1 + (NewRegister (this.typeOf e.2)).Length ≤ stop)) := by
  intro fuel
  induction fuel with
  | zero =>
    intro i size acc out h
    simp [readLoop] at h
  | succ fuel ih =>
    intro i size acc out h
    by_cases hi : i < stop
    · rcases hreg : this.registers.get (i : Int) with _ | tag
      · rw [readLoop_unmapped rt this m stop fuel i size acc hi hreg] at h
        simp at h
      · rcases hv : this.readValue m tag with ⟨value, _ | err⟩
        · rcases hb : (NewRegister (this.typeOf tag)).Bytes rt value (this.scalingOf i)
            with _ | bytes
          · rw [readLoop, if_pos hi, hreg] at h
            simp only [hv, hb] at h
            simp at h
          · rw [readLoop_step rt this m stop fuel i size acc tag value bytes hi hreg hv hb] at h
            obtain ⟨payload, p1, p2, p3, p4⟩ := ih _ _ _ _ h
            have hlen := Register.length_Bytes rt _ _ _ _ hb
            have hvis : this.readVisits rt m stop (fuel + 1) i
                = (i, tag) :: this.readVisits rt m stop fuel
                    (i + (NewRegister (this.typeOf tag)).Length) := by
              rw [readVisits, if_pos hi, hreg]
              simp only [hv, hb]
            have hsum : this.lengthSum (this.readVisits rt m stop (fuel + 1) i)
                = (NewRegister (this.typeOf tag)).Length
                  + this.lengthSum (this.readVisits rt m stop fuel
                      (i + (NewRegister (this.typeOf tag)).Length)) := by
              rw [hvis]
              simp [lengthSum]
            refine ⟨bytes ++ payload, ?_, ?_, ?_, ?_⟩
            · rw [p1, hsum]
              congr 1
              · congr 1
                omega
              · simp
            · rw [List.length_append, p2, hlen, hsum]
              omega
            · rw [hsum]; omega
            · intro _
              rw [hsum, hvis]
              constructor
              · intro e0 e he
                rcases List.mem_cons.1 he with h1 | h1
                · rw [h1]
                  simp only
                  omega
                · exact (p4 (by omega)).1 (by omega) e h1
              · intro hall
                have hhead := hall (i, tag) (List.mem_cons_self _ _)
                simp only at hhead
                have := (p4 hhead).2 (fun e he => hall e (List.mem_cons_of_mem _ he))
                omega
        · rw [readLoop_no_value rt this m stop fuel i size acc tag hi hreg
            (by rw [hv]; simp)] at h
          simp at h
    · rw [readLoop_done rt this m stop fuel i size acc hi] at h
      have hvis : this.readVisits rt m stop (fuel + 1) i = [] := by
        rw [readVisits, if_neg hi]
      have e : out = (size % 256) :: acc := by
        injection h with h1 _
        exact h1.symm
      rw [hvis]
      refine ⟨[], by simp [lengthSum, e], by simp [lengthSum], by simp [lengthSum]; omega, ?_⟩
      intro hle
      simp [lengthSum]
      omega

/-- Claim C36.  Read response size: for every successful read, the response is
one byte and a payload of `P` bytes, where `P` is twice the sum of `Length`
over the registers the loop visited; `P` is at least twice `count`, with
equality exactly when no visited register reaches beyond `start + count`; a
visited register that reaches beyond it makes `P` exceed twice `count`; and
the first byte of the response is `P` modulo 256. -/
theorem read_response_size (rt : Runtime) (this : SunSpecRTU) (m : Memory) (fuel : Nat)
    (data out : List Nat)
    (h : this.readHandler rt m fuel data = Reply.returned out Exception.Success) :
    ∃ payload,
      out = (2 * this.lengthSum (this.readVisits rt m (requestStart data + requestCount data)
          fuel (requestStart data)) % 256) :: payload ∧
      payload.length = 2 * this.lengthSum
        (this.readVisits rt m (requestStart data + requestCount data) fuel (requestStart data)) ∧
      2 * requestCount data ≤ payload.length ∧
      (payload.length = 2 * requestCount data ↔
        ∀ e ∈ this.readVisits rt m (requestStart data + requestCount data) fuel
            (requestStart data),
          e.1 + (NewRegister (this.typeOf e.2)).Length
            ≤ requestStart data + requestCount data) ∧
      (∀ e ∈ this.readVisits rt m (requestStart data + requestCount data) fuel
          (requestStart data),
        requestStart data + requestCount data < e.1 + (NewRegister (this.typeOf e.2)).Length →
        2 * requestCount data < payload.length) := by
  unfold readHandler at h
  by_cases hl : data.length < 4
  · rw [if_pos hl] at h
    simp at h
  · rw [if_neg hl] at h
    obtain ⟨payload, p1, p2, p3, p4⟩ := readLoop_size rt this m _ fuel _ 0 [] out h
    have p5 := p4 (Nat.le_add_right _ _)
    refine ⟨payload, ?_, p2, by omega, ?_, ?_⟩
    · rw [p1]
      simp
    · rw [← p5]
      omega
    · intro e he hlt
      have hne : ¬ (∀ e ∈ this.readVisits rt m (requestStart data + requestCount data) fuel
          (requestStart data),
          e.1 + (NewRegister (this.typeOf e.2)).Length
            ≤ requestStart data + requestCount data) := by
        intro hall
        have := hall e he
        omega
      rw [← p5] at hne
      omega

/-- The read of the registers 1 and 2 of `wideRTU`: two bytes for the register
1 and four for the register 2, which reaches beyond the range. -/
theorem wideRTU_read (rt : Runtime) :
    wideRTU.readHandler rt wideMemory 3 [0, 1, 0, 2]
      = Reply.returned [6, 0, 0, 0, 0, 0, 0] Exception.Success := by
  have ht : Float64.zero.truncate = some 0 := Float64.truncate_zero false
  have ha : (NewRegister (wideRTU.typeOf "a")).Bytes rt (Any.float64 Float64.zero)
      (wideRTU.scalingOf 1) = some [0, 0] := by
    have e : wideRTU.typeOf "a" = "bitfield16" := by decide
    rw [e]
    simp [Register.Bytes, NewRegister, Runtime.toUint, ht, bigEndian]
  have hb : (NewRegister (wideRTU.typeOf "b")).Bytes rt (Any.float64 Float64.zero)
      (wideRTU.scalingOf 2) = some [0, 0, 0, 0] := by
    have e : wideRTU.typeOf "b" = "bitfield32" := by decide
    rw [e]
    simp [Register.Bytes, NewRegister, Runtime.toUint, ht, bigEndian]
  have la : (NewRegister (wideRTU.typeOf "a")).Length = 1 := by decide
  have lb : (NewRegister (wideRTU.typeOf "b")).Length = 2 := by decide
  unfold readHandler
  rw [if_neg (by decide)]
  have e1 : requestStart [0, 1, 0, 2] = 1 := by decide
  have e2 : requestCount [0, 1, 0, 2] = 2 := by decide
  rw [e1, e2,
    readLoop_step rt wideRTU wideMemory 3 2 1 0 [] "a" (Any.float64 Float64.zero) [0, 0]
      (by decide) (by decide) (by decide) ha, la,
    readLoop_step rt wideRTU wideMemory 3 1 2 _ _ "b" (Any.float64 Float64.zero) [0, 0, 0, 0]
      (by decide) (by decide) (by decide) hb, lb,
    readLoop_done rt wideRTU wideMemory 3 0 _ _ _ (by decide)]
  rfl

/-- Witness of C36 on `wideRTU`: the read of the registers 1 and 2 visits the
register 1 of type `bitfield16` and the register 2 of type `bitfield32`, which
reaches beyond the range, and the payload has 6 bytes for the count 2. -/
theorem read_response_size_witness :
    (wideRTU.readHandler sampleRuntime wideMemory 3 [0, 1, 0, 2]
        = Reply.returned [6, 0, 0, 0, 0, 0, 0] Exception.Success ∧
      requestCount [0, 1, 0, 2] = 2) ∧
    ∃ payload,
      [6, 0, 0, 0, 0, 0, 0] = (2 * wideRTU.lengthSum (wideRTU.readVisits sampleRuntime wideMemory
          (requestStart [0, 1, 0, 2] + requestCount [0, 1, 0, 2]) 3
          (requestStart [0, 1, 0, 2])) % 256) :: payload ∧
      payload.length = 2 * wideRTU.lengthSum (wideRTU.readVisits sampleRuntime wideMemory
        (requestStart [0, 1, 0, 2] + requestCount [0, 1, 0, 2]) 3 (requestStart [0, 1, 0, 2])) ∧
      2 * requestCount [0, 1, 0, 2] ≤ payload.length :=
  ⟨⟨wideRTU_read sampleRuntime, by decide⟩,
    (read_response_size sampleRuntime wideRTU wideMemory 3 [0, 1, 0, 2] _
      (wideRTU_read sampleRuntime)).imp fun _ hp => ⟨hp.1, hp.2.1, hp.2.2.1⟩⟩

end SunSpecRTU

/-! ## Decodable types and the round trip of bytes -/

/-- The error of `binary.Read` is non-nil exactly when the reader holds fewer
bytes than the value has. -/
theorem readError_ne_none (size : Nat) (d : List Nat) (hs : 0 < size) :
    readError size d ≠ none ↔ d.length < size := by
  unfold readError
  by_cases h0 : d.length = 0
  · rw [if_pos h0]; simp; omega
  · rw [if_neg h0]
    by_cases h1 : d.length < size
    · rw [if_pos h1]; simp [h1]
    · rw [if_neg h1]; simp [h1]

/-- Bytes are the big-endian bytes of the integer they encode. -/
theorem bigEndian_fromBigEndian (d : List Nat) (hb : ∀ b ∈ d, b < 256) :
    bigEndian d.length (fromBigEndian d) = d := by
  induction d using List.reverseRecOn with
  | nil => rfl
  | append_singleton l b ih =>
    have hb1 : b < 256 := hb b (by simp)
    rw [List.length_append, List.length_singleton, fromBigEndian_append, bigEndian,
      show (fromBigEndian l * 256 + b) / 256 = fromBigEndian l by omega,
      show (fromBigEndian l * 256 + b) % 256 = b by omega,
      ih (fun c hc => hb c (List.mem_append_left _ hc))]

/-- The integer that bytes encode is below 256 to the number of bytes. -/
theorem fromBigEndian_lt (d : List Nat) (hb : ∀ b ∈ d, b < 256) :
    fromBigEndian d < 256 ^ d.length := by
  have h := fromBigEndian_bigEndian d.length (fromBigEndian d)
  rw [bigEndian_fromBigEndian d hb] at h
  rw [h]
  exact Nat.mod_lt _ (Nat.pos_pow_of_pos _ (by norm_num))

namespace Register

/-- The error of `Value` for the twelve types of its switch is the error of
`binary.Read` for the width of the type. -/
theorem Value_error_decodable (rt : Runtime) (ty : String) (d : List Nat) (s : Int)
    (h : ty ∈ ["acc16", "uint16", "acc32", "uint32", "acc64", "bitfield16", "enum16",
      "bitfield32", "enum32", "float32", "int16", "int32"]) :
    (Value rt (NewRegister ty) d s).2 = readError (2 * (NewRegister ty).Length) d ∧
    0 < (NewRegister ty).Length := by
  simp only [List.mem_cons, List.mem_singleton, List.not_mem_nil, or_false] at h
  rcases h with rfl | rfl | rfl | rfl | rfl | rfl | rfl | rfl | rfl | rfl | rfl | rfl <;>
    refine ⟨?_, by decide⟩ <;>
    simp only [Value, NewRegister, Length] <;>
    simp <;>
    cases readError _ d <;> rfl

/-- The method `Value` returns an error exactly for the types outside its
switch and for too few bytes. -/
theorem Value_error_iff (rt : Runtime) (ty : String) (d : List Nat) (s : Int) :
    (Value rt (NewRegister ty) d s).2 ≠ none ↔
      (ty = "sunssf" ∨ ty = "string8" ∨ ty = "string16" ∨
        ty ∉ ["acc16", "acc32", "acc64", "bitfield16", "bitfield32", "enum16", "enum32",
          "float32", "int16", "int32", "string8", "string16", "sunssf", "uint16", "uint32"] ∨
        d.length < 2 * (NewRegister ty).Length) := by
  by_cases hin : ty ∈ ["acc16", "uint16", "acc32", "uint32", "acc64", "bitfield16", "enum16",
      "bitfield32", "enum32", "float32", "int16", "int32"]
  · obtain ⟨e, hpos⟩ := Value_error_decodable rt ty d s hin
    rw [e, readError_ne_none _ _ (by omega)]
    simp only [List.mem_cons, List.mem_singleton, List.not_mem_nil, or_false] at hin
    constructor
    · intro h
      exact Or.inr (Or.inr (Or.inr (Or.inr h)))
    · rintro (h | h | h | h | h)
      · subst h; simp at hin
      · subst h; simp at hin
      · subst h; simp at hin
      · exfalso
        apply h
        simp only [List.mem_cons, List.mem_singleton, List.not_mem_nil, or_false]
        rcases hin with h | h | h | h | h | h | h | h | h | h | h | h <;> simp [h]
      · exact h
  · have herr : (Value rt (NewRegister ty) d s).2 ≠ none := by
      simp only [List.mem_cons, List.mem_singleton, List.not_mem_nil, or_false, not_or] at hin
      obtain ⟨h1, h2, h3, h4, h5, h6, h7, h8, h9, h10, h11, h12⟩ := hin
      simp [Value, NewRegister, h1, h2, h3, h4, h5, h6, h7, h8, h9, h10, h11, h12]
    refine ⟨fun _ => ?_, fun _ => herr⟩
    by_cases a : ty = "sunssf"
    · exact Or.inl a
    · by_cases b : ty = "string8"
      · exact Or.inr (Or.inl b)
      · by_cases c : ty = "string16"
        · exact Or.inr (Or.inr (Or.inl c))
        · refine Or.inr (Or.inr (Or.inr (Or.inl ?_)))
          simp only [List.mem_cons, List.mem_singleton, List.not_mem_nil, or_false,
            not_or] at hin ⊢
          obtain ⟨h1, h2, h3, h4, h5, h6, h7, h8, h9, h10, h11, h12⟩ := hin
          exact ⟨h1, h3, h5, h6, h8, h7, h9, h10, h11, h12, b, c, a, h2, h4⟩

end Register

namespace SunSpecRTU

/-- Counterexample to C37 as stated: the write request for the register 1 of
`scaleFactorRTU`, of type `sunssf`, that carries one byte of payload visits
the register and is not answered with `SlaveDeviceFailure`: the slice
expression `data[5:7]` panics before `Value` is called. -/
theorem sunssf_write_short_payload :
    scaleFactorRTU.registers.get ((1 : Nat) : Int) = some "sf" ∧
    scaleFactorRTU.typeOf "sf" = "sunssf" ∧
    requestStart [0, 1, 0, 1, 2, 0] = 1 ∧ requestCount [0, 1, 0, 1, 2, 0] = 1 ∧
    ∀ (rt : Runtime) (fuel : Nat),
      scaleFactorRTU.writeHandler rt scaleFactorMemory (fuel + 1) [0, 1, 0, 1, 2, 0]
        = (scaleFactorMemory, Reply.crashed) := by
  refine ⟨by decide, by decide, by decide, by decide, ?_⟩
  intro rt fuel
  unfold writeHandler
  rw [if_neg (by decide)]
  have e1 : requestStart [0, 1, 0, 1, 2, 0] = 1 := by decide
  have e2 : requestCount [0, 1, 0, 1, 2, 0] = 1 := by decide
  rw [e1, e2]
  exact writeLoop_short rt scaleFactorRTU _ 2 fuel scaleFactorMemory 1 5 "sf" (by decide)
    (by decide) (by decide)

/-- Claim C37, amended.  Decodable types: for every byte slice `d` and scaling
`s`, `Value(d, s)` returns an error if and only if the register type is
`sunssf`, `string8`, `string16` or a string outside the register length
table, or `d` holds fewer bytes than the width of the type; consequently
every write request that visits a register of type `sunssf`, `string8` or
`string16` whose bytes the request data holds is answered with no bytes and
`SlaveDeviceFailure`, the memory being the one after the registers visited
before. -/
theorem decodable_types (rt : Runtime) (this : SunSpecRTU) (m0 : Memory) (data : List Nat)
    (hlen : 4 ≤ data.length) :
    (∀ (ty : String) (d : List Nat) (s : Int),
      (Register.Value rt (NewRegister ty) d s).2 ≠ none ↔
        (ty = "sunssf" ∨ ty = "string8" ∨ ty = "string16" ∨
          ty ∉ ["acc16", "acc32", "acc64", "bitfield16", "bitfield32", "enum16", "enum32",
            "float32", "int16", "int32", "string8", "string16", "sunssf", "uint16",
            "uint32"] ∨
          d.length < 2 * (NewRegister ty).Length)) ∧
    (∀ (n : Nat) (m : Memory) (i b : Nat) (tag : String),
      WriteReaches rt this data m0 (requestStart data)
        (requestStart data + requestCount data) n m i b →
      i < requestStart data + requestCount data →
      this.registers.get (i : Int) = some tag →
      this.typeOf tag = "sunssf" ∨ this.typeOf tag = "string8" ∨ this.typeOf tag = "string16" →
      b + (NewRegister (this.typeOf tag)).Length * 2 ≤ data.length →
      ∀ fuel, this.writeHandler rt m0 (n + (fuel + 1)) data
        = (m, Reply.returned [] Exception.SlaveDeviceFailure)) := by
  refine ⟨Register.Value_error_iff rt, ?_⟩
  intro n m i b tag hreach hi hreg hty hl fuel
  rw [writeHandler_reaches rt this m0 data hlen hreach (fuel + 1),
    writeLoop_no_decode rt this data _ fuel m i b tag hi hreg hl
      ((Register.Value_error_iff rt _ _ _).2
        (hty.elim Or.inl (fun h => Or.inr (h.elim Or.inl (fun h => Or.inr (Or.inl h))))))]

/-- Witness of the amended C37 on `scaleFactorRTU`: the write of the register
1, of type `sunssf`, with its two bytes of payload is answered with
`SlaveDeviceFailure`. -/
theorem decodable_types_witness :
    (4 ≤ [0, 1, 0, 1, 2, 0, 0].length ∧
      scaleFactorRTU.registers.get ((1 : Nat) : Int) = some "sf" ∧
      scaleFactorRTU.typeOf "sf" = "sunssf") ∧
    scaleFactorRTU.writeHandler sampleRuntime scaleFactorMemory (0 + (0 + 1))
        [0, 1, 0, 1, 2, 0, 0]
      = (scaleFactorMemory, Reply.returned [] Exception.SlaveDeviceFailure) :=
  ⟨⟨by decide, by decide, by decide⟩,
    (decodable_types sampleRuntime scaleFactorRTU scaleFactorMemory [0, 1, 0, 1, 2, 0, 0]
      (by decide)).2 0 scaleFactorMemory 1 5 "sf" WriteReaches.first (by decide) (by decide)
      (Or.inl (by decide)) (by decide) 0⟩

end SunSpecRTU

namespace Register

/-- The round trip of the bytes of an unsigned type that is scaled, at the
scaling 0. -/
theorem unsigned_bytes_round_trip (rt : Runtime) (hp : rt.PowZero) (ty : String) (w : Nat)
    (d : List Nat) (hw0 : 0 < w) (hw : 8 * w ≤ 53) (hb : ∀ b ∈ d, b < 256)
    (hlen : d.length = w)
    (hB : ∀ f, Bytes rt (NewRegister ty) (Any.float64 f) 0
      = some (bigEndian w (rt.toUint (8 * w) (scaleDown rt f 0))))
    (hV : ∀ d, readError w d = none → Value rt (NewRegister ty) d 0
      = (scaleUp rt (Float64.ofNat (fromBigEndian (d.take w))) 0, none)) :
    Value rt (NewRegister ty) d 0 = (Float64.ofNat (fromBigEndian d), none) ∧
    Bytes rt (NewRegister ty) (Any.float64 (Float64.ofNat (fromBigEndian d))) 0 = some d := by
  have hlt : fromBigEndian d < 2 ^ (8 * w) := by
    have := fromBigEndian_lt d hb
    rw [hlen] at this
    rwa [show (256 : Nat) = 2 ^ 8 by norm_num, ← pow_mul] at this
  have hd : bigEndian w (fromBigEndian d) = d := by
    rw [← hlen]; exact bigEndian_fromBigEndian d hb
  obtain ⟨r1, r2⟩ := unsigned_round_trip rt hp ty w (fromBigEndian d) hw0 hw hlt hB hV
  rw [hd] at r1 r2
  exact ⟨r2, r1⟩

/-- The round trip of the bytes of an unsigned type that is not scaled. -/
theorem plain_bytes_round_trip (rt : Runtime) (ty : String) (w : Nat) (d : List Nat) (s : Int)
    (hw0 : 0 < w) (hw : 8 * w ≤ 53) (hb : ∀ b ∈ d, b < 256) (hlen : d.length = w)
    (hB : ∀ f, Bytes rt (NewRegister ty) (Any.float64 f) s
      = some (bigEndian w (rt.toUint (8 * w) f)))
    (hV : ∀ d, readError w d = none → Value rt (NewRegister ty) d s
      = (Float64.ofNat (fromBigEndian (d.take w)), none)) :
    Value rt (NewRegister ty) d s = (Float64.ofNat (fromBigEndian d), none) ∧
    Bytes rt (NewRegister ty) (Any.float64 (Float64.ofNat (fromBigEndian d))) s = some d := by
  have hlt : fromBigEndian d < 2 ^ (8 * w) := by
    have := fromBigEndian_lt d hb
    rw [hlen] at this
    rwa [show (256 : Nat) = 2 ^ 8 by norm_num, ← pow_mul] at this
  have hd : bigEndian w (fromBigEndian d) = d := by
    rw [← hlen]; exact bigEndian_fromBigEndian d hb
  have hre : readError w d = none := by
    by_contra hc
    have := (readError_ne_none w d hw0).1 hc
    omega
  refine ⟨?_, ?_⟩
  · rw [hV d hre, List.take_of_length_le (by omega)]
  · rw [hB, rt.toUint_ofNat hw hlt, hd]

/-- The round trip of the bytes of a signed type, at the scaling 0. -/
theorem signed_bytes_round_trip (rt : Runtime) (hp : rt.PowZero) (ty : String) (w : Nat)
    (d : List Nat) (hw0 : 0 < w) (hw : 8 * w ≤ 53) (hb : ∀ b ∈ d, b < 256)
    (hlen : d.length = w)
    (hS : ∀ k, k < 256 ^ w →
      -(2 ^ (8 * w - 1) : Int) ≤ toSigned (8 * w) k ∧ toSigned (8 * w) k < 2 ^ (8 * w - 1) ∧
      (toSigned (8 * w) k % 2 ^ (8 * w)).toNat = k ∧ (toSigned (8 * w) k = 0 ↔ k = 0) ∧
      (toSigned (8 * w) k).natAbs < 2 ^ 53)
    (hB : ∀ f, Bytes rt (NewRegister ty) (Any.float64 f) 0
      = some (bigEndian w (rt.toIntBits (8 * w) (scaleDown rt f 0))))
    (hV : ∀ d, readError w d = none → Value rt (NewRegister ty) d 0
      = (scaleUp rt (Float64.ofInt (toSigned (8 * w) (fromBigEndian (d.take w)))) 0, none)) :
    Value rt (NewRegister ty) d 0
      = (Float64.ofInt (toSigned (8 * w) (fromBigEndian d)), none) ∧
    (Float64.ofInt (toSigned (8 * w) (fromBigEndian d))).truncate
      = some (toSigned (8 * w) (fromBigEndian d)) ∧
    Bytes rt (NewRegister ty)
      (Any.float64 (Float64.ofInt (toSigned (8 * w) (fromBigEndian d)))) 0 = some d := by
  have hlt : fromBigEndian d < 256 ^ w := by
    have := fromBigEndian_lt d hb
    rwa [hlen] at this
  have hd : bigEndian w (fromBigEndian d) = d := by
    rw [← hlen]; exact bigEndian_fromBigEndian d hb
  obtain ⟨s1, s2, s3, _, s5⟩ := hS (fromBigEndian d) hlt
  have hS2 : toSigned (8 * w)
      ((toSigned (8 * w) (fromBigEndian d) % 2 ^ (8 * w)).toNat % 256 ^ w)
      = toSigned (8 * w) (fromBigEndian d) := by
    rw [s3, Nat.mod_eq_of_lt hlt]
  obtain ⟨r1, r2⟩ := signed_round_trip rt hp ty w (toSigned (8 * w) (fromBigEndian d)) hw0 hw
    s1 s2 hS2 hB hV
  rw [s3, hd] at r1 r2
  exact ⟨r2, Float64.truncate_ofInt s5, r1⟩

/-- Claim C38.  Byte-level codec round trip at scaling 0: with `Pow(x, ±0) =
1`, for every type among `uint16`, `acc16`, `bitfield16`, `enum16`, `uint32`,
`acc32`, `bitfield32`, `enum32`, `int16` and `int32`, and every slice `d` of
exactly `2·Length` bytes, `Value(d, 0)` returns without error the `float64`
of the integer that `d` encodes in big-endian order, in two's complement for
`int16` and `int32`, the conversion of which back to an integer is that
integer, and `Bytes(Value(d, 0), 0)` is `d`. -/
theorem byte_round_trip (rt : Runtime) (hp : rt.PowZero) (ty : String) (d : List Nat)
    (hb : ∀ b ∈ d, b < 256) (hlen : d.length = 2 * (NewRegister ty).Length) :
    (ty ∈ ["uint16", "acc16", "bitfield16", "enum16", "uint32", "acc32", "bitfield32",
        "enum32"] →
      Value rt (NewRegister ty) d 0 = (Float64.ofNat (fromBigEndian d), none) ∧
      (Float64.ofNat (fromBigEndian d)).truncate = some (fromBigEndian d : Int) ∧
      Bytes rt (NewRegister ty) (Any.float64 (Float64.ofNat (fromBigEndian d))) 0 = some d) ∧
    (ty = "int16" →
      Value rt (NewRegister ty) d 0
        = (Float64.ofInt (toSigned 16 (fromBigEndian d)), none) ∧
      (Float64.ofInt (toSigned 16 (fromBigEndian d))).truncate
        = some (toSigned 16 (fromBigEndian d)) ∧
      Bytes rt (NewRegister ty)
        (Any.float64 (Float64.ofInt (toSigned 16 (fromBigEndian d)))) 0 = some d) ∧
    (ty = "int32" →
      Value rt (NewRegister ty) d 0
        = (Float64.ofInt (toSigned 32 (fromBigEndian d)), none) ∧
      (Float64.ofInt (toSigned 32 (fromBigEndian d))).truncate
        = some (toSigned 32 (fromBigEndian d)) ∧
      Bytes rt (NewRegister ty)
        (Any.float64 (Float64.ofInt (toSigned 32 (fromBigEndian d)))) 0 = some d) := by
  have htr : ∀ w, d.length = w → 8 * w ≤ 53 →
      (Float64.ofNat (fromBigEndian d)).truncate = some (fromBigEndian d : Int) := by
    intro w hl hw
    apply Float64.truncate_ofNat
    have := fromBigEndian_lt d hb
    rw [hl, show (256 : Nat) = 2 ^ 8 by norm_num, ← pow_mul] at this
    exact lt_of_lt_of_le this (Nat.pow_le_pow_right (by norm_num) hw)
  refine ⟨?_, ?_, ?_⟩
  · intro hin
    simp only [List.mem_cons, List.mem_singleton, List.not_mem_nil, or_false] at hin
    rcases hin with rfl | rfl | rfl | rfl | rfl | rfl | rfl | rfl
    · have hl : d.length = 2 := by rw [hlen]; decide
      obtain ⟨r1, r2⟩ := unsigned_bytes_round_trip rt hp "uint16" 2 d (by decide) (by decide) hb hl
        (fun f => by simp [Bytes, NewRegister]) (fun d hd => by simp [Value, NewRegister, hd])
      exact ⟨r1, htr 2 hl (by decide), r2⟩
    · have hl : d.length = 2 := by rw [hlen]; decide
      obtain ⟨r1, r2⟩ := unsigned_bytes_round_trip rt hp "acc16" 2 d (by decide) (by decide) hb hl
        (fun f => by simp [Bytes, NewRegister]) (fun d hd => by simp [Value, NewRegister, hd])
      exact ⟨r1, htr 2 hl (by decide), r2⟩
    · have hl : d.length = 2 := by rw [hlen]; decide
      obtain ⟨r1, r2⟩ := plain_bytes_round_trip rt "bitfield16" 2 d 0 (by decide) (by decide) hb hl
        (fun f => by simp [Bytes, NewRegister]) (fun d hd => by simp [Value, NewRegister, hd])
      exact ⟨r1, htr 2 hl (by decide), r2⟩
    · have hl : d.length = 2 := by rw [hlen]; decide
      obtain ⟨r1, r2⟩ := plain_bytes_round_trip rt "enum16" 2 d 0 (by decide) (by decide) hb hl
        (fun f => by simp [Bytes, NewRegister]) (fun d hd => by simp [Value, NewRegister, hd])
      exact ⟨r1, htr 2 hl (by decide), r2⟩
    · have hl : d.length = 4 := by rw [hlen]; decide
      obtain ⟨r1, r2⟩ := unsigned_bytes_round_trip rt hp "uint32" 4 d (by decide) (by decide) hb hl
        (fun f => by simp [Bytes, NewRegister]) (fun d hd => by simp [Value, NewRegister, hd])
      exact ⟨r1, htr 4 hl (by decide), r2⟩
    · have hl : d.length = 4 := by rw [hlen]; decide
      obtain ⟨r1, r2⟩ := unsigned_bytes_round_trip rt hp "acc32" 4 d (by decide) (by decide) hb hl
        (fun f => by simp [Bytes, NewRegister]) (fun d hd => by simp [Value, NewRegister, hd])
      exact ⟨r1, htr 4 hl (by decide), r2⟩
    · have hl : d.length = 4 := by rw [hlen]; decide
      obtain ⟨r1, r2⟩ := plain_bytes_round_trip rt "bitfield32" 4 d 0 (by decide) (by decide) hb hl
        (fun f => by simp [Bytes, NewRegister]) (fun d hd => by simp [Value, NewRegister, hd])
      exact ⟨r1, htr 4 hl (by decide), r2⟩
    · have hl : d.length = 4 := by rw [hlen]; decide
      obtain ⟨r1, r2⟩ := plain_bytes_round_trip rt "enum32" 4 d 0 (by decide) (by decide) hb hl
        (fun f => by simp [Bytes, NewRegister]) (fun d hd => by simp [Value, NewRegister, hd])
      exact ⟨r1, htr 4 hl (by decide), r2⟩
  · rintro rfl
    have hl : d.length = 2 := by rw [hlen]; decide
    exact signed_bytes_round_trip rt hp "int16" 2 d (by decide) (by decide) hb hl
      (fun k hk => toSigned_16 (by simpa using hk))
      (fun f => by simp [Bytes, NewRegister]) (fun d hd => by simp [Value, NewRegister, hd])
  · rintro rfl
    have hl : d.length = 4 := by rw [hlen]; decide
    exact signed_bytes_round_trip rt hp "int32" 4 d (by decide) (by decide) hb hl
      (fun k hk => toSigned_32 (by simpa using hk))
      (fun f => by simp [Bytes, NewRegister]) (fun d hd => by simp [Value, NewRegister, hd])

/-- Witness of C38 on the bytes `0xff 0xfe` as `int16`: they encode -2. -/
theorem byte_round_trip_witness :
    (sampleRuntime.PowZero ∧ (∀ b ∈ [0xff, 0xfe], b < 256) ∧
      [0xff, 0xfe].length = 2 * (NewRegister "int16").Length ∧
      toSigned 16 (fromBigEndian [0xff, 0xfe]) = -2) ∧
    Value sampleRuntime (NewRegister "int16") [0xff, 0xfe] 0
      = (Float64.ofInt (toSigned 16 (fromBigEndian [0xff, 0xfe])), none) ∧
    Bytes sampleRuntime (NewRegister "int16")
      (Any.float64 (Float64.ofInt (toSigned 16 (fromBigEndian [0xff, 0xfe])))) 0
      = some [0xff, 0xfe] :=
  have key := (byte_round_trip sampleRuntime SunSpecRTU.sampleRuntime_powZero "int16"
    [0xff, 0xfe] (by decide) (by decide)).2.1 rfl
  ⟨⟨SunSpecRTU.sampleRuntime_powZero, by decide, by decide, by decide⟩, key.1, key.2.2⟩

end Register

/-! ## Classification of points -/

/-- The two parts of a point `name:value` with one colon. -/
theorem Split_point (name value : String) (hn : ':' ∉ name.data) (hv : ':' ∉ value.data) :
    Split (name ++ ":" ++ value) ':' = [name, value] := by
  unfold Split
  have hd : (name ++ ":" ++ value).data = name.data ++ ':' :: value.data := by
    simp [String.data_append]
  rw [hd, splitChar_append ':' _ _ (fun c hc e => hn (e ▸ hc)),
    splitChar_none ':' _ (fun c hc e => hv (e ▸ hc))]
  rfl

/-- A point with two colons or more has three parts or more. -/
theorem Split_point_colon (name value : String) (hv : ':' ∈ value.data) :
    3 ≤ (Split (name ++ ":" ++ value) ':').length := by
  unfold Split
  have hd : (name ++ ":" ++ value).data = name.data ++ ':' :: value.data := by
    simp [String.data_append]
  rw [List.length_map, length_splitChar, hd, List.count_append, List.count_cons_self]
  have := List.count_pos_iff.2 hv
  omega

/-- Claim C29, amended.  Point classification on the subscribe wire: for every
name without a colon, `NewPointDataFromPoint` on `name:value` treats the
value as a boolean, setting `Status` and leaving `Value` 0, exactly when the
value text is one of the twelve texts `strconv.ParseBool` accepts: 1, t, T,
TRUE, true, True give the status true and 0, f, F, FALSE, false, False the
status false.  For every other value text without a colon, a text that
`strconv.ParseFloat` accepts gives the point with that name, `Value` the
number and `Status` false, and a text it rejects gives the error `invalid
point value`; a value text with a colon gives the error `invalid point
string`. -/
theorem point_classification (ParseFloat : String → Float64 × Option String)
    (name value : String) (hn : ':' ∉ name.data) :
    (value ∈ ["1", "t", "T", "TRUE", "true", "True"] →
      NewPointDataFromPoint ParseFloat (name ++ ":" ++ value)
        = ({ Name := name, Status := true, Value := Float64.zero }, none)) ∧
    (value ∈ ["0", "f", "F", "FALSE", "false", "False"] →
      NewPointDataFromPoint ParseFloat (name ++ ":" ++ value)
        = ({ Name := name, Status := false, Value := Float64.zero }, none)) ∧
    (':' ∉ value.data →
      value ∉ ["1", "t", "T", "TRUE", "true", "True", "0", "f", "F", "FALSE", "false",
        "False"] →
      (∀ x, ParseFloat value = (x, none) →
        NewPointDataFromPoint ParseFloat (name ++ ":" ++ value)
          = ({ Name := name, Status := false, Value := x }, none)) ∧
      (∀ x e, ParseFloat value = (x, some e) →
        NewPointDataFromPoint ParseFloat (name ++ ":" ++ value)
          = ({ Name := "", Status := false, Value := Float64.zero },
              some "invalid point value"))) ∧
    (':' ∈ value.data →
      NewPointDataFromPoint ParseFloat (name ++ ":" ++ value)
        = ({ Name := "", Status := false, Value := Float64.zero },
            some "invalid point string")) := by
  refine ⟨?_, ?_, ?_, ?_⟩
  · intro hv
    have hc : ':' ∉ value.data := by
      simp only [List.mem_cons, List.mem_singleton, List.not_mem_nil, or_false] at hv
      rcases hv with e | e | e | e | e | e <;> rw [e] <;> decide
    have hb : ParseBool value = (true, none) := by
      simp only [List.mem_cons, List.mem_singleton, List.not_mem_nil, or_false] at hv
      rcases hv with e | e | e | e | e | e <;> rw [e] <;> decide
    unfold NewPointDataFromPoint
    rw [Split_point name value hn hc]
    simp only [hb]
  · intro hv
    have hc : ':' ∉ value.data := by
      simp only [List.mem_cons, List.mem_singleton, List.not_mem_nil, or_false] at hv
      rcases hv with e | e | e | e | e | e <;> rw [e] <;> decide
    have hb : ParseBool value = (false, none) := by
      simp only [List.mem_cons, List.mem_singleton, List.not_mem_nil, or_false] at hv
      rcases hv with e | e | e | e | e | e <;> rw [e] <;> decide
    unfold NewPointDataFromPoint
    rw [Split_point name value hn hc]
    simp only [hb]
  · intro hc hv
    have hb : ParseBool value
        = (false, some ("strconv.ParseBool: parsing " ++ value ++ ": invalid syntax")) := by
      simp only [List.mem_cons, List.mem_singleton, List.not_mem_nil, or_false, not_or] at hv
      unfold ParseBool
      rw [if_neg (by tauto), if_neg (by tauto)]
    refine ⟨?_, ?_⟩
    · intro x hx
      unfold NewPointDataFromPoint
      rw [Split_point name value hn hc]
      simp only [hb, hx]
    · intro x e hx
      unfold NewPointDataFromPoint
      rw [Split_point name value hn hc]
      simp only [hb, hx]
  · intro hc
    have hl := Split_point_colon name value hc
    unfold NewPointDataFromPoint
    rcases hs : Split (name ++ ":" ++ value) ':' with _ | ⟨a, _ | ⟨b, _ | ⟨c, t⟩⟩⟩
    · rfl
    · rfl
    · rw [hs] at hl
      simp at hl
    · rfl

/-- Witness of the amended C29 on the point `A:2` with a `ParseFloat` that
accepts the text `2`: the point has the name `A`, the value 2 and the status
false. -/
theorem point_classification_witness :
    (':' ∉ "A".data ∧ ':' ∉ "2".data ∧
      "2" ∉ ["1", "t", "T", "TRUE", "true", "True", "0", "f", "F", "FALSE", "false",
        "False"] ∧
      parseTwo "2" = (Float64.two, none) ∧ "A" ++ ":" ++ "2" = "A:2") ∧
    NewPointDataFromPoint parseTwo ("A" ++ ":" ++ "2")
      = ({ Name := "A", Status := false, Value := Float64.two }, none) :=
  ⟨⟨by decide, by decide, by decide, by decide, by decide⟩,
    ((point_classification parseTwo "A" "2" (by decide)).2.2.1 (by decide) (by decide)).1
      Float64.two (by decide)⟩

/-! ## The conversion to `float32` and back -/

namespace Float64

theorem roundShift_le (M k : Nat) : roundShift M k ≤ M / 2 ^ k + 1 := by
  unfold roundShift
  split <;> omega

/-- The scale of a rounded value is at least the smallest scale and at least
the scale that leaves `p` digits. -/
theorem roundScale_ge (p : Nat) (emin : Int) (M : Nat) (E : Int) :
    emin ≤ roundScale p emin M E ∧ E + bitLen M - p ≤ roundScale p emin M E := by
  unfold roundScale
  exact ⟨le_max_right _ _, le_max_left _ _⟩

/-- The significand of a value rounded to 24 digits is at most `2^24`. -/
theorem roundSignificand_le (M : Nat) (h0 : M ≠ 0) (hM : M < 2 ^ 128) (E : Int) :
    roundSignificand 24 (-149) M E ≤ 2 ^ 24 := by
  obtain ⟨b1, b2, b3⟩ := bitLen_bounds h0 hM
  obtain ⟨s1, s2⟩ := roundScale_ge 24 (-149) M E
  unfold roundSignificand
  by_cases h : roundScale 24 (-149) M E ≤ E
  · rw [if_pos h]
    have hk : bitLen M + (E - roundScale 24 (-149) M E).toNat ≤ 24 := by omega
    calc M * 2 ^ (E - roundScale 24 (-149) M E).toNat
        ≤ 2 ^ bitLen M * 2 ^ (E - roundScale 24 (-149) M E).toNat :=
          Nat.mul_le_mul_right _ (le_of_lt b3)
      _ = 2 ^ (bitLen M + (E - roundScale 24 (-149) M E).toNat) := by rw [pow_add]
      _ ≤ 2 ^ 24 := Nat.pow_le_pow_right (by norm_num) hk
  · rw [if_neg h]
    have hk : bitLen M ≤ 24 + (roundScale 24 (-149) M E - E).toNat := by omega
    have h1 : M < 2 ^ 24 * 2 ^ (roundScale 24 (-149) M E - E).toNat := by
      rw [← pow_add]
      exact lt_of_lt_of_le b3 (Nat.pow_le_pow_right (by norm_num) hk)
    have h2 : M / 2 ^ (roundScale 24 (-149) M E - E).toNat < 2 ^ 24 := by
      rw [Nat.div_lt_iff_lt_mul (Nat.two_pow_pos _)]
      exact h1
    have := roundShift_le M (roundScale 24 (-149) M E - E).toNat
    omega

/-- The fields of a `float32`: an exponent field of 8 bits, a fraction field
of 23 bits, and no fraction with the exponent field of all ones. -/
theorem roundFields_bounds (M : Nat) (hM : M < 2 ^ 128) (E : Int) :
    (roundFields 24 (-149) 255 M E).1 ≤ 255 ∧ (roundFields 24 (-149) 255 M E).2 < 8388608 ∧
    ((roundFields 24 (-149) 255 M E).1 = 255 → (roundFields 24 (-149) 255 M E).2 = 0) := by
  by_cases h0 : M = 0
  · subst h0
    simp [roundFields]
  have hs := roundSignificand_le M h0 hM E
  obtain ⟨s1, -⟩ := roundScale_ge 24 (-149) M E
  unfold roundFields
  rw [if_neg h0]
  have e23 : (2 : Nat) ^ (24 - 1) = 8388608 := by norm_num
  have e24 : (2 : Nat) ^ 24 = 16777216 := by norm_num
  rw [e24] at hs
  rw [e23, e24]
  split_ifs with h1 h2 h3 h4
  · exact ⟨Nat.zero_le _, h1, fun h => h.elim⟩
  · exact ⟨le_refl _, by norm_num, fun _ => rfl⟩
  · refine ⟨?_, ?_, fun _ => rfl⟩
    · show (roundScale 24 (-149) M E - -149 + 2).toNat ≤ 255
      omega
    · show (0 : Nat) < 8388608
      omega
  · exact ⟨le_refl _, by norm_num, fun _ => rfl⟩
  · refine ⟨?_, ?_, ?_⟩
    · show (roundScale 24 (-149) M E - -149 + 1).toNat ≤ 255
      omega
    · show roundSignificand 24 (-149) M E - 8388608 < 8388608
      omega
    · intro h
      have h5 : (roundScale 24 (-149) M E - -149 + 1).toNat = 255 := h
      omega

/-- The significand of a `float64` is below `2^53`. -/
theorem significand_lt (x : Float64) : x.significand < 9007199254740992 := by
  have hf : x.fraction.val < 4503599627370496 := x.fraction.isLt
  unfold significand
  split <;> omega

/-- The fields of the `float64` equal to a normal `float32`. -/
theorem roundFields_widen {e fr : Nat} (he1 : 1 ≤ e) (he2 : e ≤ 254) (hfr : fr < 8388608) :
    roundFields 53 (-1074) 2047 (8388608 + fr) ((e : Int) - 150)
      = (e + 896, fr * 536870912) := by
  have hlo : 2 ^ 23 ≤ 8388608 + fr := by
    have : (2 : Nat) ^ 23 = 8388608 := by norm_num
    omega
  have hhi : 8388608 + fr < 2 ^ (23 + 1) := by
    have : (2 : Nat) ^ (23 + 1) = 16777216 := by norm_num
    omega
  have hL : bitLen (8388608 + fr) = 24 := bitLen_eq hlo hhi (by norm_num)
  have hs : roundScale 53 (-1074) (8388608 + fr) ((e : Int) - 150) = (e : Int) - 179 := by
    unfold roundScale
    rw [hL, max_eq_left (by omega)]
    omega
  have hm : roundSignificand 53 (-1074) (8388608 + fr) ((e : Int) - 150)
      = (8388608 + fr) * 536870912 := by
    unfold roundSignificand
    rw [hs, if_pos (by omega)]
    have h29 : ((e : Int) - 150 - ((e : Int) - 179)).toNat = 29 := by omega
    have p29 : (2 : Nat) ^ 29 = 536870912 := by norm_num
    rw [h29, p29]
  have e52 : (2 : Nat) ^ (53 - 1) = 4503599627370496 := by norm_num
  have e53 : (2 : Nat) ^ 53 = 9007199254740992 := by norm_num
  have a0 : ¬ 8388608 + fr = 0 := by omega
  have a1 : ¬ (8388608 + fr) * 536870912 < 4503599627370496 := by omega
  have a2 : ¬ (8388608 + fr) * 536870912 = 9007199254740992 := by omega
  have a3 : ¬ ((2047 : Nat) : Int) ≤ (e : Int) - 179 - -1074 + 1 := by omega
  have e1 : ((e : Int) - 179 - -1074 + 1).toNat = e + 896 := by omega
  have e2 : (8388608 + fr) * 536870912 - 4503599627370496 = fr * 536870912 := by omega
  unfold roundFields
  rw [if_neg a0, hm, hs, e52, e53, if_neg a1, if_neg a2, if_neg a3, e1, e2]

/-- The fields of the `float32` nearest to a `float64` that is a normal
`float32`. -/
theorem roundFields_narrow {e fr : Nat} (he1 : 1 ≤ e) (he2 : e ≤ 254) (hfr : fr < 8388608) :
    roundFields 24 (-149) 255 (4503599627370496 + fr * 536870912) ((e : Int) - 179)
      = (e, fr) := by
  have e0 : 4503599627370496 + fr * 536870912 = (8388608 + fr) * 2 ^ 29 := by
    have p29 : (2 : Nat) ^ 29 = 536870912 := by norm_num
    rw [p29]
    omega
  have hlo : 2 ^ 52 ≤ 4503599627370496 + fr * 536870912 := by
    have : (2 : Nat) ^ 52 = 4503599627370496 := by norm_num
    omega
  have hhi : 4503599627370496 + fr * 536870912 < 2 ^ (52 + 1) := by
    have : (2 : Nat) ^ (52 + 1) = 9007199254740992 := by norm_num
    omega
  have hL : bitLen (4503599627370496 + fr * 536870912) = 53 := bitLen_eq hlo hhi (by norm_num)
  have hs : roundScale 24 (-149) (4503599627370496 + fr * 536870912) ((e : Int) - 179)
      = (e : Int) - 150 := by
    unfold roundScale
    rw [hL, max_eq_left (by omega)]
    omega
  have hm : roundSignificand 24 (-149) (4503599627370496 + fr * 536870912) ((e : Int) - 179)
      = 8388608 + fr := by
    unfold roundSignificand
    rw [hs, if_neg (by omega)]
    have h29 : ((e : Int) - 150 - ((e : Int) - 179)).toNat = 29 := by omega
    rw [h29, e0]
    exact roundShift_exact _ _
  have e23 : (2 : Nat) ^ (24 - 1) = 8388608 := by norm_num
  have e24 : (2 : Nat) ^ 24 = 16777216 := by norm_num
  have a0 : ¬ 4503599627370496 + fr * 536870912 = 0 := by omega
  have a1 : ¬ 8388608 + fr < 8388608 := by omega
  have a2 : ¬ 8388608 + fr = 16777216 := by omega
  have a3 : ¬ ((255 : Nat) : Int) ≤ (e : Int) - 150 - -149 + 1 := by omega
  have e1 : ((e : Int) - 150 - -149 + 1).toNat = e := by omega
  have e2 : 8388608 + fr - 8388608 = fr := by omega
  unfold roundFields
  rw [if_neg a0, hm, hs, e23, e24, if_neg a1, if_neg a2, if_neg a3, e1, e2]

/-- The number of digits of a positive fraction field of a `float32`. -/
theorem bitLen_fraction {fr : Nat} (h0 : fr ≠ 0) (hfr : fr < 8388608) :
    1 ≤ bitLen fr ∧ bitLen fr ≤ 23 ∧
    4503599627370496 ≤ fr * 2 ^ (53 - bitLen fr) ∧
    fr * 2 ^ (53 - bitLen fr) < 9007199254740992 := by
  have h53 : fr < 2 ^ 53 := by
    have : (2 : Nat) ^ 53 = 9007199254740992 := by norm_num
    omega
  obtain ⟨b1, b2, b3, b4⟩ := small_bounds h0 h53
  have hn : fr < 2 ^ 128 := lt_of_lt_of_le h53 (Nat.pow_le_pow_right (by norm_num) (by norm_num))
  obtain ⟨-, c2, -⟩ := bitLen_bounds h0 hn
  have e52 : (2 : Nat) ^ 52 = 4503599627370496 := by norm_num
  have e53 : (2 : Nat) ^ 53 = 9007199254740992 := by norm_num
  rw [e52] at b3
  rw [e53] at b4
  refine ⟨b1, ?_, b3, b4⟩
  by_contra hc
  have h1 : 2 ^ 23 ≤ 2 ^ (bitLen fr - 1) := Nat.pow_le_pow_right (by norm_num) (by omega)
  have e23 : (2 : Nat) ^ 23 = 8388608 := by norm_num
  omega

/-- The fields of the `float64` equal to a subnormal `float32`. -/
theorem roundFields_widen_subnormal {fr : Nat} (h0 : fr ≠ 0) (hfr : fr < 8388608) :
    roundFields 53 (-1074) 2047 fr (-149)
      = (bitLen fr + 873, fr * 2 ^ (53 - bitLen fr) - 4503599627370496) := by
  obtain ⟨b1, b2, b3, b4⟩ := bitLen_fraction h0 hfr
  have hs : roundScale 53 (-1074) fr (-149) = (bitLen fr : Int) - 202 := by
    unfold roundScale
    rw [max_eq_left (by omega)]
    omega
  have hm : roundSignificand 53 (-1074) fr (-149) = fr * 2 ^ (53 - bitLen fr) := by
    unfold roundSignificand
    rw [hs, if_pos (by omega)]
    congr 2
    omega
  have e52 : (2 : Nat) ^ (53 - 1) = 4503599627370496 := by norm_num
  have e53 : (2 : Nat) ^ 53 = 9007199254740992 := by norm_num
  have a1 : ¬ fr * 2 ^ (53 - bitLen fr) < 4503599627370496 := by omega
  have a2 : ¬ fr * 2 ^ (53 - bitLen fr) = 9007199254740992 := by omega
  have a3 : ¬ ((2047 : Nat) : Int) ≤ (bitLen fr : Int) - 202 - -1074 + 1 := by omega
  have e1 : ((bitLen fr : Int) - 202 - -1074 + 1).toNat = bitLen fr + 873 := by omega
  unfold roundFields
  rw [if_neg h0, hm, hs, e52, e53, if_neg a1, if_neg a2, if_neg a3, e1]

/-- The fields of the `float32` nearest to a `float64` that is a subnormal
`float32`. -/
theorem roundFields_narrow_subnormal {fr : Nat} (h0 : fr ≠ 0) (hfr : fr < 8388608) :
    roundFields 24 (-149) 255 (fr * 2 ^ (53 - bitLen fr)) ((bitLen fr : Int) - 202)
      = (0, fr) := by
  obtain ⟨b1, b2, b3, b4⟩ := bitLen_fraction h0 hfr
  have hlo : 2 ^ 52 ≤ fr * 2 ^ (53 - bitLen fr) := by
    have : (2 : Nat) ^ 52 = 4503599627370496 := by norm_num
    omega
  have hhi : fr * 2 ^ (53 - bitLen fr) < 2 ^ (52 + 1) := by
    have : (2 : Nat) ^ (52 + 1) = 9007199254740992 := by norm_num
    omega
  have hL : bitLen (fr * 2 ^ (53 - bitLen fr)) = 53 := bitLen_eq hlo hhi (by norm_num)
  have hs : roundScale 24 (-149) (fr * 2 ^ (53 - bitLen fr)) ((bitLen fr : Int) - 202)
      = -149 := by
    unfold roundScale
    rw [hL, max_eq_right (by omega)]
  have hm : roundSignificand 24 (-149) (fr * 2 ^ (53 - bitLen fr)) ((bitLen fr : Int) - 202)
      = fr := by
    unfold roundSignificand
    rw [hs, if_neg (by omega)]
    have hk : ((-149 : Int) - ((bitLen fr : Int) - 202)).toNat = 53 - bitLen fr := by omega
    rw [hk]
    exact roundShift_exact _ _
  have e23 : (2 : Nat) ^ (24 - 1) = 8388608 := by norm_num
  have a0 : ¬ fr * 2 ^ (53 - bitLen fr) = 0 := by omega
  unfold roundFields
  rw [if_neg a0, hm, e23, if_pos hfr]

/-- The value `round` gives, from its fields. -/
theorem round_of_fields (s : Bool) (M : Nat) (E : Int) (a b : Nat)
    (h : roundFields 53 (-1074) 2047 M E = (a, b)) (ha : a < 2048)
    (hb : b < 4503599627370496) :
    round s M E = ⟨s, ⟨a, ha⟩, ⟨b, hb⟩⟩ := by
  unfold round
  rw [h]
  simp [ofBits, Nat.mod_eq_of_lt ha, Nat.mod_eq_of_lt hb]

/-- The bits of the `float32` nearest to a finite `float64`. -/
theorem toFloat32Bits_finite (x : Float64) (hx : x.exponent.val ≠ 2047) :
    toFloat32Bits x = (if x.sign then 2147483648 else 0) +
      ((roundFields 24 (-149) 255 x.significand x.scale).1 * 8388608 +
        (roundFields 24 (-149) 255 x.significand x.scale).2) := by
  have hnan : x.isNaN = false := by simp [isNaN, hx]
  unfold toFloat32Bits
  rw [hnan, if_neg hx]
  simp

/-- The bits of a finite `float32` survive the conversion to `float64` and
back. -/
theorem toFloat32Bits_widen (s : Bool) (e fr : Nat) (he : e ≤ 254) (hfr : fr < 8388608)
    (b : Nat) (hb : b = (if s then 2147483648 else 0) + (e * 8388608 + fr)) :
    toFloat32Bits (ofFloat32Bits b) = b := by
  have hb1 : b / 8388608 % 256 = e := by
    cases s <;> simp only [Bool.false_eq_true, if_true, if_false] at hb <;> omega
  have hb2 : b % 8388608 = fr := by
    cases s <;> simp only [Bool.false_eq_true, if_true, if_false] at hb <;> omega
  have hb3 : decide (b / 2147483648 % 2 = 1) = s := by
    cases s <;> simp only [Bool.false_eq_true, if_true, if_false] at hb
    · have : ¬ b / 2147483648 % 2 = 1 := by omega
      simp [this]
    · have : b / 2147483648 % 2 = 1 := by omega
      simp [this]
  have hne : ¬ e = 255 := by omega
  unfold ofFloat32Bits
  rw [hb1, hb2, hb3, if_neg hne]
  by_cases h0 : e = 0
  · rw [if_pos h0]
    by_cases hf0 : fr = 0
    · rw [hf0, round_zero]
      rw [toFloat32Bits_finite _ (by simp)]
      have h1 : (⟨s, 0, 0⟩ : Float64).significand = 0 := rfl
      rw [h1]
      have h2 : roundFields 24 (-149) 255 0 (⟨s, 0, 0⟩ : Float64).scale = (0, 0) := by
        simp [roundFields]
      rw [h2, hb, h0, hf0]
    · obtain ⟨b1, b2, b3, b4⟩ := bitLen_fraction hf0 hfr
      have hx := round_of_fields s fr (-149) _ _ (roundFields_widen_subnormal hf0 hfr)
        (by omega) (by omega)
      rw [hx, toFloat32Bits_finite _ (by show bitLen fr + 873 ≠ 2047; omega)]
      have hsig : (⟨s, ⟨bitLen fr + 873, by omega⟩,
          ⟨fr * 2 ^ (53 - bitLen fr) - 4503599627370496, by omega⟩⟩ : Float64).significand
          = fr * 2 ^ (53 - bitLen fr) := by
        unfold significand
        rw [if_neg (by show bitLen fr + 873 ≠ 0; omega)]
        show 4503599627370496 + (fr * 2 ^ (53 - bitLen fr) - 4503599627370496) = _
        omega
      have hsc : (⟨s, ⟨bitLen fr + 873, by omega⟩,
          ⟨fr * 2 ^ (53 - bitLen fr) - 4503599627370496, by omega⟩⟩ : Float64).scale
          = (bitLen fr : Int) - 202 := by
        unfold scale
        rw [if_neg (by show bitLen fr + 873 ≠ 0; omega)]
        show ((bitLen fr + 873 : Nat) : Int) - 1075 = _
        omega
      rw [hsig, hsc, roundFields_narrow_subnormal hf0 hfr, hb, h0]
  · rw [if_neg h0]
    have hx := round_of_fields s (8388608 + fr) ((e : Int) - 150) _ _
      (roundFields_widen (by omega) he hfr) (by omega) (by omega)
    rw [hx, toFloat32Bits_finite _ (by show e + 896 ≠ 2047; omega)]
    have hsig : (⟨s, ⟨e + 896, by omega⟩, ⟨fr * 536870912, by omega⟩⟩ : Float64).significand
        = 4503599627370496 + fr * 536870912 := by
      unfold significand
      rw [if_neg (by show e + 896 ≠ 0; omega)]
    have hsc : (⟨s, ⟨e + 896, by omega⟩, ⟨fr * 536870912, by omega⟩⟩ : Float64).scale
        = (e : Int) - 179 := by
      unfold scale
      rw [if_neg (by show e + 896 ≠ 0; omega)]
      show ((e + 896 : Nat) : Int) - 1075 = _
      omega
    rw [hsig, hsc, roundFields_narrow (by omega) he hfr]
    exact hb.symm

/-- The bits of an infinite `float32` survive the conversion to `float64` and
back. -/
theorem toFloat32Bits_widen_inf (s : Bool) :
    toFloat32Bits (ofFloat32Bits ((if s then 2147483648 else 0) + 2139095040))
      = (if s then 2147483648 else 0) + 2139095040 := by
  cases s <;> decide

/-- The conversion `float32(x)` gives 32 bits, and converting them to
`float64` and back gives them again. -/
theorem toFloat32Bits_idem (f : Float64) :
    toFloat32Bits f < 4294967296 ∧
    toFloat32Bits (ofFloat32Bits (toFloat32Bits f)) = toFloat32Bits f := by
  have hS : (if f.sign then 2147483648 else 0 : Nat) ≤ 2147483648 := by split <;> omega
  by_cases hnan : f.isNaN = true
  · -- a NaN is made quiet once
    have hb : toFloat32Bits f = (if f.sign then 2147483648 else 0) +
        (2139095040 + (4194304 + f.fraction.val / 536870912 % 4194304)) := by
      unfold toFloat32Bits
      rw [if_pos hnan]
    have hk : f.fraction.val / 536870912 % 4194304 < 4194304 := Nat.mod_lt _ (by norm_num)
    generalize f.fraction.val / 536870912 % 4194304 = k at hb hk
    refine ⟨by rw [hb]; omega, ?_⟩
    rw [hb]
    generalize hbb : (if f.sign then 2147483648 else 0) + (2139095040 + (4194304 + k)) = b
    have hb1 : b / 8388608 % 256 = 255 := by
      rw [← hbb]; split <;> omega
    have hb2 : ¬ b % 8388608 = 0 := by
      rw [← hbb]; split <;> omega
    have hb3 : decide (b / 2147483648 % 2 = 1) = f.sign := by
      rcases hsg : f.sign with _ | _
      · rw [hsg] at hbb
        simp only [Bool.false_eq_true, if_false] at hbb
        exact decide_eq_false (by omega)
      · rw [hsg] at hbb
        simp only [if_true] at hbb
        exact decide_eq_true (by omega)
    have hb4 : b % 4194304 = k := by
      rw [← hbb]; split <;> omega
    unfold ofFloat32Bits
    rw [if_pos hb1, if_neg hb2, hb3, hb4]
    have hfr : (2251799813685248 + k * 536870912) % 4503599627370496
        = 2251799813685248 + k * 536870912 := Nat.mod_eq_of_lt (by omega)
    have hx : ofBits f.sign 2047 (2251799813685248 + k * 536870912)
        = ⟨f.sign, ⟨2047, by norm_num⟩, ⟨2251799813685248 + k * 536870912, by omega⟩⟩ := by
      simp [ofBits, hfr]
    rw [hx]
    unfold toFloat32Bits
    have hn2 : (⟨f.sign, ⟨2047, by norm_num⟩,
        ⟨2251799813685248 + k * 536870912, by omega⟩⟩ : Float64).isNaN = true := by
      simp [isNaN]
    rw [if_pos hn2]
    show (if f.sign then 2147483648 else 0)
      + (2139095040 + (4194304 + (2251799813685248 + k * 536870912) / 536870912 % 4194304))
      = b
    rw [← hbb]
    have : (2251799813685248 + k * 536870912) / 536870912 % 4194304 = k := by omega
    rw [this]
  · by_cases hinf : f.exponent.val = 2047
    · have hb : toFloat32Bits f = (if f.sign then 2147483648 else 0) + 2139095040 := by
        unfold toFloat32Bits
        rw [if_neg hnan, if_pos hinf]
      rw [hb]
      exact ⟨by omega, toFloat32Bits_widen_inf f.sign⟩
    · have hM : f.significand < 2 ^ 128 :=
        lt_of_lt_of_le (significand_lt f) (by norm_num)
      obtain ⟨c1, c2, c3⟩ := roundFields_bounds f.significand hM f.scale
      have hb := toFloat32Bits_finite f hinf
      generalize (roundFields 24 (-149) 255 f.significand f.scale).1 = e at hb c1 c3
      generalize (roundFields 24 (-149) 255 f.significand f.scale).2 = fr at hb c2 c3
      refine ⟨by rw [hb]; omega, ?_⟩
      by_cases he : e = 255
      · have hfr := c3 he
        rw [hb, he, hfr]
        exact toFloat32Bits_widen_inf f.sign
      · exact toFloat32Bits_widen f.sign e fr (by omega) c2 _ hb

end Float64

/-! ## A read, a write of the bytes read, and a read again: the handlers -/

namespace Register

/-- A type for which `Bytes` has bytes is a type of the register length
table. -/
theorem Length_pos_of_Bytes (rt : Runtime) (ty : String) (v : Any) (s : Int) (b : List Nat)
    (h : Bytes rt (NewRegister ty) v s = some b) : 1 ≤ (NewRegister ty).Length := by
  by_cases hin : ty ∈ ["acc16", "acc32", "acc64", "bitfield16", "bitfield32", "enum16",
      "enum32", "float32", "int16", "int32", "string8", "string16", "sunssf", "uint16",
      "uint32"]
  · simp only [List.mem_cons, List.mem_singleton, List.not_mem_nil, or_false] at hin
    rcases hin with rfl | rfl | rfl | rfl | rfl | rfl | rfl | rfl | rfl | rfl | rfl | rfl |
      rfl | rfl | rfl <;> decide
  · rw [Bytes_outside_table rt ty v s hin] at h
    exact absurd h (by simp)

end Register

namespace SunSpecRTU

/-- An unfrozen memory reads like itself. -/
theorem sameReadings_refl (rt : Runtime) (this : SunSpecRTU) (start stop : Nat) (m : Memory)
    (h : m.frozen = false) : SameReadings rt this start stop m m :=
  ⟨h, rfl, rfl, fun _ => rfl, fun _ => rfl, fun _ _ _ _ _ hv => ⟨hv, rfl⟩⟩

/-- The write of the bytes read for the tag of a register that loses nothing:
the bytes decode to a value, the tag takes it, and the memory reads as
before. -/
theorem writeTag_sameReadings (rt : Runtime) (this : SunSpecRTU) (start stop : Nat)
    (m1 m : Memory) (t : String) (i : Nat) (d : List Nat)
    (R : SameReadings rt this start stop m1 m)
    (hL : Lossless rt this m start stop i t)
    (hv : (this.readValue m t).2 = none)
    (hd : (NewRegister (this.typeOf t)).Bytes rt (this.readValue m t).1 (this.scalingOf i)
      = some d) :
    ∃ x m2, (NewRegister (this.typeOf t)).Value rt d (this.scalingOf i) = (x, none) ∧
      writeTag m1 t x = (m2, none) ∧ SameReadings rt this start stop m2 m := by
  obtain ⟨x, hval, hana, hbin⟩ := hL d hv hd
  have hs : ¬ (this.typeOf t = "string8" ∨ this.typeOf t = "string16") := by
    intro h
    rcases h with h | h <;> rw [h] at hval <;> simp [Register.Value, NewRegister] at hval
  by_cases hA : m1.analogTags.has t = true
  · -- an external analog tag: the update is pending, nothing read changes
    refine ⟨x, { m1 with updatedAnalogTags := m1.updatedAnalogTags.set t x }, hval, ?_, ?_⟩
    · simp [writeTag, Memory.UpdateAnalogTag, hA, R.frozen]
    · exact ⟨R.frozen, R.analogTags, R.binaryTags, R.analogHas, R.binaryHas, R.reading⟩
  have hA0 : m1.analogTags.get t = none := (has_false_iff _ _).1 (by simpa using hA)
  have mA : m.analogTags.has t = false := by rw [← R.analogTags]; simpa using hA
  by_cases hB : m1.internalAnalogTags.has t = true
  · -- an internal analog tag takes the value
    have mB : m.internalAnalogTags.has t = true := by rw [← R.analogHas]; exact hB
    refine ⟨x, { m1 with internalAnalogTags := m1.internalAnalogTags.set t x }, hval, ?_, ?_⟩
    · simp [writeTag, Memory.UpdateAnalogTag, hA, hB, R.frozen]
    · refine ⟨R.frozen, R.analogTags, R.binaryTags, ?_, R.binaryHas, ?_⟩
      · intro t'
        show (m1.internalAnalogTags.set t x).has t' = _
        rw [GoMap.has_set, ← R.analogHas t']
        by_cases e : t = t'
        · subst e; simp [hB]
        · simp [e]
      · intro j t' hj1 hj2 hreg hv'
        by_cases e : t = t'
        · subst e
          have hr : this.readValue
              { m1 with internalAnalogTags := m1.internalAnalogTags.set t x } t
              = (Any.float64 x, none) :=
            readValue_internal_analog this _ t x hs hA0 (GoMap.get_set_self _ _ _)
          rw [hr]
          exact ⟨rfl, hana mA mB j hj1 hj2 hreg⟩
        · have hr : this.readValue
              { m1 with internalAnalogTags := m1.internalAnalogTags.set t x } t'
              = this.readValue m1 t' :=
            readValue_congr this _ _ t' rfl rfl rfl rfl rfl rfl rfl
              (GoMap.get_set_ne _ _ e) rfl
          rw [hr]
          exact R.reading j t' hj1 hj2 hreg hv'
  have hB0 : m1.internalAnalogTags.get t = none := (has_false_iff _ _).1 (by simpa using hB)
  have mB : m.internalAnalogTags.has t = false := by rw [← R.analogHas]; simpa using hB
  have hfail : writeTag m1 t x = m1.UpdateBinaryTag t (!Float64.eq x Float64.zero) := by
    simp [writeTag, Memory.UpdateAnalogTag, hA, hB]
  by_cases hC : m1.binaryTags.has t = true
  · -- an external binary tag: the update is pending, nothing read changes
    refine ⟨x, { m1 with updatedBinaryTags :=
      m1.updatedBinaryTags.set t (!Float64.eq x Float64.zero) }, hval, ?_, ?_⟩
    · rw [hfail]; simp [Memory.UpdateBinaryTag, hC, R.frozen]
    · exact ⟨R.frozen, R.analogTags, R.binaryTags, R.analogHas, R.binaryHas, R.reading⟩
  have hC0 : m1.binaryTags.get t = none := (has_false_iff _ _).1 (by simpa using hC)
  have mC : m.binaryTags.has t = false := by rw [← R.binaryTags]; simpa using hC
  -- in `m` the tag is no analog tag and no external binary tag either
  have mA0 : m.analogTags.get t = none := (has_false_iff _ _).1 mA
  have mB0 : m.internalAnalogTags.get t = none := (has_false_iff _ _).1 mB
  have mC0 : m.binaryTags.get t = none := (has_false_iff _ _).1 mC
  by_cases hD : m.internalBinaryTags.has t = true
  · -- an internal binary tag takes the status `x != 0`
    have hD1 : m1.internalBinaryTags.has t = true := by rw [R.binaryHas]; exact hD
    refine ⟨x, { m1 with internalBinaryTags :=
      m1.internalBinaryTags.set t (!Float64.eq x Float64.zero) }, hval, ?_, ?_⟩
    · rw [hfail]; simp [Memory.UpdateBinaryTag, hC, hD1, R.frozen]
    · refine ⟨R.frozen, R.analogTags, R.binaryTags, R.analogHas, ?_, ?_⟩
      · intro t'
        show (m1.internalBinaryTags.set t (!Float64.eq x Float64.zero)).has t' = _
        rw [GoMap.has_set, ← R.binaryHas t']
        by_cases e : t = t'
        · subst e; simp [hD1]
        · simp [e]
      · intro j t' hj1 hj2 hreg hv'
        by_cases e : t = t'
        · subst e
          have hr : this.readValue
              { m1 with internalBinaryTags :=
                m1.internalBinaryTags.set t (!Float64.eq x Float64.zero) } t
              = (Any.float64
                  (if !Float64.eq x Float64.zero then Float64.one else Float64.zero), none) :=
            readValue_internal_binary this _ t _ hs hA0 hB0 hC0 (GoMap.get_set_self _ _ _)
          rw [hr]
          exact ⟨rfl, hbin mA mB mC j hj1 hj2 hreg⟩
        · have hr : this.readValue
              { m1 with internalBinaryTags :=
                m1.internalBinaryTags.set t (!Float64.eq x Float64.zero) } t'
              = this.readValue m1 t' :=
            readValue_congr this _ _ t' rfl rfl rfl rfl rfl rfl rfl rfl
              (GoMap.get_set_ne _ _ e)
          rw [hr]
          exact R.reading j t' hj1 hj2 hreg hv'
  · -- a tag in none of the maps has no value to read
    have mD0 : m.internalBinaryTags.get t = none := (has_false_iff _ _).1 (by simpa using hD)
    exact absurd hv (readValue_no_tag this m t hs mA0 mB0 mC0 mD0)

/-- The three loops in step: when the loop of `readHandler` on the memory `m`
ends with `Success`, its bytes are `acc` and then `rest`; the loop of
`writeHandler` started at the same register on a request that has `rest` at
its offset, on a memory that reads like `m`, ends with `Success` on a memory
that reads like `m`; and the loop of `readHandler` on any memory that reads
like `m` ends as on `m`. -/
theorem loops_round_trip (rt : Runtime) (this : SunSpecRTU) (m : Memory)
    (start stop : Nat)
    (hx : ∀ (i : Nat) (t : String), start ≤ i → i < stop →
      this.registers.get (i : Int) = some t → Lossless rt this m start stop i t) :
    ∀ (fuel i size : Nat) (acc : List Nat) (sz : Nat) (out : List Nat), start ≤ i →
      this.readLoop rt m stop fuel i size acc = Reply.returned (sz :: out) Exception.Success →
      ∃ rest, out = acc ++ rest ∧
        (∀ (m1 : Memory) (data : List Nat) (b : Nat), SameReadings rt this start stop m1 m →
          data.drop b = rest →
          ∃ m2, this.writeLoop rt data stop fuel m1 i b
              = (m2, Reply.returned (data.take 4) Exception.Success) ∧
            SameReadings rt this start stop m2 m) ∧
        (∀ m1 : Memory, SameReadings rt this start stop m1 m →
          this.readLoop rt m1 stop fuel i size acc
            = Reply.returned (sz :: out) Exception.Success) := by
  intro fuel
  induction fuel with
  | zero =>
    intro i size acc sz out _ h
    simp [readLoop] at h
  | succ fuel ih =>
    intro i size acc sz out hlo h
    by_cases hi : i < stop
    · rw [readLoop, if_pos hi] at h
      rcases hreg : this.registers.get (i : Int) with _ | tag
      · simp [hreg] at h
      simp only [hreg] at h
      rcases hv : this.readValue m tag with ⟨value, _ | err⟩
      swap
      · simp [hv] at h
      simp only [hv] at h
      rcases hb : (NewRegister (this.typeOf tag)).Bytes rt value (this.scalingOf i)
        with _ | bytes
      · simp [hb] at h
      simp only [hb] at h
      obtain ⟨rest, e, W, Rd⟩ := ih _ _ _ _ _ (by omega) h
      have X := hx i tag hlo hi hreg
      have hv2 : (this.readValue m tag).2 = none := by rw [hv]
      have hb2 : (NewRegister (this.typeOf tag)).Bytes rt (this.readValue m tag).1
          (this.scalingOf i) = some bytes := by rw [hv]; exact hb
      have hlen : bytes.length = (NewRegister (this.typeOf tag)).Length * 2 := by
        rw [Register.length_Bytes rt _ _ _ _ hb, Nat.mul_comm]
      have hpos := Register.Length_pos_of_Bytes rt _ _ _ _ hb
      refine ⟨bytes ++ rest, by rw [e, List.append_assoc], ?_, ?_⟩
      · intro m1 data b R hdrop
        obtain ⟨x, m2, hval, hupd, R2⟩ :=
          writeTag_sameReadings rt this start stop m1 m tag i bytes R X hv2 hb2
        have htake : (data.drop b).take ((NewRegister (this.typeOf tag)).Length * 2)
            = bytes := by
          rw [hdrop, ← hlen, List.take_left]
        have hdl : (data.drop b).length = bytes.length + rest.length := by
          rw [hdrop, List.length_append]
        rw [List.length_drop] at hdl
        have hle : b + (NewRegister (this.typeOf tag)).Length * 2 ≤ data.length := by
          omega
        have hdrop2 : data.drop (b + (NewRegister (this.typeOf tag)).Length * 2) = rest := by
          rw [← List.drop_drop, hdrop, ← hlen, List.drop_left]
        rw [writeLoop_step rt this data stop fuel m1 m2 i b tag x hi hreg hle
          (by rw [htake]; exact hval) hupd]
        exact W m2 data _ R2 hdrop2
      · intro m1 R
        obtain ⟨r1, r2⟩ := R.reading i tag hlo hi hreg hv2
        have hv1 : this.readValue m1 tag = ((this.readValue m1 tag).1, none) :=
          Prod.ext rfl r1
        rw [readLoop_step rt this m1 stop fuel i size acc tag _ bytes hi hreg hv1
          (r2.trans hb2)]
        exact Rd m1 R
    · rw [readLoop, if_neg hi] at h
      have e : out = acc := by
        injection h with h1 _
        injection h1 with _ h2
        exact h2.symm
      refine ⟨[], by rw [e, List.append_nil], ?_, ?_⟩
      · intro m1 data b R _
        exact ⟨m1, writeLoop_done rt this data stop fuel m1 i b hi, R⟩
      · intro m1 _
        rw [readLoop_done rt this m1 stop fuel i size acc hi]
        exact h

/-- A register whose tag has, at every register of the range that holds it,
an integer type of 16 or 32 bits, scaled types at the scaling 0, loses
nothing, whatever the memory. -/
theorem lossless_of_exactCodec (rt : Runtime) (hp : rt.PowZero) (this : SunSpecRTU)
    (m : Memory) (start stop i : Nat) (t : String)
    (hlo : start ≤ i) (hi : i < stop) (hreg : this.registers.get (i : Int) = some t)
    (hx : ∀ j : Nat, start ≤ j → j < stop → this.registers.get (j : Int) = some t →
      Register.exactCodec (this.typeOf t) (this.scalingOf j)) :
    Lossless rt this m start stop i t := by
  intro d hv hd
  have X := hx i hlo hi hreg
  obtain ⟨hL, E⟩ := Register.exact_of_exactCodec rt hp X
  have hs : ¬ (this.typeOf t = "string8" ∨ this.typeOf t = "string16") := by
    intro h; rcases h with h | h
    · exact E.notString.1 h
    · exact E.notString.2 h
  obtain ⟨f, hf⟩ := readValue_float this m t hs
  obtain ⟨n, hn⟩ := E.encode f
  rw [hf, hn] at hd
  have hdn : d = bigEndian ((NewRegister (this.typeOf t)).Length * 2) n :=
    (Option.some.inj hd).symm
  obtain ⟨x, hval, hback, hzero⟩ := E.decode n
  rw [← hdn] at hval hback
  -- the bytes of `x` are those of the value read, at every exact scaling
  have hbytes : ∀ s', Register.exactCodec (this.typeOf t) s' →
      (NewRegister (this.typeOf t)).Bytes rt (Any.float64 x) s'
        = (NewRegister (this.typeOf t)).Bytes rt (this.readValue m t).1 s' := by
    intro s' hx'
    rw [Register.Bytes_exact_scaling rt X hx', Register.Bytes_exact_scaling rt X hx', hback,
      hf, hn, hdn]
  refine ⟨x, hval, ?_, ?_⟩
  · intro _ _ j hj1 hj2 hregj
    exact hbytes _ (hx j hj1 hj2 hregj)
  · intro mA mB mC j hj1 hj2 hregj
    have mA0 : m.analogTags.get t = none := (has_false_iff _ _).1 mA
    have mB0 : m.internalAnalogTags.get t = none := (has_false_iff _ _).1 mB
    have mC0 : m.binaryTags.get t = none := (has_false_iff _ _).1 mC
    by_cases hD : m.internalBinaryTags.has t = true
    · obtain ⟨b, hb⟩ := (has_true_iff _ _).1 hD
      have hm : this.readValue m t
          = (Any.float64 (if b then Float64.one else Float64.zero), none) :=
        readValue_internal_binary this m t b hs mA0 mB0 mC0 hb
      have hstatus : (!Float64.eq x Float64.zero) = b := by
        rw [hm] at hf
        have hfb : f = if b then Float64.one else Float64.zero := by
          simp only at hf
          exact (Any.float64.inj hf).symm
        have h1 : (1 : Nat) < 256 ^ ((NewRegister (this.typeOf t)).Length * 2) :=
          Nat.one_lt_pow (by rcases hL with h | h <;> omega) (by norm_num)
        cases b
        · have e0 := E.zero
          simp only [Bool.false_eq_true, if_false] at hfb
          rw [← hfb, hn] at e0
          have hn0 := bigEndian_inj_mod (Option.some.inj e0)
          rw [Nat.zero_mod] at hn0
          rw [hzero]; simp [hn0]
        · have e1 := E.one
          simp only [if_true] at hfb
          rw [← hfb, hn] at e1
          have hn1 := bigEndian_inj_mod (Option.some.inj e1)
          rw [Nat.mod_eq_of_lt h1] at hn1
          rw [hzero]; simp [hn1]
      rw [hstatus, hm]
    · have mD0 : m.internalBinaryTags.get t = none :=
        (has_false_iff _ _).1 (by simpa using hD)
      exact absurd hv (readValue_no_tag this m t hs mA0 mB0 mC0 mD0)

/-- A register whose tag is an external tag and whose type is one of the
twelve of the switch of `Value` loses nothing: the write leaves the update
pending, and the value read is the value of the device. -/
theorem lossless_of_external (rt : Runtime) (this : SunSpecRTU) (m : Memory)
    (start stop i : Nat) (t : String)
    (hty : this.typeOf t ∈ ["acc16", "uint16", "acc32", "uint32", "acc64", "bitfield16",
      "enum16", "bitfield32", "enum32", "float32", "int16", "int32"])
    (hext : m.analogTags.has t = true ∨
      (m.internalAnalogTags.has t = false ∧ m.binaryTags.has t = true)) :
    Lossless rt this m start stop i t := by
  intro d _ hd
  have hlen := Register.length_Bytes rt _ _ _ _ hd
  obtain ⟨e, hpos⟩ := Register.Value_error_decodable rt (this.typeOf t) d (this.scalingOf i) hty
  have herr : ((NewRegister (this.typeOf t)).Value rt d (this.scalingOf i)).2 = none := by
    rw [e]
    unfold readError
    rw [if_neg (by omega), if_neg (by omega)]
  refine ⟨((NewRegister (this.typeOf t)).Value rt d (this.scalingOf i)).1,
    Prod.ext rfl herr, ?_, ?_⟩
  · intro mA mB
    rcases hext with h | ⟨h, _⟩
    · rw [mA] at h; exact absurd h (by simp)
    · rw [mB] at h; exact absurd h (by simp)
  · intro mA _ mC
    rcases hext with h | ⟨_, h⟩
    · rw [mA] at h; exact absurd h (by simp)
    · rw [mC] at h; exact absurd h (by simp)

/-- A register of type `float32` loses nothing, whatever the memory: the bits
of a `float32` survive the conversion to `float64` and back. -/
theorem lossless_of_float32 (rt : Runtime) (this : SunSpecRTU) (m : Memory)
    (start stop i : Nat) (t : String) (hty : this.typeOf t = "float32") :
    Lossless rt this m start stop i t := by
  intro d hv hd
  have hs : ¬ (this.typeOf t = "string8" ∨ this.typeOf t = "string16") := by
    rw [hty]; decide
  obtain ⟨f, hf⟩ := readValue_float this m t hs
  have hB : ∀ (g : Float64) (s : Int),
      (NewRegister (this.typeOf t)).Bytes rt (Any.float64 g) s
        = some (bigEndian 4 g.toFloat32Bits) := by
    intro g s
    rw [hty]
    simp [Register.Bytes, NewRegister]
  rw [hf, hB] at hd
  have hdn : d = bigEndian 4 f.toFloat32Bits := (Option.some.inj hd).symm
  obtain ⟨hlt, hid⟩ := Float64.toFloat32Bits_idem f
  have hval : (NewRegister (this.typeOf t)).Value rt d (this.scalingOf i)
      = (Float64.ofFloat32Bits f.toFloat32Bits, none) := by
    have hr : readError 4 (bigEndian 4 f.toFloat32Bits) = none :=
      Register.readError_bigEndian (by norm_num) _
    rw [hty, hdn]
    simp only [Register.Value, NewRegister]
    simp [hr, List.take_of_length_le, length_bigEndian, fromBigEndian_bigEndian,
      Nat.mod_eq_of_lt hlt]
  refine ⟨_, hval, ?_, ?_⟩
  · intro _ _ j _ _ _
    rw [hf, hB, hB, hid]
  · intro mA mB mC j _ _ _
    have mA0 : m.analogTags.get t = none := (has_false_iff _ _).1 mA
    have mB0 : m.internalAnalogTags.get t = none := (has_false_iff _ _).1 mB
    have mC0 : m.binaryTags.get t = none := (has_false_iff _ _).1 mC
    by_cases hD : m.internalBinaryTags.has t = true
    · obtain ⟨b, hb⟩ := (has_true_iff _ _).1 hD
      have hm : this.readValue m t
          = (Any.float64 (if b then Float64.one else Float64.zero), none) :=
        readValue_internal_binary this m t b hs mA0 mB0 mC0 hb
      rw [hm] at hf
      have hfb : f = if b then Float64.one else Float64.zero := by
        simp only at hf
        exact (Any.float64.inj hf).symm
      rw [hm, hfb]
      cases b
      · have e : (!Float64.eq (Float64.ofFloat32Bits
            (if false = true then Float64.one else Float64.zero).toFloat32Bits)
            Float64.zero) = false := by decide
        rw [e]
      · have e : (!Float64.eq (Float64.ofFloat32Bits
            (if true = true then Float64.one else Float64.zero).toFloat32Bits)
            Float64.zero) = true := by decide
        rw [e]
    · have mD0 : m.internalBinaryTags.get t = none :=
        (has_false_iff _ _).1 (by simpa using hD)
      exact absurd hv (readValue_no_tag this m t hs mA0 mB0 mC0 mD0)

/-- The register 1 of `scaledRTU` loses nothing of the value 0.28 of
`steadyMemory`: its bytes are those of 28, and 28 times the `float64` nearest
to 1/100 is the `float64` 0.28 again. -/
theorem steady_lossless : Lossless decimalRuntime scaledRTU steadyMemory 1 2 1 "p" := by
  intro d _ hd
  have hb : (NewRegister (scaledRTU.typeOf "p")).Bytes decimalRuntime
      (scaledRTU.readValue steadyMemory "p").1 (scaledRTU.scalingOf 1) = some [0, 28] := by
    decide
  rw [hb] at hd
  have hd2 : d = [0, 28] := (Option.some.inj hd).symm
  subst hd2
  refine ⟨⟨false, 1021, 0x1EB851EB851EC⟩, by decide, ?_, ?_⟩
  · intro _ _ j hj1 hj2 _
    have hj : j = 1 := by omega
    subst hj
    decide
  · intro _ h _
    exact absurd h (by decide)

/-- Counterexample to C20 as stated.  The register 1 of `scaleFactorRTU` has
the type `sunssf` of the register length table and the unfrozen memory
`scaleFactorMemory` has a value for its tag; the read of the range `[1, 2)`
succeeds with the payload `[0, 0]`, and the write of the same range carrying
exactly this payload returns `SlaveDeviceFailure`, with any runtime and any
fuel.  The register 1 of `scaledRTU` has the type `uint16` and the scaling
-2, and its tag has the value 0.295 in the unfrozen memory `scaledMemory`;
with `math.Pow(10, 2) = 100` and `math.Pow(10, -2)` the `float64` nearest to
1/100 the read of the range `[1, 2)` succeeds with the payload `[0, 29]`, the
write of this payload returns `Success` and stores 29 times 1/100, the
`float64` 0.29, and the read that follows returns the payload `[0, 28]`. -/
theorem write_back_fails_or_differs :
    (scaleFactorMemory.frozen = false ∧
      scaleFactorRTU.registers.get ((1 : Nat) : Int) = some "sf" ∧
      scaleFactorRTU.typeOf "sf" = "sunssf" ∧ (NewRegister "sunssf").Length = 1 ∧
      requestStart [0, 1, 0, 1] = 1 ∧ requestCount [0, 1, 0, 1] = 1 ∧
      ∀ (rt : Runtime) (fuel : Nat),
        scaleFactorRTU.readHandler rt scaleFactorMemory (fuel + 2) [0, 1, 0, 1]
          = Reply.returned [2, 0, 0] Exception.Success ∧
        (scaleFactorRTU.writeHandler rt scaleFactorMemory (fuel + 1)
          ([0, 1, 0, 1] ++ [2] ++ [0, 0])).2
          = Reply.returned [] Exception.SlaveDeviceFailure) ∧
    (scaledMemory.frozen = false ∧
      scaledRTU.registers.get ((1 : Nat) : Int) = some "p" ∧
      scaledRTU.typeOf "p" = "uint16" ∧ scaledRTU.scalingOf 1 = -2 ∧
      ∀ fuel : Nat,
        scaledRTU.readHandler decimalRuntime scaledMemory (fuel + 2) [0, 1, 0, 1]
          = Reply.returned [2, 0, 29] Exception.Success ∧
        scaledRTU.writeHandler decimalRuntime scaledMemory (fuel + 2)
            ([0, 1, 0, 1] ++ [2] ++ [0, 29])
          = ({ scaledMemory with
                internalAnalogTags := [("p", ⟨false, 1021, 0x28F5C28F5C28F⟩)] },
              Reply.returned [0, 1, 0, 1] Exception.Success) ∧
        scaledRTU.readHandler decimalRuntime
            (scaledRTU.writeHandler decimalRuntime scaledMemory (fuel + 2)
              ([0, 1, 0, 1] ++ [2] ++ [0, 29])).1 (fuel + 2) [0, 1, 0, 1]
          = Reply.returned [2, 0, 28] Exception.Success) := by
  refine ⟨⟨rfl, by decide, by decide, by decide, by decide, by decide, ?_⟩,
    ⟨rfl, by decide, by decide, by decide, ?_⟩⟩
  · intro rt fuel
    constructor
    · have hb : (NewRegister (scaleFactorRTU.typeOf "sf")).Bytes rt (Any.float64 Float64.zero)
          (scaleFactorRTU.scalingOf 1) = some [0, 0] := by
        have ht : Float64.zero.truncate = some 0 := Float64.truncate_zero false
        have e : scaleFactorRTU.typeOf "sf" = "sunssf" := by decide
        rw [e]
        simp [Register.Bytes, NewRegister, Runtime.toIntBits, ht, bigEndian]
      unfold readHandler
      rw [if_neg (by decide)]
      have e1 : requestStart [0, 1, 0, 1] = 1 := by decide
      have e2 : requestCount [0, 1, 0, 1] = 1 := by decide
      rw [e1, e2,
        readLoop_step rt scaleFactorRTU scaleFactorMemory 2 (fuel + 1) 1 0 [] "sf"
          (Any.float64 Float64.zero) [0, 0] (by decide) (by decide) (by decide) hb,
        readLoop_done rt scaleFactorRTU scaleFactorMemory 2 fuel _ _ _ (by decide)]
      rfl
    · unfold writeHandler
      rw [if_neg (by decide)]
      have e1 : requestStart ([0, 1, 0, 1] ++ [2] ++ [0, 0]) = 1 := by decide
      have e2 : requestCount ([0, 1, 0, 1] ++ [2] ++ [0, 0]) = 1 := by decide
      rw [e1, e2, writeLoop, if_pos (by decide)]
      have hreg : scaleFactorRTU.registers.get ((1 : Nat) : Int) = some "sf" := by decide
      rw [hreg]
      simp [Register.Value, NewRegister, typeOf, scaleFactorRTU, GoMap.get, Register.Length]
  · intro fuel
    have e1 : requestStart [0, 1, 0, 1] = 1 := by decide
    have e2 : requestCount [0, 1, 0, 1] = 1 := by decide
    have e3 : requestStart ([0, 1, 0, 1] ++ [2] ++ [0, 29]) = 1 := by decide
    have e4 : requestCount ([0, 1, 0, 1] ++ [2] ++ [0, 29]) = 1 := by decide
    have hw : scaledRTU.writeHandler decimalRuntime scaledMemory (fuel + 2)
        ([0, 1, 0, 1] ++ [2] ++ [0, 29])
        = ({ scaledMemory with
              internalAnalogTags := [("p", ⟨false, 1021, 0x28F5C28F5C28F⟩)] },
            Reply.returned [0, 1, 0, 1] Exception.Success) := by
      unfold writeHandler
      rw [if_neg (by decide), e3, e4,
        writeLoop_step decimalRuntime scaledRTU _ 2 (fuel + 1) scaledMemory
          { scaledMemory with
            internalAnalogTags := [("p", ⟨false, 1021, 0x28F5C28F5C28F⟩)] }
          1 5 "p" ⟨false, 1021, 0x28F5C28F5C28F⟩ (by decide) (by decide) (by decide)
          (by decide) (by decide),
        writeLoop_done decimalRuntime scaledRTU _ 2 fuel _ _ _ (by decide)]
      rfl
    refine ⟨?_, hw, ?_⟩
    · unfold readHandler
      rw [if_neg (by decide), e1, e2,
        readLoop_step decimalRuntime scaledRTU scaledMemory 2 (fuel + 1) 1 0 [] "p"
          (Any.float64 ⟨false, 1021, 0x2E147AE147AE1⟩) [0, 29] (by decide) (by decide)
          (by decide) (by decide),
        readLoop_done decimalRuntime scaledRTU scaledMemory 2 fuel _ _ _ (by decide)]
      rfl
    · rw [hw]
      unfold readHandler
      rw [if_neg (by decide), e1, e2,
        readLoop_step decimalRuntime scaledRTU _ 2 (fuel + 1) 1 0 [] "p"
          (Any.float64 ⟨false, 1021, 0x28F5C28F5C28F⟩) [0, 28] (by decide) (by decide)
          (by decide) (by decide),
        readLoop_done decimalRuntime scaledRTU _ 2 fuel _ _ _ (by decide)]
      rfl

/-- Claim C20, amended.  Read and write round trip: for every register table,
unfrozen memory and read request for which `readHandler` returns `Success`
with the byte `sz` and the payload, if every register of `[start, start +
count)` loses nothing of the value read for its tag (`Lossless`: `Value`
decodes the bytes read with no error and, for an internal tag, what the write
stores has again the bytes read at every register of the range that holds
the tag), then `writeHandler` on the request with the same start and count,
any byte count `bc` and exactly this payload returns `Success` and the first
four bytes of the request, and `readHandler` on the memory after the write
returns the same bytes as before, all with the same fuel.  A register loses
nothing, whatever the value, when `Pow(x, ±0) = 1` and its tag has at every
register of the range that holds it one of the types `bitfield16`, `enum16`,
`bitfield32`, `enum32` or, with the scaling 0, `uint16`, `acc16`, `int16`,
`uint32`, `acc32`, `int32`; when its tag has the type `float32`; and when its
tag is an external tag and its type one of the twelve types that `Value`
decodes, `acc64` among them, at any scaling. -/
theorem read_write_round_trip (rt : Runtime) (this : SunSpecRTU) (m : Memory)
    (request : List Nat) (bc sz : Nat) (payload : List Nat) (fuel : Nat)
    (hfz : m.frozen = false)
    (hread : this.readHandler rt m fuel request
      = Reply.returned (sz :: payload) Exception.Success) :
    ((∀ (i : Nat) (t : String), requestStart request ≤ i →
        i < requestStart request + requestCount request →
        this.registers.get (i : Int) = some t →
        Lossless rt this m (requestStart request)
          (requestStart request + requestCount request) i t) →
      (this.writeHandler rt m fuel (request.take 4 ++ [bc] ++ payload)).2
        = Reply.returned (request.take 4) Exception.Success ∧
      this.readHandler rt (this.writeHandler rt m fuel (request.take 4 ++ [bc] ++ payload)).1
        fuel request = Reply.returned (sz :: payload) Exception.Success) ∧
    (rt.PowZero → ∀ (i : Nat) (t : String), requestStart request ≤ i →
      i < requestStart request + requestCount request →
      this.registers.get (i : Int) = some t →
      (∀ j : Nat, requestStart request ≤ j →
        j < requestStart request + requestCount request →
        this.registers.get (j : Int) = some t →
        Register.exactCodec (this.typeOf t) (this.scalingOf j)) →
      Lossless rt this m (requestStart request)
        (requestStart request + requestCount request) i t) ∧
    (∀ (i : Nat) (t : String),
      this.typeOf t ∈ ["acc16", "uint16", "acc32", "uint32", "acc64", "bitfield16",
        "enum16", "bitfield32", "enum32", "float32", "int16", "int32"] →
      (m.analogTags.has t = true ∨
        (m.internalAnalogTags.has t = false ∧ m.binaryTags.has t = true)) →
      Lossless rt this m (requestStart request)
        (requestStart request + requestCount request) i t) ∧
    (∀ (i : Nat) (t : String), this.typeOf t = "float32" →
      Lossless rt this m (requestStart request)
        (requestStart request + requestCount request) i t) := by
  refine ⟨?_, ?_, ?_, fun i t hty => lossless_of_float32 rt this m _ _ i t hty⟩
  · intro hx
    have hlen : 4 ≤ request.length := by
      by_contra hc
      unfold readHandler at hread
      rw [if_pos (by omega)] at hread
      simp at hread
    obtain ⟨w1, w2, w3, w4, w5⟩ := write_request_fields request hlen bc payload
    have hloop : this.readLoop rt m (requestStart request + requestCount request) fuel
        (requestStart request) 0 [] = Reply.returned (sz :: payload) Exception.Success := by
      unfold readHandler at hread
      rw [if_neg (by omega)] at hread
      exact hread
    obtain ⟨rest, e, W, Rd⟩ := loops_round_trip rt this m _ _ hx fuel _ 0 [] sz payload
      (le_refl _) hloop
    rw [List.nil_append] at e
    subst e
    obtain ⟨m2, hw, R2⟩ := W m (request.take 4 ++ [bc] ++ payload) 5
      (sameReadings_refl rt this _ _ m hfz) w4
    have hwh : this.writeHandler rt m fuel (request.take 4 ++ [bc] ++ payload)
        = (m2, Reply.returned (request.take 4) Exception.Success) := by
      unfold writeHandler
      rw [if_neg (by omega), w1, w2, hw, w3]
    rw [hwh]
    refine ⟨rfl, ?_⟩
    unfold readHandler
    rw [if_neg (by omega)]
    exact Rd m2 R2
  · intro hp i t hlo hi hreg hx
    exact lossless_of_exactCodec rt hp this m _ _ i t hlo hi hreg hx
  · intro i t hty hext
    exact lossless_of_external rt this m _ _ i t hty hext

/-- Witness of the amended C20.  On the outstation and the memory of the
handler tests the payload `[0, 5, 0, 10]` read from 40000 and 40001, of type
`uint16` at the scaling 0, is written back and read again.  On `scaledRTU`
with the value 0.28, and `math.Pow(10, 2) = 100` and `math.Pow(10, -2)` the
`float64` nearest to 1/100, the payload `[0, 28]` read from the register 1, of
type `uint16` at the scaling -2, is written back and read again.  On
`floatRTU` with the value 1.5 the payload `[63, 192, 0, 0]` read from the
register 1, of type `float32`, is written back and read again. -/
theorem read_write_round_trip_witness :
    ((sampleRuntime.PowZero ∧ testMemory.frozen = false ∧
        testRTU.readHandler sampleRuntime testMemory 3 [0x9c, 0x40, 0, 2]
          = Reply.returned (4 :: [0, 5, 0, 10]) Exception.Success) ∧
      (testRTU.writeHandler sampleRuntime testMemory 3 [0x9c, 0x40, 0, 2, 4, 0, 5, 0, 10]).2
        = Reply.returned [0x9c, 0x40, 0, 2] Exception.Success ∧
      testRTU.readHandler sampleRuntime
        (testRTU.writeHandler sampleRuntime testMemory 3 [0x9c, 0x40, 0, 2, 4, 0, 5, 0, 10]).1
        3 [0x9c, 0x40, 0, 2] = Reply.returned [4, 0, 5, 0, 10] Exception.Success) ∧
    ((steadyMemory.frozen = false ∧ scaledRTU.scalingOf 1 = -2 ∧
        scaledRTU.readHandler decimalRuntime steadyMemory 2 [0, 1, 0, 1]
          = Reply.returned (2 :: [0, 28]) Exception.Success) ∧
      (scaledRTU.writeHandler decimalRuntime steadyMemory 2 [0, 1, 0, 1, 2, 0, 28]).2
        = Reply.returned [0, 1, 0, 1] Exception.Success ∧
      scaledRTU.readHandler decimalRuntime
        (scaledRTU.writeHandler decimalRuntime steadyMemory 2 [0, 1, 0, 1, 2, 0, 28]).1
        2 [0, 1, 0, 1] = Reply.returned [2, 0, 28] Exception.Success) ∧
    ((floatMemory.frozen = false ∧ floatRTU.typeOf "q" = "float32" ∧
        floatRTU.readHandler sampleRuntime floatMemory 3 [0, 1, 0, 2]
          = Reply.returned (4 :: [63, 192, 0, 0]) Exception.Success) ∧
      (floatRTU.writeHandler sampleRuntime floatMemory 3
          [0, 1, 0, 2, 4, 63, 192, 0, 0]).2
        = Reply.returned [0, 1, 0, 2] Exception.Success ∧
      floatRTU.readHandler sampleRuntime
        (floatRTU.writeHandler sampleRuntime floatMemory 3
          [0, 1, 0, 2, 4, 63, 192, 0, 0]).1
        3 [0, 1, 0, 2] = Reply.returned [4, 63, 192, 0, 0] Exception.Success) :=
  have hp : sampleRuntime.PowZero := fun x y h => by
    show powSpecialCases x y = Float64.one
    unfold powSpecialCases
    rw [h]; rfl
  have hx : ∀ (t : String) (j : Nat), requestStart [0x9c, 0x40, 0, 2] ≤ j →
      j < requestStart [0x9c, 0x40, 0, 2] + requestCount [0x9c, 0x40, 0, 2] →
      testRTU.registers.get (j : Int) = some t →
      Register.exactCodec (testRTU.typeOf t) (testRTU.scalingOf j) := by
    intro t j _ _ h
    have hs : testRTU.scalingOf j = 0 := rfl
    rw [hs]
    simp only [testRTU, IntMap.get] at h
    split at h
    · cases h; exact Or.inr ⟨Or.inl (by decide), rfl⟩
    · split at h
      · cases h; exact Or.inr ⟨Or.inl (by decide), rfl⟩
      · cases h
  have hz : ∀ (i : Nat) (t : String), floatRTU.registers.get (i : Int) = some t →
      floatRTU.typeOf t = "float32" := by
    intro i t h
    simp only [floatRTU, IntMap.get] at h
    split at h
    · cases h; decide
    · cases h
  have hy : ∀ (i : Nat) (t : String), requestStart [0, 1, 0, 1] ≤ i →
      i < requestStart [0, 1, 0, 1] + requestCount [0, 1, 0, 1] →
      scaledRTU.registers.get (i : Int) = some t →
      Lossless decimalRuntime scaledRTU steadyMemory (requestStart [0, 1, 0, 1])
        (requestStart [0, 1, 0, 1] + requestCount [0, 1, 0, 1]) i t := by
    intro i t h1 h2 h
    have e1 : requestStart [0, 1, 0, 1] = 1 := by decide
    have e2 : requestCount [0, 1, 0, 1] = 1 := by decide
    rw [e1] at h1
    rw [e1, e2] at h2 ⊢
    have hi : i = 1 := by omega
    subst hi
    have ht : t = "p" := by
      have h3 : scaledRTU.registers.get ((1 : Nat) : Int) = some "p" := by decide
      rw [h3] at h
      exact (Option.some.inj h).symm
    subst ht
    exact steady_lossless
  ⟨⟨⟨hp, by decide, by decide⟩,
      (read_write_round_trip sampleRuntime testRTU testMemory [0x9c, 0x40, 0, 2] 4 4
        [0, 5, 0, 10] 3 (by decide) (by decide)).1
        (fun i t h1 h2 h =>
          (read_write_round_trip sampleRuntime testRTU testMemory [0x9c, 0x40, 0, 2] 4 4
            [0, 5, 0, 10] 3 (by decide) (by decide)).2.1 hp i t h1 h2 h (hx t))⟩,
    ⟨⟨by decide, by decide, by decide⟩,
      (read_write_round_trip decimalRuntime scaledRTU steadyMemory [0, 1, 0, 1] 2 2
        [0, 28] 2 (by decide) (by decide)).1 hy⟩,
    ⟨⟨by decide, by decide, by decide⟩,
      (read_write_round_trip sampleRuntime floatRTU floatMemory [0, 1, 0, 2] 4 4
        [63, 192, 0, 0] 3 (by decide) (by decide)).1
        (fun i t _ _ h =>
          (read_write_round_trip sampleRuntime floatRTU floatMemory [0, 1, 0, 2] 4 4
            [63, 192, 0, 0] 3 (by decide) (by decide)).2.2.2 i t (hz i t h))⟩⟩

end SunSpecRTU
